import Mathlib

/-!
# MPI trace replay: matching engine and wait engine of the network LP

Shallow embedding of `src/models/mpi-trace-replay/model-net-mpi-wrklds.c`.

* The intrusive singly linked lists (`mpi_msgs_queue`, `completed_requests`) are Lean lists,
  head first; `queue_tail` is the last node of the list.
* A failing `assert`, a write through a null pointer and an array read past its end are the
  result `none`.
* The kernel object `tw_lp` is reduced to what the handlers do with it: the clock they read,
  the number of random draws they make and the number of `MPI_OP_GET_NEXT` events they send.
* `printf` output is not modelled.
* The trace adapter (`codes-dumpi-trace-nw-wrkld.c`) computes its times in `double`: a
  `double` is the rational number it stands for, and every operation rounds its exact result
  to the nearest `double` (`round_double`).
-/

namespace MpiReplay

/-! ## Data model -/

/-- Modelled from the spec: simulated time, the `tw_stime` of the absent kernel header `ross.h`
(a floating type in the source: it is added to `0.1` and multiplied by `1000.0`). It is taken
here as a rational number, so that the arithmetic of the timing accumulators is exact. -/
abbrev tw_stime := ℚ

/-- Conversion of a (non-negative) time to the C type `unsigned long`, as done by the
assignments `unsigned long search_start_time = tw_now(lp)`: the fractional part is dropped. -/
def to_unsigned_long (t : tw_stime) : Nat := ⌊t⌋₊

/-- Modelled from the spec: the enum `NW_WORKLOAD_OP_TYPE` of the absent header
`codes/codes-nw-workload.h`; the members are those the source file names, and
`CODES_NW_INVALID` stands for every other value (the `default:` branch of the dispatcher). -/
inductive NW_WORKLOAD_OP_TYPE where
  | CODES_NW_END
  | CODES_NW_DELAY
  | CODES_NW_SEND
  | CODES_NW_RECV
  | CODES_NW_ISEND
  | CODES_NW_IRECV
  | CODES_NW_BCAST
  | CODES_NW_ALLGATHER
  | CODES_NW_ALLGATHERV
  | CODES_NW_ALLTOALL
  | CODES_NW_ALLTOALLV
  | CODES_NW_REDUCE
  | CODES_NW_ALLREDUCE
  | CODES_NW_COL
  | CODES_NW_WAIT
  | CODES_NW_WAITALL
  | CODES_NW_WAITSOME
  | CODES_NW_WAITANY
  | CODES_NW_INVALID
  deriving DecidableEq, Repr

open NW_WORKLOAD_OP_TYPE

/-- Modelled from the spec: the record `mpi_event_list` of the absent header
`codes/codes-nw-workload.h`, with the members the source file reads. `source_rank`, `dest_rank`,
`num_bytes`, `tag` and `req_id` are the members of `u.send` and of `u.recv` (a Send reads them
through `u.send`, a Recv through `u.recv`); `wait_req_id` is `u.wait.req_id`; `req_ids` is the
array `u.waits.req_ids`, whose length is `u.waits.count`; `nsecs` is `u.delay.nsecs`. -/
structure mpi_event_list where
  op_type : NW_WORKLOAD_OP_TYPE
  sim_start_time : tw_stime
  source_rank : Int
  dest_rank : Int
  num_bytes : Int
  tag : Int
  req_id : Int
  wait_req_id : Int
  req_ids : List Int
  nsecs : tw_stime
  deriving DecidableEq, Repr

/-- The events of `enum MPI_NW_EVENTS`. -/
inductive MPI_NW_EVENTS where
  | MPI_OP_GET_NEXT
  | MPI_SEND_ARRIVED
  | MPI_SEND_POSTED
  deriving DecidableEq, Repr

/-- The record `struct pending_waits`: the wait operation the LP is suspended on. -/
structure pending_waits where
  mpi_op : mpi_event_list
  num_completed : Int
  start_time : tw_stime
  deriving DecidableEq, Repr

/-- The record `struct mpi_queue_ptrs`: the stored element count and the nodes reached from
`queue_head` through `next`. -/
structure mpi_queue_ptrs where
  num_elems : Int
  queue : List mpi_event_list
  deriving DecidableEq, Repr

/-- The record `struct nw_state`, together with the two file-scope byte counters
`num_bytes_sent` and `num_bytes_recvd` the handlers update. The `unsigned long` counters are
natural numbers below `2 ^ 64`. -/
structure nw_state where
  nw_id : Nat
  wrkld_end : Int
  num_sends : Nat
  num_recvs : Nat
  num_cols : Nat
  num_delays : Nat
  num_wait : Nat
  num_waitall : Nat
  num_waitsome : Nat
  elapsed_time : tw_stime
  compute_time : tw_stime
  search_overhead : tw_stime
  send_time : tw_stime
  recv_time : tw_stime
  wait_time : tw_stime
  arrival_queue : mpi_queue_ptrs
  pending_recvs_queue : mpi_queue_ptrs
  pending_waits : Option pending_waits
  completed_reqs : List Int
  num_bytes_sent : Int
  num_bytes_recvd : Int
  deriving DecidableEq, Repr

/-- The record `struct nw_message`. -/
structure nw_message where
  msg_type : MPI_NW_EVENTS
  found_match : Int
  op : mpi_event_list
  deriving DecidableEq, Repr

/-- What the handlers use of the kernel's `tw_lp`: `now` is the value of `tw_now(lp)`,
`rng_count` the number of draws taken from `lp->rng` (a reverse-unroll takes one back), and
`get_next_events` the number of `MPI_OP_GET_NEXT` events sent to the LP itself. -/
structure tw_lp where
  now : tw_stime
  rng_count : Int
  get_next_events : Nat
  deriving DecidableEq, Repr

/-! ## Operations -/

/-- The function `queue_init`. -/
def queue_init : mpi_queue_ptrs :=
  { num_elems := 0, queue := [] }

/-- The function `numQueue`: walks the list and counts the nodes. -/
def numQueue (mpi_queue : mpi_queue_ptrs) : Int :=
  mpi_queue.queue.foldl (fun count _ => count + 1) 0

/-- The function `codes_issue_next_event`: one exponential draw, one `MPI_OP_GET_NEXT` event. -/
def codes_issue_next_event (lp : tw_lp) : tw_lp :=
  { lp with rng_count := lp.rng_count + 1, get_next_events := lp.get_next_events + 1 }

/-- The function `remove_req_id`: unlinks the first node holding `req_id`, if there is one. -/
def remove_req_id : List Int → Int → List Int
  | [], _ => []
  | current :: rest, req_id =>
    if current = req_id then rest else current :: remove_req_id rest req_id

/-- The function `mpi_completed_queue_insert_op`: the new node becomes the head. -/
def mpi_completed_queue_insert_op (mpi_completed_queue : List Int) (req_id : Int) : List Int :=
  req_id :: mpi_completed_queue

/-- The function `mpi_completed_queue_remove_op`: unlinks the head; `-1` on an empty list. -/
def mpi_completed_queue_remove_op (mpi_completed_queue : List Int) : List Int × Int :=
  match mpi_completed_queue with
  | [] => ([], -1)
  | _ :: rest => (rest, 0)

/-- The function `mpi_pending_queue_insert_op`: the new node becomes the tail. -/
def mpi_pending_queue_insert_op (mpi_queue : mpi_queue_ptrs) (mpi_op : mpi_event_list) :
    mpi_queue_ptrs :=
  { num_elems := mpi_queue.num_elems + 1, queue := mpi_queue.queue ++ [mpi_op] }

/-- The function `match_receive`: `op1` is the receive, `op2` the send. The two assertions on
the operation types come first; on a match the receive's request id is put into
`completed_reqs`, `recv_time` is charged and the result is `1`, otherwise `-1`. -/
def match_receive (s : nw_state) (lp : tw_lp) (op1 op2 : mpi_event_list) :
    Option (nw_state × Int) :=
  if ¬ (op1.op_type = CODES_NW_IRECV ∨ op1.op_type = CODES_NW_RECV) then none
  else if ¬ (op2.op_type = CODES_NW_SEND ∨ op2.op_type = CODES_NW_ISEND) then none
  else if op1.num_bytes ≥ op2.num_bytes ∧
      (op1.tag = op2.tag ∨ op1.tag = -1) ∧
      (op1.source_rank = op2.source_rank ∨ op1.source_rank = -1) then
    some ({ s with
              completed_reqs := mpi_completed_queue_insert_op s.completed_reqs op1.req_id,
              recv_time := s.recv_time + (lp.now - op2.sim_start_time) }, 1)
  else some (s, -1)

/-- The value left in an `int*` output parameter by the assignment `*is_blocking = 1`:
`none` stands for a null pointer, and writing through it fails. -/
def write_is_blocking (is_blocking : Option Int) : Option (Option Int) :=
  match is_blocking with
  | none => none
  | some _ => some (some 1)

/-- The results of `mpi_queue_remove_matching_op`: the LP state (`match_receive` updates it),
the queue, the two output parameters and the returned index. -/
structure remove_matching_result where
  s : nw_state
  mpi_queue : mpi_queue_ptrs
  is_blocking : Option Int
  req_id : Int
  ret : Int
  deriving DecidableEq, Repr

/-- The `while(tmp->next)` loop of `mpi_queue_remove_matching_op`. `tmp` is the node before
the candidate, `rest` the nodes after `tmp`, `indx` the index of `tmp`, `rcv_val` the value
the variable holds on entry. The queue of the result holds the nodes after `tmp`. -/
def remove_matching_loop (lp : tw_lp) (mpi_op : mpi_event_list) :
    nw_state → Int → mpi_event_list → List mpi_event_list → Int → Int → Option Int → Int →
      Option remove_matching_result
  | s, num_elems, _, [], _, _, is_blocking, req_id =>
    some { s := s, mpi_queue := { num_elems := num_elems, queue := [] },
           is_blocking := is_blocking, req_id := req_id, ret := -1 }
  | s, num_elems, tmp, elem :: rest, indx, rcv_val, is_blocking, req_id =>
    let indx1 := indx + 1
    let matched : Option (nw_state × Int × Int) :=
      if mpi_op.op_type = CODES_NW_SEND ∨ mpi_op.op_type = CODES_NW_ISEND then
        (match_receive s lp elem mpi_op).map (fun r => (r.1, r.2, elem.req_id))
      else if mpi_op.op_type = CODES_NW_RECV ∨ mpi_op.op_type = CODES_NW_IRECV then
        (match_receive s lp mpi_op elem).map (fun r => (r.1, r.2, req_id))
      else some (s, rcv_val, req_id)
    match matched with
    | none => none
    | some (s1, rcv_val1, req_id1) =>
      if rcv_val1 ≥ 0 then
        let blocking : Option (Option Int) :=
          if tmp.op_type = CODES_NW_RECV then write_is_blocking is_blocking
          else some is_blocking
        blocking.map (fun b =>
          { s := s1, mpi_queue := { num_elems := num_elems - 1, queue := rest },
            is_blocking := b, req_id := req_id1, ret := indx1 })
      else
        (remove_matching_loop lp mpi_op s1 num_elems elem rest indx1 rcv_val1 is_blocking
            req_id1).map
          (fun r => { r with mpi_queue := { r.mpi_queue with queue := elem :: r.mpi_queue.queue } })

/-- The function `mpi_queue_remove_matching_op`: the head of the queue is tried first, then
the loop walks the other nodes. `is_blocking` and `req_id` are the values the two output
parameters hold on entry (`none` for a null `is_blocking`). -/
def mpi_queue_remove_matching_op (s : nw_state) (lp : tw_lp) (mpi_queue : mpi_queue_ptrs)
    (mpi_op : mpi_event_list) (is_blocking : Option Int) (req_id : Int) :
    Option remove_matching_result :=
  match mpi_queue.queue with
  | [] =>
    some { s := s, mpi_queue := mpi_queue, is_blocking := is_blocking, req_id := req_id,
           ret := -1 }
  | tmp :: rest =>
    let matched : Option (nw_state × Int × Int) :=
      if mpi_op.op_type = CODES_NW_SEND ∨ mpi_op.op_type = CODES_NW_ISEND then
        (match_receive s lp tmp mpi_op).map (fun r => (r.1, r.2, tmp.req_id))
      else if mpi_op.op_type = CODES_NW_RECV ∨ mpi_op.op_type = CODES_NW_IRECV then
        (match_receive s lp mpi_op tmp).map (fun r => (r.1, r.2, mpi_op.req_id))
      else some (s, 0, req_id)
    match matched with
    | none => none
    | some (s1, rcv_val, req_id1) =>
      if rcv_val ≥ 0 then
        let blocking : Option (Option Int) :=
          if tmp.op_type = CODES_NW_RECV then write_is_blocking is_blocking
          else some is_blocking
        blocking.map (fun b =>
          { s := s1, mpi_queue := { num_elems := mpi_queue.num_elems - 1, queue := rest },
            is_blocking := b, req_id := req_id1, ret := 0 })
      else
        (remove_matching_loop lp mpi_op s1 mpi_queue.num_elems tmp rest 0 rcv_val is_blocking
            req_id1).map
          (fun r => { r with mpi_queue := { r.mpi_queue with queue := tmp :: r.mpi_queue.queue } })

/-- The loop `for(i = 0; i < num_completed; i++) remove_req_id(&s->completed_reqs, req_ids[i])`
of `notify_waits` and of `codes_exec_mpi_wait_all_some`, run for `n` rounds. Reading
`req_ids[i]` past the end of the array fails. -/
def remove_first_req_ids (completed : List Int) (req_ids : List Int) :
    Nat → Option (List Int)
  | 0 => some completed
  | n + 1 =>
    match remove_first_req_ids completed req_ids n with
    | none => none
    | some c =>
      match req_ids.get? n with
      | none => none
      | some r => some (remove_req_id c r)

/-- The number of indices `i` of the array with `req_ids[i] == req_id`: the inner `for` loop
of `notify_waits` and of `codes_exec_mpi_wait_all_some`. -/
def count_req_id : List Int → Int → Int
  | [], _ => 0
  | r :: rest, req_id => (if r = req_id then 1 else 0) + count_req_id rest req_id

/-- The function `notify_waits`. -/
def notify_waits (s : nw_state) (lp : tw_lp) (completed_req : Int) :
    Option (nw_state × tw_lp) :=
  match s.pending_waits with
  | none => some (s, lp)
  | some wait_elem =>
    if wait_elem.mpi_op.op_type = CODES_NW_WAIT then
      if wait_elem.mpi_op.wait_req_id = completed_req then
        some ({ s with
                  wait_time := s.wait_time + (lp.now - wait_elem.start_time),
                  completed_reqs := remove_req_id s.completed_reqs completed_req,
                  pending_waits := none },
              codes_issue_next_event lp)
      else some (s, lp)
    else if wait_elem.mpi_op.op_type = CODES_NW_WAITALL ∨
        wait_elem.mpi_op.op_type = CODES_NW_WAITSOME then
      let num_completed :=
        wait_elem.num_completed + count_req_id wait_elem.mpi_op.req_ids completed_req
      let required_count : Int := wait_elem.mpi_op.req_ids.length
      if (wait_elem.mpi_op.op_type = CODES_NW_WAITALL ∧ num_completed = required_count) ∨
          (wait_elem.mpi_op.op_type = CODES_NW_WAITSOME ∧ num_completed > 0) then
        (remove_first_req_ids s.completed_reqs wait_elem.mpi_op.req_ids
            num_completed.toNat).map
          (fun c =>
            ({ s with
                 wait_time := s.wait_time + (lp.now - wait_elem.start_time),
                 pending_waits := none,
                 completed_reqs := c },
             codes_issue_next_event lp))
      else
        some ({ s with pending_waits := some { wait_elem with num_completed := num_completed } },
              lp)
    else some (s, lp)

/-- The search loop of `codes_exec_mpi_wait`: walks `completed_reqs` until a node holds
`req_id`. -/
def search_completed_reqs : List Int → Int → Bool
  | [], _ => false
  | current :: rest, req_id => if current = req_id then true else search_completed_reqs rest req_id

/-- The function `codes_exec_mpi_wait`. The local `search_start_time` is an `unsigned long`. -/
def codes_exec_mpi_wait (s : nw_state) (m : nw_message) (lp : tw_lp) : nw_state × tw_lp :=
  let req_id := m.op.wait_req_id
  let search_start_time : Nat := to_unsigned_long lp.now
  if search_completed_reqs s.completed_reqs req_id = true then
    ({ s with
         completed_reqs := remove_req_id s.completed_reqs req_id,
         wait_time := s.wait_time + (lp.now - (search_start_time : tw_stime)) },
     codes_issue_next_event lp)
  else
    let search_end_time : Nat := to_unsigned_long lp.now
    ({ s with
         search_overhead := s.search_overhead + ((search_end_time - search_start_time : Nat) : tw_stime),
         pending_waits := some { mpi_op := m.op, num_completed := 0,
                                 start_time := (search_start_time : tw_stime) } },
     lp)

/-- The counting loop of `codes_exec_mpi_wait_all_some`: for every node of `completed_reqs`,
the number of indices `i` with `req_ids[i]` equal to the node's id. -/
def count_completed : List Int → List Int → Int
  | [], _ => 0
  | current :: rest, req_ids => count_req_id req_ids current + count_completed rest req_ids

/-- The function `codes_exec_mpi_wait_all_some`. The local array `req_id` is a copy of
`req_ids` (of `count` entries) whenever `completed_reqs` is not empty, which is the case
whenever an entry of it is read. -/
def codes_exec_mpi_wait_all_some (s : nw_state) (m : nw_message) (lp : tw_lp) :
    Option (nw_state × tw_lp) :=
  let count : Int := m.op.req_ids.length
  let start_time : Nat := to_unsigned_long lp.now
  let num_completed := count_completed s.completed_reqs m.op.req_ids
  let search_end_time : Nat := to_unsigned_long lp.now
  let s1 := { s with
    search_overhead := s.search_overhead + ((search_end_time - start_time : Nat) : tw_stime) }
  if (m.op.op_type = CODES_NW_WAITALL ∧ count = num_completed) ∨
      (m.op.op_type = CODES_NW_WAITSOME ∧ num_completed > 0) then
    (remove_first_req_ids s1.completed_reqs m.op.req_ids num_completed.toNat).map
      (fun c =>
        ({ s1 with
             completed_reqs := c,
             wait_time := s1.wait_time + (lp.now - (start_time : tw_stime)) },
         codes_issue_next_event lp))
  else
    some ({ s1 with
              pending_waits := some { mpi_op := m.op, num_completed := num_completed,
                                      start_time := (start_time : tw_stime) } },
          lp)

/-- The function `codes_exec_mpi_recv`. The search is run with a null `is_blocking` and with an
uninitialised local `req_id`, which is never read afterwards (`0` here). On a match the field
`found_match` of the event is left as it was. -/
def codes_exec_mpi_recv (s : nw_state) (m : nw_message) (lp : tw_lp) :
    Option (nw_state × nw_message × tw_lp) :=
  let mpi_op : mpi_event_list := { m.op with sim_start_time := lp.now }
  let m1 : nw_message := { m with op := mpi_op }
  let s1 := { s with num_bytes_recvd := s.num_bytes_recvd + mpi_op.num_bytes }
  let start_searching : Nat := to_unsigned_long lp.now
  match mpi_queue_remove_matching_op s1 lp s1.arrival_queue mpi_op none 0 with
  | none => none
  | some r =>
    let end_searching : Nat := to_unsigned_long lp.now
    let s2 := { r.s with
      arrival_queue := r.mpi_queue,
      search_overhead := r.s.search_overhead + ((end_searching - start_searching : Nat) : tw_stime) }
    if r.ret < 0 then
      let m2 : nw_message := { m1 with found_match := -1 }
      let s3 := { s2 with
        pending_recvs_queue := mpi_pending_queue_insert_op s2.pending_recvs_queue mpi_op }
      if mpi_op.op_type = CODES_NW_IRECV then some (s3, m2, codes_issue_next_event lp)
      else some (s3, m2, lp)
    else some (s2, m1, codes_issue_next_event lp)

/-- The function `update_send_completion_queue`, the handler of `MPI_SEND_POSTED`. -/
def update_send_completion_queue (s : nw_state) (m : nw_message) (lp : tw_lp) :
    Option (nw_state × tw_lp) :=
  let r : Option (nw_state × tw_lp) :=
    if m.op.op_type = CODES_NW_ISEND then
      notify_waits
        { s with completed_reqs := mpi_completed_queue_insert_op s.completed_reqs m.op.req_id }
        lp m.op.req_id
    else some (s, lp)
  r.map (fun p =>
    if m.op.op_type = CODES_NW_SEND then (p.1, codes_issue_next_event p.2) else p)

/-- The function `update_arrival_queue`, the handler of `MPI_SEND_ARRIVED`. -/
def update_arrival_queue (s : nw_state) (m : nw_message) (lp : tw_lp) :
    Option (nw_state × nw_message × tw_lp) :=
  let s1 := { s with send_time := s.send_time + (lp.now - m.op.sim_start_time) }
  let start_searching : Nat := to_unsigned_long lp.now
  match mpi_queue_remove_matching_op s1 lp s1.pending_recvs_queue m.op (some 0) (-1) with
  | none => none
  | some r =>
    let end_searching : Nat := to_unsigned_long lp.now
    let s2 := { r.s with
      pending_recvs_queue := r.mpi_queue,
      search_overhead := r.s.search_overhead + ((end_searching - start_searching : Nat) : tw_stime) }
    if r.ret < 0 then
      some ({ s2 with arrival_queue := mpi_pending_queue_insert_op s2.arrival_queue m.op },
            { m with found_match := -1 }, lp)
    else
      let m1 : nw_message := { m with found_match := r.ret }
      if r.is_blocking ≠ some 0 then some (s2, m1, codes_issue_next_event lp)
      else (notify_waits s2 lp r.req_id).map (fun p => (p.1, m1, p.2))

/-! ## Sample values -/

/-- An operation with every member zero. -/
def op0 : mpi_event_list :=
  { op_type := CODES_NW_END, sim_start_time := 0, source_rank := 0, dest_rank := 0,
    num_bytes := 0, tag := 0, req_id := 0, wait_req_id := 0, req_ids := [], nsecs := 0 }

/-- The LP state after `nw_test_init`: counters zero, queues empty, no pending wait. -/
def state0 : nw_state :=
  { nw_id := 0, wrkld_end := 0, num_sends := 0, num_recvs := 0, num_cols := 0, num_delays := 0,
    num_wait := 0, num_waitall := 0, num_waitsome := 0, elapsed_time := 0, compute_time := 0,
    search_overhead := 0, send_time := 0, recv_time := 0, wait_time := 0,
    arrival_queue := queue_init, pending_recvs_queue := queue_init, pending_waits := none,
    completed_reqs := [], num_bytes_sent := 0, num_bytes_recvd := 0 }

/-- An LP at time zero that has drawn nothing and sent nothing. -/
def lp0 : tw_lp :=
  { now := 0, rng_count := 0, get_next_events := 0 }

/-- A send (`ISend` when `nonblocking`) with the given source rank, tag, size and request. -/
def mk_send (nonblocking : Bool) (source_rank tag num_bytes req_id : Int) : mpi_event_list :=
  { op0 with
    op_type := if nonblocking then CODES_NW_ISEND else CODES_NW_SEND,
    source_rank := source_rank, tag := tag, num_bytes := num_bytes, req_id := req_id }

/-- A receive (`IRecv` when `nonblocking`) with the given source rank, tag, size and request. -/
def mk_recv (nonblocking : Bool) (source_rank tag num_bytes req_id : Int) : mpi_event_list :=
  { op0 with
    op_type := if nonblocking then CODES_NW_IRECV else CODES_NW_RECV,
    source_rank := source_rank, tag := tag, num_bytes := num_bytes, req_id := req_id }

/-- A `Wait` on one request. -/
def mk_wait (req_id : Int) : mpi_event_list :=
  { op0 with op_type := CODES_NW_WAIT, wait_req_id := req_id }

/-- A wait of kind `op_type` (`Waitall`, `Waitsome`) on a list of requests. -/
def mk_waits (op_type : NW_WORKLOAD_OP_TYPE) (req_ids : List Int) : mpi_event_list :=
  { op0 with op_type := op_type, req_ids := req_ids }

/-- The event of kind `msg_type` carrying `op`, with `found_match` zero. -/
def mk_msg (msg_type : MPI_NW_EVENTS) (op : mpi_event_list) : nw_message :=
  { msg_type := msg_type, found_match := 0, op := op }

/-! ## Specification-side predicates -/

/-- A receive operation: `Recv` or `IRecv`. -/
def is_recv_op (op : mpi_event_list) : Prop :=
  op.op_type = CODES_NW_RECV ∨ op.op_type = CODES_NW_IRECV

/-- A send operation: `Send` or `ISend`. -/
def is_send_op (op : mpi_event_list) : Prop :=
  op.op_type = CODES_NW_SEND ∨ op.op_type = CODES_NW_ISEND

instance (op : mpi_event_list) : Decidable (is_recv_op op) := by
  unfold is_recv_op; infer_instance

instance (op : mpi_event_list) : Decidable (is_send_op op) := by
  unfold is_send_op; infer_instance

/-- The matching predicate of the specification, for a posted receive `R` and a send `S`:
`R.bytes ≥ S.bytes ∧ (R.tag = S.tag ∨ R.tag = −1) ∧ (R.src = S.src ∨ R.src = −1)`. -/
def matching_predicate (R S : mpi_event_list) : Prop :=
  R.num_bytes ≥ S.num_bytes ∧ (R.tag = S.tag ∨ R.tag = -1) ∧
    (R.source_rank = S.source_rank ∨ R.source_rank = -1)

instance (R S : mpi_event_list) : Decidable (matching_predicate R S) := by
  unfold matching_predicate; infer_instance

/-- The LP state after `match_receive` has matched receive `R` with send `S`. -/
def matched_state (s : nw_state) (lp : tw_lp) (R S : mpi_event_list) : nw_state :=
  { s with
    completed_reqs := mpi_completed_queue_insert_op s.completed_reqs R.req_id,
    recv_time := s.recv_time + (lp.now - S.sim_start_time) }

/-- The last node of the non-empty list `tmp :: pre`. -/
def last_node (tmp : mpi_event_list) : List mpi_event_list → mpi_event_list
  | [] => tmp
  | x :: xs => last_node x xs

/-- The node whose type `mpi_queue_remove_matching_op` inspects before it writes
`*is_blocking`, when the removed node `e` comes after the nodes `pre`: the removed node itself
at the head, the node before it elsewhere. -/
def inspected_node (pre : List mpi_event_list) (e : mpi_event_list) : mpi_event_list :=
  match pre with
  | [] => e
  | x :: xs => last_node x xs

/-- The matching predicate between the operation searched for and a queued node: the receive
of the pair is the node when `op` is a send, and `op` itself when `op` is a receive. -/
def queue_elem_matches (op e : mpi_event_list) : Prop :=
  if is_send_op op then matching_predicate e op else matching_predicate op e

instance (op e : mpi_event_list) : Decidable (queue_elem_matches op e) := by
  unfold queue_elem_matches; infer_instance

/-- The inputs `mpi_queue_remove_matching_op` is called with: a send searched in a queue of
receives with a non-null `is_blocking`, or a receive searched in a queue of sends. -/
def search_well_typed (mpi_queue : mpi_queue_ptrs) (mpi_op : mpi_event_list)
    (is_blocking : Option Int) : Prop :=
  (is_send_op mpi_op ∧ (∀ e ∈ mpi_queue.queue, is_recv_op e) ∧ is_blocking ≠ none) ∨
  (is_recv_op mpi_op ∧ ∀ e ∈ mpi_queue.queue, is_send_op e)

instance (mpi_queue : mpi_queue_ptrs) (mpi_op : mpi_event_list) (is_blocking : Option Int) :
    Decidable (search_well_typed mpi_queue mpi_op is_blocking) := by
  unfold search_well_typed; infer_instance

/-- A request completes: its id is put into `completed_reqs` and `notify_waits` is called with
it, as the handlers of `MPI_SEND_POSTED` (for an `ISend`) and of `MPI_SEND_ARRIVED` (for a
matched `IRecv`) do. -/
def complete_request (p : nw_state × tw_lp) (c : Int) : Option (nw_state × tw_lp) :=
  notify_waits
    { p.1 with completed_reqs := mpi_completed_queue_insert_op p.1.completed_reqs c } p.2 c

/-- The requests of a list complete one after the other, in the order of the list. -/
def complete_requests : List Int → nw_state × tw_lp → Option (nw_state × tw_lp)
  | [], p => some p
  | c :: cs, p =>
    match complete_request p c with
    | none => none
    | some p1 => complete_requests cs p1

/-- Scenario S3: an LP suspended at time zero on `Waitall([1, 2])`, nothing completed yet. -/
def state_waitall_pending : nw_state :=
  { state0 with
    pending_waits := some { mpi_op := mk_waits CODES_NW_WAITALL [1, 2], num_completed := 0,
                            start_time := 0 } }

/-- An LP suspended at time zero on `Waitsome([1, 2])`, nothing completed yet. -/
def state_waitsome_pending : nw_state :=
  { state0 with
    pending_waits := some { mpi_op := mk_waits CODES_NW_WAITSOME [1, 2], num_completed := 0,
                            start_time := 0 } }

/-- An LP suspended at time zero on `Wait(4)`, with request `4` just put into
`completed_reqs`. -/
def state_wait_pending : nw_state :=
  { state0 with
    pending_waits := some { mpi_op := mk_wait 4, num_completed := 0, start_time := 0 },
    completed_reqs := [4] }

/-- In a pending `Waitsome` no request has been counted yet: such a wait is stored by
`codes_exec_mpi_wait_all_some` only when its count is not positive, and the first notification
that counts one completes it. -/
def waitsome_uncounted (s : nw_state) : Prop :=
  ∀ w, s.pending_waits = some w → w.mpi_op.op_type = CODES_NW_WAITSOME → w.num_completed ≤ 0

instance (s : nw_state) : Decidable (waitsome_uncounted s) :=
  match h : s.pending_waits with
  | none => isTrue (fun w hw => by rw [h] at hw; exact absurd hw (by simp))
  | some w0 =>
    if h1 : w0.mpi_op.op_type = CODES_NW_WAITSOME → w0.num_completed ≤ 0 then
      isTrue (fun w hw hty => by
        rw [h] at hw; cases hw; exact h1 hty)
    else isFalse (fun hc => h1 (hc w0 h))

/-! ## The event dispatcher -/

/-- The increment `++` of an `unsigned long` counter. -/
def ulong_inc (n : Nat) : Nat := (n + 1) % 2 ^ 64

/-- Modelled from the spec: what `codes_exec_mpi_send` takes from the absent mapping and network
layers: whether `net_id == DRAGONFLY`, the LP counts `num_nw_lps` and `num_routers` returned by
`codes_mapping_get_lp_count`, and the LP id `codes_mapping_get_lp_id` gives for a rank. -/
structure net_config where
  is_dragonfly : Bool
  num_nw_lps : Int
  num_routers : Int
  lp_id_of_rank : Int → Int

/-- One call of `model_net_event`: the destination LP, the message size, and the two events
handed to the network (`remote` for the destination, `local` back to the sender). -/
structure model_net_call where
  dest_rank : Int
  message_size : Int
  remote_m : nw_message
  local_m : nw_message
  deriving DecidableEq, Repr

/-- What a forward handler leaves behind: the LP state, the event (its `found_match` and `op`
are written by the handlers), the kernel side, and the call of `model_net_event` if one was
made. -/
structure handler_result where
  s : nw_state
  m : nw_message
  lp : tw_lp
  net : Option model_net_call
  deriving DecidableEq, Repr

/-- The function `codes_exec_comp_delay`: the delay is charged to `compute_time`, and one
`MPI_OP_GET_NEXT` is scheduled after one exponential draw. -/
def codes_exec_comp_delay (s : nw_state) (m : nw_message) (lp : tw_lp) : nw_state × tw_lp :=
  ({ s with compute_time := s.compute_time + m.op.nsecs },
   { lp with rng_count := lp.rng_count + 1, get_next_events := lp.get_next_events + 1 })

/-- The function `codes_exec_mpi_col`. -/
def codes_exec_mpi_col (s : nw_state) (_m : nw_message) (lp : tw_lp) : nw_state × tw_lp :=
  (s, codes_issue_next_event lp)

/-- The function `codes_exec_mpi_send`. The destination LP is computed with C integer division
(a zero divisor fails); the two events are fresh allocations whose `found_match` is never
assigned (`0` here). -/
def codes_exec_mpi_send (cfg : net_config) (s : nw_state) (m : nw_message) (lp : tw_lp) :
    Option handler_result :=
  let dest : Option Int :=
    if cfg.is_dragonfly = true then
      if cfg.num_nw_lps = 0 then none
      else
        let lps_per_rep := 2 * cfg.num_nw_lps + cfg.num_routers
        let factor := Int.tdiv m.op.dest_rank cfg.num_nw_lps
        some (lps_per_rep * factor + Int.tmod m.op.dest_rank cfg.num_nw_lps)
    else some (cfg.lp_id_of_rank m.op.dest_rank)
  match dest with
  | none => none
  | some dest_rank =>
    let s1 := { s with num_bytes_sent := s.num_bytes_sent + m.op.num_bytes }
    let mpi_op : mpi_event_list := { m.op with sim_start_time := lp.now }
    let local_m : nw_message :=
      { msg_type := MPI_NW_EVENTS.MPI_SEND_POSTED, found_match := 0, op := mpi_op }
    let remote_m : nw_message :=
      { msg_type := MPI_NW_EVENTS.MPI_SEND_ARRIVED, found_match := 0, op := mpi_op }
    let call : model_net_call :=
      { dest_rank := dest_rank, message_size := mpi_op.num_bytes, remote_m := remote_m,
        local_m := local_m }
    some { s := s1, m := { m with op := mpi_op },
           lp := if mpi_op.op_type = CODES_NW_ISEND then codes_issue_next_event lp else lp,
           net := some call }

/-- The function `get_next_mpi_operation`, the handler of `MPI_OP_GET_NEXT`. `mpi_op` is the
operation `codes_nw_workload_get_next` returns for this rank; it is copied into the event. -/
def get_next_mpi_operation (cfg : net_config) (mpi_op : mpi_event_list) (s : nw_state)
    (m : nw_message) (lp : tw_lp) : Option handler_result :=
  let m1 : nw_message := { m with op := mpi_op }
  match mpi_op.op_type with
  | CODES_NW_END => some { s := s, m := m1, lp := lp, net := none }
  | CODES_NW_SEND | CODES_NW_ISEND =>
    codes_exec_mpi_send cfg { s with num_sends := ulong_inc s.num_sends } m1 lp
  | CODES_NW_RECV | CODES_NW_IRECV =>
    (codes_exec_mpi_recv { s with num_recvs := ulong_inc s.num_recvs } m1 lp).map
      (fun r => { s := r.1, m := r.2.1, lp := r.2.2, net := none })
  | CODES_NW_DELAY =>
    let r := codes_exec_comp_delay { s with num_delays := ulong_inc s.num_delays } m1 lp
    some { s := r.1, m := m1, lp := r.2, net := none }
  | CODES_NW_BCAST | CODES_NW_ALLGATHER | CODES_NW_ALLGATHERV | CODES_NW_ALLTOALL
  | CODES_NW_ALLTOALLV | CODES_NW_REDUCE | CODES_NW_ALLREDUCE | CODES_NW_COL =>
    let r := codes_exec_mpi_col { s with num_cols := ulong_inc s.num_cols } m1 lp
    some { s := r.1, m := m1, lp := r.2, net := none }
  | CODES_NW_WAIT =>
    let r := codes_exec_mpi_wait { s with num_wait := ulong_inc s.num_wait } m1 lp
    some { s := r.1, m := m1, lp := r.2, net := none }
  | CODES_NW_WAITALL =>
    (codes_exec_mpi_wait_all_some { s with num_waitall := ulong_inc s.num_waitall } m1 lp).map
      (fun r => { s := r.1, m := m1, lp := r.2, net := none })
  | CODES_NW_WAITSOME =>
    (codes_exec_mpi_wait_all_some { s with num_waitsome := ulong_inc s.num_waitsome } m1 lp).map
      (fun r => { s := r.1, m := m1, lp := r.2, net := none })
  | CODES_NW_WAITANY =>
    let r := codes_exec_mpi_col s m1 lp
    some { s := r.1, m := m1, lp := r.2, net := none }
  | CODES_NW_INVALID => some { s := s, m := m1, lp := lp, net := none }

/-- The function `nw_test_event_handler`: the dispatch on `msg_type`. `next_op` is the
operation the workload returns if the event is `MPI_OP_GET_NEXT`. -/
def nw_test_event_handler (cfg : net_config) (next_op : mpi_event_list) (s : nw_state)
    (m : nw_message) (lp : tw_lp) : Option handler_result :=
  match m.msg_type with
  | MPI_NW_EVENTS.MPI_SEND_POSTED =>
    (update_send_completion_queue s m lp).map
      (fun r => { s := r.1, m := m, lp := r.2, net := none })
  | MPI_NW_EVENTS.MPI_SEND_ARRIVED =>
    (update_arrival_queue s m lp).map
      (fun r => { s := r.1, m := r.2.1, lp := r.2.2, net := none })
  | MPI_NW_EVENTS.MPI_OP_GET_NEXT => get_next_mpi_operation cfg next_op s m lp

/-- An event of a scripted run of one LP: `MPI_OP_GET_NEXT` with the operation the trace
yields for it, or a `MPI_SEND_ARRIVED` / `MPI_SEND_POSTED` event carrying a send. -/
inductive lp_event where
  | get_next (op : mpi_event_list)
  | send_arrived (op : mpi_event_list)
  | send_posted (op : mpi_event_list)
  deriving DecidableEq, Repr

/-- The kernel delivers one event at simulated time `now`: the clock of the LP is set and
`nw_test_event_handler` runs on the event. -/
def deliver (cfg : net_config) (p : nw_state × tw_lp) (now : tw_stime) (ev : lp_event) :
    Option (nw_state × tw_lp) :=
  let lp : tw_lp := { p.2 with now := now }
  let r : Option handler_result :=
    match ev with
    | lp_event.get_next op =>
      nw_test_event_handler cfg op p.1 (mk_msg MPI_NW_EVENTS.MPI_OP_GET_NEXT op0) lp
    | lp_event.send_arrived op =>
      nw_test_event_handler cfg op0 p.1 (mk_msg MPI_NW_EVENTS.MPI_SEND_ARRIVED op) lp
    | lp_event.send_posted op =>
      nw_test_event_handler cfg op0 p.1 (mk_msg MPI_NW_EVENTS.MPI_SEND_POSTED op) lp
  r.map (fun x => (x.s, x.lp))

/-- A scripted run: the events are delivered in order, each at its own time. -/
def deliver_all (cfg : net_config) :
    List (tw_stime × lp_event) → nw_state × tw_lp → Option (nw_state × tw_lp)
  | [], p => some p
  | (now, ev) :: rest, p =>
    match deliver cfg p now ev with
    | none => none
    | some p1 => deliver_all cfg rest p1

/-- A network configuration that is not a dragonfly: rank `r` is LP `r`. -/
def cfg0 : net_config :=
  { is_dragonfly := false, num_nw_lps := 1, num_routers := 0, lp_id_of_rank := fun r => r }

/-! ## The trace buffer (`codes-dumpi-trace-nw-wrkld.c`) -/

/-- Modelled from the spec: the enum `codes_workload_op_type` of the absent header
`codes/codes-workload.h`; the members are those the source file names. `CODES_WK_UNSET` stands
for the contents of an array slot no operation was ever stored in (memory zeroed by `calloc`
or left indeterminate by `realloc`). -/
inductive codes_workload_op_type where
  | CODES_WK_END
  | CODES_WK_DELAY
  | CODES_WK_SEND
  | CODES_WK_RECV
  | CODES_WK_ISEND
  | CODES_WK_IRECV
  | CODES_WK_BCAST
  | CODES_WK_ALLGATHER
  | CODES_WK_ALLGATHERV
  | CODES_WK_ALLTOALL
  | CODES_WK_ALLTOALLV
  | CODES_WK_REDUCE
  | CODES_WK_ALLREDUCE
  | CODES_WK_WAIT
  | CODES_WK_WAITSOME
  | CODES_WK_WAITANY
  | CODES_WK_WAITALL
  | CODES_WK_REQ_FREE
  | CODES_WK_UNSET
  deriving DecidableEq, Repr

open codes_workload_op_type

/-- Modelled from the spec: the record `struct codes_workload_op` of the absent header
`codes/codes-workload.h`, with the members the source file writes: the times, `sequence_id`,
`u.delay.seconds`, the members of `u.send` and `u.recv` (`source_rank` to `req_id`),
`u.collective.num_bytes`, the array `u.waits.req_ids` (its length is `u.waits.count`),
`u.wait.req_id` and `u.free.req_id`. The request-id members are 16-bit integers (the
`dumpi_req_id` of the LP file is `int16_t`): what is stored in them is first converted with
`to_int16`. -/
structure codes_workload_op where
  op_type : codes_workload_op_type
  start_time : tw_stime
  end_time : tw_stime
  sequence_id : Nat
  delay_seconds : tw_stime
  source_rank : Int
  dest_rank : Int
  num_bytes : Int
  data_type : Int
  count : Int
  tag : Int
  req_id : Int
  collective_num_bytes : Int
  waits_req_ids : List Int
  wait_req_id : Int
  free_req_id : Int
  deriving DecidableEq, Repr

/-- The contents of an array slot no operation was ever stored in. -/
def unset_op : codes_workload_op :=
  { op_type := CODES_WK_UNSET, start_time := 0, end_time := 0, sequence_id := 0,
    delay_seconds := 0, source_rank := 0, dest_rank := 0, num_bytes := 0, data_type := 0,
    count := 0, tag := 0, req_id := 0, collective_num_bytes := 0, waits_req_ids := [],
    wait_req_id := 0, free_req_id := 0 }

/-- The record `dumpi_op_data_array`. The two arrays are lists whose length is the number of
elements allocated; the `uint64_t` and `size_t` members are natural numbers. -/
structure dumpi_op_data_array where
  next_ops_queue : List codes_workload_op
  next_ops_queue_size : Nat
  next_ops_queue_count : Nat
  next_ops_queue_first : Nat
  next_ops_queue_last : Nat
  prev_ops_stack : List codes_workload_op
  prev_ops_stack_size : Nat
  prev_ops_stack_top : Nat
  sequence_id : Nat
  finalize_reached : Int
  active : Int
  deriving DecidableEq, Repr

/-- How a call of the trace buffer or of a callback can fail: an `assert` is violated, the
behaviour is undefined (an array access or a `memcpy` outside the allocation, a zero divisor),
or `tw_error` stops the run. -/
inductive dumpi_failure where
  | assertion_failed
  | undefined_behaviour
  | fatal_error
  deriving DecidableEq, Repr

/-- The result of a call on the buffer: a value, or a failure together with the buffer as it
is when the call fails. -/
abbrev dumpi_result (α : Type) := Except (dumpi_failure × dumpi_op_data_array) α

/-- The constants `INITIAL_OP_QUEUE_SIZE` and `INITIAL_OP_RC_STACK_SIZE`. -/
def INITIAL_OP_QUEUE_SIZE : Nat := 4

/-- The constant `INITIAL_OP_RC_STACK_SIZE`. -/
def INITIAL_OP_RC_STACK_SIZE : Nat := 4

/-- The function `dumpi_init_op_data`: both arrays come from `calloc`. -/
def dumpi_init_op_data : dumpi_op_data_array :=
  { next_ops_queue := List.replicate INITIAL_OP_QUEUE_SIZE unset_op,
    next_ops_queue_size := INITIAL_OP_QUEUE_SIZE,
    next_ops_queue_count := 0,
    next_ops_queue_first := 0,
    next_ops_queue_last := 0,
    prev_ops_stack := List.replicate INITIAL_OP_RC_STACK_SIZE unset_op,
    prev_ops_stack_size := INITIAL_OP_RC_STACK_SIZE,
    prev_ops_stack_top := 0,
    sequence_id := 0,
    finalize_reached := 0,
    active := 1 }

/-- The library call `realloc` on an array, to `n` elements: the old elements are kept, the
new ones hold nothing. -/
def realloc_ops (a : List codes_workload_op) (n : Nat) : List codes_workload_op :=
  a.take n ++ List.replicate (n - a.length) unset_op

/-- The library call `memcpy` of `n` elements inside one array, from index `src` to index
`dst`; `none` when a range leaves the allocation. -/
def memcpy_ops (a : List codes_workload_op) (dst src n : Nat) : Option (List codes_workload_op) :=
  if src + n ≤ a.length ∧ dst + n ≤ a.length then
    some (a.take dst ++ (a.drop src).take n ++ a.drop (dst + n))
  else none

/-- The assignment `a[i] = v`; `none` when `i` is outside the allocation. -/
def store_op (a : List codes_workload_op) (i : Nat) (v : codes_workload_op) :
    Option (List codes_workload_op) :=
  if i < a.length then some (a.set i v) else none

/-- The block both `dumpi_insert_next_op` and `dumpi_roll_back_prev_op` start with: when the
queue is full the array is doubled and, if `first >= last`, `s` elements are copied from index
`x` to index `x + s`, where `s` is the old size and `x = s - first` (in `size_t`). -/
def grow_next_ops_queue (t : dumpi_op_data_array) : dumpi_result dumpi_op_data_array :=
  if t.next_ops_queue_size = t.next_ops_queue_count then
    let t1 := { t with
      next_ops_queue := realloc_ops t.next_ops_queue (t.next_ops_queue_size * 2) }
    if t1.next_ops_queue_first ≥ t1.next_ops_queue_last then
      let s := t1.next_ops_queue_size
      let x := if t1.next_ops_queue_first ≤ s then s - t1.next_ops_queue_first
               else s + 2 ^ 64 - t1.next_ops_queue_first
      match memcpy_ops t1.next_ops_queue (x + s) x s with
      | none => Except.error (dumpi_failure.undefined_behaviour, t1)
      | some q =>
        Except.ok { t1 with
          next_ops_queue := q,
          next_ops_queue_first := t1.next_ops_queue_first + s,
          next_ops_queue_size := t1.next_ops_queue_size * 2 }
    else Except.ok { t1 with next_ops_queue_size := t1.next_ops_queue_size * 2 }
  else Except.ok t

/-- The function `dumpi_insert_next_op`. -/
def dumpi_insert_next_op (t : dumpi_op_data_array) (mpi_op : codes_workload_op) :
    dumpi_result dumpi_op_data_array :=
  match grow_next_ops_queue t with
  | Except.error e => Except.error e
  | Except.ok t1 =>
    match store_op t1.next_ops_queue t1.next_ops_queue_last mpi_op with
    | none => Except.error (dumpi_failure.undefined_behaviour, t1)
    | some q =>
      if t1.next_ops_queue_size = 0 then
        Except.error (dumpi_failure.undefined_behaviour, { t1 with next_ops_queue := q })
      else
        Except.ok { t1 with
          next_ops_queue := q,
          next_ops_queue_last := (t1.next_ops_queue_last + 1) % t1.next_ops_queue_size,
          next_ops_queue_count := t1.next_ops_queue_count + 1 }

/-- The function `dumpi_roll_back_prev_op`. After the assertion and the growth block, `first`
is moved back by one (to `size - 1` from zero, in unsigned arithmetic) and the top of the
stack is stored at index `last`. -/
def dumpi_roll_back_prev_op (t : dumpi_op_data_array) : dumpi_result dumpi_op_data_array :=
  if t.prev_ops_stack_top = 0 then Except.error (dumpi_failure.assertion_failed, t)
  else
    match grow_next_ops_queue t with
    | Except.error e => Except.error e
    | Except.ok t1 =>
      let t2 := { t1 with
        next_ops_queue_first :=
          if t1.next_ops_queue_first ≠ 0 then t1.next_ops_queue_first - 1
          else if t1.next_ops_queue_size = 0 then 2 ^ 64 - 1
          else t1.next_ops_queue_size - 1 }
      match t2.prev_ops_stack.get? (t2.prev_ops_stack_top - 1) with
      | none => Except.error (dumpi_failure.undefined_behaviour, t2)
      | some v =>
        match store_op t2.next_ops_queue t2.next_ops_queue_last v with
        | none => Except.error (dumpi_failure.undefined_behaviour, t2)
        | some q =>
          Except.ok { t2 with
            next_ops_queue := q,
            next_ops_queue_count := t2.next_ops_queue_count + 1,
            prev_ops_stack_top := t2.prev_ops_stack_top - 1,
            sequence_id := (t2.sequence_id + 2 ^ 64 - 1) % 2 ^ 64 }

/-- The end of `dumpi_remove_next_op`: the operation is stamped with `sequence_id`, the counter
is incremented, and the operation is pushed on the stack of previous operations (doubled when
full). -/
def stamp_and_push (t : dumpi_op_data_array) (mpi_op : codes_workload_op) :
    dumpi_result (dumpi_op_data_array × codes_workload_op) :=
  let op : codes_workload_op := { mpi_op with sequence_id := t.sequence_id }
  let t1 := { t with sequence_id := (t.sequence_id + 1) % 2 ^ 64 }
  let t2 :=
    if t1.prev_ops_stack_top = t1.prev_ops_stack_size then
      { t1 with
        prev_ops_stack := realloc_ops t1.prev_ops_stack (2 * t1.prev_ops_stack_size),
        prev_ops_stack_size := t1.prev_ops_stack_size * 2 }
    else t1
  match store_op t2.prev_ops_stack t2.prev_ops_stack_top op with
  | none => Except.error (dumpi_failure.undefined_behaviour, t2)
  | some st =>
    Except.ok ({ t2 with prev_ops_stack := st, prev_ops_stack_top := t2.prev_ops_stack_top + 1 },
               op)

/-- Modelled from the spec: one call record of the trace, as the absent reader
`undumpi_read_single_call` presents it to the trace buffer: the operations its callback
inserts (in order), whether it is the `MPI_Finalize` record (the reader then sets
`finalize_reached`), and the value the reader returns (`active`). -/
structure dumpi_call where
  ops : List codes_workload_op
  finalize : Bool
  active : Bool
  deriving DecidableEq, Repr

/-- The operations of one call record are inserted one after the other. -/
def insert_all : dumpi_op_data_array → List codes_workload_op → dumpi_result dumpi_op_data_array
  | t, [] => Except.ok t
  | t, op :: rest =>
    match dumpi_insert_next_op t op with
    | Except.error e => Except.error e
    | Except.ok t1 => insert_all t1 rest

/-- The function `dumpi_remove_next_op` on a deterministic reader: `calls` are the records the
reader has not yet read and `nread` counts the calls of `undumpi_read_single_call`. With an
empty queue and an active, unfinalized reader one record is read and the test is retried
(`goto retry`); at the end of the trace the reader inserts nothing and returns `0`, after
which the retry leaves the loop. The results are the unread records, the buffer, the number
of reader calls and the operation written to `*mpi_op`. -/
def remove_next_op_retry (mpi_op : codes_workload_op) :
    List dumpi_call → dumpi_op_data_array → Nat →
      dumpi_result (List dumpi_call × dumpi_op_data_array × Nat × codes_workload_op)
  | calls, t, nread =>
    if t.next_ops_queue_count = 0 then
      let op : codes_workload_op := { mpi_op with op_type := CODES_WK_END }
      if t.active ≠ 0 ∧ t.finalize_reached = 0 then
        match calls with
        | [] =>
          match stamp_and_push { t with active := 0 } op with
          | Except.error e => Except.error e
          | Except.ok r => Except.ok ([], r.1, nread + 1, r.2)
        | c :: rest =>
          match insert_all t c.ops with
          | Except.error e => Except.error e
          | Except.ok t1 =>
            remove_next_op_retry op rest
              { t1 with
                finalize_reached := if c.finalize = true then 1 else t1.finalize_reached,
                active := if c.active = true then 1 else 0 }
              (nread + 1)
      else
        match stamp_and_push t op with
        | Except.error e => Except.error e
        | Except.ok r => Except.ok (calls, r.1, nread, r.2)
    else
      match t.next_ops_queue.get? t.next_ops_queue_first with
      | none => Except.error (dumpi_failure.undefined_behaviour, t)
      | some op =>
        let first := t.next_ops_queue_first + 1
        let t1 := { t with
          next_ops_queue_first := if first = t.next_ops_queue_size then 0 else first,
          next_ops_queue_count := t.next_ops_queue_count - 1 }
        match stamp_and_push t1 op with
        | Except.error e => Except.error e
        | Except.ok r => Except.ok (calls, r.1, nread, r.2)

/-- The part of `rank_mpi_context` the trace buffer uses: the reader (`profile`, the records
not yet read, and the number of reader calls made so far) and the buffer. -/
structure rank_mpi_context where
  profile : List dumpi_call
  reader_calls : Nat
  my_app_id : Int
  my_rank : Int
  num_reqs : Nat
  num_ops : Nat
  is_init : Int
  last_op_time : tw_stime
  init_time : tw_stime
  dumpi_mpi_array : dumpi_op_data_array
  deriving DecidableEq, Repr

/-- The function `dumpi_remove_next_op` on a rank context. -/
def dumpi_remove_next_op (ctx : rank_mpi_context) (mpi_op : codes_workload_op) :
    dumpi_result (rank_mpi_context × codes_workload_op) :=
  match remove_next_op_retry mpi_op ctx.profile ctx.dumpi_mpi_array ctx.reader_calls with
  | Except.error e => Except.error e
  | Except.ok r =>
    Except.ok ({ ctx with profile := r.1, dumpi_mpi_array := r.2.1, reader_calls := r.2.2.1 },
               r.2.2.2)

/-- The function `dumpi_trace_nw_workload_get_next` for a rank that is in the table: the
local `mpi_op` it passes holds nothing. -/
def dumpi_trace_nw_workload_get_next (ctx : rank_mpi_context) :
    dumpi_result (rank_mpi_context × codes_workload_op) :=
  dumpi_remove_next_op ctx unset_op

/-- The function `dumpi_trace_nw_workload_get_next_rc2` for a rank that is in the table. -/
def dumpi_trace_nw_workload_get_next_rc2 (ctx : rank_mpi_context) :
    dumpi_result rank_mpi_context :=
  match dumpi_roll_back_prev_op ctx.dumpi_mpi_array with
  | Except.error e => Except.error e
  | Except.ok t => Except.ok { ctx with dumpi_mpi_array := t }

/-- The rank context `dumpi_trace_nw_workload_load` builds for a trace with the records
`profile`. -/
def load_context (profile : List dumpi_call) : rank_mpi_context :=
  { profile := profile, reader_calls := 0, my_app_id := 0, my_rank := 0, num_reqs := 0,
    num_ops := 0, is_init := 0, last_op_time := 0, init_time := 0,
    dumpi_mpi_array := dumpi_init_op_data }

/-- A call of the trace buffer: `get_next` or `roll_back_prev`. -/
inductive buffer_call where
  | get_next
  | roll_back_prev
  deriving DecidableEq, Repr

/-- A sequence of calls on one rank; the operations `get_next` returns are collected in
order. -/
def run_calls : List buffer_call → rank_mpi_context →
    dumpi_result (rank_mpi_context × List codes_workload_op)
  | [], ctx => Except.ok (ctx, [])
  | buffer_call.get_next :: rest, ctx =>
    match dumpi_trace_nw_workload_get_next ctx with
    | Except.error e => Except.error e
    | Except.ok r =>
      match run_calls rest r.1 with
      | Except.error e => Except.error e
      | Except.ok r1 => Except.ok (r1.1, r.2 :: r1.2)
  | buffer_call.roll_back_prev :: rest, ctx =>
    match dumpi_trace_nw_workload_get_next_rc2 ctx with
    | Except.error e => Except.error e
    | Except.ok ctx1 => run_calls rest ctx1

/-- An operation of kind `op_type` with tag `tag`, everything else zero. -/
def mk_wk_op (op_type : codes_workload_op_type) (tag : Int) : codes_workload_op :=
  { unset_op with op_type := op_type, tag := tag }

/-- A record whose callback inserts `ops`, with more records to follow. -/
def mk_call (ops : List codes_workload_op) : dumpi_call :=
  { ops := ops, finalize := false, active := true }

/-- The kind of failure of a result, if it is one. -/
def failure_of {α : Type} (r : dumpi_result α) : Option dumpi_failure :=
  match r with
  | Except.ok _ => none
  | Except.error e => some e.1

/-- The value of a result, if it is one. -/
def value_of {α : Type} (r : dumpi_result α) : Option α :=
  match r with
  | Except.ok a => some a
  | Except.error _ => none

/-- The shape every buffer reached from `dumpi_init_op_data` has: the allocations have the
recorded sizes, which are positive, and the counts and cursors are inside them. -/
def buffer_wf (t : dumpi_op_data_array) : Prop :=
  t.next_ops_queue.length = t.next_ops_queue_size ∧ 0 < t.next_ops_queue_size ∧
  t.next_ops_queue_count ≤ t.next_ops_queue_size ∧
  t.next_ops_queue_first < t.next_ops_queue_size ∧
  t.next_ops_queue_last < t.next_ops_queue_size ∧
  t.prev_ops_stack.length = t.prev_ops_stack_size ∧
  t.prev_ops_stack_top ≤ t.prev_ops_stack_size ∧ 0 < t.prev_ops_stack_size

instance (t : dumpi_op_data_array) : Decidable (buffer_wf t) := by
  unfold buffer_wf; infer_instance

/-- The number of `get_next` calls in a sequence of calls. -/
def count_get_next (calls : List buffer_call) : Nat :=
  calls.count buffer_call.get_next

/-- The number of `roll_back_prev` calls in a sequence of calls. -/
def count_roll_back (calls : List buffer_call) : Nat :=
  calls.count buffer_call.roll_back_prev

/-- What a `get_next` that returns leaves behind, from buffer `t` and `nread` reader calls:
the buffer is well formed and not full, the returned operation carries the old `sequence_id`,
the counter has advanced by one (in `uint64_t`), and the returned operation is the new top of
the stack of previous operations. -/
def get_next_post (t : dumpi_op_data_array) (nread : Nat)
    (r : List dumpi_call × dumpi_op_data_array × Nat × codes_workload_op) : Prop :=
  buffer_wf r.2.1 ∧ r.2.1.next_ops_queue_count < r.2.1.next_ops_queue_size ∧
  r.2.2.2.sequence_id = t.sequence_id ∧
  r.2.1.sequence_id = (t.sequence_id + 1) % 2 ^ 64 ∧
  r.2.1.prev_ops_stack_top = t.prev_ops_stack_top + 1 ∧
  r.2.1.prev_ops_stack.get? t.prev_ops_stack_top = some r.2.2.2 ∧
  nread ≤ r.2.2.1

/-- An `MPI_Send` (tag 7) as a callback inserts it. -/
def send_op : codes_workload_op := mk_wk_op CODES_WK_SEND 7

/-- The end-of-trace operation `get_next` synthesizes, stamped with `sequence_id` 1. -/
def end_op : codes_workload_op :=
  { unset_op with op_type := CODES_WK_END, sequence_id := 1 }

/-- A trace of one record, whose callback inserts `send_op`. -/
def one_send_trace : List dumpi_call := [mk_call [send_op]]

/-- A trace of two records: the first inserts nothing (as the callback of `MPI_Init` does),
the second inserts `send_op`. -/
def init_then_send_trace : List dumpi_call := [mk_call [], mk_call [send_op]]

/-- The rank after one `get_next` on `one_send_trace`: the record has been read, `send_op`
has been returned with `sequence_id` 0 and is on the stack. -/
def context_after_send : rank_mpi_context :=
  { load_context [] with
    reader_calls := 1,
    dumpi_mpi_array :=
      { dumpi_init_op_data with
        next_ops_queue := [send_op, unset_op, unset_op, unset_op],
        next_ops_queue_first := 1, next_ops_queue_last := 1,
        prev_ops_stack := [send_op, unset_op, unset_op, unset_op],
        prev_ops_stack_top := 1, sequence_id := 1 } }

/-- The rank after a second `get_next`: the reader has reported the end of the trace and
`end_op` is on top of the stack. -/
def context_after_end : rank_mpi_context :=
  { load_context [] with
    reader_calls := 2,
    dumpi_mpi_array :=
      { dumpi_init_op_data with
        next_ops_queue := [send_op, unset_op, unset_op, unset_op],
        next_ops_queue_first := 1, next_ops_queue_last := 1,
        prev_ops_stack := [send_op, end_op, unset_op, unset_op],
        prev_ops_stack_top := 2, sequence_id := 2, active := 0 } }

/-- The rank after `roll_back_prev` on `context_after_end`: `end_op` has been stored at index
`next_ops_queue_last` (1) and `next_ops_queue_first` is 0, where `send_op` still is. -/
def context_rolled_back : rank_mpi_context :=
  { load_context [] with
    reader_calls := 2,
    dumpi_mpi_array :=
      { dumpi_init_op_data with
        next_ops_queue := [send_op, end_op, unset_op, unset_op],
        next_ops_queue_count := 1,
        next_ops_queue_first := 0, next_ops_queue_last := 1,
        prev_ops_stack := [send_op, end_op, unset_op, unset_op],
        prev_ops_stack_top := 1, sequence_id := 1, active := 0 } }

/-- A rank whose queue is empty and whose reader has returned `0` (inactive), with one unread
record left in the model of the reader. -/
def exhausted_context : rank_mpi_context :=
  { load_context one_send_trace with
    dumpi_mpi_array := { dumpi_init_op_data with active := 0 } }

/-- The rank after a `get_next` on `context_rolled_back`: `send_op` has been returned a second
time, now with `sequence_id` 1. -/
def context_after_replay : rank_mpi_context :=
  { load_context [] with
    reader_calls := 2,
    dumpi_mpi_array :=
      { dumpi_init_op_data with
        next_ops_queue := [send_op, end_op, unset_op, unset_op],
        next_ops_queue_first := 1, next_ops_queue_last := 1,
        prev_ops_stack := [send_op, { send_op with sequence_id := 1 }, unset_op, unset_op],
        prev_ops_stack_top := 2, sequence_id := 2, active := 0 } }

/-! ## The trace adapter: callbacks of the trace reader -/

/-- Modelled from the spec: the datatypes of the absent trace-reader header that
`get_num_bytes` names; `DUMPI_OTHER_DATATYPE` stands for every other value (the `default:`
branch). -/
inductive dumpi_datatype where
  | DUMPI_DATATYPE_ERROR
  | DUMPI_DATATYPE_NULL
  | DUMPI_CHAR
  | DUMPI_UNSIGNED_CHAR
  | DUMPI_SIGNED_CHAR
  | DUMPI_BYTE
  | DUMPI_WCHAR
  | DUMPI_SHORT
  | DUMPI_SHORT_INT
  | DUMPI_UNSIGNED_SHORT
  | DUMPI_INT
  | DUMPI_UNSIGNED
  | DUMPI_FLOAT
  | DUMPI_FLOAT_INT
  | DUMPI_DOUBLE
  | DUMPI_LONG
  | DUMPI_LONG_INT
  | DUMPI_UNSIGNED_LONG
  | DUMPI_LONG_LONG_INT
  | DUMPI_UNSIGNED_LONG_LONG
  | DUMPI_LONG_LONG
  | DUMPI_DOUBLE_INT
  | DUMPI_LONG_DOUBLE_INT
  | DUMPI_LONG_DOUBLE
  | DUMPI_OTHER_DATATYPE
  deriving DecidableEq, Repr

open dumpi_datatype

/-- Modelled from the spec: the number a datatype is stored as in the member `data_type` of an
operation. The header that fixes the numbers is absent; the position in the enumeration above
is taken. -/
def dumpi_datatype_value (dt : dumpi_datatype) : Int := dt.toCtorIdx

/-- The function `get_num_bytes` (without `ENABLE_CORTEX`): the size of one element, `none`
where `tw_error` is called. -/
def get_num_bytes (dt : dumpi_datatype) : Option Nat :=
  match dt with
  | DUMPI_DATATYPE_ERROR | DUMPI_DATATYPE_NULL => none
  | DUMPI_CHAR | DUMPI_UNSIGNED_CHAR | DUMPI_SIGNED_CHAR | DUMPI_BYTE => some 1
  | DUMPI_WCHAR => some 4
  | DUMPI_SHORT | DUMPI_SHORT_INT | DUMPI_UNSIGNED_SHORT => some 2
  | DUMPI_INT => some 4
  | DUMPI_UNSIGNED => some 4
  | DUMPI_FLOAT | DUMPI_FLOAT_INT => some 4
  | DUMPI_DOUBLE => some 8
  | DUMPI_LONG => some 8
  | DUMPI_LONG_INT => some 8
  | DUMPI_UNSIGNED_LONG => some 8
  | DUMPI_LONG_LONG_INT => some 8
  | DUMPI_UNSIGNED_LONG_LONG => some 8
  | DUMPI_LONG_LONG => some 8
  | DUMPI_DOUBLE_INT => some 8
  | DUMPI_LONG_DOUBLE_INT | DUMPI_LONG_DOUBLE => some 10
  | DUMPI_OTHER_DATATYPE => none

/-- Modelled from the spec: the record `dumpi_clock` of the absent trace-reader header, a time
as seconds and nanoseconds (two 32-bit integers in the header; no bound is imposed here). -/
structure dumpi_clock where
  sec : Int
  nsec : Int
  deriving DecidableEq, Repr

/-- Modelled from the spec: the record `dumpi_time` of the absent trace-reader header, the
times at which a call starts and stops. -/
structure dumpi_time where
  start : dumpi_clock
  stop : dumpi_clock
  deriving DecidableEq, Repr

/-- The integer nearest to a rational, the even one of the two when it is half-way between
two integers. -/
def round_half_even (y : ℚ) : Int :=
  if y - ⌊y⌋ < 1 / 2 then ⌊y⌋
  else if 1 / 2 < y - ⌊y⌋ then ⌊y⌋ + 1
  else if ⌊y⌋ % 2 = 0 then ⌊y⌋ else ⌊y⌋ + 1

/-- The exponent of the unit in the last place of the `double` values around `x`: a `double`
has 53 significant bits, and its exponent is at least `-1022`. -/
def ulp_exponent (x : ℚ) : Int := max (Int.log 2 |x|) (-1022) - 52

/-- The `double` a real result is rounded to: the nearest multiple of the unit in the last
place, the one with an even significand when two are equally near. Results of magnitude
`2 ^ 1024` and more, which the machine turns into an infinity, do not arise from the 32-bit
members of a clock; the formula is applied to them too. -/
def round_double (x : ℚ) : ℚ :=
  (round_half_even (x / 2 ^ ulp_exponent x) : ℚ) * 2 ^ ulp_exponent x

/-- The conversion `(double) n` of an integer. -/
def double_of_int (n : Int) : tw_stime := round_double n

/-- The sum of two `double` values. -/
def double_add (a b : tw_stime) : tw_stime := round_double (a + b)

/-- The difference of two `double` values. -/
def double_sub (a b : tw_stime) : tw_stime := round_double (a - b)

/-- The product of two `double` values. -/
def double_mul (a b : tw_stime) : tw_stime := round_double (a * b)

/-- The quotient of two `double` values; the only divisor in the source is the constant
`1e9`. -/
def double_div (a b : tw_stime) : tw_stime := round_double (a / b)

/-- The function `time_to_ns_lf`: `(double) t.sec * 1e9 + (double) t.nsec`. -/
def time_to_ns_lf (t : dumpi_clock) : tw_stime :=
  double_add (double_mul (double_of_int t.sec) 1000000000) (double_of_int t.nsec)

/-- The constant `DUMPI_IGNORE_DELAY`. -/
def DUMPI_IGNORE_DELAY : tw_stime := 100

/-- The function `check_set_init_time`. -/
def check_set_init_time (t : dumpi_time) (my_ctx : rank_mpi_context) : rank_mpi_context :=
  if my_ctx.is_init = 0 then
    { my_ctx with
      is_init := 1,
      init_time := time_to_ns_lf t.start,
      last_op_time := double_sub (time_to_ns_lf t.stop) (time_to_ns_lf t.start) }
  else my_ctx

/-- The operation `update_compute_time` inserts: a local record of which `op_type`,
`start_time`, `end_time` and `u.delay.seconds` are assigned; the other members hold nothing. -/
def delay_op (last_op_time start : tw_stime) : codes_workload_op :=
  { unset_op with
    op_type := CODES_WK_DELAY,
    start_time := last_op_time,
    end_time := start,
    delay_seconds := double_div (double_sub start last_op_time) 1000000000 }

/-- The function `update_compute_time`. -/
def update_compute_time (time : dumpi_time) (my_ctx : rank_mpi_context) :
    dumpi_result rank_mpi_context :=
  let start := double_sub (time_to_ns_lf time.start) my_ctx.init_time
  let stop := double_sub (time_to_ns_lf time.stop) my_ctx.init_time
  if double_sub start my_ctx.last_op_time > DUMPI_IGNORE_DELAY then
    match dumpi_insert_next_op my_ctx.dumpi_mpi_array (delay_op my_ctx.last_op_time start) with
    | Except.error e => Except.error e
    | Except.ok a => Except.ok { my_ctx with dumpi_mpi_array := a, last_op_time := stop }
  else Except.ok { my_ctx with last_op_time := stop }

/-- The function `update_times_and_insert`. -/
def update_times_and_insert (op : codes_workload_op) (t : dumpi_time) (ctx : rank_mpi_context) :
    dumpi_result rank_mpi_context :=
  let ctx1 := check_set_init_time t ctx
  let op1 : codes_workload_op :=
    { op with
      start_time := double_sub (time_to_ns_lf t.start) ctx1.init_time,
      end_time := double_sub (time_to_ns_lf t.stop) ctx1.init_time }
  match update_compute_time t ctx1 with
  | Except.error e => Except.error e
  | Except.ok ctx2 =>
    match dumpi_insert_next_op ctx2.dumpi_mpi_array op1 with
    | Except.error e => Except.error e
    | Except.ok a => Except.ok { ctx2 with dumpi_mpi_array := a }

/-- Modelled from the spec: the members of the record `dumpi_sendrecv` of the absent
trace-reader header that `handleDUMPISendrecv` reads. -/
structure dumpi_sendrecv where
  sendcount : Int
  sendtype : dumpi_datatype
  dest : Int
  sendtag : Int
  recvcount : Int
  recvtype : dumpi_datatype
  source : Int
  recvtag : Int
  deriving DecidableEq, Repr

/-- The increment `++` of an `unsigned int` counter. -/
def uint_inc (n : Nat) : Nat := (n + 1) % 2 ^ 32

/-- Modelled from the spec: the conversion of an integer to the 16-bit type of a request id
(`int16_t`): a value outside `-32768 .. 32767` wraps modulo `2 ^ 16`, as the usual compilers
define it. -/
def to_int16 (n : Int) : Int := (n + 32768) % 65536 - 32768

/-- The product `count * get_num_bytes(...)` of a callback followed by its
`assert(num_bytes >= 0)`: a fatal error where `get_num_bytes` calls `tw_error`, a failed
assertion on a negative product. The product is exact. -/
def count_num_bytes (t : dumpi_op_data_array) (count : Int) (dt : dumpi_datatype) :
    dumpi_result Int :=
  match get_num_bytes dt with
  | none => Except.error (dumpi_failure.fatal_error, t)
  | some b =>
    if count * (b : Int) ≥ 0 then Except.ok (count * (b : Int))
    else Except.error (dumpi_failure.assertion_failed, t)

/-- The non-blocking send `handleDUMPISendrecv` builds. -/
def sendrecv_isend (prm : dumpi_sendrecv) (myctx : rank_mpi_context) (num_bytes : Int) :
    codes_workload_op :=
  { unset_op with
    op_type := CODES_WK_ISEND,
    tag := prm.sendtag,
    count := prm.sendcount,
    data_type := dumpi_datatype_value prm.sendtype,
    num_bytes := num_bytes,
    dest_rank := prm.dest,
    source_rank := myctx.my_rank,
    req_id := to_int16 myctx.num_reqs }

/-- The blocking receive `handleDUMPISendrecv` builds. -/
def sendrecv_recv (prm : dumpi_sendrecv) (num_bytes : Int) : codes_workload_op :=
  { unset_op with
    op_type := CODES_WK_RECV,
    tag := prm.recvtag,
    count := prm.recvcount,
    data_type := dumpi_datatype_value prm.recvtype,
    num_bytes := num_bytes,
    source_rank := prm.source,
    dest_rank := -1,
    req_id := -1 }

/-- The wait `handleDUMPISendrecv` builds. -/
def sendrecv_wait (myctx : rank_mpi_context) : codes_workload_op :=
  { unset_op with op_type := CODES_WK_WAIT, wait_req_id := to_int16 myctx.num_reqs }

/-- The function `handleDUMPISendrecv`: a non-blocking send, a blocking receive and a wait
are built and inserted in this order, then `num_reqs` is incremented. -/
def handleDUMPISendrecv (prm : dumpi_sendrecv) (wall : dumpi_time) (myctx : rank_mpi_context) :
    dumpi_result rank_mpi_context :=
  match count_num_bytes myctx.dumpi_mpi_array prm.sendcount prm.sendtype with
  | Except.error e => Except.error e
  | Except.ok send_bytes =>
    match update_times_and_insert (sendrecv_isend prm myctx send_bytes) wall myctx with
    | Except.error e => Except.error e
    | Except.ok ctx1 =>
      match count_num_bytes ctx1.dumpi_mpi_array prm.recvcount prm.recvtype with
      | Except.error e => Except.error e
      | Except.ok recv_bytes =>
        match update_times_and_insert (sendrecv_recv prm recv_bytes) wall ctx1 with
        | Except.error e => Except.error e
        | Except.ok ctx2 =>
          match update_times_and_insert (sendrecv_wait ctx2) wall ctx2 with
          | Except.error e => Except.error e
          | Except.ok ctx3 => Except.ok { ctx3 with num_reqs := uint_inc ctx3.num_reqs }

/-- A call record's times: start and stop in nanoseconds within second zero. -/
def call_at (start stop : Int) : dumpi_time :=
  { start := { sec := 0, nsec := start }, stop := { sec := 0, nsec := stop } }

/-- A rank that has seen `MPI_Init` at time zero and whose last call stopped at 2000 ns, with
an empty queue. -/
def adapter_context : rank_mpi_context :=
  { load_context [] with is_init := 1, init_time := 0, last_op_time := 2000 }

/-- A `MPI_Sendrecv` record: ten `int` sent to rank 1 with tag 3, ten received from rank 1
with tag 3. -/
def sendrecv_call : dumpi_sendrecv :=
  { sendcount := 10, sendtype := DUMPI_INT, dest := 1, sendtag := 3,
    recvcount := 10, recvtype := DUMPI_INT, source := 1, recvtag := 3 }

/-- The rank `adapter_context` after five `MPI_Sendrecv` calls: `num_reqs` is 5. -/
def adapter_context_5 : rank_mpi_context :=
  { adapter_context with num_reqs := 5 }

/-! ## The reverse handlers -/

/-- The function `mpi_queue_update`: the operation is put back at index `pos`. For `pos` zero
the new node becomes the head. Otherwise the loop walks `pos - 1` links from the head (none
for a negative `pos`) and the new node is linked after the node reached; walking past the end
of the list, or reaching no node at all, is a null dereference. -/
def mpi_queue_update (mpi_queue : mpi_queue_ptrs) (mpi_op : mpi_event_list) (pos : Int) :
    Option mpi_queue_ptrs :=
  if pos = 0 then
    some { num_elems := mpi_queue.num_elems + 1, queue := mpi_op :: mpi_queue.queue }
  else
    let index := (pos - 1).toNat
    if index < mpi_queue.queue.length then
      some { num_elems := mpi_queue.num_elems + 1,
             queue := mpi_queue.queue.take (index + 1) ++ mpi_op ::
               mpi_queue.queue.drop (index + 1) }
    else none

/-- The function `mpi_queue_remove_tail`: the assertion fails on an empty queue; otherwise
the last node is unlinked and the result is `1`. -/
def mpi_queue_remove_tail (mpi_queue : mpi_queue_ptrs) : Option (mpi_queue_ptrs × Int) :=
  match mpi_queue.queue with
  | [] => none
  | _ :: _ =>
    some ({ num_elems := mpi_queue.num_elems - 1, queue := mpi_queue.queue.dropLast }, 1)

/-- Modelled from the spec: the kernel's `tw_rand_reverse_unif`, which takes back one draw
from `lp->rng`. -/
def tw_rand_reverse_unif (lp : tw_lp) : tw_lp :=
  { lp with rng_count := lp.rng_count - 1 }

/-- The decrement `--` of an `unsigned long` counter. -/
def ulong_dec (n : Nat) : Nat := (n + 2 ^ 64 - 1) % 2 ^ 64

/-- The function `codes_exec_mpi_recv_rc`. -/
def codes_exec_mpi_recv_rc (s : nw_state) (m : nw_message) (lp : tw_lp) :
    Option (nw_state × tw_lp) :=
  let s1 := { s with num_bytes_recvd := s.num_bytes_recvd - m.op.num_bytes }
  if m.found_match ≥ 0 then
    match mpi_queue_update s1.arrival_queue m.op m.found_match with
    | none => none
    | some q =>
      some ({ s1 with
                arrival_queue := q,
                completed_reqs := (mpi_completed_queue_remove_op s1.completed_reqs).1 },
            tw_rand_reverse_unif lp)
  else
    match mpi_queue_remove_tail s1.pending_recvs_queue with
    | none => none
    | some r =>
      let lp1 := if m.op.op_type = CODES_NW_IRECV then tw_rand_reverse_unif lp else lp
      some ({ s1 with pending_recvs_queue := r.1 }, tw_rand_reverse_unif lp1)

/-- The function `update_send_completion_queue_rc`, the reverse handler of
`MPI_SEND_POSTED`. -/
def update_send_completion_queue_rc (s : nw_state) (m : nw_message) (lp : tw_lp) :
    nw_state × tw_lp :=
  let lp1 := if m.op.op_type = CODES_NW_SEND then tw_rand_reverse_unif lp else lp
  let s1 :=
    if m.op.op_type = CODES_NW_ISEND then
      { s with completed_reqs := (mpi_completed_queue_remove_op s.completed_reqs).1 }
    else s
  (s1, lp1)

/-- The function `update_arrival_queue_rc`, the reverse handler of `MPI_SEND_ARRIVED`. -/
def update_arrival_queue_rc (s : nw_state) (m : nw_message) (lp : tw_lp) :
    Option (nw_state × tw_lp) :=
  if m.found_match ≥ 0 then
    (mpi_queue_update s.pending_recvs_queue m.op m.found_match).map
      (fun q => ({ s with pending_recvs_queue := q }, lp))
  else
    (mpi_queue_remove_tail s.arrival_queue).map
      (fun r => ({ s with arrival_queue := r.1 }, lp))

/-- The function `get_next_mpi_operation_rc`, the reverse handler of `MPI_OP_GET_NEXT`, on
the LP. The calls `codes_nw_workload_get_next_rc` (which gives the operation back to the
workload) and `model_net_event_rc` (which takes back what `model_net_event` did) act outside
the LP state and on draws that are not counted in `rng_count`. -/
def get_next_mpi_operation_rc (s : nw_state) (m : nw_message) (lp : tw_lp) :
    Option (nw_state × tw_lp) :=
  match m.op.op_type with
  | CODES_NW_END => some (s, lp)
  | CODES_NW_SEND | CODES_NW_ISEND =>
    let lp1 := if m.op.op_type = CODES_NW_ISEND then tw_rand_reverse_unif lp else lp
    some ({ s with
              num_sends := ulong_dec s.num_sends,
              num_bytes_sent := s.num_bytes_sent - m.op.num_bytes }, lp1)
  | CODES_NW_RECV | CODES_NW_IRECV =>
    (codes_exec_mpi_recv_rc s m lp).map
      (fun r => ({ r.1 with num_recvs := ulong_dec r.1.num_recvs }, r.2))
  | CODES_NW_DELAY =>
    some ({ s with
              num_delays := ulong_dec s.num_delays,
              compute_time := s.compute_time - m.op.nsecs }, tw_rand_reverse_unif lp)
  | CODES_NW_BCAST | CODES_NW_ALLGATHER | CODES_NW_ALLGATHERV | CODES_NW_ALLTOALL
  | CODES_NW_ALLTOALLV | CODES_NW_REDUCE | CODES_NW_ALLREDUCE | CODES_NW_COL =>
    some ({ s with num_cols := ulong_dec s.num_cols }, tw_rand_reverse_unif lp)
  | CODES_NW_WAIT => some (s, lp)
  | CODES_NW_WAITALL | CODES_NW_WAITSOME | CODES_NW_WAITANY => some (s, lp)
  | CODES_NW_INVALID => some (s, lp)

/-- The function `nw_test_event_handler_rc`: the dispatch on `msg_type`. -/
def nw_test_event_handler_rc (s : nw_state) (m : nw_message) (lp : tw_lp) :
    Option (nw_state × tw_lp) :=
  match m.msg_type with
  | MPI_NW_EVENTS.MPI_SEND_POSTED => some (update_send_completion_queue_rc s m lp)
  | MPI_NW_EVENTS.MPI_SEND_ARRIVED => update_arrival_queue_rc s m lp
  | MPI_NW_EVENTS.MPI_OP_GET_NEXT => get_next_mpi_operation_rc s m lp

/-- An event is processed and rolled back: `nw_test_event_handler` runs on the event, then
`nw_test_event_handler_rc` runs on the state, the event (as the forward handler left it) and
the kernel side it left. `next_op` is the operation the workload returns if the event is
`MPI_OP_GET_NEXT`. The results are what the forward handler left and what the reverse handler
left. -/
def forward_reverse (cfg : net_config) (next_op : mpi_event_list) (s : nw_state)
    (m : nw_message) (lp : tw_lp) : Option (handler_result × nw_state × tw_lp) :=
  match nw_test_event_handler cfg next_op s m lp with
  | none => none
  | some r =>
    match nw_test_event_handler_rc r.s r.m r.lp with
    | none => none
    | some p => some (r, p.1, p.2)

/-- The operation kinds whose reverse only takes back counters and draws: a Delay, a
collective, a Send or an ISend. -/
def is_delay_col_or_send (op_type : NW_WORKLOAD_OP_TYPE) : Prop :=
  op_type = CODES_NW_DELAY ∨ op_type = CODES_NW_BCAST ∨ op_type = CODES_NW_ALLGATHER ∨
  op_type = CODES_NW_ALLGATHERV ∨ op_type = CODES_NW_ALLTOALL ∨ op_type = CODES_NW_ALLTOALLV ∨
  op_type = CODES_NW_REDUCE ∨ op_type = CODES_NW_ALLREDUCE ∨ op_type = CODES_NW_COL ∨
  op_type = CODES_NW_SEND ∨ op_type = CODES_NW_ISEND

instance (op_type : NW_WORKLOAD_OP_TYPE) : Decidable (is_delay_col_or_send op_type) := by
  unfold is_delay_col_or_send; infer_instance

/-- An LP with one posted receive: `IRecv(source 0, tag 1, 10 bytes, request 5)`. -/
def state_irecv_posted : nw_state :=
  { state0 with pending_recvs_queue := { num_elems := 1, queue := [mk_recv true 0 1 10 5] } }

/-- An LP with one posted blocking receive: `Recv(source 0, tag 1, 10 bytes)`. -/
def state_recv_posted : nw_state :=
  { state0 with pending_recvs_queue := { num_elems := 1, queue := [mk_recv false 0 1 10 (-1)] } }

/-- An LP with one queued arrival: `Send(source 0, tag 1, 10 bytes)`. -/
def state_send_queued : nw_state :=
  { state0 with arrival_queue := { num_elems := 1, queue := [mk_send false 0 1 10 (-1)] } }

/-- An LP suspended at time zero on `Wait(4)` while request 9 is in `completed_reqs`. -/
def state_wait_4_pending : nw_state :=
  { state0 with
    pending_waits := some { mpi_op := mk_wait 4, num_completed := 0, start_time := 0 },
    completed_reqs := [9] }

/-- An LP in which request 4 has completed. -/
def state_req_4_completed : nw_state :=
  { state0 with completed_reqs := [4] }

/-- What is compared before and after an event: the contents of the two queues,
`completed_reqs` and the pending wait. -/
def matching_view (s : nw_state) :
    List mpi_event_list × List mpi_event_list × List Int × Option pending_waits :=
  (s.arrival_queue.queue, s.pending_recvs_queue.queue, s.completed_reqs, s.pending_waits)

/-- A dragonfly network with 4 network LPs and 2 routers in a repetition. -/
def dragonfly_cfg : net_config :=
  { is_dragonfly := true, num_nw_lps := 4, num_routers := 2, lp_id_of_rank := fun r => r }

/-- A blocking send of 10 bytes with tag 1 to rank `dest`. -/
def send_to (dest : Int) : mpi_event_list :=
  { mk_send false 0 1 10 (-1) with dest_rank := dest }


/-! ## Runs of queue calls and of events -/

/-- A call on a queue of operations: one of the four functions that change it. The search
carries the arguments it is run with (the LP state and kernel side `match_receive` uses, the
operation searched for, and the values the two output parameters hold on entry). -/
inductive queue_call where
  | insert_op (mpi_op : mpi_event_list)
  | remove_matching_op (s : nw_state) (lp : tw_lp) (mpi_op : mpi_event_list)
      (is_blocking : Option Int) (req_id : Int)
  | remove_tail
  | update (mpi_op : mpi_event_list) (pos : Int)

/-- One call on a queue; `none` when the call fails. -/
def run_queue_call (q : mpi_queue_ptrs) : queue_call → Option mpi_queue_ptrs
  | queue_call.insert_op mpi_op => some (mpi_pending_queue_insert_op q mpi_op)
  | queue_call.remove_matching_op s lp mpi_op is_blocking req_id =>
    (mpi_queue_remove_matching_op s lp q mpi_op is_blocking req_id).map (fun r => r.mpi_queue)
  | queue_call.remove_tail => (mpi_queue_remove_tail q).map (fun r => r.1)
  | queue_call.update mpi_op pos => mpi_queue_update q mpi_op pos

/-- A sequence of calls on a queue, one after the other. -/
def run_queue_calls : List queue_call → mpi_queue_ptrs → Option mpi_queue_ptrs
  | [], q => some q
  | c :: rest, q =>
    match run_queue_call q c with
    | none => none
    | some q1 => run_queue_calls rest q1

/-- The two counts `nw_test_finalize` prints for an LP: `pending_recvs_queue->num_elems`
(unmatched irecvs) and `arrival_queue->num_elems` (unmatched sends). -/
def nw_test_finalize_counts (s : nw_state) : Int × Int :=
  (s.pending_recvs_queue.num_elems, s.arrival_queue.num_elems)

/-- A sequence of calls that uses the four functions: two receives are inserted, a send that
matches the first removes it, the tail is removed, and two receives are put back, one at the
head and one behind it. -/
def queue_calls_sample : List queue_call :=
  [queue_call.insert_op (mk_recv true 0 1 10 5),
   queue_call.insert_op (mk_recv true 0 2 10 6),
   queue_call.remove_matching_op state0 lp0 (mk_send false 0 1 10 (-1)) (some 0) (-1),
   queue_call.remove_tail,
   queue_call.update (mk_recv true 0 7 10 6) 0,
   queue_call.update (mk_recv true 0 1 10 5) 1]


/-! ## The trace adapter: point-to-point and collective callbacks -/

/-- Modelled from the spec: the members of the record `dumpi_send` of the absent trace-reader
header that `handleDUMPISend` reads. -/
structure dumpi_send where
  count : Int
  datatype : dumpi_datatype
  dest : Int
  tag : Int
  deriving DecidableEq, Repr

/-- Modelled from the spec: the members of the record `dumpi_recv` of the absent trace-reader
header that `handleDUMPIRecv` reads. -/
structure dumpi_recv where
  count : Int
  datatype : dumpi_datatype
  source : Int
  tag : Int
  deriving DecidableEq, Repr

/-- Modelled from the spec: the members of the record `dumpi_isend` of the absent trace-reader
header that `handleDUMPIISend` reads. -/
structure dumpi_isend where
  count : Int
  datatype : dumpi_datatype
  dest : Int
  tag : Int
  request : Int
  deriving DecidableEq, Repr

/-- Modelled from the spec: the members of the record `dumpi_irecv` of the absent trace-reader
header that `handleDUMPIIRecv` reads. -/
structure dumpi_irecv where
  count : Int
  datatype : dumpi_datatype
  source : Int
  tag : Int
  request : Int
  deriving DecidableEq, Repr

/-- The operation `handleDUMPISend` builds. -/
def send_wk_op (prm : dumpi_send) (myctx : rank_mpi_context) (num_bytes : Int) :
    codes_workload_op :=
  { unset_op with
    op_type := CODES_WK_SEND,
    tag := prm.tag,
    count := prm.count,
    data_type := dumpi_datatype_value prm.datatype,
    num_bytes := num_bytes,
    dest_rank := prm.dest,
    source_rank := myctx.my_rank,
    req_id := -1 }

/-- The operation `handleDUMPIISend` builds. -/
def isend_wk_op (prm : dumpi_isend) (myctx : rank_mpi_context) (num_bytes : Int) :
    codes_workload_op :=
  { unset_op with
    op_type := CODES_WK_ISEND,
    tag := prm.tag,
    count := prm.count,
    data_type := dumpi_datatype_value prm.datatype,
    num_bytes := num_bytes,
    req_id := to_int16 prm.request,
    dest_rank := prm.dest,
    source_rank := myctx.my_rank }

/-- The operation `handleDUMPIRecv` builds. -/
def recv_wk_op (prm : dumpi_recv) (num_bytes : Int) : codes_workload_op :=
  { unset_op with
    op_type := CODES_WK_RECV,
    tag := prm.tag,
    count := prm.count,
    data_type := dumpi_datatype_value prm.datatype,
    num_bytes := num_bytes,
    req_id := -1,
    source_rank := prm.source,
    dest_rank := -1 }

/-- The operation `handleDUMPIIRecv` builds. -/
def irecv_wk_op (prm : dumpi_irecv) (num_bytes : Int) : codes_workload_op :=
  { unset_op with
    op_type := CODES_WK_IRECV,
    data_type := dumpi_datatype_value prm.datatype,
    count := prm.count,
    tag := prm.tag,
    num_bytes := num_bytes,
    source_rank := prm.source,
    dest_rank := -1,
    req_id := to_int16 prm.request }

/-- The function `handleDUMPISend`. -/
def handleDUMPISend (prm : dumpi_send) (wall : dumpi_time) (myctx : rank_mpi_context) :
    dumpi_result rank_mpi_context :=
  match count_num_bytes myctx.dumpi_mpi_array prm.count prm.datatype with
  | Except.error e => Except.error e
  | Except.ok num_bytes => update_times_and_insert (send_wk_op prm myctx num_bytes) wall myctx

/-- The function `handleDUMPIISend`. -/
def handleDUMPIISend (prm : dumpi_isend) (wall : dumpi_time) (myctx : rank_mpi_context) :
    dumpi_result rank_mpi_context :=
  match count_num_bytes myctx.dumpi_mpi_array prm.count prm.datatype with
  | Except.error e => Except.error e
  | Except.ok num_bytes => update_times_and_insert (isend_wk_op prm myctx num_bytes) wall myctx

/-- The function `handleDUMPIRecv`. -/
def handleDUMPIRecv (prm : dumpi_recv) (wall : dumpi_time) (myctx : rank_mpi_context) :
    dumpi_result rank_mpi_context :=
  match count_num_bytes myctx.dumpi_mpi_array prm.count prm.datatype with
  | Except.error e => Except.error e
  | Except.ok num_bytes => update_times_and_insert (recv_wk_op prm num_bytes) wall myctx

/-- The function `handleDUMPIIRecv`. -/
def handleDUMPIIRecv (prm : dumpi_irecv) (wall : dumpi_time) (myctx : rank_mpi_context) :
    dumpi_result rank_mpi_context :=
  match count_num_bytes myctx.dumpi_mpi_array prm.count prm.datatype with
  | Except.error e => Except.error e
  | Except.ok num_bytes => update_times_and_insert (irecv_wk_op prm num_bytes) wall myctx

/-- The function `handleDUMPIIgnore`: the init time is set on the first call and a Delay is
inserted for the gap before the call; nothing is inserted for the call itself. -/
def handleDUMPIIgnore (wall : dumpi_time) (myctx : rank_mpi_context) :
    dumpi_result rank_mpi_context :=
  update_compute_time wall (check_set_init_time wall myctx)

/-- The product `count * get_num_bytes(...)` of the callbacks whose assertion is
`assert(num_bytes > 0)`: a fatal error where `get_num_bytes` calls `tw_error`, a failed
assertion on a product that is not positive. The product is exact. -/
def count_num_bytes_pos (t : dumpi_op_data_array) (count : Int) (dt : dumpi_datatype) :
    dumpi_result Int :=
  match get_num_bytes dt with
  | none => Except.error (dumpi_failure.fatal_error, t)
  | some b =>
    if count * (b : Int) > 0 then Except.ok (count * (b : Int))
    else Except.error (dumpi_failure.assertion_failed, t)

/-- The operation a collective callback builds: the kind and `u.collective.num_bytes`. -/
def collective_wk_op (op_type : codes_workload_op_type) (num_bytes : Int) : codes_workload_op :=
  { unset_op with op_type := op_type, collective_num_bytes := num_bytes }

/-- Modelled from the spec: a collective call record of the trace, with the members the
callbacks read: `count` and `datatype` for `MPI_Bcast`, `MPI_Reduce` and `MPI_Allreduce`,
`sendcount` and `sendtype` for `MPI_Allgather`, `MPI_Allgatherv` and `MPI_Alltoall`, the array
`sendcounts` and `sendtype` for `MPI_Alltoallv`. -/
inductive dumpi_collective where
  | bcast (count : Int) (datatype : dumpi_datatype)
  | allgather (sendcount : Int) (sendtype : dumpi_datatype)
  | allgatherv (sendcount : Int) (sendtype : dumpi_datatype)
  | alltoall (sendcount : Int) (sendtype : dumpi_datatype)
  | alltoallv (sendcounts : List Int) (sendtype : dumpi_datatype)
  | reduce (count : Int) (datatype : dumpi_datatype)
  | allreduce (count : Int) (datatype : dumpi_datatype)
  deriving DecidableEq, Repr

/-- The function `handleDUMPIBcast`. -/
def handleDUMPIBcast (count : Int) (datatype : dumpi_datatype) (wall : dumpi_time)
    (myctx : rank_mpi_context) : dumpi_result rank_mpi_context :=
  match count_num_bytes myctx.dumpi_mpi_array count datatype with
  | Except.error e => Except.error e
  | Except.ok num_bytes =>
    update_times_and_insert (collective_wk_op CODES_WK_BCAST num_bytes) wall myctx

/-- The function `handleDUMPIAllgather`. -/
def handleDUMPIAllgather (sendcount : Int) (sendtype : dumpi_datatype) (wall : dumpi_time)
    (myctx : rank_mpi_context) : dumpi_result rank_mpi_context :=
  match count_num_bytes_pos myctx.dumpi_mpi_array sendcount sendtype with
  | Except.error e => Except.error e
  | Except.ok num_bytes =>
    update_times_and_insert (collective_wk_op CODES_WK_ALLGATHER num_bytes) wall myctx

/-- The function `handleDUMPIAllgatherv`. -/
def handleDUMPIAllgatherv (sendcount : Int) (sendtype : dumpi_datatype) (wall : dumpi_time)
    (myctx : rank_mpi_context) : dumpi_result rank_mpi_context :=
  match count_num_bytes_pos myctx.dumpi_mpi_array sendcount sendtype with
  | Except.error e => Except.error e
  | Except.ok num_bytes =>
    update_times_and_insert (collective_wk_op CODES_WK_ALLGATHERV num_bytes) wall myctx

/-- The function `handleDUMPIAlltoall`. -/
def handleDUMPIAlltoall (sendcount : Int) (sendtype : dumpi_datatype) (wall : dumpi_time)
    (myctx : rank_mpi_context) : dumpi_result rank_mpi_context :=
  match count_num_bytes_pos myctx.dumpi_mpi_array sendcount sendtype with
  | Except.error e => Except.error e
  | Except.ok num_bytes =>
    update_times_and_insert (collective_wk_op CODES_WK_ALLTOALL num_bytes) wall myctx

/-- The function `handleDUMPIAlltoallv`: the count is `sendcounts[0]`; reading it from an
empty array is undefined. -/
def handleDUMPIAlltoallv (sendcounts : List Int) (sendtype : dumpi_datatype) (wall : dumpi_time)
    (myctx : rank_mpi_context) : dumpi_result rank_mpi_context :=
  match sendcounts.head? with
  | none => Except.error (dumpi_failure.undefined_behaviour, myctx.dumpi_mpi_array)
  | some sendcount =>
    match count_num_bytes_pos myctx.dumpi_mpi_array sendcount sendtype with
    | Except.error e => Except.error e
    | Except.ok num_bytes =>
      update_times_and_insert (collective_wk_op CODES_WK_ALLTOALLV num_bytes) wall myctx

/-- The function `handleDUMPIReduce`. -/
def handleDUMPIReduce (count : Int) (datatype : dumpi_datatype) (wall : dumpi_time)
    (myctx : rank_mpi_context) : dumpi_result rank_mpi_context :=
  match count_num_bytes_pos myctx.dumpi_mpi_array count datatype with
  | Except.error e => Except.error e
  | Except.ok num_bytes =>
    update_times_and_insert (collective_wk_op CODES_WK_REDUCE num_bytes) wall myctx

/-- The function `handleDUMPIAllreduce`. -/
def handleDUMPIAllreduce (count : Int) (datatype : dumpi_datatype) (wall : dumpi_time)
    (myctx : rank_mpi_context) : dumpi_result rank_mpi_context :=
  match count_num_bytes_pos myctx.dumpi_mpi_array count datatype with
  | Except.error e => Except.error e
  | Except.ok num_bytes =>
    update_times_and_insert (collective_wk_op CODES_WK_ALLREDUCE num_bytes) wall myctx

/-- The callbacks `dumpi_trace_nw_workload_load` installs for the seven collective calls:
`callbacks.on_bcast` is `handleDUMPIBcast` and `callbacks.on_allreduce` is
`handleDUMPIAllreduce`; `callbacks.on_allgather`, `callbacks.on_allgatherv`,
`callbacks.on_alltoall`, `callbacks.on_alltoallv` and `callbacks.on_reduce` are
`handleDUMPIIgnore`. -/
def dumpi_trace_nw_workload_load_callback (call : dumpi_collective) (wall : dumpi_time)
    (myctx : rank_mpi_context) : dumpi_result rank_mpi_context :=
  match call with
  | dumpi_collective.bcast count datatype => handleDUMPIBcast count datatype wall myctx
  | dumpi_collective.allreduce count datatype => handleDUMPIAllreduce count datatype wall myctx
  | dumpi_collective.allgather _ _ => handleDUMPIIgnore wall myctx
  | dumpi_collective.allgatherv _ _ => handleDUMPIIgnore wall myctx
  | dumpi_collective.alltoall _ _ => handleDUMPIIgnore wall myctx
  | dumpi_collective.alltoallv _ _ => handleDUMPIIgnore wall myctx
  | dumpi_collective.reduce _ _ => handleDUMPIIgnore wall myctx

/-- A `MPI_Send` record: ten `int` to rank 1 with tag 3. -/
def send_call : dumpi_send := { count := 10, datatype := DUMPI_INT, dest := 1, tag := 3 }

/-- The Delay `update_compute_time` inserts before a call, if any: one Delay when the call
starts more than `DUMPI_IGNORE_DELAY` after `last_op_time` (times relative to `init_time`, both
as `check_set_init_time` leaves them), and nothing otherwise. -/
def delay_before (t : dumpi_time) (ctx : rank_mpi_context) : List codes_workload_op :=
  if double_sub (double_sub (time_to_ns_lf t.start) (check_set_init_time t ctx).init_time)
      (check_set_init_time t ctx).last_op_time > 100 then
    [delay_op (check_set_init_time t ctx).last_op_time
      (double_sub (time_to_ns_lf t.start) (check_set_init_time t ctx).init_time)]
  else []

/-- The operation of a call as `update_times_and_insert` stores it: its two times are the
call's start and stop relative to `init_time`. -/
def stamped_op (op : codes_workload_op) (t : dumpi_time) (ctx : rank_mpi_context) :
    codes_workload_op :=
  { op with
    start_time := double_sub (time_to_ns_lf t.start) (check_set_init_time t ctx).init_time,
    end_time := double_sub (time_to_ns_lf t.stop) (check_set_init_time t ctx).init_time }


/-- The function `nw_test_init` for an LP that replays a trace (`nw_id` below the number of
traces): the counters, `completed_reqs` and `pending_waits` are reset, both queues are
`queue_init`, the clock starts and the first `MPI_OP_GET_NEXT` is scheduled. `nw_id` is what
the absent mapping layer gives; `s` is the state memory the kernel hands over, of which the
members not assigned here keep their value. -/
def nw_test_init (s : nw_state) (nw_id : Nat) (lp : tw_lp) : nw_state × tw_lp :=
  ({ s with
       nw_id := nw_id, wrkld_end := 0, num_sends := 0, num_recvs := 0, num_cols := 0,
       num_delays := 0, num_wait := 0, num_waitall := 0, num_waitsome := 0,
       elapsed_time := lp.now, compute_time := 0, search_overhead := 0,
       completed_reqs := [], pending_waits := none,
       arrival_queue := queue_init, pending_recvs_queue := queue_init },
   codes_issue_next_event lp)

/-- The kernel delivers one event at simulated time `now`, as in `deliver`; the result is all
that the handler leaves behind. -/
def handle_event (cfg : net_config) (p : nw_state × tw_lp) (now : tw_stime) (ev : lp_event) :
    Option handler_result :=
  let lp : tw_lp := { p.2 with now := now }
  match ev with
  | lp_event.get_next op =>
    nw_test_event_handler cfg op p.1 (mk_msg MPI_NW_EVENTS.MPI_OP_GET_NEXT op0) lp
  | lp_event.send_arrived op =>
    nw_test_event_handler cfg op0 p.1 (mk_msg MPI_NW_EVENTS.MPI_SEND_ARRIVED op) lp
  | lp_event.send_posted op =>
    nw_test_event_handler cfg op0 p.1 (mk_msg MPI_NW_EVENTS.MPI_SEND_POSTED op) lp

/-- An LP together with the events the kernel holds for it: the number of `MPI_OP_GET_NEXT`
events the LP has scheduled for itself that are not yet delivered, and the operations of the
`MPI_SEND_POSTED` events (the local events handed to `model_net_event`) not yet delivered. -/
structure kernel_state where
  s : nw_state
  lp : tw_lp
  get_next_pending : Nat
  send_posted_pending : List mpi_event_list
  deriving DecidableEq, Repr

/-- The start of a run: `nw_test_init` has run and its `MPI_OP_GET_NEXT` is pending. -/
def kernel_init (s : nw_state) (nw_id : Nat) (lp : tw_lp) : kernel_state :=
  { s := (nw_test_init s nw_id lp).1,
    lp := (nw_test_init s nw_id lp).2,
    get_next_pending := (nw_test_init s nw_id lp).2.get_next_events - lp.get_next_events,
    send_posted_pending := [] }

/-- The local events a handler has handed to the network. -/
def posted_by (r : handler_result) : List mpi_event_list :=
  match r.net with
  | none => []
  | some c => [c.local_m.op]

/-- The kernel delivers one event, each scheduled event once: a `MPI_OP_GET_NEXT` only if one
is pending, a `MPI_SEND_POSTED` only if it is among the pending local events, and a
`MPI_SEND_ARRIVED` (sent by `codes_exec_mpi_send` of some LP) carrying a Send or an ISend.
The events the handler schedules become pending. `none` when the event cannot be delivered
or the handler fails. -/
def kernel_step (cfg : net_config) (k : kernel_state) (now : tw_stime) (ev : lp_event) :
    Option kernel_state :=
  match ev with
  | lp_event.get_next _ =>
    if k.get_next_pending = 0 then none
    else
      (handle_event cfg (k.s, k.lp) now ev).map (fun r =>
        { s := r.s, lp := r.lp,
          get_next_pending :=
            k.get_next_pending - 1 + (r.lp.get_next_events - k.lp.get_next_events),
          send_posted_pending := k.send_posted_pending ++ posted_by r })
  | lp_event.send_posted op =>
    if op ∈ k.send_posted_pending then
      (handle_event cfg (k.s, k.lp) now ev).map (fun r =>
        { s := r.s, lp := r.lp,
          get_next_pending := k.get_next_pending + (r.lp.get_next_events - k.lp.get_next_events),
          send_posted_pending := k.send_posted_pending.erase op })
    else none
  | lp_event.send_arrived op =>
    if is_send_op op then
      (handle_event cfg (k.s, k.lp) now ev).map (fun r =>
        { s := r.s, lp := r.lp,
          get_next_pending := k.get_next_pending + (r.lp.get_next_events - k.lp.get_next_events),
          send_posted_pending := k.send_posted_pending })
    else none

/-- A run of the kernel on one LP: the events are delivered in order, each at its time. -/
def kernel_run (cfg : net_config) :
    List (tw_stime × lp_event) → kernel_state → Option kernel_state
  | [], k => some k
  | (now, ev) :: rest, k =>
    match kernel_step cfg k now ev with
    | none => none
    | some k1 => kernel_run cfg rest k1

/-- An event that, if it is a `MPI_SEND_ARRIVED`, carries a Send or an ISend. -/
def carries_send : lp_event → Prop
  | lp_event.send_arrived op => is_send_op op
  | _ => True

instance (ev : lp_event) : Decidable (carries_send ev) := by
  cases ev <;> unfold carries_send <;> infer_instance

/-- Every `MPI_SEND_ARRIVED` event of a script carries a Send or an ISend. -/
def arrivals_carry_sends (script : List (tw_stime × lp_event)) : Prop :=
  ∀ x ∈ script, carries_send x.2

instance (script : List (tw_stime × lp_event)) : Decidable (arrivals_carry_sends script) := by
  unfold arrivals_carry_sends; infer_instance

/-- The two queues hold what they are meant for: `arrival_queue` only Send and ISend
operations, `pending_recvs_queue` only Recv and IRecv operations. -/
def queues_typed (s : nw_state) : Prop :=
  (∀ e ∈ s.arrival_queue.queue, is_send_op e) ∧
  (∀ e ∈ s.pending_recvs_queue.queue, is_recv_op e)

/-- No send held in `arrival_queue` matches a receive held in `pending_recvs_queue`. -/
def no_cross_match (s : nw_state) : Prop :=
  ∀ S ∈ s.arrival_queue.queue, ∀ R ∈ s.pending_recvs_queue.queue, ¬ matching_predicate R S

/-- Whether a wait is pending, as a number. -/
def wait_count (s : nw_state) : Nat :=
  if s.pending_waits.isSome then 1 else 0

/-- The number of blocking receives in a list of operations. -/
def blocking_recvs (l : List mpi_event_list) : Nat :=
  l.countP (fun e => decide (e.op_type = CODES_NW_RECV))

/-- The number of blocking sends in a list of operations. -/
def blocking_sends (l : List mpi_event_list) : Nat :=
  l.countP (fun e => decide (e.op_type = CODES_NW_SEND))

/-- What keeps an LP going or will resume it, counted: the pending `MPI_OP_GET_NEXT` events,
the blocking sends whose `MPI_SEND_POSTED` is pending, the blocking receives posted in
`pending_recvs_queue`, and the pending wait. -/
def resumptions (k : kernel_state) : Nat :=
  k.get_next_pending + blocking_sends k.send_posted_pending +
    blocking_recvs k.s.pending_recvs_queue.queue + wait_count k.s


/-- A run of one LP: an `IRecv(source 0, tag 1, request 5)` is posted, a `Send` with tag 2
arrives and is queued, a blocking `Recv(source 0, tag 3)` is posted. -/
def script_unmatched : List (tw_stime × lp_event) :=
  [(0, lp_event.get_next (mk_recv true 0 1 10 5)),
   (1, lp_event.send_arrived (mk_send false 0 2 10 (-1))),
   (2, lp_event.get_next (mk_recv false 0 3 10 (-1)))]


/-- A run the kernel can make: a `Send` arrives and is queued, a blocking `Recv` (request
`-1`) is executed and matches it, a second blocking `Recv` is executed and is posted. -/
def script_two_recvs : List (tw_stime × lp_event) :=
  [(0, lp_event.send_arrived (mk_send false 0 1 10 (-1))),
   (1, lp_event.get_next (mk_recv false 0 1 10 (-1))),
   (2, lp_event.get_next (mk_recv false 0 1 10 (-1)))]

/-- A run the kernel can make: a `Send` arrives and is queued, an `IRecv` with request 5 is
executed and matches it, and a second `IRecv` with request 5 is executed and is posted, no
wait on request 5 having been executed in between. -/
def script_request_reused : List (tw_stime × lp_event) :=
  [(0, lp_event.send_arrived (mk_send false 0 1 10 (-1))),
   (1, lp_event.get_next (mk_recv true 0 1 10 5)),
   (2, lp_event.get_next (mk_recv true 0 1 10 5))]


/-- A run the kernel can make: an `ISend` with request 4 is executed, then `Wait(4)` is
executed before the `MPI_SEND_POSTED` of the send has been processed. -/
def script_wait_for_isend : List (tw_stime × lp_event) :=
  [(0, lp_event.get_next (mk_send true 0 1 10 4)),
   (1, lp_event.get_next (mk_wait 4))]


/-- One step of an optimistic run of one LP: the kernel delivers an event at a simulated
time, or rolls back the event processed last. -/
inductive replay_step where
  | forward (now : tw_stime) (ev : lp_event)
  | rollback
  deriving DecidableEq, Repr

/-- An LP in an optimistic run, with the events it has processed and not rolled back, the
latest first, each as its forward handler left it. -/
structure replay_state where
  s : nw_state
  lp : tw_lp
  processed : List nw_message
  deriving DecidableEq, Repr

/-- One step of an optimistic run: `nw_test_event_handler` on a delivered event, or
`nw_test_event_handler_rc` on the event processed last (`none` if there is none, or if the
handler fails). -/
def replay_one (cfg : net_config) (k : replay_state) : replay_step → Option replay_state
  | replay_step.forward now ev =>
    (handle_event cfg (k.s, k.lp) now ev).map
      (fun r => { s := r.s, lp := r.lp, processed := r.m :: k.processed })
  | replay_step.rollback =>
    match k.processed with
    | [] => none
    | m :: rest =>
      (nw_test_event_handler_rc k.s m k.lp).map
        (fun p => { s := p.1, lp := p.2, processed := rest })

/-- An optimistic run: the steps are made in order. -/
def replay_run (cfg : net_config) : List replay_step → replay_state → Option replay_state
  | [], k => some k
  | step :: rest, k =>
    match replay_one cfg k step with
    | none => none
    | some k1 => replay_run cfg rest k1

/-- The start of an optimistic run: `nw_test_init` has run and nothing is processed. -/
def replay_init (s : nw_state) (nw_id : Nat) (lp : tw_lp) : replay_state :=
  { s := (nw_test_init s nw_id lp).1, lp := (nw_test_init s nw_id lp).2, processed := [] }

/-- The net number of Send and ISend operations pulled from the trace: the
`MPI_OP_GET_NEXT` events processed and not rolled back whose operation is a Send or an
ISend. -/
def sends_pulled (processed : List nw_message) : Nat :=
  processed.countP
    (fun m => decide (m.msg_type = MPI_NW_EVENTS.MPI_OP_GET_NEXT ∧ is_send_op m.op))

/-- The net number of Recv and IRecv operations pulled from the trace. -/
def recvs_pulled (processed : List nw_message) : Nat :=
  processed.countP
    (fun m => decide (m.msg_type = MPI_NW_EVENTS.MPI_OP_GET_NEXT ∧ is_recv_op m.op))

/-- An optimistic run: a Send is executed, an IRecv is executed and rolled back, a Send
arrives, a Recv is executed and matches it, and the `MPI_SEND_POSTED` of the first Send is
processed. -/
def replay_steps_sample : List replay_step :=
  [replay_step.forward 0 (lp_event.get_next (mk_send false 0 1 10 (-1))),
   replay_step.forward 1 (lp_event.get_next (mk_recv true 0 2 10 5)),
   replay_step.rollback,
   replay_step.forward 1 (lp_event.send_arrived (mk_send false 0 1 10 (-1))),
   replay_step.forward 2 (lp_event.get_next (mk_recv false 0 1 10 (-1))),
   replay_step.forward 3 (lp_event.send_posted (mk_send false 0 1 10 (-1)))]


/-- The wall-clock time a clock stands for, in nanoseconds. -/
def wall_ns (c : dumpi_clock) : Int := c.sec * 1000000000 + c.nsec

/-- A clock whose members are not negative and whose time in nanoseconds is below `2 ^ 53`:
`time_to_ns_lf` computes such a time without rounding. -/
def exact_clock (c : dumpi_clock) : Prop := 0 ≤ c.sec ∧ 0 ≤ c.nsec ∧ wall_ns c < 2 ^ 53

instance (c : dumpi_clock) : Decidable (exact_clock c) := by
  unfold exact_clock; infer_instance

/-- A clock whose members are 32-bit integers, as the trace-reader header declares them. -/
def int32_clock (c : dumpi_clock) : Prop :=
  -2 ^ 31 ≤ c.sec ∧ c.sec < 2 ^ 31 ∧ -2 ^ 31 ≤ c.nsec ∧ c.nsec < 2 ^ 31

instance (c : dumpi_clock) : Decidable (int32_clock c) := by
  unfold int32_clock; infer_instance

/-- A call record's times: start and stop in nanoseconds within the second `sec`. -/
def call_from (sec start stop : Int) : dumpi_time :=
  { start := { sec := sec, nsec := start }, stop := { sec := sec, nsec := stop } }

/-- A rank that has seen `MPI_Init` at second 3 and whose last call stopped 2000 ns later,
with an empty queue. -/
def adapter_context_sec : rank_mpi_context :=
  { load_context [] with is_init := 1, init_time := 3000000000, last_op_time := 2000 }

/-- The function `handleDUMPIInit`, the callback of `MPI_Init`: the init time is set and
nothing is inserted. -/
def handleDUMPIInit (wall : dumpi_time) (myctx : rank_mpi_context) : rank_mpi_context :=
  check_set_init_time wall myctx

/-- The number of requests with the id `id` that an LP holds: the posted IRecvs that carry
it, the ISends carrying it whose `MPI_SEND_POSTED` is pending, and its entries in
`completed_reqs`. -/
def request_count (recvs sends : List mpi_event_list) (completed : List Int) (id : Int) : Nat :=
  recvs.countP (fun R => decide (R.op_type = CODES_NW_IRECV ∧ R.req_id = id)) +
  sends.countP (fun S => decide (S.op_type = CODES_NW_ISEND ∧ S.req_id = id)) +
  completed.count id

/-- The pending wait, if any, waits for the request `id`: it is a Wait on `id` or a Waitall
whose list names `id`. -/
def request_waited (w : Option pending_waits) (id : Int) : Prop :=
  ∃ x, w = some x ∧
    ((x.mpi_op.op_type = CODES_NW_WAIT ∧ x.mpi_op.wait_req_id = id) ∨
     (x.mpi_op.op_type = CODES_NW_WAITALL ∧ id ∈ x.mpi_op.req_ids))

/-- What holds of the requests of an LP when the trace has the ids `in_use` in use: no id
other than `-1` is held twice, every id held is in use or waited for by the pending wait, a
pending Waitall does not name `-1` and has counted the ids of its list that are in
`completed_reqs`, and of the posted receives the blocking ones carry `-1` and the others do
not. -/
def requests_invariant (recvs sends : List mpi_event_list) (completed : List Int)
    (w : Option pending_waits) (in_use : List Int) : Prop :=
  (∀ id : Int, id ≠ -1 → request_count recvs sends completed id ≤ 1) ∧
  (∀ id : Int, id ≠ -1 → 0 < request_count recvs sends completed id →
    id ∈ in_use ∨ request_waited w id) ∧
  (∀ x, w = some x → x.mpi_op.op_type = CODES_NW_WAITALL →
    (-1 : Int) ∉ x.mpi_op.req_ids ∧
    x.num_completed = count_completed completed x.mpi_op.req_ids) ∧
  (∀ R ∈ recvs, (R.op_type = CODES_NW_RECV → R.req_id = -1) ∧
    (R.op_type = CODES_NW_IRECV → R.req_id ≠ -1))

/-- The use of request ids an operation of the trace must make, `in_use` being the ids in use
before it: a blocking Recv carries `-1` (as `handleDUMPIRecv` builds it), an IRecv carries an
id other than `-1` that is not in use, an ISend carries an id that is not in use, and the
list of a Waitall does not name `-1`. -/
def request_use (in_use : List Int) (op : mpi_event_list) : Prop :=
  (op.op_type = CODES_NW_RECV → op.req_id = -1) ∧
  (op.op_type = CODES_NW_IRECV → op.req_id ≠ -1 ∧ op.req_id ∉ in_use) ∧
  (op.op_type = CODES_NW_ISEND → op.req_id ∉ in_use) ∧
  (op.op_type = CODES_NW_WAITALL → (-1 : Int) ∉ op.req_ids)

instance (in_use : List Int) (op : mpi_event_list) : Decidable (request_use in_use op) := by
  unfold request_use; infer_instance

/-- The request ids in use after an operation of the trace: an IRecv or an ISend takes its id
into use, a Wait releases its id, a Waitall releases the ids of its list; no other operation
(Waitany and Waitsome included) changes them. -/
def requests_after (in_use : List Int) (op : mpi_event_list) : List Int :=
  if op.op_type = CODES_NW_IRECV ∨ op.op_type = CODES_NW_ISEND then op.req_id :: in_use
  else if op.op_type = CODES_NW_WAIT then in_use.filter (fun r => decide (r ≠ op.wait_req_id))
  else if op.op_type = CODES_NW_WAITALL then in_use.filter (fun r => decide (r ∉ op.req_ids))
  else in_use

/-- A run whose trace takes a request id into use again only after a Wait on it or a Waitall
naming it: every operation the trace yields makes the use of ids `request_use` asks for,
`in_use` being the ids in use at the start. The events `MPI_SEND_ARRIVED` and
`MPI_SEND_POSTED` are not constrained. -/
def requests_waited_before_reuse : List Int → List (tw_stime × lp_event) → Prop
  | _, [] => True
  | in_use, (_, lp_event.get_next op) :: rest =>
    request_use in_use op ∧ requests_waited_before_reuse (requests_after in_use op) rest
  | in_use, (_, lp_event.send_arrived _) :: rest => requests_waited_before_reuse in_use rest
  | in_use, (_, lp_event.send_posted _) :: rest => requests_waited_before_reuse in_use rest

/-- Whether a run follows `requests_waited_before_reuse` can be computed. -/
def requests_waited_before_reuse_dec :
    (in_use : List Int) → (script : List (tw_stime × lp_event)) →
      Decidable (requests_waited_before_reuse in_use script)
  | _, [] => isTrue trivial
  | in_use, (_, lp_event.get_next op) :: rest =>
    have := requests_waited_before_reuse_dec (requests_after in_use op) rest
    decidable_of_iff
      (request_use in_use op ∧ requests_waited_before_reuse (requests_after in_use op) rest)
      (by simp [requests_waited_before_reuse])
  | in_use, (_, lp_event.send_arrived _) :: rest =>
    have := requests_waited_before_reuse_dec in_use rest
    decidable_of_iff (requests_waited_before_reuse in_use rest)
      (by simp [requests_waited_before_reuse])
  | in_use, (_, lp_event.send_posted _) :: rest =>
    have := requests_waited_before_reuse_dec in_use rest
    decidable_of_iff (requests_waited_before_reuse in_use rest)
      (by simp [requests_waited_before_reuse])

instance (in_use : List Int) (script : List (tw_stime × lp_event)) :
    Decidable (requests_waited_before_reuse in_use script) :=
  requests_waited_before_reuse_dec in_use script

/-- A run the kernel can make: an `IRecv` with request 5 is posted and matched by an arriving
`Send`, the trace executes `Waitany` on request 5, and a second `IRecv` with request 5 is
executed and is posted. -/
def script_reused_after_waitany : List (tw_stime × lp_event) :=
  [(0, lp_event.get_next (mk_recv true 0 1 10 5)),
   (1, lp_event.send_arrived (mk_send false 0 1 10 (-1))),
   (2, lp_event.get_next (mk_waits CODES_NW_WAITANY [5])),
   (3, lp_event.get_next (mk_recv true 0 1 10 5))]

/-- A run the kernel can make: `IRecv`s with requests 5 and 6 are posted, `Waitsome` on both
is left pending, a `Send` arrives that matches the `IRecv` with request 6 and ends the wait,
and a second `IRecv` with request 6 is executed and is posted. -/
def script_reused_after_waitsome : List (tw_stime × lp_event) :=
  [(0, lp_event.get_next (mk_recv true 0 1 10 5)),
   (1, lp_event.get_next (mk_recv true 0 2 10 6)),
   (2, lp_event.get_next (mk_waits CODES_NW_WAITSOME [5, 6])),
   (3, lp_event.send_arrived (mk_send false 0 2 10 (-1))),
   (4, lp_event.get_next (mk_recv true 0 2 10 6))]

/-- A run the kernel can make: an `IRecv` with request 5 is posted, an `ISend` with request 5
is executed and its `MPI_SEND_POSTED` is processed. -/
def script_isend_shares_request : List (tw_stime × lp_event) :=
  [(0, lp_event.get_next (mk_recv true 0 1 10 5)),
   (1, lp_event.get_next (mk_send true 0 9 10 5)),
   (2, lp_event.send_posted { mk_send true 0 9 10 5 with sim_start_time := 1 })]

/-- A run the kernel can make: two `Send`s arrive and are matched by two blocking `Recv`s, an
`IRecv` with request 5 is posted, a `Waitall` naming request 5 and `-1` is executed and does
not wait, a second `IRecv` with request 5 is posted, and a `Send` arrives that matches the
first of them. -/
def script_waitall_names_blocking : List (tw_stime × lp_event) :=
  [(0, lp_event.send_arrived (mk_send false 0 1 10 (-1))),
   (1, lp_event.send_arrived (mk_send false 0 1 10 (-1))),
   (2, lp_event.get_next (mk_recv false 0 1 10 (-1))),
   (3, lp_event.get_next (mk_recv false 0 1 10 (-1))),
   (4, lp_event.get_next (mk_recv true 0 2 10 5)),
   (5, lp_event.get_next (mk_waits CODES_NW_WAITALL [5, -1])),
   (6, lp_event.get_next (mk_recv true 0 3 10 5)),
   (7, lp_event.send_arrived (mk_send false 0 2 10 (-1)))]

/-- A run the kernel can make: an `IRecv` carrying `-1` is posted, a `Send` with another tag
arrives and is queued, and a blocking `Recv` is executed and matches it. -/
def script_irecv_carries_blocking_id : List (tw_stime × lp_event) :=
  [(0, lp_event.get_next (mk_recv true 0 1 10 (-1))),
   (1, lp_event.send_arrived (mk_send false 0 2 10 (-1))),
   (2, lp_event.get_next (mk_recv false 0 2 10 (-1)))]

/-- A run the kernel can make: a `Send` arrives and is queued, a blocking `Recv` that carries
request 5 (not `-1`, as `handleDUMPIRecv` would build it) is executed and matches it, and an
`IRecv` with request 5 is executed and is posted. -/
def script_recv_carries_request : List (tw_stime × lp_event) :=
  [(0, lp_event.send_arrived (mk_send false 0 1 10 (-1))),
   (1, lp_event.get_next (mk_recv false 0 1 10 5)),
   (2, lp_event.get_next (mk_recv true 0 1 10 5))]

/-- A run whose trace waits before it takes an id into use again: an `IRecv` with request 5
is posted, an `ISend` with request 7 is executed, a `Send` arrives and matches the `IRecv`,
`Waitany` is executed, `Waitall` on requests 5 and 7 is left pending until the
`MPI_SEND_POSTED` of the `ISend` is processed, request 5 is used by a second `IRecv`, which is
matched by a `Send`, `Wait` on request 5 is executed, and request 5 is used by a third
`IRecv`, which is posted. -/
def script_requests_reused_after_wait : List (tw_stime × lp_event) :=
  [(0, lp_event.get_next (mk_recv true 0 1 10 5)),
   (1, lp_event.get_next (mk_send true 0 9 10 7)),
   (2, lp_event.send_arrived (mk_send false 0 1 10 (-1))),
   (3, lp_event.get_next (mk_waits CODES_NW_WAITANY [5])),
   (4, lp_event.get_next (mk_waits CODES_NW_WAITALL [5, 7])),
   (5, lp_event.send_posted { mk_send true 0 9 10 7 with sim_start_time := 1 }),
   (6, lp_event.get_next (mk_recv true 0 1 10 5)),
   (7, lp_event.send_arrived (mk_send false 0 1 10 (-1))),
   (8, lp_event.get_next (mk_wait 5)),
   (9, lp_event.get_next (mk_recv true 0 1 10 5))]

/-! ## Theorems -/

/-- C1: for a receive `R` (Recv or IRecv) and a send `S` (Send or ISend), `match_receive`
reports a match (returns `1`) if and only if `R.num_bytes ≥ S.num_bytes`, `R.tag` is `S.tag` or
`-1`, and `R.source_rank` is `S.source_rank` or `-1`; when it reports no match it returns `-1`
and leaves the LP state as it was. -/
theorem match_receive_iff (s : nw_state) (lp : tw_lp) (R S : mpi_event_list)
    (hR : is_recv_op R) (hS : is_send_op S) :
    ((∃ s1, match_receive s lp R S = some (s1, 1)) ↔
      (R.num_bytes ≥ S.num_bytes ∧ (R.tag = S.tag ∨ R.tag = -1) ∧
        (R.source_rank = S.source_rank ∨ R.source_rank = -1))) ∧
    ((¬ ∃ s1, match_receive s lp R S = some (s1, 1)) →
      match_receive s lp R S = some (s, -1)) := by
  have h1 : R.op_type = CODES_NW_IRECV ∨ R.op_type = CODES_NW_RECV := hR.symm
  have h2 : S.op_type = CODES_NW_SEND ∨ S.op_type = CODES_NW_ISEND := hS
  by_cases hp : R.num_bytes ≥ S.num_bytes ∧ (R.tag = S.tag ∨ R.tag = -1) ∧
      (R.source_rank = S.source_rank ∨ R.source_rank = -1)
  · have hm : match_receive s lp R S = some ({ s with
        completed_reqs := mpi_completed_queue_insert_op s.completed_reqs R.req_id,
        recv_time := s.recv_time + (lp.now - S.sim_start_time) }, 1) := by
      simp only [match_receive, h1, h2, not_true_eq_false, if_false, hp, and_self, if_true]
    refine ⟨⟨fun _ => hp, fun _ => ⟨_, hm⟩⟩, fun h => absurd ⟨_, hm⟩ h⟩
  · have hm : match_receive s lp R S = some (s, -1) := by
      simp only [match_receive, h1, h2, not_true_eq_false, if_false, hp, if_false]
    refine ⟨⟨?_, fun h => absurd h hp⟩, fun _ => hm⟩
    rintro ⟨s1, h⟩
    rw [hm] at h
    have h3 : (-1 : Int) = 1 := congrArg Prod.snd (Option.some.inj h)
    exact absurd h3 (by decide)

/-- The matching theorem at a wildcard-source receive of 100 bytes and a send of 50 bytes. -/
theorem match_receive_iff_witness :
    is_recv_op (mk_recv true (-1) 3 100 1) ∧ is_send_op (mk_send false 4 3 50 2) ∧
    (((∃ s1, match_receive state0 lp0 (mk_recv true (-1) 3 100 1) (mk_send false 4 3 50 2)
          = some (s1, 1)) ↔
      ((mk_recv true (-1) 3 100 1).num_bytes ≥ (mk_send false 4 3 50 2).num_bytes ∧
        ((mk_recv true (-1) 3 100 1).tag = (mk_send false 4 3 50 2).tag ∨
          (mk_recv true (-1) 3 100 1).tag = -1) ∧
        ((mk_recv true (-1) 3 100 1).source_rank = (mk_send false 4 3 50 2).source_rank ∨
          (mk_recv true (-1) 3 100 1).source_rank = -1))) ∧
    ((¬ ∃ s1, match_receive state0 lp0 (mk_recv true (-1) 3 100 1) (mk_send false 4 3 50 2)
          = some (s1, 1)) →
      match_receive state0 lp0 (mk_recv true (-1) 3 100 1) (mk_send false 4 3 50 2)
        = some (state0, -1))) :=
  ⟨by decide, by decide,
    match_receive_iff state0 lp0 (mk_recv true (-1) 3 100 1) (mk_send false 4 3 50 2)
      (by decide) (by decide)⟩

/-! ### The search of a queue -/

theorem match_receive_eq (s : nw_state) (lp : tw_lp) (R S : mpi_event_list)
    (hR : is_recv_op R) (hS : is_send_op S) :
    match_receive s lp R S =
      if matching_predicate R S then some (matched_state s lp R S, 1) else some (s, -1) := by
  have h1 : R.op_type = CODES_NW_IRECV ∨ R.op_type = CODES_NW_RECV := hR.symm
  have h2 : S.op_type = CODES_NW_SEND ∨ S.op_type = CODES_NW_ISEND := hS
  simp only [match_receive, h1, h2, not_true_eq_false, if_false, matching_predicate,
    matched_state]

theorem loop_send_spec (lp : tw_lp) (op : mpi_event_list) (hop : is_send_op op) :
    ∀ (rest : List mpi_event_list) (s : nw_state) (n : Int) (tmp : mpi_event_list)
      (indx rcv b rid : Int), (∀ e ∈ rest, is_recv_op e) →
      ((∀ e ∈ rest, ¬ matching_predicate e op) ∧
        ∃ rid1, remove_matching_loop lp op s n tmp rest indx rcv (some b) rid =
          some { s := s, mpi_queue := { num_elems := n, queue := rest }, is_blocking := some b,
                 req_id := rid1, ret := -1 }) ∨
      (∃ pre e post, rest = pre ++ e :: post ∧ (∀ x ∈ pre, ¬ matching_predicate x op) ∧
        matching_predicate e op ∧
        remove_matching_loop lp op s n tmp rest indx rcv (some b) rid =
          some { s := matched_state s lp e op,
                 mpi_queue := { num_elems := n - 1, queue := pre ++ post },
                 is_blocking := if (last_node tmp pre).op_type = CODES_NW_RECV then some 1
                                else some b,
                 req_id := e.req_id, ret := indx + 1 + pre.length }) := by
  intro rest
  induction rest with
  | nil =>
    intro s n tmp indx rcv b rid _
    left
    exact ⟨by simp, rid, by simp [remove_matching_loop]⟩
  | cons elem rest ih =>
    intro s n tmp indx rcv b rid hty
    have hop1 : op.op_type = CODES_NW_SEND ∨ op.op_type = CODES_NW_ISEND := hop
    have he : is_recv_op elem := hty elem (List.mem_cons_self _ _)
    have hrest : ∀ e ∈ rest, is_recv_op e := fun e h => hty e (List.mem_cons_of_mem _ h)
    by_cases hm : matching_predicate elem op
    · right
      refine ⟨[], elem, rest, rfl, by simp, hm, ?_⟩
      simp only [remove_matching_loop, hop1, if_true, match_receive_eq s lp elem op he hop, hm,
        Option.map_some']
      by_cases hb : tmp.op_type = CODES_NW_RECV <;>
        simp [hb, write_is_blocking, last_node]
    · rcases ih s n elem (indx + 1) (-1) b elem.req_id hrest with ⟨hno, rid1, hl⟩ | ⟨pre, e, post, hsplit, hpre, hme, hl⟩
      · left
        refine ⟨?_, rid1, ?_⟩
        · intro x hx
          rcases List.mem_cons.mp hx with rfl | hx
          · exact hm
          · exact hno x hx
        · simp only [remove_matching_loop, hop1, if_true, match_receive_eq s lp elem op he hop,
            hm, if_false, Option.map_some']
          simp [hl]
      · right
        refine ⟨elem :: pre, e, post, by simp [hsplit], ?_, hme, ?_⟩
        · intro x hx
          rcases List.mem_cons.mp hx with rfl | hx
          · exact hm
          · exact hpre x hx
        · simp only [remove_matching_loop, hop1, if_true, match_receive_eq s lp elem op he hop,
            hm, if_false, Option.map_some']
          simp only [hl, Option.map_some', last_node, List.cons_append, List.length_cons,
            Nat.cast_add, Nat.cast_one]
          have harith : indx + 1 + 1 + (pre.length : Int) = indx + 1 + ((pre.length : Int) + 1) := by
            omega
          rw [harith, if_neg (by decide)]

theorem send_not_recv_type (e : mpi_event_list) (h : is_send_op e) :
    ¬ e.op_type = CODES_NW_RECV := by
  intro hc
  rcases h with h | h <;> rw [hc] at h <;> exact absurd h (by decide)

theorem recv_not_send_op (e : mpi_event_list) (h : is_recv_op e) :
    ¬ (e.op_type = CODES_NW_SEND ∨ e.op_type = CODES_NW_ISEND) := by
  intro hc
  rcases h with h | h <;> rcases hc with hc | hc <;> rw [hc] at h <;> exact absurd h (by decide)

theorem loop_recv_spec (lp : tw_lp) (op : mpi_event_list) (hop : is_recv_op op) :
    ∀ (rest : List mpi_event_list) (s : nw_state) (n : Int) (tmp : mpi_event_list)
      (indx rcv : Int) (ib : Option Int) (rid : Int), is_send_op tmp →
      (∀ e ∈ rest, is_send_op e) →
      ((∀ e ∈ rest, ¬ matching_predicate op e) ∧
        remove_matching_loop lp op s n tmp rest indx rcv ib rid =
          some { s := s, mpi_queue := { num_elems := n, queue := rest }, is_blocking := ib,
                 req_id := rid, ret := -1 }) ∨
      (∃ pre e post, rest = pre ++ e :: post ∧ (∀ x ∈ pre, ¬ matching_predicate op x) ∧
        matching_predicate op e ∧
        remove_matching_loop lp op s n tmp rest indx rcv ib rid =
          some { s := matched_state s lp op e,
                 mpi_queue := { num_elems := n - 1, queue := pre ++ post },
                 is_blocking := ib, req_id := rid, ret := indx + 1 + pre.length }) := by
  intro rest
  induction rest with
  | nil =>
    intro s n tmp indx rcv ib rid _ _
    left
    exact ⟨by simp, by simp [remove_matching_loop]⟩
  | cons elem rest ih =>
    intro s n tmp indx rcv ib rid htmp hty
    have hop0 : ¬ (op.op_type = CODES_NW_SEND ∨ op.op_type = CODES_NW_ISEND) :=
      recv_not_send_op op hop
    have hop1 : op.op_type = CODES_NW_RECV ∨ op.op_type = CODES_NW_IRECV := hop
    have he : is_send_op elem := hty elem (List.mem_cons_self _ _)
    have hrest : ∀ e ∈ rest, is_send_op e := fun e h => hty e (List.mem_cons_of_mem _ h)
    have htmp1 : ¬ tmp.op_type = CODES_NW_RECV := send_not_recv_type tmp htmp
    by_cases hm : matching_predicate op elem
    · right
      refine ⟨[], elem, rest, rfl, by simp, hm, ?_⟩
      simp only [remove_matching_loop, hop0, hop1, if_true, if_false,
        match_receive_eq s lp op elem hop he, hm, Option.map_some', htmp1]
      simp
    · rcases ih s n elem (indx + 1) (-1) ib rid he hrest with
        ⟨hno, hl⟩ | ⟨pre, e, post, hsplit, hpre, hme, hl⟩
      · left
        refine ⟨?_, ?_⟩
        · intro x hx
          rcases List.mem_cons.mp hx with rfl | hx
          · exact hm
          · exact hno x hx
        · simp only [remove_matching_loop, hop0, hop1, if_true, if_false,
            match_receive_eq s lp op elem hop he, hm, Option.map_some']
          rw [if_neg (by decide), hl]
          rfl
      · right
        refine ⟨elem :: pre, e, post, by simp [hsplit], ?_, hme, ?_⟩
        · intro x hx
          rcases List.mem_cons.mp hx with rfl | hx
          · exact hm
          · exact hpre x hx
        · simp only [remove_matching_loop, hop0, hop1, if_true, if_false,
            match_receive_eq s lp op elem hop he, hm, Option.map_some']
          have harith : indx + 1 + 1 + (pre.length : Int) =
              indx + 1 + ((pre.length : Int) + 1) := by omega
          rw [if_neg (by decide), hl]
          simp only [Option.map_some', List.cons_append, List.length_cons, Nat.cast_add,
            Nat.cast_one, harith]

theorem remove_matching_send_spec (s : nw_state) (lp : tw_lp) (q : mpi_queue_ptrs)
    (op : mpi_event_list) (b rid : Int) (hop : is_send_op op)
    (hty : ∀ e ∈ q.queue, is_recv_op e) :
    ((∀ e ∈ q.queue, ¬ matching_predicate e op) ∧
      ∃ rid1, mpi_queue_remove_matching_op s lp q op (some b) rid =
        some { s := s, mpi_queue := q, is_blocking := some b, req_id := rid1, ret := -1 }) ∨
    (∃ pre e post, q.queue = pre ++ e :: post ∧ (∀ x ∈ pre, ¬ matching_predicate x op) ∧
      matching_predicate e op ∧
      mpi_queue_remove_matching_op s lp q op (some b) rid =
        some { s := matched_state s lp e op,
               mpi_queue := { num_elems := q.num_elems - 1, queue := pre ++ post },
               is_blocking := if (inspected_node pre e).op_type = CODES_NW_RECV then some 1
                              else some b,
               req_id := e.req_id, ret := pre.length }) := by
  obtain ⟨n, l⟩ := q
  cases l with
  | nil =>
    left
    exact ⟨by simp, rid, by simp [mpi_queue_remove_matching_op]⟩
  | cons tmp rest =>
    have hop1 : op.op_type = CODES_NW_SEND ∨ op.op_type = CODES_NW_ISEND := hop
    have he : is_recv_op tmp := hty tmp (List.mem_cons_self _ _)
    have hrest : ∀ e ∈ rest, is_recv_op e := fun e h => hty e (List.mem_cons_of_mem _ h)
    by_cases hm : matching_predicate tmp op
    · right
      refine ⟨[], tmp, rest, rfl, by simp, hm, ?_⟩
      simp only [mpi_queue_remove_matching_op, hop1, if_true,
        match_receive_eq s lp tmp op he hop, hm, Option.map_some']
      by_cases hb : tmp.op_type = CODES_NW_RECV <;>
        simp [hb, write_is_blocking, inspected_node]
    · rcases loop_send_spec lp op hop rest s n tmp 0 (-1) b tmp.req_id hrest with
        ⟨hno, rid1, hl⟩ | ⟨pre, e, post, hsplit, hpre, hme, hl⟩
      · left
        refine ⟨?_, rid1, ?_⟩
        · intro x hx
          rcases List.mem_cons.mp hx with rfl | hx
          · exact hm
          · exact hno x hx
        · simp only [mpi_queue_remove_matching_op, hop1, if_true,
            match_receive_eq s lp tmp op he hop, hm, if_false, Option.map_some']
          rw [if_neg (by decide), hl]
          rfl
      · right
        refine ⟨tmp :: pre, e, post, by simp [hsplit], ?_, hme, ?_⟩
        · intro x hx
          rcases List.mem_cons.mp hx with rfl | hx
          · exact hm
          · exact hpre x hx
        · simp only [mpi_queue_remove_matching_op, hop1, if_true,
            match_receive_eq s lp tmp op he hop, hm, if_false, Option.map_some']
          have harith : (0 : Int) + 1 + (pre.length : Int) = (pre.length : Int) + 1 := by omega
          rw [if_neg (by decide), hl]
          simp only [Option.map_some', List.cons_append, List.length_cons, Nat.cast_add,
            Nat.cast_one, harith, inspected_node]

theorem remove_matching_recv_spec (s : nw_state) (lp : tw_lp) (q : mpi_queue_ptrs)
    (op : mpi_event_list) (ib : Option Int) (rid : Int) (hop : is_recv_op op)
    (hty : ∀ e ∈ q.queue, is_send_op e) :
    ((∀ e ∈ q.queue, ¬ matching_predicate op e) ∧
      ∃ rid1, mpi_queue_remove_matching_op s lp q op ib rid =
        some { s := s, mpi_queue := q, is_blocking := ib, req_id := rid1, ret := -1 }) ∨
    (∃ pre e post, q.queue = pre ++ e :: post ∧ (∀ x ∈ pre, ¬ matching_predicate op x) ∧
      matching_predicate op e ∧
      mpi_queue_remove_matching_op s lp q op ib rid =
        some { s := matched_state s lp op e,
               mpi_queue := { num_elems := q.num_elems - 1, queue := pre ++ post },
               is_blocking := ib, req_id := op.req_id, ret := pre.length }) := by
  obtain ⟨n, l⟩ := q
  cases l with
  | nil =>
    left
    exact ⟨by simp, rid, by simp [mpi_queue_remove_matching_op]⟩
  | cons tmp rest =>
    have hop0 : ¬ (op.op_type = CODES_NW_SEND ∨ op.op_type = CODES_NW_ISEND) :=
      recv_not_send_op op hop
    have hop1 : op.op_type = CODES_NW_RECV ∨ op.op_type = CODES_NW_IRECV := hop
    have he : is_send_op tmp := hty tmp (List.mem_cons_self _ _)
    have hrest : ∀ e ∈ rest, is_send_op e := fun e h => hty e (List.mem_cons_of_mem _ h)
    have htmp1 : ¬ tmp.op_type = CODES_NW_RECV := send_not_recv_type tmp he
    by_cases hm : matching_predicate op tmp
    · right
      refine ⟨[], tmp, rest, rfl, by simp, hm, ?_⟩
      simp only [mpi_queue_remove_matching_op, hop0, hop1, if_true, if_false,
        match_receive_eq s lp op tmp hop he, hm, Option.map_some', htmp1]
      simp
    · rcases loop_recv_spec lp op hop rest s n tmp 0 (-1) ib op.req_id he hrest with
        ⟨hno, hl⟩ | ⟨pre, e, post, hsplit, hpre, hme, hl⟩
      · left
        refine ⟨?_, op.req_id, ?_⟩
        · intro x hx
          rcases List.mem_cons.mp hx with rfl | hx
          · exact hm
          · exact hno x hx
        · simp only [mpi_queue_remove_matching_op, hop0, hop1, if_true, if_false,
            match_receive_eq s lp op tmp hop he, hm, Option.map_some']
          rw [if_neg (by decide), hl]
          rfl
      · right
        refine ⟨tmp :: pre, e, post, by simp [hsplit], ?_, hme, ?_⟩
        · intro x hx
          rcases List.mem_cons.mp hx with rfl | hx
          · exact hm
          · exact hpre x hx
        · simp only [mpi_queue_remove_matching_op, hop0, hop1, if_true, if_false,
            match_receive_eq s lp op tmp hop he, hm, Option.map_some']
          have harith : (0 : Int) + 1 + (pre.length : Int) = (pre.length : Int) + 1 := by omega
          rw [if_neg (by decide), hl]
          simp only [Option.map_some', List.cons_append, List.length_cons, Nat.cast_add,
            Nat.cast_one, harith]

theorem split_get_length (α : Type) (pre post : List α) (e : α) :
    (pre ++ e :: post).get? pre.length = some e := by
  induction pre with
  | nil => rfl
  | cons a pre ih => simpa using ih

theorem split_get_lt (α : Type) (pre post : List α) (e x : α) (j : Nat) (hj : j < pre.length)
    (h : (pre ++ e :: post).get? j = some x) : x ∈ pre := by
  rw [List.get?_eq_getElem?, List.getElem?_append_left hj] at h
  exact List.getElem?_mem h

theorem split_erase (α : Type) (pre post : List α) (e : α) :
    (pre ++ e :: post).eraseIdx pre.length = pre ++ post := by
  induction pre with
  | nil => rfl
  | cons a pre ih => simp [List.eraseIdx, ih]

/-- C2: on a well-typed search, `mpi_queue_remove_matching_op` returns normally; it returns
`-1` and leaves the queue unchanged if and only if no node of the queue matches the operation;
and when some node matches, it returns the least index `i` of a matching node, and the
resulting list is the old one with exactly the node at index `i` removed (the other nodes in
their order), the stored count being one less. -/
theorem remove_matching_op_first_match (s : nw_state) (lp : tw_lp) (q : mpi_queue_ptrs)
    (op : mpi_event_list) (ib : Option Int) (rid : Int) (h : search_well_typed q op ib) :
    ∃ r, mpi_queue_remove_matching_op s lp q op ib rid = some r ∧
      ((r.ret = -1 ∧ r.mpi_queue = q) ↔ ∀ e ∈ q.queue, ¬ queue_elem_matches op e) ∧
      ((∃ e ∈ q.queue, queue_elem_matches op e) →
        ∃ i : Nat, r.ret = (i : Int) ∧ i < q.queue.length ∧
          (∃ e, q.queue.get? i = some e ∧ queue_elem_matches op e) ∧
          (∀ j e, j < i → q.queue.get? j = some e → ¬ queue_elem_matches op e) ∧
          r.mpi_queue.queue = q.queue.eraseIdx i ∧
          r.mpi_queue.num_elems = q.num_elems - 1) := by
  have key : ∀ (P : mpi_event_list → Prop) (r : remove_matching_result),
      (((∀ e ∈ q.queue, ¬ P e) ∧ r.ret = -1 ∧ r.mpi_queue = q) ∨
        (∃ pre e post, q.queue = pre ++ e :: post ∧ (∀ x ∈ pre, ¬ P x) ∧ P e ∧
          r.ret = (pre.length : Int) ∧ r.mpi_queue.queue = pre ++ post ∧
          r.mpi_queue.num_elems = q.num_elems - 1)) →
      ((r.ret = -1 ∧ r.mpi_queue = q) ↔ ∀ e ∈ q.queue, ¬ P e) ∧
      ((∃ e ∈ q.queue, P e) →
        ∃ i : Nat, r.ret = (i : Int) ∧ i < q.queue.length ∧
          (∃ e, q.queue.get? i = some e ∧ P e) ∧
          (∀ j e, j < i → q.queue.get? j = some e → ¬ P e) ∧
          r.mpi_queue.queue = q.queue.eraseIdx i ∧
          r.mpi_queue.num_elems = q.num_elems - 1) := by
    intro P r hr
    rcases hr with ⟨hno, hret, hq⟩ | ⟨pre, e, post, hsplit, hpre, he, hret, hq, hn⟩
    · refine ⟨⟨fun _ => hno, fun _ => ⟨hret, hq⟩⟩, ?_⟩
      rintro ⟨e, hmem, hP⟩
      exact absurd hP (hno e hmem)
    · refine ⟨⟨?_, ?_⟩, ?_⟩
      · rintro ⟨h1, _⟩
        rw [hret] at h1
        omega
      · intro hno
        exact absurd he (hno e (by rw [hsplit]; simp))
      · intro _
        refine ⟨pre.length, hret, by rw [hsplit]; simp, ⟨e, ?_, he⟩, ?_, ?_, hn⟩
        · rw [hsplit]; exact split_get_length _ pre post e
        · intro j x hj hx
          rw [hsplit] at hx
          exact hpre x (split_get_lt _ pre post e x j hj hx)
        · rw [hsplit, hq, split_erase]
  rcases h with ⟨hop, hty, hib⟩ | ⟨hop, hty⟩
  · obtain ⟨b, rfl⟩ : ∃ b, ib = some b := Option.ne_none_iff_exists'.mp hib
    have hP : ∀ e, queue_elem_matches op e ↔ matching_predicate e op := by
      intro e; simp only [queue_elem_matches, if_pos hop]
    simp only [hP]
    rcases remove_matching_send_spec s lp q op b rid hop hty with
      ⟨hno, rid1, hr⟩ | ⟨pre, e, post, hsplit, hpre, he, hr⟩
    · exact ⟨_, hr, key _ _ (Or.inl ⟨hno, rfl, rfl⟩)⟩
    · exact ⟨_, hr, key _ _ (Or.inr ⟨pre, e, post, hsplit, hpre, he, rfl, rfl, rfl⟩)⟩
  · have hP : ∀ e, queue_elem_matches op e ↔ matching_predicate op e := by
      intro e; rw [queue_elem_matches, if_neg (show ¬ is_send_op op from recv_not_send_op op hop)]
    simp only [hP]
    rcases remove_matching_recv_spec s lp q op ib rid hop hty with
      ⟨hno, rid1, hr⟩ | ⟨pre, e, post, hsplit, hpre, he, hr⟩
    · exact ⟨_, hr, key _ _ (Or.inl ⟨hno, rfl, rfl⟩)⟩
    · exact ⟨_, hr, key _ _ (Or.inr ⟨pre, e, post, hsplit, hpre, he, rfl, rfl, rfl⟩)⟩

/-- The search theorem at a queue of two posted receives and an arriving send that only the
second one matches. -/
theorem remove_matching_op_first_match_witness :
    search_well_typed { num_elems := 2, queue := [mk_recv true 0 1 10 5, mk_recv true 0 2 10 6] }
      (mk_send false 0 2 10 0) (some 0) ∧
    ∃ r, mpi_queue_remove_matching_op state0 lp0
        { num_elems := 2, queue := [mk_recv true 0 1 10 5, mk_recv true 0 2 10 6] }
        (mk_send false 0 2 10 0) (some 0) (-1) = some r ∧
      ((r.ret = -1 ∧ r.mpi_queue =
          { num_elems := 2, queue := [mk_recv true 0 1 10 5, mk_recv true 0 2 10 6] }) ↔
        ∀ e ∈ [mk_recv true 0 1 10 5, mk_recv true 0 2 10 6],
          ¬ queue_elem_matches (mk_send false 0 2 10 0) e) ∧
      ((∃ e ∈ [mk_recv true 0 1 10 5, mk_recv true 0 2 10 6],
          queue_elem_matches (mk_send false 0 2 10 0) e) →
        ∃ i : Nat, r.ret = (i : Int) ∧
          i < [mk_recv true 0 1 10 5, mk_recv true 0 2 10 6].length ∧
          (∃ e, [mk_recv true 0 1 10 5, mk_recv true 0 2 10 6].get? i = some e ∧
            queue_elem_matches (mk_send false 0 2 10 0) e) ∧
          (∀ j e, j < i → [mk_recv true 0 1 10 5, mk_recv true 0 2 10 6].get? j = some e →
            ¬ queue_elem_matches (mk_send false 0 2 10 0) e) ∧
          r.mpi_queue.queue = [mk_recv true 0 1 10 5, mk_recv true 0 2 10 6].eraseIdx i ∧
          r.mpi_queue.num_elems = 2 - 1) :=
  ⟨by decide,
    remove_matching_op_first_match state0 lp0
      { num_elems := 2, queue := [mk_recv true 0 1 10 5, mk_recv true 0 2 10 6] }
      (mk_send false 0 2 10 0) (some 0) (-1) (by decide)⟩

/-- C3 (the code at a failing input): `pending_recvs` holds an unmatched `IRecv` (tag 1,
request 5) followed by a blocking `Recv` (tag 2), and a send with tag 2 arrives. The first
matching posted receive is the blocking `Recv` at index 1, and it is removed; but the handler
inspects the type of the node before it, the `IRecv`, so no `MPI_OP_GET_NEXT` is scheduled and
the LP stays suspended. -/
theorem update_arrival_queue_blocking_recv_behind_irecv :
    (update_arrival_queue
        { state0 with pending_recvs_queue :=
            { num_elems := 2, queue := [mk_recv true 0 1 10 5, mk_recv false 0 2 10 7] } }
        (mk_msg MPI_NW_EVENTS.MPI_SEND_ARRIVED (mk_send false 0 2 10 0)) lp0).map
      (fun r => (r.1.pending_recvs_queue.queue, r.1.completed_reqs, r.2.1.found_match,
        r.2.2.get_next_events))
      = some ([mk_recv true 0 1 10 5], [7], 1, 0) := by
  decide

/-- C4: `codes_exec_mpi_recv` on a `Recv` or `IRecv`, with an arrival queue of sends, returns
normally. If some queued send matches, the first matching send is removed (the sends before and
after it stay in order), the receive's request id is put into `completed_reqs`,
`pending_recvs` is unchanged and exactly one `MPI_OP_GET_NEXT` is scheduled, for `Recv` and for
`IRecv`. If none matches, `arrival_queue` and `completed_reqs` are unchanged, the receive
(stamped with the current time) is appended at the tail of `pending_recvs`, and one
`MPI_OP_GET_NEXT` is scheduled for an `IRecv` and none for a `Recv`. -/
theorem codes_exec_mpi_recv_outcomes (s : nw_state) (m : nw_message) (lp : tw_lp)
    (hop : is_recv_op m.op) (hty : ∀ e ∈ s.arrival_queue.queue, is_send_op e) :
    ∃ s1 m1 lp1, codes_exec_mpi_recv s m lp = some (s1, m1, lp1) ∧
      ((∃ e ∈ s.arrival_queue.queue, matching_predicate m.op e) →
        (∃ pre e post, s.arrival_queue.queue = pre ++ e :: post ∧
          (∀ x ∈ pre, ¬ matching_predicate m.op x) ∧ matching_predicate m.op e ∧
          s1.arrival_queue.queue = pre ++ post) ∧
        s1.completed_reqs = m.op.req_id :: s.completed_reqs ∧
        s1.pending_recvs_queue = s.pending_recvs_queue ∧
        lp1.get_next_events = lp.get_next_events + 1) ∧
      ((∀ e ∈ s.arrival_queue.queue, ¬ matching_predicate m.op e) →
        s1.arrival_queue = s.arrival_queue ∧
        s1.completed_reqs = s.completed_reqs ∧
        s1.pending_recvs_queue.queue =
          s.pending_recvs_queue.queue ++ [{ m.op with sim_start_time := lp.now }] ∧
        lp1.get_next_events =
          lp.get_next_events + (if m.op.op_type = CODES_NW_IRECV then 1 else 0)) := by
  have hop1 : is_recv_op { m.op with sim_start_time := lp.now } := hop
  rcases remove_matching_recv_spec
      { s with num_bytes_recvd := s.num_bytes_recvd + m.op.num_bytes } lp s.arrival_queue
      { m.op with sim_start_time := lp.now } none 0 hop1 hty with
    ⟨hno, rid1, hr⟩ | ⟨pre, e, post, hsplit, hpre, he, hr⟩
  · simp only [codes_exec_mpi_recv, hr]
    rw [if_pos (by decide)]
    by_cases hi : m.op.op_type = CODES_NW_IRECV
    · rw [if_pos hi]
      refine ⟨_, _, _, rfl, ?_, ?_⟩
      · rintro ⟨e, hmem, hP⟩
        exact absurd hP (hno e hmem)
      · intro _
        simp [mpi_pending_queue_insert_op, codes_issue_next_event, hi]
    · rw [if_neg hi]
      refine ⟨_, _, _, rfl, ?_, ?_⟩
      · rintro ⟨e, hmem, hP⟩
        exact absurd hP (hno e hmem)
      · intro _
        simp [mpi_pending_queue_insert_op, hi]
  · simp only [codes_exec_mpi_recv, hr]
    rw [if_neg (by omega)]
    refine ⟨_, _, _, rfl, ?_, ?_⟩
    · intro _
      refine ⟨⟨pre, e, post, hsplit, hpre, he, rfl⟩, ?_, rfl, ?_⟩
      · simp [matched_state, mpi_completed_queue_insert_op]
      · simp [codes_issue_next_event]
    · intro hno
      exact absurd he (hno e (by rw [hsplit]; simp))

/-- The receive theorem at an `IRecv` with wildcard source executed while one send of the same
tag is queued. -/
theorem codes_exec_mpi_recv_outcomes_witness :
    is_recv_op (mk_msg MPI_NW_EVENTS.MPI_OP_GET_NEXT (mk_recv true (-1) 3 50 1)).op ∧
    (∀ e ∈ [mk_send false 4 3 50 0], is_send_op e) ∧
    ∃ s1 m1 lp1,
      codes_exec_mpi_recv
        { state0 with arrival_queue := { num_elems := 1, queue := [mk_send false 4 3 50 0] } }
        (mk_msg MPI_NW_EVENTS.MPI_OP_GET_NEXT (mk_recv true (-1) 3 50 1)) lp0
        = some (s1, m1, lp1) ∧
      ((∃ e ∈ [mk_send false 4 3 50 0], matching_predicate (mk_recv true (-1) 3 50 1) e) →
        (∃ pre e post, [mk_send false 4 3 50 0] = pre ++ e :: post ∧
          (∀ x ∈ pre, ¬ matching_predicate (mk_recv true (-1) 3 50 1) x) ∧
          matching_predicate (mk_recv true (-1) 3 50 1) e ∧
          s1.arrival_queue.queue = pre ++ post) ∧
        s1.completed_reqs = 1 :: [] ∧
        s1.pending_recvs_queue = queue_init ∧
        lp1.get_next_events = 0 + 1) ∧
      ((∀ e ∈ [mk_send false 4 3 50 0], ¬ matching_predicate (mk_recv true (-1) 3 50 1) e) →
        s1.arrival_queue = { num_elems := 1, queue := [mk_send false 4 3 50 0] } ∧
        s1.completed_reqs = [] ∧
        s1.pending_recvs_queue.queue =
          [] ++ [{ mk_recv true (-1) 3 50 1 with sim_start_time := 0 }] ∧
        lp1.get_next_events =
          0 + (if (mk_recv true (-1) 3 50 1).op_type = CODES_NW_IRECV then 1 else 0)) :=
  ⟨by decide, by decide,
    codes_exec_mpi_recv_outcomes
      { state0 with arrival_queue := { num_elems := 1, queue := [mk_send false 4 3 50 0] } }
      (mk_msg MPI_NW_EVENTS.MPI_OP_GET_NEXT (mk_recv true (-1) 3 50 1)) lp0
      (by decide) (by decide)⟩

/-! ### The completed-request list -/

theorem remove_req_id_eq_erase (l : List Int) (r : Int) : remove_req_id l r = l.erase r := by
  induction l with
  | nil => rfl
  | cons a l ih =>
    by_cases h : a = r
    · simp [remove_req_id, h]
    · simp [remove_req_id, h, List.erase_cons, ih]

theorem search_completed_reqs_iff (l : List Int) (r : Int) :
    search_completed_reqs l r = true ↔ r ∈ l := by
  induction l with
  | nil => simp [search_completed_reqs]
  | cons a l ih =>
    by_cases h : a = r
    · simp [search_completed_reqs, h]
    · have h1 : ¬ r = a := fun hc => h hc.symm
      simp [search_completed_reqs, h, h1, ih]

theorem count_req_id_eq_count (l : List Int) (r : Int) :
    count_req_id l r = (l.count r : Int) := by
  induction l with
  | nil => rfl
  | cons a l ih =>
    by_cases h : a = r
    · simp [count_req_id, h, ih]; omega
    · simp [count_req_id, h, ih, List.count_cons]

theorem count_req_id_nonneg (l : List Int) (r : Int) : 0 ≤ count_req_id l r := by
  rw [count_req_id_eq_count]; exact Int.natCast_nonneg _

theorem count_req_id_le_length (l : List Int) (r : Int) :
    count_req_id l r ≤ (l.length : Int) := by
  rw [count_req_id_eq_count]; exact_mod_cast List.count_le_length r l

theorem count_req_id_of_not_mem (l : List Int) (r : Int) (h : r ∉ l) :
    count_req_id l r = 0 := by
  rw [count_req_id_eq_count, List.count_eq_zero_of_not_mem h]; rfl

theorem count_req_id_of_mem_nodup (l : List Int) (r : Int) (h : r ∈ l) (hnd : l.Nodup) :
    count_req_id l r = 1 := by
  rw [count_req_id_eq_count, List.count_eq_one_of_mem hnd h]; rfl

theorem remove_first_req_ids_eq (c reqs : List Int) :
    ∀ n, n ≤ reqs.length → remove_first_req_ids c reqs n = some (c.diff (reqs.take n)) := by
  intro n
  induction n with
  | zero => intro _; simp [remove_first_req_ids]
  | succ n ih =>
    intro hn
    have hlt : n < reqs.length := hn
    have hget : reqs.get? n = some reqs[n] := by
      rw [List.get?_eq_getElem?, List.getElem?_eq_getElem hlt]
    have htake : reqs.take (n + 1) = reqs.take n ++ [reqs[n]] := by
      rw [List.take_succ, List.getElem?_eq_getElem hlt]; rfl
    rw [remove_first_req_ids, ih (Nat.le_of_lt hlt), hget, htake, List.diff_append]
    show some (remove_req_id _ _) = _
    rw [remove_req_id_eq_erase]
    simp [List.diff_cons]

theorem remove_first_req_ids_all (c reqs : List Int) :
    remove_first_req_ids c reqs reqs.length = some (c.diff reqs) := by
  rw [remove_first_req_ids_eq c reqs reqs.length (Nat.le_refl _), List.take_length]

theorem filter_mem_cons_length (c : Int) (rest reqs : List Int) (hc : c ∉ rest) :
    (reqs.filter (fun r => decide (r ∈ c :: rest))).length =
      reqs.count c + (reqs.filter (fun r => decide (r ∈ rest))).length := by
  induction reqs with
  | nil => rfl
  | cons r reqs ih =>
    by_cases h1 : r = c
    · subst h1
      simp only [List.mem_cons, Bool.decide_or] at ih
      simp [List.filter_cons, hc, ih]; omega
    · simp only [List.mem_cons, Bool.decide_or] at ih
      by_cases h2 : r ∈ rest
      · simp [List.filter_cons, h1, h2, ih, List.count_cons]; omega
      · simp [List.filter_cons, h1, h2, ih, List.count_cons]

theorem count_completed_nodup (c reqs : List Int) (h : c.Nodup) :
    count_completed c reqs = ((reqs.filter (fun r => decide (r ∈ c))).length : Int) := by
  induction c with
  | nil => simp [count_completed]
  | cons a c ih =>
    have hnd := List.nodup_cons.mp h
    rw [count_completed, ih hnd.2, count_req_id_eq_count, filter_mem_cons_length a c reqs hnd.1]
    push_cast
    rfl

theorem filter_length_eq_iff (c reqs : List Int) :
    (reqs.filter (fun r => decide (r ∈ c))).length = reqs.length ↔ ∀ r ∈ reqs, r ∈ c := by
  rw [List.filter_length_eq_length]
  simp

/-! ### Entering a wait -/

theorem to_unsigned_long_half : to_unsigned_long (1 / 2) = 0 := by
  rw [to_unsigned_long, Nat.floor_eq_zero]; norm_num

theorem to_unsigned_long_natCast (n : Nat) : to_unsigned_long (n : tw_stime) = n := by
  rw [to_unsigned_long]; exact Nat.floor_natCast n

/-- C5 (as stated, refuted): an LP at time `1/2` executes `Wait(3)` with an empty
`completed_reqs`. The request is not completed, and the stored descriptor is not
`{op, 0, now}`: its `start_time` is `0`, the time `1/2` cut to an `unsigned long`. -/
theorem codes_exec_mpi_wait_start_time_not_now :
    (3 : Int) ∉ state0.completed_reqs ∧
    (codes_exec_mpi_wait state0 (mk_msg MPI_NW_EVENTS.MPI_OP_GET_NEXT (mk_wait 3))
        { lp0 with now := 1 / 2 }).1.pending_waits
      ≠ some { mpi_op := mk_wait 3, num_completed := 0, start_time := 1 / 2 } := by
  refine ⟨by decide, ?_⟩
  have h : (codes_exec_mpi_wait state0 (mk_msg MPI_NW_EVENTS.MPI_OP_GET_NEXT (mk_wait 3))
        { lp0 with now := 1 / 2 }).1.pending_waits
      = some { mpi_op := mk_wait 3, num_completed := 0,
               start_time := ((to_unsigned_long (1 / 2) : Nat) : tw_stime) } := by
    simp [codes_exec_mpi_wait, state0, mk_msg, mk_wait, search_completed_reqs]
  rw [h, to_unsigned_long_half]
  intro hc
  have h2 : ((0 : Nat) : tw_stime) = 1 / 2 :=
    congrArg pending_waits.start_time (Option.some.inj hc)
  norm_num at h2

/-- C5 (amended): `codes_exec_mpi_wait` on `Wait(req)`. If `req` is in `completed_reqs`, one
occurrence of it (the first) is removed, exactly one `MPI_OP_GET_NEXT` is scheduled and
`pending_waits` is left as it was. Otherwise `completed_reqs` is unchanged, nothing is
scheduled, and `pending_waits` becomes the descriptor of this operation with
`num_completed = 0` and `start_time` the current time cut to an `unsigned long`, which is the
current time itself when that is a whole number. -/
theorem codes_exec_mpi_wait_outcomes (s : nw_state) (m : nw_message) (lp : tw_lp) :
    (m.op.wait_req_id ∈ s.completed_reqs →
      (codes_exec_mpi_wait s m lp).1.completed_reqs = s.completed_reqs.erase m.op.wait_req_id ∧
      (codes_exec_mpi_wait s m lp).2.get_next_events = lp.get_next_events + 1 ∧
      (codes_exec_mpi_wait s m lp).1.pending_waits = s.pending_waits) ∧
    (m.op.wait_req_id ∉ s.completed_reqs →
      (codes_exec_mpi_wait s m lp).1.completed_reqs = s.completed_reqs ∧
      (codes_exec_mpi_wait s m lp).2 = lp ∧
      (codes_exec_mpi_wait s m lp).1.pending_waits =
        some { mpi_op := m.op, num_completed := 0,
               start_time := ((⌊lp.now⌋₊ : Nat) : tw_stime) } ∧
      ∀ n : Nat, lp.now = (n : tw_stime) →
        (codes_exec_mpi_wait s m lp).1.pending_waits =
          some { mpi_op := m.op, num_completed := 0, start_time := lp.now }) := by
  constructor
  · intro h
    have hs : search_completed_reqs s.completed_reqs m.op.wait_req_id = true :=
      (search_completed_reqs_iff _ _).mpr h
    simp [codes_exec_mpi_wait, hs, remove_req_id_eq_erase, codes_issue_next_event]
  · intro h
    have hs : ¬ search_completed_reqs s.completed_reqs m.op.wait_req_id = true :=
      fun hc => h ((search_completed_reqs_iff _ _).mp hc)
    refine ⟨by simp [codes_exec_mpi_wait, hs], by simp [codes_exec_mpi_wait, hs],
      by simp [codes_exec_mpi_wait, hs, to_unsigned_long], ?_⟩
    intro n hn
    simp [codes_exec_mpi_wait, hs, hn, to_unsigned_long_natCast]

/-- C6 (as stated, refuted): with `completed_reqs = [1, 1]`, `Waitall([1, 2])` proceeds at
once (one `MPI_OP_GET_NEXT`, no pending wait, one `1` removed) although request `2` is not in
`completed_reqs`: the two nodes holding `1` are both counted. -/
theorem waitall_counts_duplicates :
    (codes_exec_mpi_wait_all_some { state0 with completed_reqs := [1, 1] }
        (mk_msg MPI_NW_EVENTS.MPI_OP_GET_NEXT (mk_waits CODES_NW_WAITALL [1, 2])) lp0).map
      (fun r => (r.1.pending_waits, r.1.completed_reqs, r.2.get_next_events))
      = some (none, [1], 1) ∧
    ¬ (∀ r ∈ [(1 : Int), 2], r ∈ [(1 : Int), 1]) := by
  decide

/-- C6 (amended): for a `completed_reqs` list in which no id occurs twice and every request
list, `Waitall(reqs)` executed by `codes_exec_mpi_wait_all_some` returns normally. If every id
of `reqs` is in `completed_reqs` it schedules one `MPI_OP_GET_NEXT`, sets no pending wait and
removes all of them; otherwise it schedules nothing, leaves `completed_reqs` unchanged and
stores a pending wait whose `num_completed` is the number of entries of `reqs` whose id is in
`completed_reqs` (its `start_time` is the current time cut to an `unsigned long`). -/
theorem waitall_entry_nodup (s : nw_state) (m : nw_message) (lp : tw_lp)
    (hop : m.op.op_type = CODES_NW_WAITALL) (hnd : s.completed_reqs.Nodup) :
    ∃ s1 lp1, codes_exec_mpi_wait_all_some s m lp = some (s1, lp1) ∧
      ((∀ r ∈ m.op.req_ids, r ∈ s.completed_reqs) →
        lp1.get_next_events = lp.get_next_events + 1 ∧
        s1.pending_waits = s.pending_waits ∧
        s1.completed_reqs = s.completed_reqs.filter (fun c => decide (c ∉ m.op.req_ids))) ∧
      ((¬ ∀ r ∈ m.op.req_ids, r ∈ s.completed_reqs) →
        lp1 = lp ∧
        s1.completed_reqs = s.completed_reqs ∧
        s1.pending_waits =
          some { mpi_op := m.op,
                 num_completed :=
                   ((m.op.req_ids.filter (fun r => decide (r ∈ s.completed_reqs))).length : Int),
                 start_time := ((to_unsigned_long lp.now : Nat) : tw_stime) }) := by
  have hcount := count_completed_nodup s.completed_reqs m.op.req_ids hnd
  have hne : ¬ m.op.op_type = CODES_NW_WAITSOME := by rw [hop]; decide
  by_cases hall : ∀ r ∈ m.op.req_ids, r ∈ s.completed_reqs
  · have hlen := (filter_length_eq_iff s.completed_reqs m.op.req_ids).mpr hall
    have hnum : count_completed s.completed_reqs m.op.req_ids = (m.op.req_ids.length : Int) := by
      rw [hcount, hlen]
    simp only [codes_exec_mpi_wait_all_some, hnum, hop, true_and, true_or, if_true,
      Int.toNat_ofNat, remove_first_req_ids_all, Option.map_some']
    refine ⟨_, _, rfl, ?_, fun hn => absurd hall hn⟩
    intro _
    refine ⟨rfl, rfl, ?_⟩
    exact hnd.diff_eq_filter
  · have hlen : ¬ (m.op.req_ids.filter (fun r => decide (r ∈ s.completed_reqs))).length
        = m.op.req_ids.length :=
      fun hc => hall ((filter_length_eq_iff s.completed_reqs m.op.req_ids).mp hc)
    have hnum : ¬ (m.op.req_ids.length : Int) = count_completed s.completed_reqs m.op.req_ids := by
      rw [hcount]; intro hc; exact hlen (by exact_mod_cast hc.symm)
    simp only [codes_exec_mpi_wait_all_some, hnum, hop, hne, and_false, false_and, or_self,
      if_false]
    refine ⟨_, _, rfl, fun h => absurd h hall, ?_⟩
    intro _
    refine ⟨rfl, rfl, ?_⟩
    simp only [hcount]

/-- The amended theorem at `completed_reqs = [3, 1]` and `Waitall([1, 2])`. -/
theorem waitall_entry_nodup_witness :
    (mk_msg MPI_NW_EVENTS.MPI_OP_GET_NEXT (mk_waits CODES_NW_WAITALL [1, 2])).op.op_type
      = CODES_NW_WAITALL ∧
    [(3 : Int), 1].Nodup ∧
    ∃ s1 lp1,
      codes_exec_mpi_wait_all_some { state0 with completed_reqs := [3, 1] }
        (mk_msg MPI_NW_EVENTS.MPI_OP_GET_NEXT (mk_waits CODES_NW_WAITALL [1, 2])) lp0
        = some (s1, lp1) ∧
      ((∀ r ∈ [(1 : Int), 2], r ∈ [(3 : Int), 1]) →
        lp1.get_next_events = 0 + 1 ∧
        s1.pending_waits = none ∧
        s1.completed_reqs = [(3 : Int), 1].filter (fun c => decide (c ∉ [(1 : Int), 2]))) ∧
      ((¬ ∀ r ∈ [(1 : Int), 2], r ∈ [(3 : Int), 1]) →
        lp1 = lp0 ∧
        s1.completed_reqs = [3, 1] ∧
        s1.pending_waits =
          some { mpi_op := mk_waits CODES_NW_WAITALL [1, 2],
                 num_completed :=
                   (([(1 : Int), 2].filter (fun r => decide (r ∈ [(3 : Int), 1]))).length : Int),
                 start_time := ((to_unsigned_long (0 : tw_stime) : Nat) : tw_stime) }) :=
  ⟨rfl, by decide,
    waitall_entry_nodup { state0 with completed_reqs := [3, 1] }
      (mk_msg MPI_NW_EVENTS.MPI_OP_GET_NEXT (mk_waits CODES_NW_WAITALL [1, 2])) lp0 rfl
      (by decide)⟩

/-! ### Notification of a pending wait -/

theorem append_diff_self (X Y : List Int) : (X ++ Y).diff X = Y := by
  induction X with
  | nil => simp
  | cons a X ih => simp [List.diff_cons, ih]

theorem notify_waitall_step (s : nw_state) (lp : tw_lp) (w : pending_waits) (c : Int)
    (hpend : s.pending_waits = some w) (hop : w.mpi_op.op_type = CODES_NW_WAITALL)
    (hlt : w.num_completed + count_req_id w.mpi_op.req_ids c ≠ (w.mpi_op.req_ids.length : Int)) :
    notify_waits s lp c =
      some ({ s with pending_waits := some { w with
                num_completed := w.num_completed + count_req_id w.mpi_op.req_ids c } }, lp) := by
  simp [notify_waits, hpend, hop, hlt]

theorem notify_waitall_last (s : nw_state) (lp : tw_lp) (w : pending_waits) (c : Int)
    (hpend : s.pending_waits = some w) (hop : w.mpi_op.op_type = CODES_NW_WAITALL)
    (heq : w.num_completed + count_req_id w.mpi_op.req_ids c = (w.mpi_op.req_ids.length : Int)) :
    notify_waits s lp c =
      some ({ s with
                wait_time := s.wait_time + (lp.now - w.start_time),
                pending_waits := none,
                completed_reqs := s.completed_reqs.diff w.mpi_op.req_ids },
            codes_issue_next_event lp) := by
  simp [notify_waits, hpend, hop, heq, remove_first_req_ids_all]

theorem complete_requests_append (l1 l2 : List Int) (p : nw_state × tw_lp) :
    complete_requests (l1 ++ l2) p =
      match complete_requests l1 p with
      | none => none
      | some p1 => complete_requests l2 p1 := by
  induction l1 generalizing p with
  | nil => rfl
  | cons c l1 ih =>
    simp only [List.cons_append, complete_requests]
    cases complete_request p c with
    | none => rfl
    | some p1 => exact ih p1

theorem complete_requests_single (c : Int) (p : nw_state × tw_lp) :
    complete_requests [c] p = complete_request p c := by
  simp only [complete_requests]
  cases complete_request p c <;> rfl

theorem complete_requests_progress (op : mpi_event_list) (t : tw_stime)
    (hop : op.op_type = CODES_NW_WAITALL) (hnd : op.req_ids.Nodup) :
    ∀ (l : List Int) (s : nw_state) (lp : tw_lp) (k : Int),
      s.pending_waits = some { mpi_op := op, num_completed := k, start_time := t } →
      (∀ c ∈ l, c ∈ op.req_ids) → k + (l.length : Int) < (op.req_ids.length : Int) →
      complete_requests l (s, lp) =
        some ({ s with
                  pending_waits := some { mpi_op := op, num_completed := k + (l.length : Int),
                                          start_time := t },
                  completed_reqs := l.reverse ++ s.completed_reqs }, lp) := by
  intro l
  induction l with
  | nil =>
    intro s lp k hpend _ _
    simp [complete_requests, ← hpend]
  | cons c l ih =>
    intro s lp k hpend hmem hlt
    have hc : count_req_id op.req_ids c = 1 :=
      count_req_id_of_mem_nodup op.req_ids c (hmem c (List.mem_cons_self _ _)) hnd
    have hlen : ((c :: l).length : Int) = (l.length : Int) + 1 := by simp
    have hstep := notify_waitall_step
      { s with completed_reqs := mpi_completed_queue_insert_op s.completed_reqs c } lp
      { mpi_op := op, num_completed := k, start_time := t } c hpend hop
      (by simp only [hc]; omega)
    simp only [hc] at hstep
    simp only [complete_requests, complete_request, hstep]
    rw [ih _ lp (k + 1) rfl (fun x hx => hmem x (List.mem_cons_of_mem _ hx)) (by omega)]
    have harith : k + 1 + (l.length : Int) = k + ((c :: l).length : Int) := by omega
    simp [harith, mpi_completed_queue_insert_op]

/-- C7: a `Waitall` over `n ≥ 1` distinct request ids is pending with `num_completed = 0` and
none of the ids is in `completed_reqs`; the ids then complete (are put into `completed_reqs`
and notified) in any order. After the first `k < n` of them the wait is still pending with
`num_completed = k` and nothing has been scheduled; after the `n`-th, `pending_waits` is
cleared, all `n` ids are removed again from `completed_reqs` (it is what it was at entry) and
exactly one `MPI_OP_GET_NEXT` is scheduled. A notification for an id that is not in the list
changes nothing while the wait is pending. -/
theorem waitall_notifications (s : nw_state) (lp : tw_lp) (op : mpi_event_list) (t : tw_stime)
    (order : List Int) (hop : op.op_type = CODES_NW_WAITALL)
    (hpend : s.pending_waits = some { mpi_op := op, num_completed := 0, start_time := t })
    (hnd : op.req_ids.Nodup) (hne : op.req_ids ≠ []) (hperm : order.Perm op.req_ids)
    (hdisj : ∀ r ∈ op.req_ids, r ∉ s.completed_reqs) :
    (∀ k : Nat, k < op.req_ids.length →
      ∃ s1, complete_requests (order.take k) (s, lp) = some (s1, lp) ∧
        s1.pending_waits = some { mpi_op := op, num_completed := (k : Int), start_time := t } ∧
        s1.completed_reqs = (order.take k).reverse ++ s.completed_reqs) ∧
    (∃ s2 lp2, complete_requests order (s, lp) = some (s2, lp2) ∧
      s2.pending_waits = none ∧
      s2.completed_reqs = s.completed_reqs ∧
      (∀ r ∈ op.req_ids, r ∉ s2.completed_reqs) ∧
      lp2.get_next_events = lp.get_next_events + 1) ∧
    (∀ (s1 : nw_state) (lp1 : tw_lp) (k c : Int),
      s1.pending_waits = some { mpi_op := op, num_completed := k, start_time := t } →
      k ≠ (op.req_ids.length : Int) → c ∉ op.req_ids →
      notify_waits s1 lp1 c = some (s1, lp1)) := by
  have hlen : order.length = op.req_ids.length := hperm.length_eq
  have hsub : ∀ c ∈ order, c ∈ op.req_ids := fun c hc => hperm.subset hc
  refine ⟨?_, ?_, ?_⟩
  · intro k hk
    have htl : (order.take k).length = k := by
      rw [List.length_take]; omega
    have h := complete_requests_progress op t hop hnd (order.take k) s lp 0 hpend
      (fun c hc => hsub c (List.mem_of_mem_take hc)) (by rw [htl]; omega)
    rw [htl] at h
    exact ⟨_, h, by simp, rfl⟩
  · have hone : order ≠ [] := by
      intro hc; rw [hc] at hlen
      exact hne (List.length_eq_zero.mp hlen.symm)
    have hsplit : order = order.dropLast ++ [order.getLast hone] :=
      (List.dropLast_append_getLast hone).symm
    have hdl : (order.dropLast.length : Int) + 1 = (op.req_ids.length : Int) := by
      have := List.length_dropLast order
      have hpos : 0 < order.length := List.length_pos.mpr hone
      omega
    have h := complete_requests_progress op t hop hnd order.dropLast s lp 0 hpend
      (fun c hc => hsub c (List.mem_of_mem_dropLast hc)) (by omega)
    have hc : count_req_id op.req_ids (order.getLast hone) = 1 :=
      count_req_id_of_mem_nodup op.req_ids _ (hsub _ (List.getLast_mem hone)) hnd
    have hrev : (order.getLast hone :: (order.dropLast.reverse ++ s.completed_reqs)) =
        order.reverse ++ s.completed_reqs := by
      conv_rhs => rw [hsplit]
      simp
    have hdiff : (order.reverse ++ s.completed_reqs).diff op.req_ids = s.completed_reqs := by
      rw [List.Perm.diff_left _ ((List.reverse_perm order).trans hperm).symm, append_diff_self]
    have hdiff2 : (order.getLast hone :: (order.dropLast.reverse ++ s.completed_reqs)).diff
        op.req_ids = s.completed_reqs := by
      rw [hrev]; exact hdiff
    have hrun : complete_requests order (s, lp) =
        some ({ s with
                  wait_time := s.wait_time + (lp.now - t),
                  pending_waits := none,
                  completed_reqs := s.completed_reqs }, codes_issue_next_event lp) := by
      rw [hsplit, complete_requests_append, h]
      show complete_requests [order.getLast hone] (_, lp) = _
      rw [complete_requests_single, complete_request]
      rw [notify_waitall_last _ lp
        { mpi_op := op, num_completed := 0 + (order.dropLast.length : Int), start_time := t }
        (order.getLast hone) rfl hop (by simp only [hc]; omega)]
      simp only [mpi_completed_queue_insert_op, hdiff2]
    exact ⟨_, _, hrun, rfl, rfl, hdisj, rfl⟩
  · intro s1 lp1 k c hp hk hc
    have h0 : count_req_id op.req_ids c = 0 := count_req_id_of_not_mem _ _ hc
    have h := notify_waitall_step s1 lp1 { mpi_op := op, num_completed := k, start_time := t }
      c hp hop (by simp only [h0]; omega)
    rw [h]
    simp only [h0, add_zero, ← hp]

/-- The notification theorem at scenario S3: `Waitall([1, 2])` is pending, request `2`
completes first and request `1` second. -/
theorem waitall_notifications_witness :
    (mk_waits CODES_NW_WAITALL [1, 2]).op_type = CODES_NW_WAITALL ∧
    state_waitall_pending.pending_waits =
      some { mpi_op := mk_waits CODES_NW_WAITALL [1, 2], num_completed := 0, start_time := 0 } ∧
    (mk_waits CODES_NW_WAITALL [1, 2]).req_ids.Nodup ∧
    (mk_waits CODES_NW_WAITALL [1, 2]).req_ids ≠ [] ∧
    [(2 : Int), 1].Perm (mk_waits CODES_NW_WAITALL [1, 2]).req_ids ∧
    (∀ r ∈ (mk_waits CODES_NW_WAITALL [1, 2]).req_ids, r ∉ state_waitall_pending.completed_reqs) ∧
    ((∀ k : Nat, k < (mk_waits CODES_NW_WAITALL [1, 2]).req_ids.length →
      ∃ s1, complete_requests ([(2 : Int), 1].take k) (state_waitall_pending, lp0)
          = some (s1, lp0) ∧
        s1.pending_waits = some { mpi_op := mk_waits CODES_NW_WAITALL [1, 2],
                                  num_completed := (k : Int), start_time := 0 } ∧
        s1.completed_reqs = ([(2 : Int), 1].take k).reverse ++
          state_waitall_pending.completed_reqs) ∧
    (∃ s2 lp2, complete_requests [(2 : Int), 1] (state_waitall_pending, lp0) = some (s2, lp2) ∧
      s2.pending_waits = none ∧
      s2.completed_reqs = state_waitall_pending.completed_reqs ∧
      (∀ r ∈ (mk_waits CODES_NW_WAITALL [1, 2]).req_ids, r ∉ s2.completed_reqs) ∧
      lp2.get_next_events = lp0.get_next_events + 1) ∧
    (∀ (s1 : nw_state) (lp1 : tw_lp) (k c : Int),
      s1.pending_waits = some { mpi_op := mk_waits CODES_NW_WAITALL [1, 2], num_completed := k,
                                start_time := 0 } →
      k ≠ ((mk_waits CODES_NW_WAITALL [1, 2]).req_ids.length : Int) →
      c ∉ (mk_waits CODES_NW_WAITALL [1, 2]).req_ids →
      notify_waits s1 lp1 c = some (s1, lp1))) :=
  ⟨rfl, rfl, by decide, by decide, List.Perm.swap 1 2 [], by decide,
    waitall_notifications state_waitall_pending lp0 (mk_waits CODES_NW_WAITALL [1, 2]) 0
      [2, 1] rfl rfl (by decide) (by decide) (List.Perm.swap 1 2 []) (by decide)⟩

/-- C8 (the code at a failing input): `Waitsome([1, 2])` when only request `2` has completed.
Executed with `completed_reqs = [2]` it completes at entry, and notified of request `2` while
pending it completes as well; in both cases the request removed is the first listed one,
request `1`, which is not there, and request `2`, the one counted as completed, stays in
`completed_reqs`. -/
theorem waitsome_leaves_completed_request :
    (codes_exec_mpi_wait_all_some { state0 with completed_reqs := [2] }
        (mk_msg MPI_NW_EVENTS.MPI_OP_GET_NEXT (mk_waits CODES_NW_WAITSOME [1, 2])) lp0).map
      (fun r => (r.1.pending_waits, r.1.completed_reqs, r.2.get_next_events))
      = some (none, [2], 1) ∧
    (complete_request (state_waitsome_pending, lp0) 2).map
      (fun r => (r.1.pending_waits, r.1.completed_reqs, r.2.get_next_events))
      = some (none, [2], 1) := by
  decide

/-- C9: `notify_waits(c)`. With no pending wait it changes nothing and schedules nothing. With
a pending single `Wait(r)`: if `c = r` it clears `pending_waits`, removes (the first
occurrence of) `r` from `completed_reqs` and schedules exactly one `MPI_OP_GET_NEXT`; if `c`
differs from `r` it changes nothing and schedules nothing. -/
theorem notify_waits_single_wait (s : nw_state) (lp : tw_lp) (c : Int) :
    (s.pending_waits = none → notify_waits s lp c = some (s, lp)) ∧
    (∀ w, s.pending_waits = some w → w.mpi_op.op_type = CODES_NW_WAIT →
      (w.mpi_op.wait_req_id = c →
        ∃ s1 lp1, notify_waits s lp c = some (s1, lp1) ∧
          s1.pending_waits = none ∧
          s1.completed_reqs = s.completed_reqs.erase c ∧
          lp1.get_next_events = lp.get_next_events + 1) ∧
      (w.mpi_op.wait_req_id ≠ c → notify_waits s lp c = some (s, lp))) := by
  refine ⟨fun h => by simp [notify_waits, h], ?_⟩
  intro w hw hop
  refine ⟨fun hc => ?_, fun hc => by simp [notify_waits, hw, hop, hc]⟩
  simp only [notify_waits, hw, hop, hc, if_true]
  exact ⟨_, _, rfl, rfl, remove_req_id_eq_erase _ _, rfl⟩

theorem notify_waits_returns (s : nw_state) (lp : tw_lp) (c : Int)
    (h : waitsome_uncounted s) :
    ∃ s1 lp1, notify_waits s lp c = some (s1, lp1) ∧
      (lp1 = lp ∨
        (lp1 = codes_issue_next_event lp ∧ s.pending_waits ≠ none ∧ s1.pending_waits = none)) := by
  cases hp : s.pending_waits with
  | none => exact ⟨s, lp, by simp [notify_waits, hp], Or.inl rfl⟩
  | some w =>
    by_cases h1 : w.mpi_op.op_type = CODES_NW_WAIT
    · by_cases h2 : w.mpi_op.wait_req_id = c
      · simp only [notify_waits, hp, h1, h2, if_true]
        exact ⟨_, _, rfl, Or.inr ⟨rfl, by simp, rfl⟩⟩
      · simp only [notify_waits, hp, h1, h2, if_true, if_false]
        exact ⟨_, _, rfl, Or.inl rfl⟩
    · by_cases h2 : w.mpi_op.op_type = CODES_NW_WAITALL ∨ w.mpi_op.op_type = CODES_NW_WAITSOME
      · by_cases h3 : (w.mpi_op.op_type = CODES_NW_WAITALL ∧
            w.num_completed + count_req_id w.mpi_op.req_ids c = (w.mpi_op.req_ids.length : Int)) ∨
            (w.mpi_op.op_type = CODES_NW_WAITSOME ∧
              w.num_completed + count_req_id w.mpi_op.req_ids c > 0)
        · have hbound : (w.num_completed + count_req_id w.mpi_op.req_ids c).toNat
              ≤ w.mpi_op.req_ids.length := by
            have hle := count_req_id_le_length w.mpi_op.req_ids c
            rcases h3 with ⟨_, h3⟩ | ⟨h3, _⟩
            · omega
            · have := h w hp h3
              omega
          simp only [notify_waits, hp, h1, h2, h3, if_true, if_false,
            remove_first_req_ids_eq _ _ _ hbound, Option.map_some']
          exact ⟨_, _, rfl, Or.inr ⟨rfl, by simp, rfl⟩⟩
        · simp only [notify_waits, hp, h1, h2, h3, if_true, if_false]
          exact ⟨_, _, rfl, Or.inl rfl⟩
      · simp only [notify_waits, hp, h1, h2, if_false]
        exact ⟨_, _, rfl, Or.inl rfl⟩

/-- C10: `update_send_completion_queue`, the handler of `MPI_SEND_POSTED`. For an `ISend` the
send's request id is put into `completed_reqs` and `notify_waits` is called with it, and the
handler returns what that call returns: either nothing is scheduled, or one
`MPI_OP_GET_NEXT` is scheduled and the notification has satisfied the pending wait (there was
one and it is cleared). For a blocking `Send` exactly one `MPI_OP_GET_NEXT` is scheduled and the
LP state, `completed_reqs` and `pending_waits` included, is unchanged. -/
theorem update_send_completion_queue_outcomes (s : nw_state) (m : nw_message) (lp : tw_lp)
    (h : waitsome_uncounted s) :
    (m.op.op_type = CODES_NW_ISEND →
      ∃ s1 lp1, update_send_completion_queue s m lp = some (s1, lp1) ∧
        notify_waits { s with completed_reqs := m.op.req_id :: s.completed_reqs } lp m.op.req_id
          = some (s1, lp1) ∧
        (lp1.get_next_events = lp.get_next_events ∨
          (lp1.get_next_events = lp.get_next_events + 1 ∧ s.pending_waits ≠ none ∧
            s1.pending_waits = none))) ∧
    (m.op.op_type = CODES_NW_SEND →
      update_send_completion_queue s m lp = some (s, codes_issue_next_event lp) ∧
      (codes_issue_next_event lp).get_next_events = lp.get_next_events + 1) := by
  constructor
  · intro hop
    obtain ⟨s1, lp1, hn, hcases⟩ := notify_waits_returns
      { s with completed_reqs := m.op.req_id :: s.completed_reqs } lp m.op.req_id h
    refine ⟨s1, lp1, ?_, hn, ?_⟩
    · simp [update_send_completion_queue, hop, mpi_completed_queue_insert_op, hn]
    · rcases hcases with h1 | ⟨h1, h2, h3⟩
      · exact Or.inl (by rw [h1])
      · exact Or.inr ⟨by rw [h1]; rfl, h2, h3⟩
  · intro hop
    exact ⟨by simp [update_send_completion_queue, hop], rfl⟩

/-- The completion theorem at an LP suspended on `Wait(4)` that receives `MPI_SEND_POSTED` for
its `ISend` with request `4`. -/
theorem update_send_completion_queue_outcomes_witness :
    waitsome_uncounted { state0 with
      pending_waits := some { mpi_op := mk_wait 4, num_completed := 0, start_time := 0 } } ∧
    (((mk_msg MPI_NW_EVENTS.MPI_SEND_POSTED (mk_send true 0 7 100 4)).op.op_type
        = CODES_NW_ISEND →
      ∃ s1 lp1,
        update_send_completion_queue
          { state0 with
            pending_waits := some { mpi_op := mk_wait 4, num_completed := 0, start_time := 0 } }
          (mk_msg MPI_NW_EVENTS.MPI_SEND_POSTED (mk_send true 0 7 100 4)) lp0
          = some (s1, lp1) ∧
        notify_waits state_wait_pending lp0 4 = some (s1, lp1) ∧
        (lp1.get_next_events = lp0.get_next_events ∨
          (lp1.get_next_events = lp0.get_next_events + 1 ∧
            (some { mpi_op := mk_wait 4, num_completed := 0, start_time := 0 } :
              Option pending_waits) ≠ none ∧
            s1.pending_waits = none))) ∧
    ((mk_msg MPI_NW_EVENTS.MPI_SEND_POSTED (mk_send true 0 7 100 4)).op.op_type
        = CODES_NW_SEND →
      update_send_completion_queue
        { state0 with
          pending_waits := some { mpi_op := mk_wait 4, num_completed := 0, start_time := 0 } }
        (mk_msg MPI_NW_EVENTS.MPI_SEND_POSTED (mk_send true 0 7 100 4)) lp0
        = some ({ state0 with
            pending_waits := some { mpi_op := mk_wait 4, num_completed := 0, start_time := 0 } },
          codes_issue_next_event lp0) ∧
      (codes_issue_next_event lp0).get_next_events = lp0.get_next_events + 1)) :=
  ⟨by decide,
    update_send_completion_queue_outcomes
      { state0 with
        pending_waits := some { mpi_op := mk_wait 4, num_completed := 0, start_time := 0 } }
      (mk_msg MPI_NW_EVENTS.MPI_SEND_POSTED (mk_send true 0 7 100 4)) lp0 (by decide)⟩

/-! ### The event dispatcher and the scenarios -/

/-- C11: executing a `Waitany` through `get_next_mpi_operation` schedules exactly one
`MPI_OP_GET_NEXT` and leaves the whole LP state as it was (`completed_reqs`, `pending_waits`,
both queues and every counter), whatever `completed_reqs` holds; no network call is made. -/
theorem get_next_waitany_frame (cfg : net_config) (mpi_op : mpi_event_list) (s : nw_state)
    (m : nw_message) (lp : tw_lp) (h : mpi_op.op_type = CODES_NW_WAITANY) :
    ∃ r, get_next_mpi_operation cfg mpi_op s m lp = some r ∧
      r.s = s ∧ r.net = none ∧
      r.lp.get_next_events = lp.get_next_events + 1 ∧
      r.s.completed_reqs = s.completed_reqs ∧ r.s.pending_waits = s.pending_waits ∧
      r.s.arrival_queue = s.arrival_queue ∧ r.s.pending_recvs_queue = s.pending_recvs_queue ∧
      r.s.num_wait = s.num_wait ∧ r.s.num_waitall = s.num_waitall ∧
      r.s.num_waitsome = s.num_waitsome := by
  refine ⟨{ s := s, m := { m with op := mpi_op }, lp := codes_issue_next_event lp, net := none },
    ?_, rfl, rfl, rfl, rfl, rfl, rfl, rfl, rfl, rfl, rfl⟩
  simp [get_next_mpi_operation, h, codes_exec_mpi_col]

/-- The frame theorem at `Waitany([1, 2])` executed while request `2` is in
`completed_reqs`. -/
theorem get_next_waitany_frame_witness :
    (mk_waits CODES_NW_WAITANY [1, 2]).op_type = CODES_NW_WAITANY ∧
    ∃ r, get_next_mpi_operation cfg0 (mk_waits CODES_NW_WAITANY [1, 2])
        { state0 with completed_reqs := [2] } (mk_msg MPI_NW_EVENTS.MPI_OP_GET_NEXT op0) lp0
        = some r ∧
      r.s = { state0 with completed_reqs := [2] } ∧ r.net = none ∧
      r.lp.get_next_events = lp0.get_next_events + 1 ∧
      r.s.completed_reqs = [2] ∧ r.s.pending_waits = none ∧
      r.s.arrival_queue = queue_init ∧ r.s.pending_recvs_queue = queue_init ∧
      r.s.num_wait = 0 ∧ r.s.num_waitall = 0 ∧ r.s.num_waitsome = 0 :=
  ⟨rfl, get_next_waitany_frame cfg0 (mk_waits CODES_NW_WAITANY [1, 2])
    { state0 with completed_reqs := [2] } (mk_msg MPI_NW_EVENTS.MPI_OP_GET_NEXT op0) lp0 rfl⟩

theorem deliver_arrival_unmatched (cfg : net_config) (p : nw_state × tw_lp) (now : tw_stime)
    (S : mpi_event_list) (hq : p.1.pending_recvs_queue.queue = []) :
    ∃ p1, deliver cfg p now (lp_event.send_arrived S) = some p1 ∧
      p1.1.arrival_queue = mpi_pending_queue_insert_op p.1.arrival_queue S ∧
      p1.1.pending_recvs_queue = p.1.pending_recvs_queue ∧
      p1.1.completed_reqs = p.1.completed_reqs ∧
      p1.1.pending_waits = p.1.pending_waits ∧
      p1.2.get_next_events = p.2.get_next_events := by
  simp [deliver, nw_test_event_handler, mk_msg, update_arrival_queue,
    mpi_queue_remove_matching_op, hq]

theorem deliver_irecv_unmatched (cfg : net_config) (p : nw_state × tw_lp) (now : tw_stime)
    (R : mpi_event_list) (hR : R.op_type = CODES_NW_IRECV)
    (hq : p.1.arrival_queue.queue = []) :
    ∃ p1, deliver cfg p now (lp_event.get_next R) = some p1 ∧
      p1.1.arrival_queue = p.1.arrival_queue ∧
      p1.1.pending_recvs_queue =
        mpi_pending_queue_insert_op p.1.pending_recvs_queue { R with sim_start_time := now } ∧
      p1.1.completed_reqs = p.1.completed_reqs ∧
      p1.1.pending_waits = p.1.pending_waits ∧
      p1.2.get_next_events = p.2.get_next_events + 1 := by
  simp [deliver, nw_test_event_handler, mk_msg, get_next_mpi_operation, hR, codes_exec_mpi_recv,
    mpi_queue_remove_matching_op, hq, codes_issue_next_event]

theorem deliver_irecv_head_match (cfg : net_config) (p : nw_state × tw_lp) (now : tw_stime)
    (R S : mpi_event_list) (rest : List mpi_event_list) (hR : R.op_type = CODES_NW_IRECV)
    (hS : is_send_op S) (hm : matching_predicate R S)
    (hq : p.1.arrival_queue.queue = S :: rest) :
    ∃ p1, deliver cfg p now (lp_event.get_next R) = some p1 ∧
      p1.1.arrival_queue =
        { num_elems := p.1.arrival_queue.num_elems - 1, queue := rest } ∧
      p1.1.pending_recvs_queue = p.1.pending_recvs_queue ∧
      p1.1.completed_reqs = R.req_id :: p.1.completed_reqs ∧
      p1.1.pending_waits = p.1.pending_waits ∧
      p1.2.get_next_events = p.2.get_next_events + 1 := by
  have hS1 : S.op_type = CODES_NW_SEND ∨ S.op_type = CODES_NW_ISEND := hS
  have hS2 : ¬ S.op_type = CODES_NW_RECV := send_not_recv_type S hS
  have hm1 : R.num_bytes ≥ S.num_bytes ∧ (R.tag = S.tag ∨ R.tag = -1) ∧
      (R.source_rank = S.source_rank ∨ R.source_rank = -1) := hm
  simp [deliver, nw_test_event_handler, mk_msg, get_next_mpi_operation, hR, codes_exec_mpi_recv,
    mpi_queue_remove_matching_op, hq, codes_issue_next_event, match_receive, hS1, hS2, hm1,
    mpi_completed_queue_insert_op]

theorem deliver_arrival_head_irecv (cfg : net_config) (p : nw_state × tw_lp) (now : tw_stime)
    (R S : mpi_event_list) (rest : List mpi_event_list) (hR : R.op_type = CODES_NW_IRECV)
    (hS : is_send_op S) (hm : matching_predicate R S)
    (hq : p.1.pending_recvs_queue.queue = R :: rest) (hp : p.1.pending_waits = none) :
    ∃ p1, deliver cfg p now (lp_event.send_arrived S) = some p1 ∧
      p1.1.arrival_queue = p.1.arrival_queue ∧
      p1.1.pending_recvs_queue =
        { num_elems := p.1.pending_recvs_queue.num_elems - 1, queue := rest } ∧
      p1.1.completed_reqs = R.req_id :: p.1.completed_reqs ∧
      p1.1.pending_waits = none ∧
      p1.2.get_next_events = p.2.get_next_events := by
  have hS1 : S.op_type = CODES_NW_SEND ∨ S.op_type = CODES_NW_ISEND := hS
  have hm1 : R.num_bytes ≥ S.num_bytes ∧ (R.tag = S.tag ∨ R.tag = -1) ∧
      (R.source_rank = S.source_rank ∨ R.source_rank = -1) := hm
  simp [deliver, nw_test_event_handler, mk_msg, update_arrival_queue,
    mpi_queue_remove_matching_op, hq, match_receive, hS1, hR, hm1,
    mpi_completed_queue_insert_op, notify_waits, hp]

theorem deliver_arrival_head_irecv_waited (cfg : net_config) (p : nw_state × tw_lp)
    (now : tw_stime) (R S : mpi_event_list) (rest : List mpi_event_list) (w : pending_waits)
    (hR : R.op_type = CODES_NW_IRECV) (hS : is_send_op S) (hm : matching_predicate R S)
    (hq : p.1.pending_recvs_queue.queue = R :: rest) (hp : p.1.pending_waits = some w)
    (hw : w.mpi_op.op_type = CODES_NW_WAIT) (hwr : w.mpi_op.wait_req_id = R.req_id) :
    ∃ p1, deliver cfg p now (lp_event.send_arrived S) = some p1 ∧
      p1.1.arrival_queue = p.1.arrival_queue ∧
      p1.1.pending_recvs_queue =
        { num_elems := p.1.pending_recvs_queue.num_elems - 1, queue := rest } ∧
      p1.1.completed_reqs = p.1.completed_reqs ∧
      p1.1.pending_waits = none ∧
      p1.2.get_next_events = p.2.get_next_events + 1 := by
  have hS1 : S.op_type = CODES_NW_SEND ∨ S.op_type = CODES_NW_ISEND := hS
  have hm1 : R.num_bytes ≥ S.num_bytes ∧ (R.tag = S.tag ∨ R.tag = -1) ∧
      (R.source_rank = S.source_rank ∨ R.source_rank = -1) := hm
  simp [deliver, nw_test_event_handler, mk_msg, update_arrival_queue,
    mpi_queue_remove_matching_op, hq, match_receive, hS1, hR, hm1,
    mpi_completed_queue_insert_op, notify_waits, hp, hw, hwr, remove_req_id,
    codes_issue_next_event]

theorem deliver_wait_completed (cfg : net_config) (p : nw_state × tw_lp) (now : tw_stime)
    (W : mpi_event_list) (hW : W.op_type = CODES_NW_WAIT)
    (hc : W.wait_req_id ∈ p.1.completed_reqs) :
    ∃ p1, deliver cfg p now (lp_event.get_next W) = some p1 ∧
      p1.1.arrival_queue = p.1.arrival_queue ∧
      p1.1.pending_recvs_queue = p.1.pending_recvs_queue ∧
      p1.1.completed_reqs = p.1.completed_reqs.erase W.wait_req_id ∧
      p1.1.pending_waits = p.1.pending_waits ∧
      p1.2.get_next_events = p.2.get_next_events + 1 := by
  have hs : search_completed_reqs p.1.completed_reqs W.wait_req_id = true :=
    (search_completed_reqs_iff _ _).mpr hc
  simp [deliver, nw_test_event_handler, mk_msg, get_next_mpi_operation, hW, codes_exec_mpi_wait,
    hs, remove_req_id_eq_erase, codes_issue_next_event]

theorem deliver_wait_suspends (cfg : net_config) (p : nw_state × tw_lp) (now : tw_stime)
    (W : mpi_event_list) (hW : W.op_type = CODES_NW_WAIT)
    (hc : W.wait_req_id ∉ p.1.completed_reqs) :
    ∃ p1, deliver cfg p now (lp_event.get_next W) = some p1 ∧
      p1.1.arrival_queue = p.1.arrival_queue ∧
      p1.1.pending_recvs_queue = p.1.pending_recvs_queue ∧
      p1.1.completed_reqs = p.1.completed_reqs ∧
      p1.1.pending_waits = some { mpi_op := W, num_completed := 0,
                                  start_time := ((to_unsigned_long now : Nat) : tw_stime) } ∧
      p1.2.get_next_events = p.2.get_next_events := by
  have hs : ¬ search_completed_reqs p.1.completed_reqs W.wait_req_id = true :=
    fun h => hc ((search_completed_reqs_iff _ _).mp h)
  simp [deliver, nw_test_event_handler, mk_msg, get_next_mpi_operation, hW, codes_exec_mpi_wait,
    hs]

theorem deliver_isend (cfg : net_config) (p : nw_state × tw_lp) (now : tw_stime)
    (I : mpi_event_list) (hI : I.op_type = CODES_NW_ISEND)
    (hcfg : cfg.is_dragonfly = true → cfg.num_nw_lps ≠ 0) :
    ∃ p1, deliver cfg p now (lp_event.get_next I) = some p1 ∧
      p1.1.arrival_queue = p.1.arrival_queue ∧
      p1.1.pending_recvs_queue = p.1.pending_recvs_queue ∧
      p1.1.completed_reqs = p.1.completed_reqs ∧
      p1.1.pending_waits = p.1.pending_waits ∧
      p1.2.get_next_events = p.2.get_next_events + 1 := by
  by_cases hd : cfg.is_dragonfly = true
  · simp [deliver, nw_test_event_handler, mk_msg, get_next_mpi_operation, hI,
      codes_exec_mpi_send, hd, hcfg hd, codes_issue_next_event]
  · simp [deliver, nw_test_event_handler, mk_msg, get_next_mpi_operation, hI,
      codes_exec_mpi_send, hd, codes_issue_next_event]

theorem deliver_posted_isend (cfg : net_config) (p : nw_state × tw_lp) (now : tw_stime)
    (I : mpi_event_list) (hI : I.op_type = CODES_NW_ISEND) (hp : p.1.pending_waits = none) :
    ∃ p1, deliver cfg p now (lp_event.send_posted I) = some p1 ∧
      p1.1.arrival_queue = p.1.arrival_queue ∧
      p1.1.pending_recvs_queue = p.1.pending_recvs_queue ∧
      p1.1.completed_reqs = I.req_id :: p.1.completed_reqs ∧
      p1.1.pending_waits = none ∧
      p1.2.get_next_events = p.2.get_next_events := by
  simp [deliver, nw_test_event_handler, mk_msg, update_send_completion_queue, hI,
    mpi_completed_queue_insert_op, notify_waits, hp]

theorem deliver_posted_isend_waited (cfg : net_config) (p : nw_state × tw_lp) (now : tw_stime)
    (I : mpi_event_list) (w : pending_waits) (hI : I.op_type = CODES_NW_ISEND)
    (hp : p.1.pending_waits = some w) (hw : w.mpi_op.op_type = CODES_NW_WAIT)
    (hwr : w.mpi_op.wait_req_id = I.req_id) :
    ∃ p1, deliver cfg p now (lp_event.send_posted I) = some p1 ∧
      p1.1.arrival_queue = p.1.arrival_queue ∧
      p1.1.pending_recvs_queue = p.1.pending_recvs_queue ∧
      p1.1.completed_reqs = p.1.completed_reqs ∧
      p1.1.pending_waits = none ∧
      p1.2.get_next_events = p.2.get_next_events + 1 := by
  simp [deliver, nw_test_event_handler, mk_msg, update_send_completion_queue, hI,
    mpi_completed_queue_insert_op, notify_waits, hp, hw, hwr, remove_req_id,
    codes_issue_next_event]

/-- C12: scenario S1 on an LP whose queues, `completed_reqs` and `pending_waits` are empty.
For each of the three interleavings of `IRecv(req = r)`, `Wait(r)` and the arrival of one
matching send (before the `IRecv`, between the two, after the `Wait`), the run ends with
`completed_reqs`, `pending_waits`, `arrival_queue` and `pending_recvs` empty and with two
`MPI_OP_GET_NEXT` scheduled (one by the `IRecv`, one when the `Wait` completes). For
`ISend(req = r)` then `Wait(r)`, with `MPI_SEND_POSTED` delivered before or after the `Wait`,
the run ends with `completed_reqs` and `pending_waits` empty and two `MPI_OP_GET_NEXT`
scheduled. -/
theorem scenario_s1_interleavings (cfg : net_config) (s : nw_state) (lp : tw_lp)
    (R S W I P : mpi_event_list) (r : Int) (t1 t2 t3 : tw_stime)
    (ha : s.arrival_queue = queue_init) (hpr : s.pending_recvs_queue = queue_init)
    (hc : s.completed_reqs = []) (hpw : s.pending_waits = none)
    (hR : R.op_type = CODES_NW_IRECV) (hRr : R.req_id = r)
    (hS : is_send_op S) (hm : matching_predicate R S)
    (hW : W.op_type = CODES_NW_WAIT) (hWr : W.wait_req_id = r)
    (hI : I.op_type = CODES_NW_ISEND) (hP : P.op_type = CODES_NW_ISEND) (hPr : P.req_id = r)
    (hcfg : cfg.is_dragonfly = true → cfg.num_nw_lps ≠ 0) :
    (∀ script ∈
        [[(t1, lp_event.send_arrived S), (t2, lp_event.get_next R), (t3, lp_event.get_next W)],
         [(t1, lp_event.get_next R), (t2, lp_event.send_arrived S), (t3, lp_event.get_next W)],
         [(t1, lp_event.get_next R), (t2, lp_event.get_next W), (t3, lp_event.send_arrived S)]],
      ∃ s1 lp1, deliver_all cfg script (s, lp) = some (s1, lp1) ∧
        s1.completed_reqs = [] ∧ s1.pending_waits = none ∧
        s1.arrival_queue = queue_init ∧ s1.pending_recvs_queue = queue_init ∧
        lp1.get_next_events = lp.get_next_events + 2) ∧
    (∀ script ∈
        [[(t1, lp_event.get_next I), (t2, lp_event.send_posted P), (t3, lp_event.get_next W)],
         [(t1, lp_event.get_next I), (t2, lp_event.get_next W), (t3, lp_event.send_posted P)]],
      ∃ s1 lp1, deliver_all cfg script (s, lp) = some (s1, lp1) ∧
        s1.completed_reqs = [] ∧ s1.pending_waits = none ∧
        lp1.get_next_events = lp.get_next_events + 2) := by
  have hq0 : queue_init.queue = [] := rfl
  constructor
  · intro script hscript
    simp only [List.mem_cons, List.mem_singleton, List.not_mem_nil, or_false] at hscript
    rcases hscript with rfl | rfl | rfl
    · -- the send arrives first
      obtain ⟨p1, h1, a1, r1, c1, w1, g1⟩ := deliver_arrival_unmatched cfg (s, lp) t1 S
        (by rw [hpr]; rfl)
      obtain ⟨p2, h2, a2, r2, c2, w2, g2⟩ := deliver_irecv_head_match cfg p1 t2 R S [] hR hS hm
        (by rw [a1, ha]; rfl)
      obtain ⟨p3, h3, a3, r3, c3, w3, g3⟩ := deliver_wait_completed cfg p2 t3 W hW
        (by rw [c2, hWr, hRr]; exact List.mem_cons_self _ _)
      refine ⟨p3.1, p3.2, by simp only [deliver_all, h1, h2, h3], ?_, ?_, ?_, ?_, ?_⟩
      · rw [c3, c2, c1, hc, hWr, hRr]; simp
      · rw [w3, w2, w1, hpw]
      · rw [a3, a2, a1, ha]; simp [queue_init, mpi_pending_queue_insert_op]
      · rw [r3, r2, r1, hpr]
      · rw [g3, g2, g1]
    · -- the send arrives between the IRecv and the Wait
      obtain ⟨p1, h1, a1, r1, c1, w1, g1⟩ := deliver_irecv_unmatched cfg (s, lp) t1 R hR
        (by rw [ha]; rfl)
      obtain ⟨p2, h2, a2, r2, c2, w2, g2⟩ := deliver_arrival_head_irecv cfg p1 t2
        { R with sim_start_time := t1 } S [] hR hS hm (by rw [r1, hpr]; rfl) (by rw [w1, hpw])
      obtain ⟨p3, h3, a3, r3, c3, w3, g3⟩ := deliver_wait_completed cfg p2 t3 W hW
        (by rw [c2, hWr]; simp [hRr])
      refine ⟨p3.1, p3.2, by simp only [deliver_all, h1, h2, h3], ?_, ?_, ?_, ?_, ?_⟩
      · rw [c3, c2, c1, hc, hWr]; simp [hRr]
      · rw [w3, w2]
      · rw [a3, a2, a1, ha]
      · rw [r3, r2, r1, hpr]; simp [queue_init, mpi_pending_queue_insert_op]
      · rw [g3, g2, g1]
    · -- the send arrives after the Wait
      obtain ⟨p1, h1, a1, r1, c1, w1, g1⟩ := deliver_irecv_unmatched cfg (s, lp) t1 R hR
        (by rw [ha]; rfl)
      obtain ⟨p2, h2, a2, r2, c2, w2, g2⟩ := deliver_wait_suspends cfg p1 t2 W hW
        (by rw [c1, hc]; simp)
      obtain ⟨p3, h3, a3, r3, c3, w3, g3⟩ := deliver_arrival_head_irecv_waited cfg p2 t3
        { R with sim_start_time := t1 } S [] _ hR hS hm (by rw [r2, r1, hpr]; rfl) w2 hW
        (by simp [hWr, hRr])
      refine ⟨p3.1, p3.2, by simp only [deliver_all, h1, h2, h3], ?_, ?_, ?_, ?_, ?_⟩
      · rw [c3, c2, c1, hc]
      · rw [w3]
      · rw [a3, a2, a1, ha]
      · rw [r3, r2, r1, hpr]; simp [queue_init, mpi_pending_queue_insert_op]
      · rw [g3, g2, g1]
  · intro script hscript
    simp only [List.mem_cons, List.mem_singleton, List.not_mem_nil, or_false] at hscript
    rcases hscript with rfl | rfl
    · obtain ⟨p1, h1, a1, r1, c1, w1, g1⟩ := deliver_isend cfg (s, lp) t1 I hI hcfg
      obtain ⟨p2, h2, a2, r2, c2, w2, g2⟩ := deliver_posted_isend cfg p1 t2 P hP
        (by rw [w1, hpw])
      obtain ⟨p3, h3, a3, r3, c3, w3, g3⟩ := deliver_wait_completed cfg p2 t3 W hW
        (by rw [c2, hWr, hPr]; exact List.mem_cons_self _ _)
      refine ⟨p3.1, p3.2, by simp only [deliver_all, h1, h2, h3], ?_, ?_, ?_⟩
      · rw [c3, c2, c1, hc, hWr, hPr]; simp
      · rw [w3, w2]
      · rw [g3, g2, g1]
    · obtain ⟨p1, h1, a1, r1, c1, w1, g1⟩ := deliver_isend cfg (s, lp) t1 I hI hcfg
      obtain ⟨p2, h2, a2, r2, c2, w2, g2⟩ := deliver_wait_suspends cfg p1 t2 W hW
        (by rw [c1, hc]; simp)
      obtain ⟨p3, h3, a3, r3, c3, w3, g3⟩ := deliver_posted_isend_waited cfg p2 t3 P _ hP w2 hW
        (by simp [hWr, hPr])
      refine ⟨p3.1, p3.2, by simp only [deliver_all, h1, h2, h3], ?_, ?_, ?_⟩
      · rw [c3, c2, c1, hc]
      · rw [w3]
      · rw [g3, g2, g1]

/-- Scenario S1 at request `1`, tag `7`, 100 bytes, with events at times `1`, `2`, `3`. -/
theorem scenario_s1_interleavings_witness :
    state0.arrival_queue = queue_init ∧ state0.pending_recvs_queue = queue_init ∧
    state0.completed_reqs = [] ∧ state0.pending_waits = none ∧
    (mk_recv true 0 7 100 1).op_type = CODES_NW_IRECV ∧ (mk_recv true 0 7 100 1).req_id = 1 ∧
    is_send_op (mk_send true 0 7 100 1) ∧
    matching_predicate (mk_recv true 0 7 100 1) (mk_send true 0 7 100 1) ∧
    (mk_wait 1).op_type = CODES_NW_WAIT ∧ (mk_wait 1).wait_req_id = 1 ∧
    (mk_send true 0 7 100 1).op_type = CODES_NW_ISEND ∧
    (mk_send true 0 7 100 1).req_id = 1 ∧
    (cfg0.is_dragonfly = true → cfg0.num_nw_lps ≠ 0) ∧
    ((∀ script ∈
        [[((1 : tw_stime), lp_event.send_arrived (mk_send true 0 7 100 1)),
          (2, lp_event.get_next (mk_recv true 0 7 100 1)), (3, lp_event.get_next (mk_wait 1))],
         [(1, lp_event.get_next (mk_recv true 0 7 100 1)),
          (2, lp_event.send_arrived (mk_send true 0 7 100 1)), (3, lp_event.get_next (mk_wait 1))],
         [(1, lp_event.get_next (mk_recv true 0 7 100 1)), (2, lp_event.get_next (mk_wait 1)),
          (3, lp_event.send_arrived (mk_send true 0 7 100 1))]],
      ∃ s1 lp1, deliver_all cfg0 script (state0, lp0) = some (s1, lp1) ∧
        s1.completed_reqs = [] ∧ s1.pending_waits = none ∧
        s1.arrival_queue = queue_init ∧ s1.pending_recvs_queue = queue_init ∧
        lp1.get_next_events = lp0.get_next_events + 2) ∧
    (∀ script ∈
        [[((1 : tw_stime), lp_event.get_next (mk_send true 0 7 100 1)),
          (2, lp_event.send_posted (mk_send true 0 7 100 1)), (3, lp_event.get_next (mk_wait 1))],
         [(1, lp_event.get_next (mk_send true 0 7 100 1)), (2, lp_event.get_next (mk_wait 1)),
          (3, lp_event.send_posted (mk_send true 0 7 100 1))]],
      ∃ s1 lp1, deliver_all cfg0 script (state0, lp0) = some (s1, lp1) ∧
        s1.completed_reqs = [] ∧ s1.pending_waits = none ∧
        lp1.get_next_events = lp0.get_next_events + 2)) :=
  ⟨rfl, rfl, rfl, rfl, rfl, rfl, by decide, by decide, rfl, rfl, rfl, rfl, by decide,
    scenario_s1_interleavings cfg0 state0 lp0 (mk_recv true 0 7 100 1) (mk_send true 0 7 100 1)
      (mk_wait 1) (mk_send true 0 7 100 1) (mk_send true 0 7 100 1) 1 1 2 3
      rfl rfl rfl rfl rfl rfl (by decide) (by decide) rfl rfl rfl rfl rfl (by decide)⟩

/-- C13: scenario S2 on an LP whose queues, `completed_reqs` and `pending_waits` are empty.
Two sends `Sa`, `Sb` have the same tag and size, and two `IRecv`s with source `-1`, that tag and
that size are posted as request `r1` then request `r2`. If the receives are posted first, the
arrival of `Sa` removes the first posted receive and completes `r1` (the receive of `r2` stays
posted), and the arrival of `Sb` then completes `r2`. If the sends arrive first, the `IRecv` of
`r1` removes `Sa` (`Sb` stays queued) and completes `r1`, and the `IRecv` of `r2` then removes
`Sb` and completes `r2`. -/
theorem scenario_s2_fifo (cfg : net_config) (s : nw_state) (lp : tw_lp)
    (R1 R2 Sa Sb : mpi_event_list) (tag n : Int) (t1 t2 t3 t4 : tw_stime)
    (ha : s.arrival_queue = queue_init) (hpr : s.pending_recvs_queue = queue_init)
    (hc : s.completed_reqs = []) (hpw : s.pending_waits = none)
    (hR1 : R1.op_type = CODES_NW_IRECV) (hR1s : R1.source_rank = -1) (hR1t : R1.tag = tag)
    (hR1n : R1.num_bytes = n)
    (hR2 : R2.op_type = CODES_NW_IRECV) (hR2s : R2.source_rank = -1) (hR2t : R2.tag = tag)
    (hR2n : R2.num_bytes = n)
    (hSa : is_send_op Sa) (hSat : Sa.tag = tag) (hSan : Sa.num_bytes = n)
    (hSb : is_send_op Sb) (hSbt : Sb.tag = tag) (hSbn : Sb.num_bytes = n) :
    (∃ p2 p3 p4,
      deliver_all cfg [(t1, lp_event.get_next R1), (t2, lp_event.get_next R2)] (s, lp)
        = some p2 ∧
      deliver cfg p2 t3 (lp_event.send_arrived Sa) = some p3 ∧
      p3.1.pending_recvs_queue.queue = [{ R2 with sim_start_time := t2 }] ∧
      p3.1.completed_reqs = [R1.req_id] ∧ p3.1.arrival_queue.queue = [] ∧
      deliver cfg p3 t4 (lp_event.send_arrived Sb) = some p4 ∧
      p4.1.pending_recvs_queue.queue = [] ∧
      p4.1.completed_reqs = [R2.req_id, R1.req_id] ∧ p4.1.arrival_queue.queue = []) ∧
    (∃ p2 p3 p4,
      deliver_all cfg [(t1, lp_event.send_arrived Sa), (t2, lp_event.send_arrived Sb)] (s, lp)
        = some p2 ∧
      p2.1.arrival_queue.queue = [Sa, Sb] ∧
      deliver cfg p2 t3 (lp_event.get_next R1) = some p3 ∧
      p3.1.arrival_queue.queue = [Sb] ∧
      p3.1.completed_reqs = [R1.req_id] ∧ p3.1.pending_recvs_queue.queue = [] ∧
      deliver cfg p3 t4 (lp_event.get_next R2) = some p4 ∧
      p4.1.arrival_queue.queue = [] ∧
      p4.1.completed_reqs = [R2.req_id, R1.req_id] ∧ p4.1.pending_recvs_queue.queue = []) := by
  have hm : ∀ R S : mpi_event_list, R.source_rank = -1 → R.tag = tag → R.num_bytes = n →
      S.tag = tag → S.num_bytes = n → matching_predicate R S := by
    intro R S h1 h2 h3 h4 h5
    exact ⟨by rw [h3, h5], Or.inl (by rw [h2, h4]), Or.inr h1⟩
  constructor
  · obtain ⟨p1, h1, a1, r1, c1, w1, _⟩ := deliver_irecv_unmatched cfg (s, lp) t1 R1 hR1
      (by rw [ha]; rfl)
    obtain ⟨p2, h2, a2, r2, c2, w2, _⟩ := deliver_irecv_unmatched cfg p1 t2 R2 hR2
      (by rw [a1, ha]; rfl)
    have hq2 : p2.1.pending_recvs_queue.queue =
        [{ R1 with sim_start_time := t1 }, { R2 with sim_start_time := t2 }] := by
      rw [r2, r1, hpr]; rfl
    obtain ⟨p3, h3, a3, r3, c3, w3, _⟩ := deliver_arrival_head_irecv cfg p2 t3
      { R1 with sim_start_time := t1 } Sa [{ R2 with sim_start_time := t2 }] hR1 hSa
      (hm _ Sa hR1s hR1t hR1n hSat hSan) hq2 (by rw [w2, w1, hpw])
    obtain ⟨p4, h4, a4, r4, c4, w4, _⟩ := deliver_arrival_head_irecv cfg p3 t4
      { R2 with sim_start_time := t2 } Sb [] hR2 hSb
      (hm _ Sb hR2s hR2t hR2n hSbt hSbn) (by rw [r3]) w3
    refine ⟨p2, p3, p4, by simp only [deliver_all, h1, h2], h3, by rw [r3], ?_, ?_, h4,
      by rw [r4], ?_, ?_⟩
    · rw [c3, c2, c1, hc]
    · rw [a3, a2, a1, ha]; rfl
    · rw [c4, c3, c2, c1, hc]
    · rw [a4, a3, a2, a1, ha]; rfl
  · obtain ⟨p1, h1, a1, r1, c1, w1, _⟩ := deliver_arrival_unmatched cfg (s, lp) t1 Sa
      (by rw [hpr]; rfl)
    obtain ⟨p2, h2, a2, r2, c2, w2, _⟩ := deliver_arrival_unmatched cfg p1 t2 Sb
      (by rw [r1, hpr]; rfl)
    have hq2 : p2.1.arrival_queue.queue = [Sa, Sb] := by
      rw [a2, a1, ha]; rfl
    obtain ⟨p3, h3, a3, r3, c3, w3, _⟩ := deliver_irecv_head_match cfg p2 t3 R1 Sa [Sb] hR1 hSa
      (hm R1 Sa hR1s hR1t hR1n hSat hSan) hq2
    obtain ⟨p4, h4, a4, r4, c4, w4, _⟩ := deliver_irecv_head_match cfg p3 t4 R2 Sb [] hR2 hSb
      (hm R2 Sb hR2s hR2t hR2n hSbt hSbn) (by rw [a3])
    refine ⟨p2, p3, p4, by simp only [deliver_all, h1, h2], hq2, h3, by rw [a3], ?_, ?_, h4,
      by rw [a4], ?_, ?_⟩
    · rw [c3, c2, c1, hc]
    · rw [r3, r2, r1, hpr]; rfl
    · rw [c4, c3, c2, c1, hc]
    · rw [r4, r3, r2, r1, hpr]; rfl

/-- Scenario S2 at tag `3`, 50 bytes, senders `0` and `1`, requests `1` and `2`. -/
theorem scenario_s2_fifo_witness :
    state0.arrival_queue = queue_init ∧ state0.pending_recvs_queue = queue_init ∧
    state0.completed_reqs = [] ∧ state0.pending_waits = none ∧
    (mk_recv true (-1) 3 50 1).op_type = CODES_NW_IRECV ∧
    (mk_recv true (-1) 3 50 1).source_rank = -1 ∧ (mk_recv true (-1) 3 50 1).tag = 3 ∧
    (mk_recv true (-1) 3 50 1).num_bytes = 50 ∧
    (mk_recv true (-1) 3 50 2).op_type = CODES_NW_IRECV ∧
    (mk_recv true (-1) 3 50 2).source_rank = -1 ∧ (mk_recv true (-1) 3 50 2).tag = 3 ∧
    (mk_recv true (-1) 3 50 2).num_bytes = 50 ∧
    is_send_op (mk_send false 0 3 50 (-1)) ∧ (mk_send false 0 3 50 (-1)).tag = 3 ∧
    (mk_send false 0 3 50 (-1)).num_bytes = 50 ∧
    is_send_op (mk_send false 1 3 50 (-1)) ∧ (mk_send false 1 3 50 (-1)).tag = 3 ∧
    (mk_send false 1 3 50 (-1)).num_bytes = 50 ∧
    ((∃ p2 p3 p4,
      deliver_all cfg0 [(1, lp_event.get_next (mk_recv true (-1) 3 50 1)),
          (2, lp_event.get_next (mk_recv true (-1) 3 50 2))] (state0, lp0) = some p2 ∧
      deliver cfg0 p2 3 (lp_event.send_arrived (mk_send false 0 3 50 (-1))) = some p3 ∧
      p3.1.pending_recvs_queue.queue = [{ mk_recv true (-1) 3 50 2 with sim_start_time := 2 }] ∧
      p3.1.completed_reqs = [(mk_recv true (-1) 3 50 1).req_id] ∧
      p3.1.arrival_queue.queue = [] ∧
      deliver cfg0 p3 4 (lp_event.send_arrived (mk_send false 1 3 50 (-1))) = some p4 ∧
      p4.1.pending_recvs_queue.queue = [] ∧
      p4.1.completed_reqs = [(mk_recv true (-1) 3 50 2).req_id,
        (mk_recv true (-1) 3 50 1).req_id] ∧
      p4.1.arrival_queue.queue = []) ∧
    (∃ p2 p3 p4,
      deliver_all cfg0 [(1, lp_event.send_arrived (mk_send false 0 3 50 (-1))),
          (2, lp_event.send_arrived (mk_send false 1 3 50 (-1)))] (state0, lp0) = some p2 ∧
      p2.1.arrival_queue.queue = [mk_send false 0 3 50 (-1), mk_send false 1 3 50 (-1)] ∧
      deliver cfg0 p2 3 (lp_event.get_next (mk_recv true (-1) 3 50 1)) = some p3 ∧
      p3.1.arrival_queue.queue = [mk_send false 1 3 50 (-1)] ∧
      p3.1.completed_reqs = [(mk_recv true (-1) 3 50 1).req_id] ∧
      p3.1.pending_recvs_queue.queue = [] ∧
      deliver cfg0 p3 4 (lp_event.get_next (mk_recv true (-1) 3 50 2)) = some p4 ∧
      p4.1.arrival_queue.queue = [] ∧
      p4.1.completed_reqs = [(mk_recv true (-1) 3 50 2).req_id,
        (mk_recv true (-1) 3 50 1).req_id] ∧
      p4.1.pending_recvs_queue.queue = [])) :=
  ⟨rfl, rfl, rfl, rfl, rfl, rfl, rfl, rfl, rfl, rfl, rfl, rfl, by decide, rfl, rfl, by decide,
    rfl, rfl,
    scenario_s2_fifo cfg0 state0 lp0 (mk_recv true (-1) 3 50 1) (mk_recv true (-1) 3 50 2)
      (mk_send false 0 3 50 (-1)) (mk_send false 1 3 50 (-1)) 3 50 1 2 3 4
      rfl rfl rfl rfl rfl rfl rfl rfl rfl rfl rfl rfl (by decide) rfl rfl (by decide) rfl rfl⟩

/-! ### The trace buffer -/

theorem store_op_of_lt (a : List codes_workload_op) (i : Nat) (v : codes_workload_op)
    (h : i < a.length) : store_op a i v = some (a.set i v) := by
  simp [store_op, h]

theorem realloc_ops_length (a : List codes_workload_op) (n : Nat) (h : a.length ≤ n) :
    (realloc_ops a n).length = n := by
  simp [realloc_ops]; omega

theorem stamp_and_push_spec (t : dumpi_op_data_array) (mpi_op : codes_workload_op)
    (hlen : t.prev_ops_stack.length = t.prev_ops_stack_size)
    (htop : t.prev_ops_stack_top ≤ t.prev_ops_stack_size) (hpos : 0 < t.prev_ops_stack_size) :
    ∃ st sz, stamp_and_push t mpi_op =
        Except.ok ({ t with
                      sequence_id := (t.sequence_id + 1) % 2 ^ 64,
                      prev_ops_stack := st, prev_ops_stack_size := sz,
                      prev_ops_stack_top := t.prev_ops_stack_top + 1 },
                   { mpi_op with sequence_id := t.sequence_id }) ∧
      st.length = sz ∧ t.prev_ops_stack_top + 1 ≤ sz ∧ 0 < sz ∧
      st.get? t.prev_ops_stack_top = some { mpi_op with sequence_id := t.sequence_id } := by
  by_cases hfull : t.prev_ops_stack_top = t.prev_ops_stack_size
  · have hl : (realloc_ops t.prev_ops_stack (2 * t.prev_ops_stack_size)).length
        = 2 * t.prev_ops_stack_size := realloc_ops_length _ _ (by omega)
    refine ⟨(realloc_ops t.prev_ops_stack (2 * t.prev_ops_stack_size)).set t.prev_ops_stack_top
      { mpi_op with sequence_id := t.sequence_id }, t.prev_ops_stack_size * 2, ?_, ?_, ?_, ?_, ?_⟩
    · simp only [stamp_and_push, hfull, if_true]
      rw [store_op_of_lt _ _ _ (by rw [hl]; omega)]
    · rw [List.length_set, hl]; omega
    · omega
    · omega
    · rw [List.get?_eq_getElem?, List.getElem?_set_self (by rw [hl]; omega)]
  · refine ⟨t.prev_ops_stack.set t.prev_ops_stack_top
      { mpi_op with sequence_id := t.sequence_id }, t.prev_ops_stack_size, ?_, ?_, ?_, ?_, ?_⟩
    · simp only [stamp_and_push, hfull, if_false]
      rw [store_op_of_lt _ _ _ (by omega)]
    · rw [List.length_set, hlen]
    · omega
    · omega
    · rw [List.get?_eq_getElem?, List.getElem?_set_self (by omega)]

theorem memcpy_ops_overflow (a : List codes_workload_op) (s first : Nat)
    (hlen : a.length = s * 2) (hfirst : first < s) :
    memcpy_ops a (s - first + s) (s - first) s = none := by
  have : ¬ (s - first + s ≤ a.length ∧ s - first + s + s ≤ a.length) := by
    rw [hlen]; omega
  simp [memcpy_ops, this]

theorem grow_next_ops_queue_wf (t t1 : dumpi_op_data_array) (h : buffer_wf t)
    (hg : grow_next_ops_queue t = Except.ok t1) :
    buffer_wf t1 ∧ t1.next_ops_queue_count < t1.next_ops_queue_size ∧
    t1.next_ops_queue_count = t.next_ops_queue_count ∧
    t1.next_ops_queue_last = t.next_ops_queue_last ∧
    t1.prev_ops_stack = t.prev_ops_stack ∧ t1.prev_ops_stack_size = t.prev_ops_stack_size ∧
    t1.prev_ops_stack_top = t.prev_ops_stack_top ∧ t1.sequence_id = t.sequence_id ∧
    t1.finalize_reached = t.finalize_reached ∧ t1.active = t.active := by
  obtain ⟨h1, h2, h3, h4, h5, h6, h7, h8⟩ := h
  by_cases hfull : t.next_ops_queue_size = t.next_ops_queue_count
  · have hl : (realloc_ops t.next_ops_queue (t.next_ops_queue_size * 2)).length
        = t.next_ops_queue_size * 2 := realloc_ops_length _ _ (by omega)
    by_cases hfl : t.next_ops_queue_first ≥ t.next_ops_queue_last
    · have hle : t.next_ops_queue_first ≤ t.next_ops_queue_size := by omega
      simp only [grow_next_ops_queue, hfull, if_true, hfl] at hg
      rw [← hfull] at hg
      simp only [hle, if_true, memcpy_ops_overflow _ _ _ hl h4] at hg
      exact absurd hg (by simp)
    · simp only [grow_next_ops_queue, hfull, if_true, hfl, if_false] at hg
      cases hg
      refine ⟨⟨?_, ?_, ?_, ?_, ?_, h6, h7, h8⟩, ?_, rfl, rfl, rfl, rfl, rfl, rfl, rfl, rfl⟩
      · show (realloc_ops _ _).length = _
        rw [← hfull, hl]
      · show 0 < t.next_ops_queue_count * 2
        omega
      · show t.next_ops_queue_count ≤ t.next_ops_queue_count * 2
        omega
      · show t.next_ops_queue_first < t.next_ops_queue_count * 2
        omega
      · show t.next_ops_queue_last < t.next_ops_queue_count * 2
        omega
      · show t.next_ops_queue_count < t.next_ops_queue_count * 2
        omega
  · simp only [grow_next_ops_queue, hfull, if_false] at hg
    cases hg
    exact ⟨⟨h1, h2, h3, h4, h5, h6, h7, h8⟩, by omega, rfl, rfl, rfl, rfl, rfl, rfl, rfl, rfl⟩

theorem grow_next_ops_queue_of_lt (t : dumpi_op_data_array)
    (h : t.next_ops_queue_count < t.next_ops_queue_size) :
    grow_next_ops_queue t = Except.ok t := by
  have : ¬ t.next_ops_queue_size = t.next_ops_queue_count := by omega
  simp [grow_next_ops_queue, this]

theorem dumpi_insert_next_op_of_lt (t : dumpi_op_data_array) (op : codes_workload_op)
    (hlen : t.next_ops_queue.length = t.next_ops_queue_size)
    (hlast : t.next_ops_queue_last < t.next_ops_queue_size)
    (hcount : t.next_ops_queue_count < t.next_ops_queue_size) :
    dumpi_insert_next_op t op =
      Except.ok { t with
        next_ops_queue := t.next_ops_queue.set t.next_ops_queue_last op,
        next_ops_queue_last := (t.next_ops_queue_last + 1) % t.next_ops_queue_size,
        next_ops_queue_count := t.next_ops_queue_count + 1 } := by
  have hz : ¬ t.next_ops_queue_size = 0 := by omega
  simp only [dumpi_insert_next_op, grow_next_ops_queue_of_lt t hcount]
  rw [store_op_of_lt _ _ _ (by omega)]
  simp only [hz, if_false]

theorem dumpi_insert_next_op_wf (t t1 : dumpi_op_data_array) (op : codes_workload_op)
    (h : buffer_wf t) (hi : dumpi_insert_next_op t op = Except.ok t1) :
    buffer_wf t1 ∧ 0 < t1.next_ops_queue_count ∧
    t1.prev_ops_stack = t.prev_ops_stack ∧ t1.prev_ops_stack_size = t.prev_ops_stack_size ∧
    t1.prev_ops_stack_top = t.prev_ops_stack_top ∧ t1.sequence_id = t.sequence_id ∧
    t1.finalize_reached = t.finalize_reached ∧ t1.active = t.active := by
  cases hg : grow_next_ops_queue t with
  | error e => simp [dumpi_insert_next_op, hg] at hi
  | ok t0 =>
    obtain ⟨⟨h1, h2, h3, h4, h5, h6, h7, h8⟩, hlt, _, _, e1, e2, e3, e4, e5, e6⟩ :=
      grow_next_ops_queue_wf t t0 h hg
    have hz : ¬ t0.next_ops_queue_size = 0 := by omega
    simp only [dumpi_insert_next_op, hg] at hi
    rw [store_op_of_lt _ _ _ (by omega)] at hi
    simp only [hz, if_false] at hi
    cases hi
    refine ⟨⟨?_, h2, ?_, h4, ?_, h6, h7, h8⟩, ?_, e1, e2, e3, e4, e5, e6⟩
    · show (t0.next_ops_queue.set _ _).length = _
      rw [List.length_set, h1]
    · show t0.next_ops_queue_count + 1 ≤ t0.next_ops_queue_size
      omega
    · show (t0.next_ops_queue_last + 1) % t0.next_ops_queue_size < t0.next_ops_queue_size
      exact Nat.mod_lt _ h2
    · show 0 < t0.next_ops_queue_count + 1
      omega

theorem insert_all_wf (ops : List codes_workload_op) :
    ∀ (t t1 : dumpi_op_data_array), buffer_wf t → insert_all t ops = Except.ok t1 →
      buffer_wf t1 ∧ (ops ≠ [] → 0 < t1.next_ops_queue_count) ∧
      (ops = [] → t1 = t) ∧
      t1.prev_ops_stack = t.prev_ops_stack ∧ t1.prev_ops_stack_size = t.prev_ops_stack_size ∧
      t1.prev_ops_stack_top = t.prev_ops_stack_top ∧ t1.sequence_id = t.sequence_id ∧
      t1.finalize_reached = t.finalize_reached ∧ t1.active = t.active := by
  induction ops with
  | nil =>
    intro t t1 h hi
    simp only [insert_all] at hi
    cases hi
    exact ⟨h, fun hc => absurd rfl hc, fun _ => rfl, rfl, rfl, rfl, rfl, rfl, rfl⟩
  | cons op rest ih =>
    intro t t1 h hi
    cases h1 : dumpi_insert_next_op t op with
    | error e => simp [insert_all, h1] at hi
    | ok t0 =>
      simp only [insert_all, h1] at hi
      obtain ⟨hwf0, hpos0, a1, a2, a3, a4, a5, a6⟩ := dumpi_insert_next_op_wf t t0 op h h1
      obtain ⟨hwf1, _, hnil, b1, b2, b3, b4, b5, b6⟩ := ih t0 t1 hwf0 hi
      refine ⟨hwf1, fun _ => ?_, fun hc => absurd hc (by simp), b1.trans a1, b2.trans a2,
        b3.trans a3, b4.trans a4, b5.trans a5, b6.trans a6⟩
      cases rest with
      | nil => rw [hnil rfl]; exact hpos0
      | cons op2 rest2 => exact (ih t0 t1 hwf0 hi).2.1 (by simp)

theorem remove_next_op_retry_exhausted (mpi_op : codes_workload_op) (calls : List dumpi_call)
    (t : dumpi_op_data_array) (nread : Nat) (hc : t.next_ops_queue_count = 0)
    (ha : ¬ (t.active ≠ 0 ∧ t.finalize_reached = 0)) :
    remove_next_op_retry mpi_op calls t nread =
      match stamp_and_push t { mpi_op with op_type := CODES_WK_END } with
      | Except.error e => Except.error e
      | Except.ok r => Except.ok (calls, r.1, nread, r.2) := by
  cases calls <;> (unfold remove_next_op_retry; rw [if_pos hc, if_neg ha])

theorem remove_next_op_retry_end_of_trace (mpi_op : codes_workload_op)
    (t : dumpi_op_data_array) (nread : Nat) (hc : t.next_ops_queue_count = 0)
    (ha : t.active ≠ 0 ∧ t.finalize_reached = 0) :
    remove_next_op_retry mpi_op [] t nread =
      match stamp_and_push { t with active := 0 } { mpi_op with op_type := CODES_WK_END } with
      | Except.error e => Except.error e
      | Except.ok r => Except.ok ([], r.1, nread + 1, r.2) := by
  unfold remove_next_op_retry; rw [if_pos hc, if_pos ha]

theorem remove_next_op_retry_read (mpi_op : codes_workload_op) (c : dumpi_call)
    (rest : List dumpi_call) (t : dumpi_op_data_array) (nread : Nat)
    (hc : t.next_ops_queue_count = 0) (ha : t.active ≠ 0 ∧ t.finalize_reached = 0) :
    remove_next_op_retry mpi_op (c :: rest) t nread =
      match insert_all t c.ops with
      | Except.error e => Except.error e
      | Except.ok t1 =>
        remove_next_op_retry { mpi_op with op_type := CODES_WK_END } rest
          { t1 with
            finalize_reached := if c.finalize = true then 1 else t1.finalize_reached,
            active := if c.active = true then 1 else 0 }
          (nread + 1) := by
  rw [remove_next_op_retry, if_pos hc, if_pos ha]

theorem remove_next_op_retry_pop (mpi_op : codes_workload_op) (calls : List dumpi_call)
    (t : dumpi_op_data_array) (nread : Nat) (hc : ¬ t.next_ops_queue_count = 0) :
    remove_next_op_retry mpi_op calls t nread =
      match t.next_ops_queue.get? t.next_ops_queue_first with
      | none => Except.error (dumpi_failure.undefined_behaviour, t)
      | some op =>
        match stamp_and_push
            { t with
              next_ops_queue_first :=
                if t.next_ops_queue_first + 1 = t.next_ops_queue_size then 0
                else t.next_ops_queue_first + 1,
              next_ops_queue_count := t.next_ops_queue_count - 1 } op with
        | Except.error e => Except.error e
        | Except.ok r => Except.ok (calls, r.1, nread, r.2) := by
  cases calls <;> (unfold remove_next_op_retry; rw [if_neg hc])

theorem stamp_and_push_wf (t t1 : dumpi_op_data_array) (mpi_op op : codes_workload_op)
    (h : buffer_wf t) (hlt : t.next_ops_queue_count < t.next_ops_queue_size)
    (hs : stamp_and_push t mpi_op = Except.ok (t1, op)) :
    buffer_wf t1 ∧ t1.next_ops_queue_count < t1.next_ops_queue_size ∧
    op = { mpi_op with sequence_id := t.sequence_id } ∧
    t1.sequence_id = (t.sequence_id + 1) % 2 ^ 64 ∧
    t1.prev_ops_stack_top = t.prev_ops_stack_top + 1 ∧
    t1.prev_ops_stack.get? t.prev_ops_stack_top = some op ∧
    t1.next_ops_queue = t.next_ops_queue ∧ t1.next_ops_queue_size = t.next_ops_queue_size ∧
    t1.next_ops_queue_count = t.next_ops_queue_count ∧
    t1.next_ops_queue_first = t.next_ops_queue_first ∧
    t1.next_ops_queue_last = t.next_ops_queue_last ∧
    t1.finalize_reached = t.finalize_reached ∧ t1.active = t.active := by
  obtain ⟨h1, h2, h3, h4, h5, h6, h7, h8⟩ := h
  obtain ⟨st, sz, heq, hl, htop, hpos, hget⟩ := stamp_and_push_spec t mpi_op h6 h7 h8
  rw [heq] at hs
  cases hs
  exact ⟨⟨h1, h2, h3, h4, h5, hl, htop, hpos⟩, hlt, rfl, rfl, rfl, hget, rfl, rfl, rfl, rfl, rfl,
    rfl, rfl⟩

theorem stamp_and_push_returns (t : dumpi_op_data_array) (mpi_op : codes_workload_op)
    (h : buffer_wf t) : ∃ t1, stamp_and_push t mpi_op =
      Except.ok (t1, { mpi_op with sequence_id := t.sequence_id }) := by
  obtain ⟨_, _, _, _, _, h6, h7, h8⟩ := h
  obtain ⟨st, sz, heq, _⟩ := stamp_and_push_spec t mpi_op h6 h7 h8
  exact ⟨_, heq⟩

theorem get_next_post_of_stamp (t0 t : dumpi_op_data_array) (mpi_op : codes_workload_op)
    (calls : List dumpi_call) (n0 n : Nat)
    (r : List dumpi_call × dumpi_op_data_array × Nat × codes_workload_op)
    (h : buffer_wf t) (hlt : t.next_ops_queue_count < t.next_ops_queue_size)
    (hseq : t.sequence_id = t0.sequence_id) (htop : t.prev_ops_stack_top = t0.prev_ops_stack_top)
    (hn : n0 ≤ n)
    (hr : (match stamp_and_push t mpi_op with
      | Except.error e => Except.error e
      | Except.ok p => Except.ok (calls, p.1, n, p.2)) = Except.ok r) :
    get_next_post t0 n0 r := by
  cases hs : stamp_and_push t mpi_op with
  | error e => simp [hs] at hr
  | ok p =>
    simp only [hs] at hr
    cases hr
    obtain ⟨w, hlt1, e1, e2, e3, e4, _⟩ := stamp_and_push_wf t p.1 mpi_op p.2 h hlt hs
    exact ⟨w, hlt1, by rw [e1]; exact hseq, by rw [e2, hseq], by rw [e3, htop],
      by rw [← htop]; exact e4, hn⟩

theorem remove_next_op_pop_post (mpi_op : codes_workload_op) (calls : List dumpi_call)
    (t : dumpi_op_data_array) (nread : Nat)
    (r : List dumpi_call × dumpi_op_data_array × Nat × codes_workload_op)
    (h : buffer_wf t) (hc : ¬ t.next_ops_queue_count = 0)
    (hr : remove_next_op_retry mpi_op calls t nread = Except.ok r) :
    get_next_post t nread r := by
  obtain ⟨h1, h2, h3, h4, h5, h6, h7, h8⟩ := h
  have hlt : t.next_ops_queue_first < t.next_ops_queue.length := by omega
  have hg : t.next_ops_queue.get? t.next_ops_queue_first
      = some (t.next_ops_queue[t.next_ops_queue_first]) := by
    rw [List.get?_eq_getElem?, List.getElem?_eq_getElem hlt]
  rw [remove_next_op_retry_pop mpi_op calls t nread hc, hg] at hr
  dsimp only at hr
  have hfirst : (if t.next_ops_queue_first + 1 = t.next_ops_queue_size then 0
      else t.next_ops_queue_first + 1) < t.next_ops_queue_size := by
    by_cases hx : t.next_ops_queue_first + 1 = t.next_ops_queue_size
    · rw [if_pos hx]; exact h2
    · rw [if_neg hx]; omega
  exact get_next_post_of_stamp t
    { t with
      next_ops_queue_first :=
        if t.next_ops_queue_first + 1 = t.next_ops_queue_size then 0
        else t.next_ops_queue_first + 1,
      next_ops_queue_count := t.next_ops_queue_count - 1 }
    _ calls nread nread r
    ⟨h1, h2, by show t.next_ops_queue_count - 1 ≤ t.next_ops_queue_size; omega,
      hfirst, h5, h6, h7, h8⟩
    (by show t.next_ops_queue_count - 1 < t.next_ops_queue_size; omega) rfl rfl
    (Nat.le_refl _) hr

theorem remove_next_op_retry_post (calls : List dumpi_call) :
    ∀ (mpi_op : codes_workload_op) (t : dumpi_op_data_array) (nread : Nat)
      (r : List dumpi_call × dumpi_op_data_array × Nat × codes_workload_op),
      buffer_wf t → remove_next_op_retry mpi_op calls t nread = Except.ok r →
      get_next_post t nread r := by
  induction calls with
  | nil =>
    intro mpi_op t nread r h hr
    have hwf := h
    obtain ⟨h1, h2, h3, h4, h5, h6, h7, h8⟩ := h
    by_cases hc : t.next_ops_queue_count = 0
    · by_cases ha : t.active ≠ 0 ∧ t.finalize_reached = 0
      · rw [remove_next_op_retry_end_of_trace mpi_op t nread hc ha] at hr
        exact get_next_post_of_stamp t { t with active := 0 } _ [] nread (nread + 1) r
          ⟨h1, h2, h3, h4, h5, h6, h7, h8⟩
          (by show t.next_ops_queue_count < t.next_ops_queue_size; omega) rfl rfl
          (Nat.le_succ _) hr
      · rw [remove_next_op_retry_exhausted mpi_op [] t nread hc ha] at hr
        exact get_next_post_of_stamp t t _ [] nread nread r hwf (by omega) rfl rfl
          (Nat.le_refl _) hr
    · exact remove_next_op_pop_post mpi_op [] t nread r hwf hc hr
  | cons c rest ih =>
    intro mpi_op t nread r h hr
    have hwf := h
    obtain ⟨h1, h2, h3, h4, h5, h6, h7, h8⟩ := h
    by_cases hc : t.next_ops_queue_count = 0
    · by_cases ha : t.active ≠ 0 ∧ t.finalize_reached = 0
      · rw [remove_next_op_retry_read mpi_op c rest t nread hc ha] at hr
        cases hi : insert_all t c.ops with
        | error e => simp [hi] at hr
        | ok t1 =>
          simp only [hi] at hr
          obtain ⟨⟨w1, w2, w3, w4, w5, w6, w7, w8⟩, _, _, b1, b2, b3, b4, _, _⟩ :=
            insert_all_wf c.ops t t1 hwf hi
          obtain ⟨w, hlt, e1, e2, e3, e4, e5⟩ := ih _ _ _ r
            (show buffer_wf { t1 with
              finalize_reached := if c.finalize = true then 1 else t1.finalize_reached,
              active := if c.active = true then 1 else 0 } from
              ⟨w1, w2, w3, w4, w5, w6, w7, w8⟩) hr
          refine ⟨w, hlt, ?_, ?_, ?_, ?_, by omega⟩
          · rw [e1]; exact b4
          · rw [e2]; show (t1.sequence_id + 1) % _ = _; rw [b4]
          · rw [e3]; show t1.prev_ops_stack_top + 1 = _; rw [b3]
          · have : t1.prev_ops_stack_top = t.prev_ops_stack_top := b3
            rw [← this]; exact e4
      · rw [remove_next_op_retry_exhausted mpi_op (c :: rest) t nread hc ha] at hr
        exact get_next_post_of_stamp t t _ (c :: rest) nread nread r hwf (by omega) rfl rfl
          (Nat.le_refl _) hr
    · exact remove_next_op_pop_post mpi_op (c :: rest) t nread r hwf hc hr

theorem grow_next_ops_queue_failure (t : dumpi_op_data_array) :
    failure_of (grow_next_ops_queue t) ≠ some dumpi_failure.assertion_failed := by
  unfold grow_next_ops_queue
  split
  · dsimp only
    split
    · split <;> simp [failure_of]
    · simp [failure_of]
  · simp [failure_of]

theorem dumpi_roll_back_prev_op_empty (t : dumpi_op_data_array) (h : t.prev_ops_stack_top = 0) :
    dumpi_roll_back_prev_op t = Except.error (dumpi_failure.assertion_failed, t) := by
  unfold dumpi_roll_back_prev_op
  rw [if_pos h]

theorem dumpi_roll_back_prev_op_of_lt (t : dumpi_op_data_array) (h : buffer_wf t)
    (htop : t.prev_ops_stack_top ≠ 0) (hlt : t.next_ops_queue_count < t.next_ops_queue_size) :
    ∃ q f, dumpi_roll_back_prev_op t =
      Except.ok { t with
        next_ops_queue := q,
        next_ops_queue_first := f,
        next_ops_queue_count := t.next_ops_queue_count + 1,
        prev_ops_stack_top := t.prev_ops_stack_top - 1,
        sequence_id := (t.sequence_id + 2 ^ 64 - 1) % 2 ^ 64 } ∧
      q.length = t.next_ops_queue_size ∧ f < t.next_ops_queue_size := by
  obtain ⟨h1, h2, h3, h4, h5, h6, h7, h8⟩ := h
  have hs : t.prev_ops_stack_top - 1 < t.prev_ops_stack.length := by omega
  have hg : t.prev_ops_stack.get? (t.prev_ops_stack_top - 1)
      = some (t.prev_ops_stack[t.prev_ops_stack_top - 1]) := by
    rw [List.get?_eq_getElem?, List.getElem?_eq_getElem hs]
  have hz : ¬ t.next_ops_queue_size = 0 := by omega
  refine ⟨t.next_ops_queue.set t.next_ops_queue_last (t.prev_ops_stack[t.prev_ops_stack_top - 1]),
    (if t.next_ops_queue_first ≠ 0 then t.next_ops_queue_first - 1
      else t.next_ops_queue_size - 1), ?_, ?_, ?_⟩
  · unfold dumpi_roll_back_prev_op
    rw [if_neg htop, grow_next_ops_queue_of_lt t hlt]
    dsimp only
    rw [hg]
    dsimp only
    rw [store_op_of_lt _ _ _ (by omega)]
    simp only [hz, if_false]
  · rw [List.length_set, h1]
  · by_cases hf : t.next_ops_queue_first ≠ 0
    · rw [if_pos hf]; omega
    · rw [if_neg hf]; omega

theorem dumpi_roll_back_prev_op_wf (t t1 : dumpi_op_data_array) (h : buffer_wf t)
    (hr : dumpi_roll_back_prev_op t = Except.ok t1) :
    buffer_wf t1 ∧ t.prev_ops_stack_top ≠ 0 ∧
    t1.prev_ops_stack_top = t.prev_ops_stack_top - 1 ∧
    t1.sequence_id = (t.sequence_id + 2 ^ 64 - 1) % 2 ^ 64 ∧
    t1.next_ops_queue_count = t.next_ops_queue_count + 1 := by
  have htop : t.prev_ops_stack_top ≠ 0 := by
    intro h0
    rw [dumpi_roll_back_prev_op_empty t h0] at hr
    cases hr
  cases hg : grow_next_ops_queue t with
  | error e =>
    unfold dumpi_roll_back_prev_op at hr
    rw [if_neg htop, hg] at hr
    cases hr
  | ok t0 =>
    obtain ⟨hwf0, hlt0, hc0, _, _, _, ht0, hs0, _⟩ := grow_next_ops_queue_wf t t0 h hg
    have hr0 : dumpi_roll_back_prev_op t0 = Except.ok t1 := by
      rw [← hr]
      unfold dumpi_roll_back_prev_op
      rw [if_neg htop, if_neg (by rw [ht0]; exact htop), hg, grow_next_ops_queue_of_lt t0 hlt0]
    obtain ⟨q, f, he, hq, hf⟩ :=
      dumpi_roll_back_prev_op_of_lt t0 hwf0 (by rw [ht0]; exact htop) hlt0
    rw [he] at hr0
    cases hr0
    obtain ⟨h1, h2, h3, h4, h5, h6, h7, h8⟩ := hwf0
    refine ⟨⟨hq, h2, ?_, hf, h5, h6, ?_, h8⟩, htop, ?_, ?_, ?_⟩
    · show t0.next_ops_queue_count + 1 ≤ t0.next_ops_queue_size
      omega
    · show t0.prev_ops_stack_top - 1 ≤ t0.prev_ops_stack_size
      omega
    · show t0.prev_ops_stack_top - 1 = _
      rw [ht0]
    · show (t0.sequence_id + 2 ^ 64 - 1) % 2 ^ 64 = _
      rw [hs0]
    · show t0.next_ops_queue_count + 1 = _
      rw [hc0]

theorem dumpi_remove_next_op_post (ctx : rank_mpi_context) (mpi_op : codes_workload_op)
    (r : rank_mpi_context × codes_workload_op) (h : buffer_wf ctx.dumpi_mpi_array)
    (hr : dumpi_remove_next_op ctx mpi_op = Except.ok r) :
    buffer_wf r.1.dumpi_mpi_array ∧
    r.1.dumpi_mpi_array.next_ops_queue_count < r.1.dumpi_mpi_array.next_ops_queue_size ∧
    r.2.sequence_id = ctx.dumpi_mpi_array.sequence_id ∧
    r.1.dumpi_mpi_array.sequence_id = (ctx.dumpi_mpi_array.sequence_id + 1) % 2 ^ 64 ∧
    r.1.dumpi_mpi_array.prev_ops_stack_top = ctx.dumpi_mpi_array.prev_ops_stack_top + 1 ∧
    r.1.dumpi_mpi_array.prev_ops_stack.get? ctx.dumpi_mpi_array.prev_ops_stack_top = some r.2 ∧
    ctx.reader_calls ≤ r.1.reader_calls := by
  unfold dumpi_remove_next_op at hr
  cases hq : remove_next_op_retry mpi_op ctx.profile ctx.dumpi_mpi_array ctx.reader_calls with
  | error e => rw [hq] at hr; cases hr
  | ok p =>
    rw [hq] at hr
    cases hr
    exact remove_next_op_retry_post ctx.profile mpi_op ctx.dumpi_mpi_array ctx.reader_calls p h hq

theorem get_next_rc2_post (ctx ctx1 : rank_mpi_context) (h : buffer_wf ctx.dumpi_mpi_array)
    (hr : dumpi_trace_nw_workload_get_next_rc2 ctx = Except.ok ctx1) :
    buffer_wf ctx1.dumpi_mpi_array ∧ ctx.dumpi_mpi_array.prev_ops_stack_top ≠ 0 ∧
    ctx1.dumpi_mpi_array.prev_ops_stack_top = ctx.dumpi_mpi_array.prev_ops_stack_top - 1 ∧
    ctx1.dumpi_mpi_array.sequence_id = (ctx.dumpi_mpi_array.sequence_id + 2 ^ 64 - 1) % 2 ^ 64 ∧
    ctx1.dumpi_mpi_array.next_ops_queue_count = ctx.dumpi_mpi_array.next_ops_queue_count + 1 := by
  unfold dumpi_trace_nw_workload_get_next_rc2 at hr
  cases hq : dumpi_roll_back_prev_op ctx.dumpi_mpi_array with
  | error e => rw [hq] at hr; cases hr
  | ok t1 =>
    rw [hq] at hr
    cases hr
    exact dumpi_roll_back_prev_op_wf ctx.dumpi_mpi_array t1 h hq

theorem dumpi_init_op_data_wf : buffer_wf dumpi_init_op_data := by decide

theorem run_calls_invariant (calls : List buffer_call) :
    ∀ (ctx : rank_mpi_context) (r : rank_mpi_context × List codes_workload_op),
      buffer_wf ctx.dumpi_mpi_array →
      ctx.dumpi_mpi_array.sequence_id = ctx.dumpi_mpi_array.prev_ops_stack_top % 2 ^ 64 →
      run_calls calls ctx = Except.ok r →
      buffer_wf r.1.dumpi_mpi_array ∧
      r.1.dumpi_mpi_array.sequence_id = r.1.dumpi_mpi_array.prev_ops_stack_top % 2 ^ 64 ∧
      r.1.dumpi_mpi_array.prev_ops_stack_top + count_roll_back calls
        = ctx.dumpi_mpi_array.prev_ops_stack_top + count_get_next calls := by
  induction calls with
  | nil =>
    intro ctx r h hs hr
    simp only [run_calls] at hr
    cases hr
    exact ⟨h, hs, rfl⟩
  | cons c rest ih =>
    intro ctx r h hs hr
    cases c with
    | get_next =>
      cases hq : dumpi_trace_nw_workload_get_next ctx with
      | error e => simp [run_calls, hq] at hr
      | ok p =>
        simp only [run_calls, hq] at hr
        cases hq2 : run_calls rest p.1 with
        | error e => simp [hq2] at hr
        | ok p2 =>
          simp only [hq2] at hr
          cases hr
          obtain ⟨w, _, _, e2, e3, _, _⟩ := dumpi_remove_next_op_post ctx unset_op p h hq
          obtain ⟨w2, s2, c2⟩ := ih p.1 p2 w (by rw [e2, e3, hs]; omega) hq2
          refine ⟨w2, s2, ?_⟩
          simp only [count_roll_back, count_get_next] at c2 ⊢
          simp only [List.count_cons_self, List.count_cons_of_ne (by decide :
            buffer_call.roll_back_prev ≠ buffer_call.get_next)]
          omega
    | roll_back_prev =>
      cases hq : dumpi_trace_nw_workload_get_next_rc2 ctx with
      | error e => simp [run_calls, hq] at hr
      | ok ctx1 =>
        simp only [run_calls, hq] at hr
        obtain ⟨w, hne, e1, e2, _⟩ := get_next_rc2_post ctx ctx1 h hq
        obtain ⟨w2, s2, c2⟩ := ih ctx1 r w (by rw [e2, e1, hs]; omega) hr
        refine ⟨w2, s2, ?_⟩
        simp only [count_roll_back, count_get_next] at c2 ⊢
        simp only [List.count_cons_self, List.count_cons_of_ne (by decide :
          buffer_call.get_next ≠ buffer_call.roll_back_prev)]
        omega

theorem run_get_next_ids (k : Nat) :
    ∀ (ctx : rank_mpi_context) (r : rank_mpi_context × List codes_workload_op),
      buffer_wf ctx.dumpi_mpi_array →
      ctx.dumpi_mpi_array.sequence_id = ctx.dumpi_mpi_array.prev_ops_stack_top % 2 ^ 64 →
      run_calls (List.replicate k buffer_call.get_next) ctx = Except.ok r →
      r.2.map (fun op => op.sequence_id)
        = (List.range' ctx.dumpi_mpi_array.prev_ops_stack_top k).map (fun i => i % 2 ^ 64) := by
  induction k with
  | zero =>
    intro ctx r h hs hr
    simp only [List.replicate, run_calls] at hr
    cases hr
    rfl
  | succ k ih =>
    intro ctx r h hs hr
    cases hq : dumpi_trace_nw_workload_get_next ctx with
    | error e => simp [List.replicate, run_calls, hq] at hr
    | ok p =>
      simp only [List.replicate, run_calls, hq] at hr
      cases hq2 : run_calls (List.replicate k buffer_call.get_next) p.1 with
      | error e => simp [hq2] at hr
      | ok p2 =>
        simp only [hq2] at hr
        cases hr
        obtain ⟨w, _, e1, e2, e3, _, _⟩ := dumpi_remove_next_op_post ctx unset_op p h hq
        have := ih p.1 p2 w (by rw [e2, e3, hs]; omega) hq2
        rw [List.range'_succ, List.map_cons, List.map_cons, this, e1, hs, e3]

theorem insert_all_of_capacity (ops : List codes_workload_op) :
    ∀ (t : dumpi_op_data_array), buffer_wf t →
      t.next_ops_queue_count + ops.length ≤ t.next_ops_queue_size →
      ∃ t1, insert_all t ops = Except.ok t1 ∧ t1.next_ops_queue_size = t.next_ops_queue_size ∧
        t1.next_ops_queue_count = t.next_ops_queue_count + ops.length := by
  induction ops with
  | nil =>
    intro t _ _
    exact ⟨t, rfl, rfl, rfl⟩
  | cons op rest ih =>
    intro t h hcap
    have hwf := h
    obtain ⟨h1, h2, h3, h4, h5, h6, h7, h8⟩ := h
    simp only [List.length_cons] at hcap
    have he := dumpi_insert_next_op_of_lt t op h1 h5 (by omega)
    obtain ⟨hwf0, _⟩ := dumpi_insert_next_op_wf t _ op hwf he
    obtain ⟨t1, e1, e2, e3⟩ := ih _ hwf0
      (by show t.next_ops_queue_count + 1 + rest.length ≤ t.next_ops_queue_size; omega)
    refine ⟨t1, ?_, e2, ?_⟩
    · simp only [insert_all, he]
      exact e1
    · rw [e3]
      show t.next_ops_queue_count + 1 + rest.length = _
      simp only [List.length_cons]
      omega

theorem stamp_step_returns (t : dumpi_op_data_array) (mpi_op : codes_workload_op)
    (calls : List dumpi_call) (n : Nat) (h : buffer_wf t) :
    ∃ r, (match stamp_and_push t mpi_op with
      | Except.error e => Except.error e
      | Except.ok p => Except.ok (calls, p.1, n, p.2)) = Except.ok r ∧
      r.1 = calls ∧ r.2.1.next_ops_queue_size = t.next_ops_queue_size ∧ r.2.2.1 = n ∧
      r.2.2.2 = { mpi_op with sequence_id := t.sequence_id } ∧
      r.2.1.next_ops_queue = t.next_ops_queue ∧
      r.2.1.next_ops_queue_count = t.next_ops_queue_count ∧
      r.2.1.next_ops_queue_first = t.next_ops_queue_first ∧
      r.2.1.next_ops_queue_last = t.next_ops_queue_last := by
  obtain ⟨_, _, _, _, _, h6, h7, h8⟩ := h
  obtain ⟨st, sz, heq, _⟩ := stamp_and_push_spec t mpi_op h6 h7 h8
  rw [heq]
  exact ⟨_, rfl, rfl, rfl, rfl, rfl, rfl, rfl, rfl, rfl⟩

theorem remove_next_op_retry_returns (calls : List dumpi_call) :
    ∀ (mpi_op : codes_workload_op) (t : dumpi_op_data_array) (nread : Nat),
      buffer_wf t → (∀ c ∈ calls, c.ops.length ≤ t.next_ops_queue_size) →
      ∃ r, remove_next_op_retry mpi_op calls t nread = Except.ok r ∧
        r.2.1.next_ops_queue_size = t.next_ops_queue_size ∧ (∀ c ∈ r.1, c ∈ calls) := by
  induction calls with
  | nil =>
    intro mpi_op t nread h _
    have hwf := h
    obtain ⟨h1, h2, h3, h4, h5, h6, h7, h8⟩ := h
    by_cases hc : t.next_ops_queue_count = 0
    · by_cases ha : t.active ≠ 0 ∧ t.finalize_reached = 0
      · rw [remove_next_op_retry_end_of_trace mpi_op t nread hc ha]
        obtain ⟨r, e, e1, e2, _⟩ := stamp_step_returns { t with active := 0 }
          { mpi_op with op_type := CODES_WK_END } [] (nread + 1) ⟨h1, h2, h3, h4, h5, h6, h7, h8⟩
        exact ⟨r, e, e2, by rw [e1]; exact fun c hm => hm⟩
      · rw [remove_next_op_retry_exhausted mpi_op [] t nread hc ha]
        obtain ⟨r, e, e1, e2, _⟩ := stamp_step_returns t
          { mpi_op with op_type := CODES_WK_END } [] nread hwf
        exact ⟨r, e, e2, by rw [e1]; exact fun c hm => hm⟩
    · have hlt : t.next_ops_queue_first < t.next_ops_queue.length := by omega
      have hg : t.next_ops_queue.get? t.next_ops_queue_first
          = some (t.next_ops_queue[t.next_ops_queue_first]) := by
        rw [List.get?_eq_getElem?, List.getElem?_eq_getElem hlt]
      have hfirst : (if t.next_ops_queue_first + 1 = t.next_ops_queue_size then 0
          else t.next_ops_queue_first + 1) < t.next_ops_queue_size := by
        by_cases hx : t.next_ops_queue_first + 1 = t.next_ops_queue_size
        · rw [if_pos hx]; exact h2
        · rw [if_neg hx]; omega
      rw [remove_next_op_retry_pop mpi_op [] t nread hc, hg]
      dsimp only
      obtain ⟨r, e, e1, e2, _⟩ := stamp_step_returns
        { t with
          next_ops_queue_first :=
            if t.next_ops_queue_first + 1 = t.next_ops_queue_size then 0
            else t.next_ops_queue_first + 1,
          next_ops_queue_count := t.next_ops_queue_count - 1 }
        (t.next_ops_queue[t.next_ops_queue_first]) [] nread
        ⟨h1, h2, by show t.next_ops_queue_count - 1 ≤ t.next_ops_queue_size; omega,
          hfirst, h5, h6, h7, h8⟩
      exact ⟨r, e, e2, by rw [e1]; exact fun c hm => hm⟩
  | cons c rest ih =>
    intro mpi_op t nread h hcap
    have hwf := h
    obtain ⟨h1, h2, h3, h4, h5, h6, h7, h8⟩ := h
    by_cases hc : t.next_ops_queue_count = 0
    · by_cases ha : t.active ≠ 0 ∧ t.finalize_reached = 0
      · rw [remove_next_op_retry_read mpi_op c rest t nread hc ha]
        obtain ⟨t1, hi, s1, _⟩ := insert_all_of_capacity c.ops t hwf
          (by rw [hc, Nat.zero_add]; exact hcap c (List.mem_cons_self _ _))
        obtain ⟨⟨w1, w2, w3, w4, w5, w6, w7, w8⟩, _⟩ := insert_all_wf c.ops t t1 hwf hi
        rw [hi]
        dsimp only
        obtain ⟨r, e, e2, e3⟩ := ih { mpi_op with op_type := CODES_WK_END }
          { t1 with
            finalize_reached := if c.finalize = true then 1 else t1.finalize_reached,
            active := if c.active = true then 1 else 0 } (nread + 1)
          ⟨w1, w2, w3, w4, w5, w6, w7, w8⟩
          (fun c1 hm => by
            show c1.ops.length ≤ t1.next_ops_queue_size
            rw [s1]; exact hcap c1 (List.mem_cons_of_mem _ hm))
        exact ⟨r, e, e2.trans s1, fun c1 hm => List.mem_cons_of_mem _ (e3 c1 hm)⟩
      · rw [remove_next_op_retry_exhausted mpi_op (c :: rest) t nread hc ha]
        obtain ⟨r, e, e1, e2, _⟩ := stamp_step_returns t
          { mpi_op with op_type := CODES_WK_END } (c :: rest) nread hwf
        exact ⟨r, e, e2, by rw [e1]; exact fun c hm => hm⟩
    · have hlt : t.next_ops_queue_first < t.next_ops_queue.length := by omega
      have hg : t.next_ops_queue.get? t.next_ops_queue_first
          = some (t.next_ops_queue[t.next_ops_queue_first]) := by
        rw [List.get?_eq_getElem?, List.getElem?_eq_getElem hlt]
      have hfirst : (if t.next_ops_queue_first + 1 = t.next_ops_queue_size then 0
          else t.next_ops_queue_first + 1) < t.next_ops_queue_size := by
        by_cases hx : t.next_ops_queue_first + 1 = t.next_ops_queue_size
        · rw [if_pos hx]; exact h2
        · rw [if_neg hx]; omega
      rw [remove_next_op_retry_pop mpi_op (c :: rest) t nread hc, hg]
      dsimp only
      obtain ⟨r, e, e1, e2, _⟩ := stamp_step_returns
        { t with
          next_ops_queue_first :=
            if t.next_ops_queue_first + 1 = t.next_ops_queue_size then 0
            else t.next_ops_queue_first + 1,
          next_ops_queue_count := t.next_ops_queue_count - 1 }
        (t.next_ops_queue[t.next_ops_queue_first]) (c :: rest) nread
        ⟨h1, h2, by show t.next_ops_queue_count - 1 ≤ t.next_ops_queue_size; omega,
          hfirst, h5, h6, h7, h8⟩
      exact ⟨r, e, e2, by rw [e1]; exact fun c hm => hm⟩

theorem get_next_returns (ctx : rank_mpi_context) (h : buffer_wf ctx.dumpi_mpi_array)
    (hcap : ∀ c ∈ ctx.profile, c.ops.length ≤ ctx.dumpi_mpi_array.next_ops_queue_size) :
    ∃ r, dumpi_trace_nw_workload_get_next ctx = Except.ok r ∧
      r.1.dumpi_mpi_array.next_ops_queue_size = ctx.dumpi_mpi_array.next_ops_queue_size ∧
      (∀ c ∈ r.1.profile, c ∈ ctx.profile) := by
  obtain ⟨p, e, e1, e2⟩ := remove_next_op_retry_returns ctx.profile unset_op
    ctx.dumpi_mpi_array ctx.reader_calls h hcap
  refine ⟨({ ctx with profile := p.1, dumpi_mpi_array := p.2.1, reader_calls := p.2.2.1 },
    p.2.2.2), ?_, e1, e2⟩
  unfold dumpi_trace_nw_workload_get_next dumpi_remove_next_op
  rw [e]

theorem run_get_next_returns (k : Nat) :
    ∀ (ctx : rank_mpi_context), buffer_wf ctx.dumpi_mpi_array →
      (∀ c ∈ ctx.profile, c.ops.length ≤ ctx.dumpi_mpi_array.next_ops_queue_size) →
      ∃ r, run_calls (List.replicate k buffer_call.get_next) ctx = Except.ok r := by
  induction k with
  | zero =>
    intro ctx _ _
    exact ⟨_, rfl⟩
  | succ k ih =>
    intro ctx h hcap
    obtain ⟨p, e, e1, e2⟩ := get_next_returns ctx h hcap
    obtain ⟨w, _⟩ := dumpi_remove_next_op_post ctx unset_op p h e
    obtain ⟨p2, e3⟩ := ih p.1 w (fun c hm => by rw [e1]; exact hcap c (e2 c hm))
    refine ⟨(p2.1, p.2 :: p2.2), ?_⟩
    simp only [List.replicate, run_calls, e, e3]

/-! ### Calls on the trace buffer -/

theorem one_send_trace_first_get_next :
    dumpi_trace_nw_workload_get_next (load_context one_send_trace)
      = Except.ok (context_after_send, send_op) := by
  rfl

theorem one_send_trace_second_get_next :
    dumpi_trace_nw_workload_get_next context_after_send
      = Except.ok (context_after_end, end_op) := by
  rfl

theorem one_send_trace_roll_back :
    dumpi_trace_nw_workload_get_next_rc2 context_after_end
      = Except.ok context_rolled_back := by
  rfl

theorem one_send_trace_third_get_next :
    dumpi_trace_nw_workload_get_next context_rolled_back
      = Except.ok (context_after_replay, { send_op with sequence_id := 1 }) := by
  rfl

theorem failure_of_get_next_rc2 (ctx : rank_mpi_context) :
    failure_of (dumpi_trace_nw_workload_get_next_rc2 ctx)
      = failure_of (dumpi_roll_back_prev_op ctx.dumpi_mpi_array) := by
  unfold dumpi_trace_nw_workload_get_next_rc2
  cases dumpi_roll_back_prev_op ctx.dumpi_mpi_array <;> rfl

theorem dumpi_roll_back_prev_op_failure (t : dumpi_op_data_array)
    (htop : t.prev_ops_stack_top ≠ 0) :
    failure_of (dumpi_roll_back_prev_op t) ≠ some dumpi_failure.assertion_failed := by
  unfold dumpi_roll_back_prev_op
  rw [if_neg htop]
  cases hg : grow_next_ops_queue t with
  | error e =>
    have := grow_next_ops_queue_failure t
    rw [hg] at this
    exact this
  | ok t1 =>
    dsimp only
    split
    · simp [failure_of]
    · split <;> simp [failure_of]

theorem remove_next_op_pop_returns (mpi_op : codes_workload_op) (calls : List dumpi_call)
    (t : dumpi_op_data_array) (nread : Nat) (h : buffer_wf t)
    (hc : ¬ t.next_ops_queue_count = 0) :
    ∃ r, remove_next_op_retry mpi_op calls t nread = Except.ok r ∧ r.1 = calls ∧
      r.2.2.1 = nread ∧ r.2.1.next_ops_queue_size = t.next_ops_queue_size := by
  obtain ⟨h1, h2, h3, h4, h5, h6, h7, h8⟩ := h
  have hlt : t.next_ops_queue_first < t.next_ops_queue.length := by omega
  have hg : t.next_ops_queue.get? t.next_ops_queue_first
      = some (t.next_ops_queue[t.next_ops_queue_first]) := by
    rw [List.get?_eq_getElem?, List.getElem?_eq_getElem hlt]
  have hfirst : (if t.next_ops_queue_first + 1 = t.next_ops_queue_size then 0
      else t.next_ops_queue_first + 1) < t.next_ops_queue_size := by
    by_cases hx : t.next_ops_queue_first + 1 = t.next_ops_queue_size
    · rw [if_pos hx]; exact h2
    · rw [if_neg hx]; omega
  rw [remove_next_op_retry_pop mpi_op calls t nread hc, hg]
  dsimp only
  obtain ⟨r, e, e1, e2, e3, _⟩ := stamp_step_returns
    { t with
      next_ops_queue_first :=
        if t.next_ops_queue_first + 1 = t.next_ops_queue_size then 0
        else t.next_ops_queue_first + 1,
      next_ops_queue_count := t.next_ops_queue_count - 1 }
    (t.next_ops_queue[t.next_ops_queue_first]) calls nread
    ⟨h1, h2, by show t.next_ops_queue_count - 1 ≤ t.next_ops_queue_size; omega,
      hfirst, h5, h6, h7, h8⟩
  exact ⟨r, e, e1, e3, e2⟩

theorem remove_next_op_retry_reads (calls : List dumpi_call) (mpi_op : codes_workload_op)
    (t : dumpi_op_data_array) (nread : Nat)
    (r : List dumpi_call × dumpi_op_data_array × Nat × codes_workload_op)
    (h : buffer_wf t) (hc : t.next_ops_queue_count = 0)
    (ha : t.active ≠ 0 ∧ t.finalize_reached = 0)
    (hr : remove_next_op_retry mpi_op calls t nread = Except.ok r) :
    nread + 1 ≤ r.2.2.1 := by
  have hwf := h
  obtain ⟨h1, h2, h3, h4, h5, h6, h7, h8⟩ := h
  cases calls with
  | nil =>
    rw [remove_next_op_retry_end_of_trace mpi_op t nread hc ha] at hr
    obtain ⟨p, e, _, _, e3, _⟩ := stamp_step_returns { t with active := 0 }
      { mpi_op with op_type := CODES_WK_END } [] (nread + 1) ⟨h1, h2, h3, h4, h5, h6, h7, h8⟩
    rw [e] at hr
    cases hr
    rw [e3]
  | cons c rest =>
    rw [remove_next_op_retry_read mpi_op c rest t nread hc ha] at hr
    cases hi : insert_all t c.ops with
    | error e => rw [hi] at hr; cases hr
    | ok t1 =>
      rw [hi] at hr
      obtain ⟨⟨w1, w2, w3, w4, w5, w6, w7, w8⟩, _⟩ := insert_all_wf c.ops t t1 hwf hi
      obtain ⟨_, _, _, _, _, _, e7⟩ := remove_next_op_retry_post rest
        { mpi_op with op_type := CODES_WK_END }
        { t1 with
          finalize_reached := if c.finalize = true then 1 else t1.finalize_reached,
          active := if c.active = true then 1 else 0 } (nread + 1) r
        ⟨w1, w2, w3, w4, w5, w6, w7, w8⟩ hr
      exact e7

/-- C14: the round trip fails on the trace `one_send_trace`, from the buffer reached by one
`get_next` (which returned the `MPI_Send`) and for `k = 1`: the `get_next` returns the
end-of-trace operation with `sequence_id` 1; after `roll_back_prev` the next `get_next` returns
the `MPI_Send` again (with `sequence_id` 1), not the end-of-trace operation. -/
theorem rollback_round_trip_after_end :
    run_calls [buffer_call.get_next] (load_context one_send_trace)
      = Except.ok (context_after_send, [send_op]) ∧
    (value_of (run_calls
        [buffer_call.get_next, buffer_call.roll_back_prev, buffer_call.get_next]
        context_after_send)).map
      (fun r => r.2.map (fun op => (op.op_type, op.sequence_id)))
      = some [(CODES_WK_END, 1), (CODES_WK_SEND, 1)] := by
  constructor
  · simp only [run_calls, one_send_trace_first_get_next]
  · simp only [run_calls, one_send_trace_second_get_next, one_send_trace_roll_back,
      one_send_trace_third_get_next]
    rfl

/-- C15: in the buffer reached by two `get_next` calls on the trace `one_send_trace` the top of
the stack is the end-of-trace operation `end_op`, and `next_ops_queue_first` and
`next_ops_queue_last` are both 1. `dumpi_roll_back_prev_op` moves `next_ops_queue_first` to 0
and stores `end_op` at index `next_ops_queue_last` (1): the operation at index
`next_ops_queue_first` afterwards is the `MPI_Send` left there, not the operation that was on
top of the stack. The count grows from 0 to 1. -/
theorem roll_back_stores_at_last :
    run_calls [buffer_call.get_next, buffer_call.get_next] (load_context one_send_trace)
      = Except.ok (context_after_end, [send_op, end_op]) ∧
    context_after_end.dumpi_mpi_array.prev_ops_stack.get?
      (context_after_end.dumpi_mpi_array.prev_ops_stack_top - 1) = some end_op ∧
    context_after_end.dumpi_mpi_array.next_ops_queue_count = 0 ∧
    (value_of (dumpi_roll_back_prev_op context_after_end.dumpi_mpi_array)).map
      (fun t1 => (t1.next_ops_queue_first, t1.next_ops_queue_last, t1.next_ops_queue_count,
        t1.next_ops_queue.get? t1.next_ops_queue_first,
        t1.next_ops_queue.get? t1.next_ops_queue_last))
      = some (0, 1, 1, some send_op, some end_op) ∧
    send_op.op_type = CODES_WK_SEND ∧ end_op.op_type = CODES_WK_END := by
  refine ⟨?_, rfl, rfl, rfl, rfl, rfl⟩
  simp only [run_calls, one_send_trace_first_get_next, one_send_trace_second_get_next]

/-- C16: on a freshly initialised buffer four calls of `dumpi_insert_next_op` fill the queue
(count 4, `first` and `last` both 0), and four `get_next` calls then return the four operations
in insertion order. A fifth insertion fails whatever the operations are: in the growth block
`s = 4` and `x = 4`, so `memcpy` copies four elements to index 8 of the array `realloc` has just
given eight elements. The same holds whenever the queue is full and `first >= last`: the
destination of the `memcpy` ends at `x + 2 * s > 2 * s`. -/
theorem insert_fifth_op_overflows :
    (∀ (a1 a2 a3 a4 a5 : codes_workload_op) (rest : List codes_workload_op),
      (value_of (insert_all dumpi_init_op_data [a1, a2, a3, a4])).map
          (fun t => (t.next_ops_queue, t.next_ops_queue_size, t.next_ops_queue_count,
                     t.next_ops_queue_first, t.next_ops_queue_last))
        = some ([a1, a2, a3, a4], 4, 4, 0, 0) ∧
      failure_of (insert_all dumpi_init_op_data (a1 :: a2 :: a3 :: a4 :: a5 :: rest))
        = some dumpi_failure.undefined_behaviour) ∧
    (∀ (a1 a2 a3 a4 : codes_workload_op) (profile : List dumpi_call),
      (value_of (insert_all dumpi_init_op_data [a1, a2, a3, a4])).bind
        (fun t => (value_of (run_calls (List.replicate 4 buffer_call.get_next)
          { load_context profile with dumpi_mpi_array := t })).map (fun r => r.2))
      = some [{ a1 with sequence_id := 0 }, { a2 with sequence_id := 1 },
              { a3 with sequence_id := 2 }, { a4 with sequence_id := 3 }]) ∧
    (∀ (t : dumpi_op_data_array) (op : codes_workload_op), buffer_wf t →
      t.next_ops_queue_size = t.next_ops_queue_count →
      t.next_ops_queue_first ≥ t.next_ops_queue_last →
      failure_of (dumpi_insert_next_op t op) = some dumpi_failure.undefined_behaviour) := by
  refine ⟨fun a1 a2 a3 a4 a5 rest => ⟨?_, ?_⟩, fun a1 a2 a3 a4 profile => ?_, ?_⟩
  · simp [insert_all, dumpi_insert_next_op, grow_next_ops_queue, store_op, dumpi_init_op_data,
      INITIAL_OP_QUEUE_SIZE, List.replicate, value_of]
  · simp [insert_all, dumpi_insert_next_op, grow_next_ops_queue, store_op, dumpi_init_op_data,
      INITIAL_OP_QUEUE_SIZE, List.replicate, failure_of, memcpy_ops, realloc_ops]
  · simp [insert_all, dumpi_insert_next_op, grow_next_ops_queue, run_calls,
      dumpi_trace_nw_workload_get_next, dumpi_remove_next_op, remove_next_op_retry_pop,
      stamp_and_push, store_op, dumpi_init_op_data, INITIAL_OP_QUEUE_SIZE,
      INITIAL_OP_RC_STACK_SIZE, List.replicate, value_of, load_context]
  · intro t op h hfull hfl
    obtain ⟨h1, h2, h3, h4, h5, h6, h7, h8⟩ := h
    have hl : (realloc_ops t.next_ops_queue (t.next_ops_queue_size * 2)).length
        = t.next_ops_queue_size * 2 := realloc_ops_length _ _ (by omega)
    have hle : t.next_ops_queue_first ≤ t.next_ops_queue_size := by omega
    have hg : grow_next_ops_queue t = Except.error (dumpi_failure.undefined_behaviour,
        { t with next_ops_queue := realloc_ops t.next_ops_queue (t.next_ops_queue_size * 2) }) := by
      simp only [grow_next_ops_queue, hfull, if_true, hfl]
      rw [← hfull]
      simp only [hle, if_true, memcpy_ops_overflow _ _ _ hl h4]
    simp only [dumpi_insert_next_op, hg, failure_of]

/-- C17: a `get_next` that returns gives the operation the buffer's `sequence_id` and leaves
the counter one higher (in `uint64_t`) and the stack one operation higher; a `roll_back_prev`
that returns leaves the counter one lower (in `uint64_t`) and the stack one operation lower.
On a trace whose records insert at most four operations each, `k` consecutive `get_next` calls
from the loaded state return, and the operations carry the ids `0, 1, ..., k - 1` (modulo
`2 ^ 64`). In every sequence of `n` `get_next` and `m` `roll_back_prev` calls from the loaded
state that returns, `m <= n`, the counter is `n - m` (modulo `2 ^ 64`) and the stack holds
`n - m` operations. On `one_send_trace` the calls `get_next, get_next, roll_back_prev,
get_next` return operations with the ids `0, 1, 1` and end with counter 2 and two operations
on the stack. -/
theorem sequence_id_bookkeeping :
    (∀ (ctx : rank_mpi_context) (r : rank_mpi_context × codes_workload_op),
      buffer_wf ctx.dumpi_mpi_array → dumpi_trace_nw_workload_get_next ctx = Except.ok r →
      r.2.sequence_id = ctx.dumpi_mpi_array.sequence_id ∧
      r.1.dumpi_mpi_array.sequence_id = (ctx.dumpi_mpi_array.sequence_id + 1) % 2 ^ 64 ∧
      r.1.dumpi_mpi_array.prev_ops_stack_top = ctx.dumpi_mpi_array.prev_ops_stack_top + 1) ∧
    (∀ (ctx ctx1 : rank_mpi_context),
      buffer_wf ctx.dumpi_mpi_array → dumpi_trace_nw_workload_get_next_rc2 ctx = Except.ok ctx1 →
      ctx1.dumpi_mpi_array.sequence_id
        = (ctx.dumpi_mpi_array.sequence_id + 2 ^ 64 - 1) % 2 ^ 64 ∧
      ctx1.dumpi_mpi_array.prev_ops_stack_top + 1 = ctx.dumpi_mpi_array.prev_ops_stack_top) ∧
    (∀ (profile : List dumpi_call) (k : Nat),
      (∀ c ∈ profile, c.ops.length ≤ INITIAL_OP_QUEUE_SIZE) →
      ∃ r, run_calls (List.replicate k buffer_call.get_next) (load_context profile)
          = Except.ok r ∧
        r.2.map (fun op => op.sequence_id) = (List.range k).map (fun i => i % 2 ^ 64)) ∧
    (∀ (profile : List dumpi_call) (calls : List buffer_call)
      (r : rank_mpi_context × List codes_workload_op),
      run_calls calls (load_context profile) = Except.ok r →
      count_roll_back calls ≤ count_get_next calls ∧
      r.1.dumpi_mpi_array.sequence_id
        = (count_get_next calls - count_roll_back calls) % 2 ^ 64 ∧
      r.1.dumpi_mpi_array.prev_ops_stack_top
        = count_get_next calls - count_roll_back calls) ∧
    (value_of (run_calls [buffer_call.get_next, buffer_call.get_next,
        buffer_call.roll_back_prev, buffer_call.get_next] (load_context one_send_trace))).map
      (fun r => (r.2.map (fun op => op.sequence_id), r.1.dumpi_mpi_array.sequence_id,
        r.1.dumpi_mpi_array.prev_ops_stack_top)) = some ([0, 1, 1], 2, 2) := by
  refine ⟨?_, ?_, ?_, ?_, ?_⟩
  · intro ctx r h hr
    obtain ⟨_, _, e1, e2, e3, _, _⟩ := dumpi_remove_next_op_post ctx unset_op r h hr
    exact ⟨e1, e2, e3⟩
  · intro ctx ctx1 h hr
    obtain ⟨_, hne, e1, e2, _⟩ := get_next_rc2_post ctx ctx1 h hr
    exact ⟨e2, by omega⟩
  · intro profile k hcap
    obtain ⟨r, hr⟩ := run_get_next_returns k (load_context profile) dumpi_init_op_data_wf hcap
    refine ⟨r, hr, ?_⟩
    rw [run_get_next_ids k (load_context profile) r dumpi_init_op_data_wf rfl hr,
      List.range_eq_range']
    rfl
  · intro profile calls r hr
    obtain ⟨_, s, c⟩ := run_calls_invariant calls (load_context profile) r
      dumpi_init_op_data_wf rfl hr
    have c0 : r.1.dumpi_mpi_array.prev_ops_stack_top + count_roll_back calls
        = 0 + count_get_next calls := c
    refine ⟨by omega, ?_, by omega⟩
    rw [s]
    congr 1
    omega
  · simp only [run_calls, one_send_trace_first_get_next, one_send_trace_second_get_next,
      one_send_trace_roll_back, one_send_trace_third_get_next]
    rfl

/-- C18: when the queue is empty and the reader is exhausted (`active` is zero or
`finalize_reached` is not), `get_next` on a well-formed buffer returns an operation of type
`CODES_WK_END`, stamped with the current `sequence_id`; the reader is not called (neither the
number of reader calls nor the unread records change), and the queue is as before: count zero,
same array and cursors. -/
theorem get_next_exhausted (ctx : rank_mpi_context) (h : buffer_wf ctx.dumpi_mpi_array)
    (hc : ctx.dumpi_mpi_array.next_ops_queue_count = 0)
    (hex : ctx.dumpi_mpi_array.active = 0 ∨ ctx.dumpi_mpi_array.finalize_reached ≠ 0) :
    ∃ r, dumpi_trace_nw_workload_get_next ctx = Except.ok r ∧
      r.2.op_type = CODES_WK_END ∧ r.2.sequence_id = ctx.dumpi_mpi_array.sequence_id ∧
      r.1.reader_calls = ctx.reader_calls ∧ r.1.profile = ctx.profile ∧
      r.1.dumpi_mpi_array.next_ops_queue_count = 0 ∧
      r.1.dumpi_mpi_array.next_ops_queue = ctx.dumpi_mpi_array.next_ops_queue ∧
      r.1.dumpi_mpi_array.next_ops_queue_first = ctx.dumpi_mpi_array.next_ops_queue_first ∧
      r.1.dumpi_mpi_array.next_ops_queue_last = ctx.dumpi_mpi_array.next_ops_queue_last := by
  have ha : ¬ (ctx.dumpi_mpi_array.active ≠ 0 ∧ ctx.dumpi_mpi_array.finalize_reached = 0) := by
    rintro ⟨a1, a2⟩
    rcases hex with hx | hx
    · exact a1 hx
    · exact hx a2
  obtain ⟨p, e, e1, _, e3, e4, e5, e6, e7, e8⟩ := stamp_step_returns ctx.dumpi_mpi_array
    { unset_op with op_type := CODES_WK_END } ctx.profile ctx.reader_calls h
  refine ⟨({ ctx with profile := p.1, dumpi_mpi_array := p.2.1, reader_calls := p.2.2.1 },
    p.2.2.2), ?_, ?_, ?_, e3, e1, ?_, e5, e7, e8⟩
  · unfold dumpi_trace_nw_workload_get_next dumpi_remove_next_op
    rw [remove_next_op_retry_exhausted unset_op ctx.profile ctx.dumpi_mpi_array
      ctx.reader_calls hc ha, e]
  · show p.2.2.2.op_type = _
    rw [e4]
  · show p.2.2.2.sequence_id = _
    rw [e4]
  · show p.2.1.next_ops_queue_count = 0
    rw [e6, hc]

/-- The inactive rank `exhausted_context`: `get_next` returns the end-of-trace operation and
the record left in the reader stays unread. -/
theorem get_next_exhausted_witness :
    buffer_wf exhausted_context.dumpi_mpi_array ∧
    exhausted_context.dumpi_mpi_array.next_ops_queue_count = 0 ∧
    (exhausted_context.dumpi_mpi_array.active = 0 ∨
      exhausted_context.dumpi_mpi_array.finalize_reached ≠ 0) ∧
    ∃ r, dumpi_trace_nw_workload_get_next exhausted_context = Except.ok r ∧
      r.2.op_type = CODES_WK_END ∧
      r.2.sequence_id = exhausted_context.dumpi_mpi_array.sequence_id ∧
      r.1.reader_calls = exhausted_context.reader_calls ∧
      r.1.profile = exhausted_context.profile ∧
      r.1.dumpi_mpi_array.next_ops_queue_count = 0 ∧
      r.1.dumpi_mpi_array.next_ops_queue = exhausted_context.dumpi_mpi_array.next_ops_queue ∧
      r.1.dumpi_mpi_array.next_ops_queue_first
        = exhausted_context.dumpi_mpi_array.next_ops_queue_first ∧
      r.1.dumpi_mpi_array.next_ops_queue_last
        = exhausted_context.dumpi_mpi_array.next_ops_queue_last :=
  ⟨by decide, rfl, Or.inl rfl,
    get_next_exhausted exhausted_context (by decide) rfl (Or.inl rfl)⟩

/-- C19: the assertion of `dumpi_roll_back_prev_op` fails if and only if the stack of previous
operations is empty, and the buffer is then as it was before the call. After a `get_next`
that returns on a well-formed buffer, `roll_back_prev` returns; and after any sequence of
calls from the loaded state that returns and has more `get_next` than `roll_back_prev` calls,
the assertion of a further `roll_back_prev` holds. On a freshly loaded rank `roll_back_prev`
fails and leaves the initial buffer. -/
theorem roll_back_assertion :
    (∀ (t : dumpi_op_data_array),
      failure_of (dumpi_roll_back_prev_op t) = some dumpi_failure.assertion_failed ↔
        t.prev_ops_stack_top = 0) ∧
    (∀ (t : dumpi_op_data_array), t.prev_ops_stack_top = 0 →
      dumpi_roll_back_prev_op t = Except.error (dumpi_failure.assertion_failed, t)) ∧
    (∀ (ctx : rank_mpi_context) (r : rank_mpi_context × codes_workload_op),
      buffer_wf ctx.dumpi_mpi_array → dumpi_trace_nw_workload_get_next ctx = Except.ok r →
      ∃ ctx1, dumpi_trace_nw_workload_get_next_rc2 r.1 = Except.ok ctx1) ∧
    (∀ (profile : List dumpi_call) (calls : List buffer_call)
      (r : rank_mpi_context × List codes_workload_op),
      run_calls calls (load_context profile) = Except.ok r →
      count_roll_back calls < count_get_next calls →
      failure_of (dumpi_trace_nw_workload_get_next_rc2 r.1)
        ≠ some dumpi_failure.assertion_failed) ∧
    dumpi_trace_nw_workload_get_next_rc2 (load_context one_send_trace)
      = Except.error (dumpi_failure.assertion_failed, dumpi_init_op_data) := by
  refine ⟨fun t => ⟨fun hf => ?_, fun h0 => ?_⟩, dumpi_roll_back_prev_op_empty, ?_, ?_, rfl⟩
  · by_contra hne
    exact dumpi_roll_back_prev_op_failure t hne hf
  · rw [dumpi_roll_back_prev_op_empty t h0]
    rfl
  · intro ctx r h hr
    obtain ⟨w, hlt, _, _, e3, _, _⟩ := dumpi_remove_next_op_post ctx unset_op r h hr
    obtain ⟨q, f, he, _⟩ := dumpi_roll_back_prev_op_of_lt r.1.dumpi_mpi_array w
      (by rw [e3]; omega) hlt
    unfold dumpi_trace_nw_workload_get_next_rc2
    rw [he]
    exact ⟨_, rfl⟩
  · intro profile calls r hr hlt
    obtain ⟨_, _, c⟩ := run_calls_invariant calls (load_context profile) r
      dumpi_init_op_data_wf rfl hr
    have c0 : r.1.dumpi_mpi_array.prev_ops_stack_top + count_roll_back calls
        = 0 + count_get_next calls := c
    rw [failure_of_get_next_rc2]
    exact dumpi_roll_back_prev_op_failure _ (by omega)

/-- C20: on the trace `init_then_send_trace`, whose first record inserts nothing, the first
`get_next` (empty queue, active reader, `finalize_reached` zero) calls the reader twice: both
records are read and the `MPI_Send` of the second is returned. -/
theorem get_next_reads_two_records :
    (load_context init_then_send_trace).dumpi_mpi_array.next_ops_queue_count = 0 ∧
    (load_context init_then_send_trace).dumpi_mpi_array.active ≠ 0 ∧
    (load_context init_then_send_trace).dumpi_mpi_array.finalize_reached = 0 ∧
    (load_context init_then_send_trace).reader_calls = 0 ∧
    (value_of (dumpi_trace_nw_workload_get_next (load_context init_then_send_trace))).map
      (fun r => (r.1.reader_calls, r.1.profile, r.2.op_type))
      = some (2, [], CODES_WK_SEND) := by
  refine ⟨rfl, by decide, rfl, rfl, rfl⟩

/-- C20: on `get_next` with an empty queue, an active reader and `finalize_reached` zero, on a
well-formed buffer, the reader is called for the next record `c`. If `c` inserts at least one
operation (and no more than the queue has room for), or if it inserts none and is the
`MPI_Finalize` record or the reader returns `0` with it, `get_next` returns after this one
reader call; in the second case the operation returned is of type `CODES_WK_END`. If `c`
inserts nothing, is not the `MPI_Finalize` record and the reader stays active, the reader is
called again: at least two reader calls are made. -/
theorem get_next_reads_one_record (ctx : rank_mpi_context) (c : dumpi_call)
    (rest : List dumpi_call) (h : buffer_wf ctx.dumpi_mpi_array)
    (hc : ctx.dumpi_mpi_array.next_ops_queue_count = 0)
    (ha : ctx.dumpi_mpi_array.active ≠ 0) (hf : ctx.dumpi_mpi_array.finalize_reached = 0)
    (hp : ctx.profile = c :: rest) :
    (c.ops ≠ [] → c.ops.length ≤ ctx.dumpi_mpi_array.next_ops_queue_size →
      ∃ r, dumpi_trace_nw_workload_get_next ctx = Except.ok r ∧
        r.1.reader_calls = ctx.reader_calls + 1 ∧ r.1.profile = rest) ∧
    (c.ops = [] → (c.finalize = true ∨ c.active = false) →
      ∃ r, dumpi_trace_nw_workload_get_next ctx = Except.ok r ∧
        r.1.reader_calls = ctx.reader_calls + 1 ∧ r.1.profile = rest ∧
        r.2.op_type = CODES_WK_END) ∧
    (c.ops = [] → c.finalize = false → c.active = true →
      ∀ r, dumpi_trace_nw_workload_get_next ctx = Except.ok r →
        ctx.reader_calls + 2 ≤ r.1.reader_calls) := by
  have hwf := h
  obtain ⟨h1, h2, h3, h4, h5, h6, h7, h8⟩ := h
  have hread := remove_next_op_retry_read unset_op c rest ctx.dumpi_mpi_array ctx.reader_calls
    hc ⟨ha, hf⟩
  refine ⟨fun hne hcap => ?_, fun hnil hex => ?_, fun hnil hfin hact r hr => ?_⟩
  · obtain ⟨t1, hi, s1, c1⟩ := insert_all_of_capacity c.ops ctx.dumpi_mpi_array hwf
      (by rw [hc, Nat.zero_add]; exact hcap)
    obtain ⟨⟨w1, w2, w3, w4, w5, w6, w7, w8⟩, hpos, _⟩ :=
      insert_all_wf c.ops ctx.dumpi_mpi_array t1 hwf hi
    have hcount : ¬ t1.next_ops_queue_count = 0 := by
      have := hpos hne
      omega
    obtain ⟨p, e, e1, e3, _⟩ := remove_next_op_pop_returns
      { unset_op with op_type := CODES_WK_END } rest
      { t1 with
        finalize_reached := if c.finalize = true then 1 else t1.finalize_reached,
        active := if c.active = true then 1 else 0 } (ctx.reader_calls + 1)
      ⟨w1, w2, w3, w4, w5, w6, w7, w8⟩ hcount
    have e_total : remove_next_op_retry unset_op (c :: rest) ctx.dumpi_mpi_array
        ctx.reader_calls = Except.ok p := by
      rw [hread, hi]
      exact e
    refine ⟨({ ctx with profile := p.1, dumpi_mpi_array := p.2.1, reader_calls := p.2.2.1 },
      p.2.2.2), ?_, e3, e1⟩
    unfold dumpi_trace_nw_workload_get_next dumpi_remove_next_op
    rw [hp, e_total]
  · have hex2 : ¬ ((if c.active = true then (1 : Int) else 0) ≠ 0 ∧
        (if c.finalize = true then (1 : Int) else ctx.dumpi_mpi_array.finalize_reached) = 0) := by
      rintro ⟨a1, a2⟩
      rcases hex with hx | hx
      · rw [if_pos hx] at a2
        exact absurd a2 (by decide)
      · rw [hx] at a1
        exact a1 rfl
    have hx := remove_next_op_retry_exhausted { unset_op with op_type := CODES_WK_END } rest
      { ctx.dumpi_mpi_array with
        finalize_reached :=
          if c.finalize = true then 1 else ctx.dumpi_mpi_array.finalize_reached,
        active := if c.active = true then 1 else 0 } (ctx.reader_calls + 1) hc hex2
    obtain ⟨p, e, e1, _, e3, e4, _⟩ := stamp_step_returns
      { ctx.dumpi_mpi_array with
        finalize_reached :=
          if c.finalize = true then 1 else ctx.dumpi_mpi_array.finalize_reached,
        active := if c.active = true then 1 else 0 }
      { ({ unset_op with op_type := CODES_WK_END } : codes_workload_op) with
        op_type := CODES_WK_END } rest (ctx.reader_calls + 1)
      ⟨h1, h2, h3, h4, h5, h6, h7, h8⟩
    have e_total : remove_next_op_retry unset_op (c :: rest) ctx.dumpi_mpi_array
        ctx.reader_calls = Except.ok p := by
      rw [hread, hnil]
      exact hx.trans e
    refine ⟨({ ctx with profile := p.1, dumpi_mpi_array := p.2.1, reader_calls := p.2.2.1 },
      p.2.2.2), ?_, e3, e1, ?_⟩
    · unfold dumpi_trace_nw_workload_get_next dumpi_remove_next_op
      rw [hp, e_total]
    · show p.2.2.2.op_type = _
      rw [e4]
  · unfold dumpi_trace_nw_workload_get_next dumpi_remove_next_op at hr
    rw [hp] at hr
    cases hq : remove_next_op_retry unset_op (c :: rest) ctx.dumpi_mpi_array
        ctx.reader_calls with
    | error e => rw [hq] at hr; cases hr
    | ok p =>
      rw [hq] at hr
      cases hr
      rw [hread, hnil] at hq
      exact remove_next_op_retry_reads rest { unset_op with op_type := CODES_WK_END }
        { ctx.dumpi_mpi_array with
          finalize_reached :=
            if c.finalize = true then 1 else ctx.dumpi_mpi_array.finalize_reached,
          active := if c.active = true then 1 else 0 } (ctx.reader_calls + 1) p
        ⟨h1, h2, h3, h4, h5, h6, h7, h8⟩ hc
        ⟨by show (if c.active = true then (1 : Int) else 0) ≠ 0
            rw [if_pos hact]; decide,
          by show (if c.finalize = true then (1 : Int)
                else ctx.dumpi_mpi_array.finalize_reached) = 0
             rw [if_neg (by rw [hfin]; decide)]; exact hf⟩ hq

/-- The loaded rank of `one_send_trace`: its only record inserts one operation, and `get_next`
returns after one reader call. -/
theorem get_next_reads_one_record_witness :
    buffer_wf (load_context one_send_trace).dumpi_mpi_array ∧
    (load_context one_send_trace).dumpi_mpi_array.next_ops_queue_count = 0 ∧
    (load_context one_send_trace).dumpi_mpi_array.active ≠ 0 ∧
    (load_context one_send_trace).dumpi_mpi_array.finalize_reached = 0 ∧
    (load_context one_send_trace).profile = mk_call [send_op] :: [] ∧
    ∃ r, dumpi_trace_nw_workload_get_next (load_context one_send_trace) = Except.ok r ∧
      r.1.reader_calls = (load_context one_send_trace).reader_calls + 1 ∧ r.1.profile = [] :=
  ⟨by decide, rfl, by decide, rfl, rfl,
    (get_next_reads_one_record (load_context one_send_trace) (mk_call [send_op]) []
      (by decide) rfl (by decide) rfl rfl).1 (by decide) (by decide)⟩

/-! ### The trace adapter -/

theorem round_half_even_intCast (z : ℤ) : round_half_even (z : ℚ) = z := by
  unfold round_half_even
  rw [Int.floor_intCast, sub_self, if_pos (by norm_num)]

theorem round_half_even_bounds (y : ℚ) :
    ⌊y⌋ ≤ round_half_even y ∧ round_half_even y ≤ ⌊y⌋ + 1 := by
  unfold round_half_even
  split_ifs <;> constructor <;> omega

theorem round_half_even_near (y : ℚ) : |(round_half_even y : ℚ) - y| ≤ 1 / 2 := by
  have h1 := Int.floor_le y
  have h2 := Int.lt_floor_add_one y
  unfold round_half_even
  rw [abs_le]
  split_ifs with a b c
  · constructor <;> linarith
  · push_cast
    constructor <;> linarith
  · constructor <;> linarith
  · push_cast
    constructor <;> linarith

theorem round_half_even_mono {y1 y2 : ℚ} (h : y1 ≤ y2) :
    round_half_even y1 ≤ round_half_even y2 := by
  have hf : ⌊y1⌋ ≤ ⌊y2⌋ := Int.floor_mono h
  rcases lt_or_eq_of_le hf with hlt | heq
  · have := (round_half_even_bounds y1).2
    have := (round_half_even_bounds y2).1
    omega
  · unfold round_half_even
    rw [heq]
    have hfr : y1 - ⌊y2⌋ ≤ y2 - ⌊y2⌋ := by linarith
    split_ifs <;> first | omega | (exfalso; linarith)

theorem ulp_exponent_of_binade (x : ℚ) (e : ℤ) (h1 : 2 ^ e ≤ |x|) (h2 : |x| < 2 ^ (e + 1)) :
    ulp_exponent x = max e (-1022) - 52 := by
  have hpos : 0 < |x| := lt_of_lt_of_le (zpow_pos (by norm_num) e) h1
  have ha : e ≤ Int.log 2 |x| :=
    (Int.zpow_le_iff_le_log (by norm_num) hpos).mp (by simpa using h1)
  have hb : Int.log 2 |x| < e + 1 :=
    (Int.lt_zpow_iff_log_lt (by norm_num) hpos).mp (by simpa using h2)
  unfold ulp_exponent
  have : Int.log 2 |x| = e := by omega
  rw [this]

/-- How `round_double` is evaluated when the binade of the argument is known. -/
theorem round_double_binade (x : ℚ) (e : ℤ) (h1 : 2 ^ e ≤ |x|) (h2 : |x| < 2 ^ (e + 1))
    (he : -1022 ≤ e) :
    round_double x = (round_half_even (x / 2 ^ (e - 52)) : ℚ) * 2 ^ (e - 52) := by
  unfold round_double
  rw [ulp_exponent_of_binade x e h1 h2, max_eq_left he]

theorem round_double_zero : round_double 0 = 0 := by
  unfold round_double
  rw [zero_div]
  have : round_half_even 0 = 0 := by
    have := round_half_even_intCast 0
    simpa using this
  rw [this]
  simp

/-- A number with at most 53 significant bits whose last bit is not below `2 ^ (-1074)` is a
`double`: rounding leaves it as it is. -/
theorem round_double_scaled (m k : ℤ) (hm : |m| < 2 ^ 53) (hk : -1074 ≤ k) :
    round_double ((m : ℚ) * 2 ^ k) = (m : ℚ) * 2 ^ k := by
  by_cases h0 : m = 0
  · subst h0
    simp only [Int.cast_zero, zero_mul]
    exact round_double_zero
  · have h2k : (0 : ℚ) < 2 ^ k := zpow_pos (by norm_num) k
    have habs : |(m : ℚ) * 2 ^ k| = |(m : ℚ)| * 2 ^ k := by
      rw [abs_mul, abs_of_pos h2k]
    have hpos : 0 < |(m : ℚ) * 2 ^ k| := by
      rw [habs]
      have : (0 : ℚ) < |(m : ℚ)| := abs_pos.mpr (by exact_mod_cast h0)
      positivity
    have hlt : |(m : ℚ) * 2 ^ k| < 2 ^ (53 + k) := by
      rw [habs, zpow_add₀ (by norm_num : (2 : ℚ) ≠ 0)]
      have : |(m : ℚ)| < 2 ^ (53 : ℤ) := by
        have h : ((|m| : ℤ) : ℚ) < ((2 ^ 53 : ℤ) : ℚ) := by exact_mod_cast hm
        rw [Int.cast_abs] at h
        norm_num at h ⊢
        exact h
      exact mul_lt_mul_of_pos_right this h2k
    have hlog : Int.log 2 |(m : ℚ) * 2 ^ k| < 53 + k :=
      (Int.lt_zpow_iff_log_lt (by norm_num) hpos).mp (by simpa using hlt)
    have hu : ulp_exponent ((m : ℚ) * 2 ^ k) ≤ k := by
      unfold ulp_exponent
      omega
    unfold round_double
    generalize ulp_exponent ((m : ℚ) * 2 ^ k) = u at hu
    have hd : ((k - u).toNat : ℤ) = k - u := Int.toNat_of_nonneg (by omega)
    have hx : (m : ℚ) * 2 ^ k / 2 ^ u = ((m * 2 ^ (k - u).toNat : ℤ) : ℚ) := by
      push_cast
      rw [← zpow_natCast, hd, zpow_sub₀ (by norm_num : (2 : ℚ) ≠ 0), mul_div_assoc]
    rw [hx, round_half_even_intCast]
    push_cast
    rw [← zpow_natCast, hd, mul_assoc, ← zpow_add₀ (by norm_num : (2 : ℚ) ≠ 0)]
    congr 2
    ring

/-- An integer of magnitude below `2 ^ 53` is a `double`. -/
theorem round_double_intCast (z : ℤ) (h : |z| < 2 ^ 53) : round_double (z : ℚ) = z := by
  have := round_double_scaled z 0 h (by norm_num)
  simpa using this

theorem round_double_nonneg (x : ℚ) (h : 0 ≤ x) : 0 ≤ round_double x := by
  unfold round_double
  have hq : (0 : ℚ) < 2 ^ ulp_exponent x := zpow_pos (by norm_num) _
  have h1 : 0 ≤ ⌊x / 2 ^ ulp_exponent x⌋ := Int.floor_nonneg.mpr (div_nonneg h hq.le)
  have h2 := (round_half_even_bounds (x / 2 ^ ulp_exponent x)).1
  have h3 : (0 : ℚ) ≤ (round_half_even (x / 2 ^ ulp_exponent x) : ℚ) := by
    exact_mod_cast le_trans h1 h2
  positivity

theorem round_double_nonpos (x : ℚ) (h : x ≤ 0) : round_double x ≤ 0 := by
  rcases eq_or_lt_of_le h with h0 | hneg
  · rw [h0, round_double_zero]
  · unfold round_double
    have hq : (0 : ℚ) < 2 ^ ulp_exponent x := zpow_pos (by norm_num) _
    have hy : x / 2 ^ ulp_exponent x < 0 := div_neg_of_neg_of_pos hneg hq
    have h1 : ⌊x / 2 ^ ulp_exponent x⌋ < 0 := by
      have := Int.floor_le (x / 2 ^ ulp_exponent x)
      have h' : ((⌊x / 2 ^ ulp_exponent x⌋ : ℤ) : ℚ) < 0 := lt_of_le_of_lt this hy
      exact_mod_cast h'
    have h2 := (round_half_even_bounds (x / 2 ^ ulp_exponent x)).2
    have h3 : (round_half_even (x / 2 ^ ulp_exponent x) : ℚ) ≤ 0 := by
      have : round_half_even (x / 2 ^ ulp_exponent x) ≤ 0 := by omega
      exact_mod_cast this
    exact mul_nonpos_iff.mpr (Or.inr ⟨h3, hq.le⟩)

theorem round_half_even_neg (y : ℚ) : round_half_even (-y) = - round_half_even y := by
  have h1 := Int.floor_le y
  have h2 := Int.lt_floor_add_one y
  by_cases hint : y = (⌊y⌋ : ℚ)
  · have e1 : -y = ((-⌊y⌋ : ℤ) : ℚ) := by push_cast; rw [← hint]
    rw [e1, round_half_even_intCast]
    have e2 := round_half_even_intCast ⌊y⌋
    rw [← hint] at e2
    rw [e2]
  · have hlt : (⌊y⌋ : ℚ) < y := lt_of_le_of_ne h1 (fun hc => hint hc.symm)
    have hfl : ⌊-y⌋ = -⌊y⌋ - 1 := by
      rw [Int.floor_eq_iff]
      push_cast
      constructor <;> linarith
    unfold round_half_even
    rw [hfl]
    push_cast
    split_ifs <;> first | omega | (exfalso; linarith)

theorem ulp_exponent_neg (x : ℚ) : ulp_exponent (-x) = ulp_exponent x := by
  unfold ulp_exponent
  rw [abs_neg]

theorem round_double_neg (x : ℚ) : round_double (-x) = - round_double x := by
  unfold round_double
  rw [ulp_exponent_neg, neg_div, round_half_even_neg]
  push_cast
  ring

theorem round_double_mono_pos {x y : ℚ} (hx : 0 < x) (h : x ≤ y) :
    round_double x ≤ round_double y := by
  have hy : 0 < y := lt_of_lt_of_le hx h
  have two : (2 : ℚ) ≠ 0 := by norm_num
  have hlog : Int.log 2 x ≤ Int.log 2 y := Int.log_mono_right hx h
  have hxl : x < 2 ^ (Int.log 2 x + 1) := by
    simpa using Int.lt_zpow_succ_log_self (by norm_num : 1 < 2) x
  have hyl : (2 : ℚ) ^ Int.log 2 y ≤ y := by
    simpa using Int.zpow_log_le_self (by norm_num : 1 < 2) hy
  have hux : ulp_exponent x = max (Int.log 2 x) (-1022) - 52 := by
    unfold ulp_exponent; rw [abs_of_pos hx]
  have huy : ulp_exponent y = max (Int.log 2 y) (-1022) - 52 := by
    unfold ulp_exponent; rw [abs_of_pos hy]
  have hqx : (0 : ℚ) < 2 ^ ulp_exponent x := zpow_pos (by norm_num) _
  have hqy : (0 : ℚ) < 2 ^ ulp_exponent y := zpow_pos (by norm_num) _
  rcases lt_or_eq_of_le (show ulp_exponent x ≤ ulp_exponent y by omega) with hlt | heq
  · -- different binades
    have hey : ulp_exponent y = Int.log 2 y - 52 := by omega
    have h53 : ((2 ^ 53 : ℤ) : ℚ) = 2 ^ (53 : ℤ) := by norm_num
    have h52 : ((2 ^ 52 : ℤ) : ℚ) = 2 ^ (52 : ℤ) := by norm_num
    have a1 : round_double x ≤ 2 ^ (ulp_exponent x + 53) := by
      unfold round_double
      have hle : x / 2 ^ ulp_exponent x ≤ ((2 ^ 53 : ℤ) : ℚ) := by
        rw [h53, div_le_iff₀ hqx, ← zpow_add₀ two]
        have : (2 : ℚ) ^ (Int.log 2 x + 1) ≤ 2 ^ (53 + ulp_exponent x) :=
          zpow_le_zpow_right₀ (by norm_num) (by omega)
        linarith
      have hr := round_half_even_mono hle
      rw [round_half_even_intCast] at hr
      have hr2 : (round_half_even (x / 2 ^ ulp_exponent x) : ℚ) ≤ ((2 ^ 53 : ℤ) : ℚ) := by
        exact_mod_cast hr
      rw [h53] at hr2
      calc (round_half_even (x / 2 ^ ulp_exponent x) : ℚ) * 2 ^ ulp_exponent x
          ≤ 2 ^ (53 : ℤ) * 2 ^ ulp_exponent x := mul_le_mul_of_nonneg_right hr2 hqx.le
        _ = 2 ^ (ulp_exponent x + 53) := by rw [← zpow_add₀ two]; congr 1; ring
    have a2 : (2 : ℚ) ^ (ulp_exponent x + 53) ≤ 2 ^ Int.log 2 y :=
      zpow_le_zpow_right₀ (by norm_num) (by omega)
    have a3 : (2 : ℚ) ^ Int.log 2 y ≤ round_double y := by
      unfold round_double
      have hle : ((2 ^ 52 : ℤ) : ℚ) ≤ y / 2 ^ ulp_exponent y := by
        rw [h52, le_div_iff₀ hqy, ← zpow_add₀ two, hey]
        have : (52 : ℤ) + (Int.log 2 y - 52) = Int.log 2 y := by ring
        rw [this]
        exact hyl
      have hr := round_half_even_mono hle
      rw [round_half_even_intCast] at hr
      have hr2 : ((2 ^ 52 : ℤ) : ℚ) ≤ (round_half_even (y / 2 ^ ulp_exponent y) : ℚ) := by
        exact_mod_cast hr
      rw [h52] at hr2
      calc (2 : ℚ) ^ Int.log 2 y = 2 ^ (52 : ℤ) * 2 ^ ulp_exponent y := by
            rw [← zpow_add₀ two, hey]; congr 1; ring
        _ ≤ (round_half_even (y / 2 ^ ulp_exponent y) : ℚ) * 2 ^ ulp_exponent y :=
            mul_le_mul_of_nonneg_right hr2 hqy.le
    linarith
  · unfold round_double
    rw [← heq]
    have hle : x / 2 ^ ulp_exponent x ≤ y / 2 ^ ulp_exponent x :=
      div_le_div_of_nonneg_right h hqx.le
    have hr := round_half_even_mono hle
    have hr2 : (round_half_even (x / 2 ^ ulp_exponent x) : ℚ)
        ≤ (round_half_even (y / 2 ^ ulp_exponent x) : ℚ) := by exact_mod_cast hr
    exact mul_le_mul_of_nonneg_right hr2 hqx.le

/-- Rounding to `double` is monotone. -/
theorem round_double_mono {x y : ℚ} (h : x ≤ y) : round_double x ≤ round_double y := by
  rcases lt_trichotomy 0 x with hx | hx | hx
  · exact round_double_mono_pos hx h
  · subst hx
    rw [round_double_zero]
    exact round_double_nonneg y h
  · rcases le_or_lt 0 y with hy | hy
    · exact le_trans (round_double_nonpos x hx.le) (round_double_nonneg y hy)
    · have := round_double_mono_pos (neg_pos.mpr hy) (neg_le_neg h)
      rw [round_double_neg, round_double_neg] at this
      linarith

/-- The rounding error is at most half a unit in the last place. -/
theorem round_double_error (x : ℚ) :
    |round_double x - x| ≤ 2 ^ ulp_exponent x / 2 := by
  have hq : (0 : ℚ) < 2 ^ ulp_exponent x := zpow_pos (by norm_num) _
  have hn := round_half_even_near (x / 2 ^ ulp_exponent x)
  unfold round_double
  have e : (round_half_even (x / 2 ^ ulp_exponent x) : ℚ) * 2 ^ ulp_exponent x - x
      = ((round_half_even (x / 2 ^ ulp_exponent x) : ℚ) - x / 2 ^ ulp_exponent x)
          * 2 ^ ulp_exponent x := by
    field_simp
  rw [e, abs_mul, abs_of_pos hq]
  calc |(round_half_even (x / 2 ^ ulp_exponent x) : ℚ) - x / 2 ^ ulp_exponent x|
        * 2 ^ ulp_exponent x
      ≤ 1 / 2 * 2 ^ ulp_exponent x := mul_le_mul_of_nonneg_right hn hq.le
    _ = 2 ^ ulp_exponent x / 2 := by ring

/-- In the normal range the rounding error is at most `2 ^ (-53)` times the magnitude. -/
theorem round_double_relative_error (x : ℚ) (h : 2 ^ (-1022 : ℤ) ≤ |x|) :
    |round_double x - x| ≤ |x| / 2 ^ 53 := by
  have two : (2 : ℚ) ≠ 0 := by norm_num
  have hpos : 0 < |x| := lt_of_lt_of_le (zpow_pos (by norm_num) _) h
  have hl : (-1022 : ℤ) ≤ Int.log 2 |x| :=
    (Int.zpow_le_iff_le_log (by norm_num) hpos).mp (by simpa using h)
  have hle : (2 : ℚ) ^ Int.log 2 |x| ≤ |x| := by
    simpa using Int.zpow_log_le_self (by norm_num : 1 < 2) hpos
  have hu : ulp_exponent x = Int.log 2 |x| - 52 := by
    unfold ulp_exponent; omega
  have he := round_double_error x
  rw [hu, zpow_sub₀ two] at he
  have h52 : (2 : ℚ) ^ (52 : ℤ) = 2 ^ 52 := by norm_num
  rw [h52] at he
  calc |round_double x - x| ≤ 2 ^ Int.log 2 |x| / 2 ^ 52 / 2 := he
    _ = 2 ^ Int.log 2 |x| / 2 ^ 53 := by ring
    _ ≤ |x| / 2 ^ 53 := div_le_div_of_nonneg_right hle (by positivity)

theorem round_double_natCast (n : ℕ) (h : n < 2 ^ 53) : round_double (n : ℚ) = n := by
  have := round_double_intCast (n : ℤ) (by
    rw [abs_of_nonneg (Int.natCast_nonneg n)]
    exact_mod_cast h)
  simpa using this

theorem round_double_ofNat (n : ℕ) [n.AtLeastTwo] (h : n < 2 ^ 53) :
    round_double (no_index (OfNat.ofNat n) : ℚ) = OfNat.ofNat n := by
  have := round_double_natCast n h
  simpa using this

theorem round_double_one : round_double 1 = 1 := by
  have := round_double_natCast 1 (by norm_num)
  simpa using this

theorem round_double_sub_intCast (a b : ℤ) (h : |a - b| < 2 ^ 53) :
    round_double ((a : ℚ) - (b : ℚ)) = (a : ℚ) - (b : ℚ) := by
  have := round_double_intCast (a - b) h
  simpa using this

/-- On a clock within the exact range `time_to_ns_lf` is the time in nanoseconds. -/
theorem time_to_ns_lf_exact (c : dumpi_clock) (h : exact_clock c) :
    time_to_ns_lf c = (wall_ns c : ℚ) := by
  obtain ⟨h1, h2, h3⟩ := h
  unfold wall_ns at h3
  have hs : |c.sec| < 2 ^ 53 := by rw [abs_of_nonneg h1]; omega
  have hn : |c.nsec| < 2 ^ 53 := by rw [abs_of_nonneg h2]; omega
  have hm : |c.sec * 1000000000| < 2 ^ 53 := by
    rw [abs_of_nonneg (by omega)]; omega
  have hw : |c.sec * 1000000000 + c.nsec| < 2 ^ 53 := by
    rw [abs_of_nonneg (by omega)]; omega
  unfold time_to_ns_lf double_add double_mul double_of_int wall_ns
  rw [round_double_intCast _ hs, round_double_intCast _ hn]
  have e1 : (c.sec : ℚ) * 1000000000 = ((c.sec * 1000000000 : ℤ) : ℚ) := by push_cast; rfl
  rw [e1, round_double_intCast _ hm]
  have e2 : ((c.sec * 1000000000 : ℤ) : ℚ) + (c.nsec : ℚ)
      = ((c.sec * 1000000000 + c.nsec : ℤ) : ℚ) := by push_cast; rfl
  rw [e2, round_double_intCast _ hw]

/-- On a clock of 32-bit members `time_to_ns_lf` is the time in nanoseconds rounded once to a
`double`: the conversions and the product by `1e9` are exact, the sum is rounded. -/
theorem time_to_ns_lf_round (c : dumpi_clock) (h : int32_clock c) :
    time_to_ns_lf c = round_double (wall_ns c : ℚ) := by
  obtain ⟨h1, h2, h3, h4⟩ := h
  have hs : |c.sec| < 2 ^ 53 := by rw [abs_lt]; constructor <;> omega
  have hn : |c.nsec| < 2 ^ 53 := by rw [abs_lt]; constructor <;> omega
  have hm : |c.sec * 1953125| < 2 ^ 53 := by rw [abs_lt]; constructor <;> omega
  unfold time_to_ns_lf double_add double_mul double_of_int wall_ns
  rw [round_double_intCast _ hs, round_double_intCast _ hn]
  have e1 : (c.sec : ℚ) * 1000000000 = ((c.sec * 1953125 : ℤ) : ℚ) * 2 ^ (9 : ℤ) := by
    push_cast
    norm_num
    ring
  rw [e1, round_double_scaled _ 9 hm (by norm_num), ← e1]
  congr 1
  push_cast
  rfl

/-- On clocks of 32-bit members `time_to_ns_lf` keeps the order of the wall-clock times. -/
theorem time_to_ns_lf_mono (a b : dumpi_clock) (ha : int32_clock a) (hb : int32_clock b)
    (h : wall_ns a ≤ wall_ns b) : time_to_ns_lf a ≤ time_to_ns_lf b := by
  rw [time_to_ns_lf_round a ha, time_to_ns_lf_round b hb]
  exact round_double_mono (by exact_mod_cast h)

/-- Within the exact range the gap the adapter computes between the start of a call and the
stop of the call before it is the wall-clock gap. -/
theorem computed_gap_exact (i p c : dumpi_clock) (hi : exact_clock i) (hp : exact_clock p)
    (hc : exact_clock c) :
    double_sub (double_sub (time_to_ns_lf c) (time_to_ns_lf i))
        (double_sub (time_to_ns_lf p) (time_to_ns_lf i))
      = (wall_ns c : ℚ) - (wall_ns p : ℚ) := by
  rw [time_to_ns_lf_exact i hi, time_to_ns_lf_exact p hp, time_to_ns_lf_exact c hc]
  have bi : 0 ≤ wall_ns i ∧ wall_ns i < 2 ^ 53 := by
    obtain ⟨h1, h2, h3⟩ := hi; unfold wall_ns at h3 ⊢; omega
  have bp : 0 ≤ wall_ns p ∧ wall_ns p < 2 ^ 53 := by
    obtain ⟨h1, h2, h3⟩ := hp; unfold wall_ns at h3 ⊢; omega
  have bc : 0 ≤ wall_ns c ∧ wall_ns c < 2 ^ 53 := by
    obtain ⟨h1, h2, h3⟩ := hc; unfold wall_ns at h3 ⊢; omega
  unfold double_sub
  rw [round_double_sub_intCast (wall_ns c) (wall_ns i) (by rw [abs_lt]; omega),
    round_double_sub_intCast (wall_ns p) (wall_ns i) (by rw [abs_lt]; omega)]
  have e : (wall_ns c : ℚ) - (wall_ns i : ℚ) - ((wall_ns p : ℚ) - (wall_ns i : ℚ))
      = (wall_ns c : ℚ) - (wall_ns p : ℚ) := by ring
  rw [e, round_double_sub_intCast (wall_ns c) (wall_ns p) (by rw [abs_lt]; omega)]

theorem check_set_init_time_of_init (t : dumpi_time) (ctx : rank_mpi_context)
    (h : ctx.is_init ≠ 0) : check_set_init_time t ctx = ctx := by
  unfold check_set_init_time
  rw [if_neg h]

theorem check_set_init_time_array (t : dumpi_time) (ctx : rank_mpi_context) :
    (check_set_init_time t ctx).dumpi_mpi_array = ctx.dumpi_mpi_array ∧
    (check_set_init_time t ctx).num_reqs = ctx.num_reqs ∧
    (check_set_init_time t ctx).my_rank = ctx.my_rank ∧
    (check_set_init_time t ctx).is_init ≠ 0 := by
  unfold check_set_init_time
  by_cases h : ctx.is_init = 0
  · rw [if_pos h]
    exact ⟨rfl, rfl, rfl, by show (1 : Int) ≠ 0; decide⟩
  · rw [if_neg h]
    exact ⟨rfl, rfl, rfl, h⟩

theorem update_times_and_insert_delay (op : codes_workload_op) (t : dumpi_time)
    (ctx : rank_mpi_context) (h : ctx.is_init ≠ 0)
    (hgap : double_sub (double_sub (time_to_ns_lf t.start) ctx.init_time) ctx.last_op_time
      > 100) :
    update_times_and_insert op t ctx =
      match insert_all ctx.dumpi_mpi_array
        [delay_op ctx.last_op_time (double_sub (time_to_ns_lf t.start) ctx.init_time),
         { op with start_time := double_sub (time_to_ns_lf t.start) ctx.init_time,
                   end_time := double_sub (time_to_ns_lf t.stop) ctx.init_time }] with
      | Except.error e => Except.error e
      | Except.ok a =>
        Except.ok { ctx with dumpi_mpi_array := a,
                             last_op_time := double_sub (time_to_ns_lf t.stop) ctx.init_time }
    := by
  unfold update_times_and_insert update_compute_time
  rw [check_set_init_time_of_init t ctx h]
  simp only [DUMPI_IGNORE_DELAY, hgap, if_true, insert_all]
  cases dumpi_insert_next_op ctx.dumpi_mpi_array
      (delay_op ctx.last_op_time (double_sub (time_to_ns_lf t.start) ctx.init_time)) with
  | error e => rfl
  | ok a =>
    dsimp only
    cases dumpi_insert_next_op a
      { op with start_time := double_sub (time_to_ns_lf t.start) ctx.init_time,
                end_time := double_sub (time_to_ns_lf t.stop) ctx.init_time } <;> rfl

theorem update_times_and_insert_no_delay (op : codes_workload_op) (t : dumpi_time)
    (ctx : rank_mpi_context) (h : ctx.is_init ≠ 0)
    (hgap : ¬ double_sub (double_sub (time_to_ns_lf t.start) ctx.init_time) ctx.last_op_time
      > 100) :
    update_times_and_insert op t ctx =
      match insert_all ctx.dumpi_mpi_array
        [{ op with start_time := double_sub (time_to_ns_lf t.start) ctx.init_time,
                   end_time := double_sub (time_to_ns_lf t.stop) ctx.init_time }] with
      | Except.error e => Except.error e
      | Except.ok a =>
        Except.ok { ctx with dumpi_mpi_array := a,
                             last_op_time := double_sub (time_to_ns_lf t.stop) ctx.init_time }
    := by
  unfold update_times_and_insert update_compute_time
  rw [check_set_init_time_of_init t ctx h]
  simp only [DUMPI_IGNORE_DELAY, hgap, if_false, insert_all]
  cases dumpi_insert_next_op ctx.dumpi_mpi_array
      { op with start_time := double_sub (time_to_ns_lf t.start) ctx.init_time,
                end_time := double_sub (time_to_ns_lf t.stop) ctx.init_time } <;> rfl

/-- What a returning call of `update_times_and_insert` leaves in the context of a rank whose
init time is set. -/
theorem update_times_and_insert_context (op : codes_workload_op) (t : dumpi_time)
    (ctx ctx1 : rank_mpi_context) (h : ctx.is_init ≠ 0)
    (h1 : update_times_and_insert op t ctx = Except.ok ctx1) :
    ctx1.is_init ≠ 0 ∧ ctx1.init_time = ctx.init_time ∧
    ctx1.last_op_time = double_sub (time_to_ns_lf t.stop) ctx.init_time := by
  by_cases hgap : double_sub (double_sub (time_to_ns_lf t.start) ctx.init_time)
      ctx.last_op_time > 100
  · rw [update_times_and_insert_delay op t ctx h hgap] at h1
    cases hi : insert_all ctx.dumpi_mpi_array
        [delay_op ctx.last_op_time (double_sub (time_to_ns_lf t.start) ctx.init_time),
         { op with start_time := double_sub (time_to_ns_lf t.start) ctx.init_time,
                   end_time := double_sub (time_to_ns_lf t.stop) ctx.init_time }] with
    | error e => rw [hi] at h1; cases h1
    | ok a => rw [hi] at h1; cases h1; exact ⟨h, rfl, rfl⟩
  · rw [update_times_and_insert_no_delay op t ctx h hgap] at h1
    cases hi : insert_all ctx.dumpi_mpi_array
        [{ op with start_time := double_sub (time_to_ns_lf t.start) ctx.init_time,
                   end_time := double_sub (time_to_ns_lf t.stop) ctx.init_time }] with
    | error e => rw [hi] at h1; cases h1
    | ok a => rw [hi] at h1; cases h1; exact ⟨h, rfl, rfl⟩

/-- On the first call of a rank that does not stop before it starts, the gap computed is not
positive. -/
theorem first_call_gap (t : dumpi_time) (h : time_to_ns_lf t.start ≤ time_to_ns_lf t.stop) :
    double_sub (time_to_ns_lf t.start) (time_to_ns_lf t.start) = 0 ∧
    ¬ double_sub 0 (double_sub (time_to_ns_lf t.stop) (time_to_ns_lf t.start)) > 100 := by
  constructor
  · unfold double_sub
    rw [sub_self, round_double_zero]
  · have h1 : 0 ≤ double_sub (time_to_ns_lf t.stop) (time_to_ns_lf t.start) :=
      round_double_nonneg _ (by linarith)
    have h2 : double_sub 0 (double_sub (time_to_ns_lf t.stop) (time_to_ns_lf t.start)) ≤ 0 :=
      round_double_nonpos _ (by linarith)
    intro hc
    linarith

theorem insert_all_append (l1 l2 : List codes_workload_op) :
    ∀ (t : dumpi_op_data_array), insert_all t (l1 ++ l2) =
      match insert_all t l1 with
      | Except.error e => Except.error e
      | Except.ok t1 => insert_all t1 l2 := by
  induction l1 with
  | nil => intro t; rfl
  | cons op rest ih =>
    intro t
    simp only [List.cons_append, insert_all]
    cases dumpi_insert_next_op t op with
    | error e => rfl
    | ok t0 => exact ih t0

theorem update_times_and_insert_check (op : codes_workload_op) (t : dumpi_time)
    (ctx : rank_mpi_context) :
    update_times_and_insert op t ctx
      = update_times_and_insert op t (check_set_init_time t ctx) := by
  have hidem : check_set_init_time t (check_set_init_time t ctx) = check_set_init_time t ctx :=
    check_set_init_time_of_init t _ (check_set_init_time_array t ctx).2.2.2
  unfold update_times_and_insert
  rw [hidem]

theorem update_times_and_insert_of_init (op : codes_workload_op) (t : dumpi_time)
    (ctx : rank_mpi_context) (h : ctx.is_init ≠ 0) :
    update_times_and_insert op t ctx =
      match insert_all ctx.dumpi_mpi_array
        ((if double_sub (double_sub (time_to_ns_lf t.start) ctx.init_time) ctx.last_op_time
              > 100 then
            [delay_op ctx.last_op_time (double_sub (time_to_ns_lf t.start) ctx.init_time)]
          else []) ++
         [{ op with start_time := double_sub (time_to_ns_lf t.start) ctx.init_time,
                    end_time := double_sub (time_to_ns_lf t.stop) ctx.init_time }]) with
      | Except.error e => Except.error e
      | Except.ok a =>
        Except.ok { ctx with dumpi_mpi_array := a,
                             last_op_time := double_sub (time_to_ns_lf t.stop) ctx.init_time }
    := by
  by_cases hgap : double_sub (double_sub (time_to_ns_lf t.start) ctx.init_time)
      ctx.last_op_time > 100
  · rw [update_times_and_insert_delay op t ctx h hgap, if_pos hgap]
    rfl
  · rw [update_times_and_insert_no_delay op t ctx h hgap, if_neg hgap]
    rfl

/-- The insertions of `update_times_and_insert`: the Delay before the call, if any, and the
operation of the call with its two times. -/
theorem update_times_and_insert_eq (op : codes_workload_op) (t : dumpi_time)
    (ctx : rank_mpi_context) :
    update_times_and_insert op t ctx =
      match insert_all ctx.dumpi_mpi_array (delay_before t ctx ++ [stamped_op op t ctx]) with
      | Except.error e => Except.error e
      | Except.ok a =>
        Except.ok { check_set_init_time t ctx with
          dumpi_mpi_array := a,
          last_op_time :=
            double_sub (time_to_ns_lf t.stop) (check_set_init_time t ctx).init_time } := by
  rw [update_times_and_insert_check,
    update_times_and_insert_of_init op t _ (check_set_init_time_array t ctx).2.2.2,
    (check_set_init_time_array t ctx).1]
  rfl

/-- How `round_double` is evaluated between `2 ^ 60` and `2 ^ 61`, where the `double` values
are 256 apart. -/
theorem round_double_binade_60 (x : ℚ) (h1 : 1152921504606846976 ≤ x)
    (h2 : x < 2305843009213693952) :
    round_double x = (round_half_even (x / 256) : ℚ) * 256 := by
  have hx : |x| = x := abs_of_nonneg (by linarith)
  rw [round_double_binade x 60 (by rw [hx]; norm_num; exact h1)
    (by rw [hx]; norm_num; exact h2) (by norm_num)]
  norm_num

theorem handleDUMPISend_send_call (t : dumpi_time) (ctx : rank_mpi_context) :
    handleDUMPISend send_call t ctx
      = update_times_and_insert (send_wk_op send_call ctx 40) t ctx := by
  simp [handleDUMPISend, send_call, count_num_bytes, get_num_bytes]

/-- The first insertions into the buffer of a rank that has made no insertion yet; `f` is
what is read from each element of the queue. -/
theorem insert_all_first {α : Type} (f : codes_workload_op → α) (ctx : rank_mpi_context)
    (h : ctx.dumpi_mpi_array = dumpi_init_op_data) (a b c : codes_workload_op) :
    (value_of (insert_all ctx.dumpi_mpi_array [a])).map
        (fun t => t.next_ops_queue.map f)
      = some [f a, f unset_op, f unset_op, f unset_op] ∧
    (value_of (insert_all ctx.dumpi_mpi_array [a, b])).map
        (fun t => t.next_ops_queue.map f)
      = some [f a, f b, f unset_op, f unset_op] ∧
    (value_of (insert_all ctx.dumpi_mpi_array [a, b, c])).map
        (fun t => t.next_ops_queue.map f)
      = some [f a, f b, f c, f unset_op] := by
  rw [h]
  refine ⟨?_, ?_, ?_⟩ <;>
    norm_num [insert_all, dumpi_insert_next_op, grow_next_ops_queue, store_op,
      dumpi_init_op_data, INITIAL_OP_QUEUE_SIZE, List.replicate, value_of]

theorem value_of_map_insert {α : Type} (r : dumpi_result dumpi_op_data_array)
    (g : dumpi_op_data_array → rank_mpi_context) (f : dumpi_op_data_array → α)
    (F : rank_mpi_context → α) (hF : ∀ a, F (g a) = f a) :
    (value_of (match r with
      | Except.error e => Except.error e
      | Except.ok a => Except.ok (g a))).map F = (value_of r).map f := by
  cases r with
  | error e => rfl
  | ok a => simp [value_of, hF]

/-- The queue after `update_times_and_insert` on a rank that has made no insertion yet; `f`
is what is read from each element. -/
theorem update_times_and_insert_first {α : Type} (f : codes_workload_op → α)
    (op : codes_workload_op) (t : dumpi_time)
    (ctx : rank_mpi_context) (h : ctx.dumpi_mpi_array = dumpi_init_op_data) :
    (value_of (update_times_and_insert op t ctx)).map
        (fun c => c.dumpi_mpi_array.next_ops_queue.map f)
      = some ((delay_before t ctx ++ [stamped_op op t ctx]).map f
          ++ List.replicate (3 - (delay_before t ctx).length) (f unset_op)) := by
  rw [update_times_and_insert_eq,
    value_of_map_insert _ _ (fun c => c.next_ops_queue.map f) _ (fun a => rfl)]
  unfold delay_before
  split
  · exact (insert_all_first f ctx h _ _ unset_op).2.1
  · exact (insert_all_first f ctx h (stamped_op op t ctx) unset_op unset_op).1

/-- The quotient of a gap of 500 ns by `1e9`, in `double`: the `double` nearest to `5e-7`. -/
theorem double_div_500 :
    double_div 500 1000000000 = 4722366482869645 / 9444732965739290427392 := by
  unfold double_div
  rw [round_double_binade _ (-21) (by norm_num [abs_of_pos]) (by norm_num [abs_of_pos])
    (by norm_num)]
  norm_num [round_half_even]

/-- The quotient of a gap of more than 100 ns by `1e9`, in `double`, is the gap in seconds
up to a relative error of `2 ^ (-53)`. -/
theorem delay_seconds_error (g : tw_stime) (hg : g > 100) :
    |double_div g 1000000000 * 1000000000 - g| ≤ g / 2 ^ 53 := by
  have hpos : (0 : ℚ) < g / 1000000000 := by positivity
  have hnorm : (2 : ℚ) ^ (-1022 : ℤ) ≤ |g / 1000000000| := by
    rw [abs_of_pos hpos]
    have h1 : (2 : ℚ) ^ (-1022 : ℤ) ≤ 2 ^ (-24 : ℤ) :=
      zpow_le_zpow_right₀ (by norm_num) (by norm_num)
    have h2 : (2 : ℚ) ^ (-24 : ℤ) ≤ 100 / 1000000000 := by norm_num
    have h3 : (100 : ℚ) / 1000000000 ≤ g / 1000000000 :=
      div_le_div_of_nonneg_right hg.le (by norm_num)
    linarith
  have he := round_double_relative_error (g / 1000000000) hnorm
  rw [abs_of_pos hpos] at he
  unfold double_div
  have e : round_double (g / 1000000000) * 1000000000 - g
      = (round_double (g / 1000000000) - g / 1000000000) * 1000000000 := by ring
  rw [e, abs_mul, abs_of_pos (by norm_num : (0 : ℚ) < 1000000000)]
  calc |round_double (g / 1000000000) - g / 1000000000| * 1000000000
      ≤ g / 1000000000 / 2 ^ 53 * 1000000000 :=
        mul_le_mul_of_nonneg_right he (by norm_num)
    _ = g / 2 ^ 53 := by ring

theorem update_compute_time_delay (time : dumpi_time) (ctx : rank_mpi_context)
    (hgap : double_sub (double_sub (time_to_ns_lf time.start) ctx.init_time) ctx.last_op_time
      > 100) :
    update_compute_time time ctx =
      match dumpi_insert_next_op ctx.dumpi_mpi_array
        (delay_op ctx.last_op_time (double_sub (time_to_ns_lf time.start) ctx.init_time)) with
      | Except.error e => Except.error e
      | Except.ok a =>
        Except.ok { ctx with
          dumpi_mpi_array := a,
          last_op_time := double_sub (time_to_ns_lf time.stop) ctx.init_time } := by
  unfold update_compute_time
  simp only [DUMPI_IGNORE_DELAY, hgap, if_true]

/-- The Delay `update_compute_time` stores. -/
theorem update_compute_time_stores (time : dumpi_time) (ctx : rank_mpi_context)
    (hwf : buffer_wf ctx.dumpi_mpi_array)
    (hroom : ctx.dumpi_mpi_array.next_ops_queue_count < ctx.dumpi_mpi_array.next_ops_queue_size)
    (hgap : double_sub (double_sub (time_to_ns_lf time.start) ctx.init_time) ctx.last_op_time
      > 100) :
    ∃ ctx1, update_compute_time time ctx = Except.ok ctx1 ∧
      ctx1.dumpi_mpi_array.next_ops_queue.get? ctx.dumpi_mpi_array.next_ops_queue_last
        = some (delay_op ctx.last_op_time
            (double_sub (time_to_ns_lf time.start) ctx.init_time)) ∧
      ctx1.dumpi_mpi_array.next_ops_queue_count
        = ctx.dumpi_mpi_array.next_ops_queue_count + 1 := by
  obtain ⟨h1, h2, h3, h4, h5, h6, h7, h8⟩ := hwf
  have hi := dumpi_insert_next_op_of_lt ctx.dumpi_mpi_array
    (delay_op ctx.last_op_time (double_sub (time_to_ns_lf time.start) ctx.init_time)) h1 h5 hroom
  refine ⟨{ ctx with
      dumpi_mpi_array :=
        { ctx.dumpi_mpi_array with
          next_ops_queue := ctx.dumpi_mpi_array.next_ops_queue.set
            ctx.dumpi_mpi_array.next_ops_queue_last
            (delay_op ctx.last_op_time (double_sub (time_to_ns_lf time.start) ctx.init_time)),
          next_ops_queue_last := (ctx.dumpi_mpi_array.next_ops_queue_last + 1)
            % ctx.dumpi_mpi_array.next_ops_queue_size,
          next_ops_queue_count := ctx.dumpi_mpi_array.next_ops_queue_count + 1 },
      last_op_time := double_sub (time_to_ns_lf time.stop) ctx.init_time }, ?_, ?_, rfl⟩
  · rw [update_compute_time_delay time ctx hgap, hi]
  · show (ctx.dumpi_mpi_array.next_ops_queue.set ctx.dumpi_mpi_array.next_ops_queue_last _).get?
      ctx.dumpi_mpi_array.next_ops_queue_last = _
    rw [List.get?_eq_getElem?, List.getElem?_set_self (by omega)]

theorem count_num_bytes_of_some (t : dumpi_op_data_array) (count : Int) (dt : dumpi_datatype)
    (b : Nat) (hb : get_num_bytes dt = some b) (hn : 0 ≤ count * (b : Int)) :
    count_num_bytes t count dt = Except.ok (count * (b : Int)) := by
  unfold count_num_bytes
  rw [hb]
  simp only [ge_iff_le, hn, if_true]

theorem uint_inc_iterate (k n : Nat) : uint_inc^[k] n = if k = 0 then n else (n + k) % 2 ^ 32 := by
  induction k generalizing n with
  | zero => rfl
  | succ k ih =>
    rw [Function.iterate_succ_apply, ih]
    unfold uint_inc
    by_cases hk : k = 0
    · subst hk; simp
    · rw [if_neg hk, if_neg (by omega)]
      omega

theorem insert_all_snoc3 (t : dumpi_op_data_array) (pre : List codes_workload_op)
    (x y z : codes_workload_op) :
    insert_all t (pre ++ [x, y, z]) =
      match insert_all t (pre ++ [x]) with
      | Except.error e => Except.error e
      | Except.ok a1 =>
        match insert_all a1 [y] with
        | Except.error e => Except.error e
        | Except.ok a2 => insert_all a2 [z] := by
  have hsplit : pre ++ [x, y, z] = (pre ++ [x]) ++ ([y] ++ [z]) := by simp
  rw [hsplit, insert_all_append (pre ++ [x]) ([y] ++ [z]) t]
  cases insert_all t (pre ++ [x]) with
  | error e => rfl
  | ok a1 => exact insert_all_append [y] [z] a1

theorem delay_before_length (t : dumpi_time) (ctx : rank_mpi_context) :
    (delay_before t ctx).length ≤ 1 := by
  unfold delay_before
  split <;> simp

theorem delay_before_type (t : dumpi_time) (ctx : rank_mpi_context) :
    ∀ o ∈ delay_before t ctx, o.op_type = CODES_WK_DELAY := by
  intro o ho
  unfold delay_before at ho
  split at ho
  · simp only [List.mem_singleton] at ho
    subst ho
    rfl
  · cases ho

/-- A value in the range of `int16_t` is stored as it is. -/
theorem to_int16_of_range (n : Int) (h1 : -32768 ≤ n) (h2 : n < 32768) : to_int16 n = n := by
  unfold to_int16
  omega

/-- Two counter values fewer than `2 ^ 16` increments apart give different request ids. -/
theorem to_int16_uint_inc_iterate (k n : Nat) (hk0 : 0 < k) (hk : k < 2 ^ 16) :
    to_int16 ((uint_inc^[k] n : Nat) : Int) ≠ to_int16 (n : Int) := by
  rw [uint_inc_iterate, if_neg (by omega)]
  unfold to_int16
  omega

/-- A call that does not stop before it starts: once `last_op_time` is its stop, the gap
computed before an operation of the same call is not positive. -/
theorem same_call_gap (t : dumpi_time) (init : tw_stime)
    (h : time_to_ns_lf t.start ≤ time_to_ns_lf t.stop) :
    ¬ double_sub (double_sub (time_to_ns_lf t.start) init)
        (double_sub (time_to_ns_lf t.stop) init) > 100 := by
  have h1 : double_sub (time_to_ns_lf t.start) init ≤ double_sub (time_to_ns_lf t.stop) init :=
    round_double_mono (by linarith)
  have h2 : double_sub (double_sub (time_to_ns_lf t.start) init)
      (double_sub (time_to_ns_lf t.stop) init) ≤ 0 :=
    round_double_nonpos _ (by linarith)
  intro hc
  linarith

/-- The insertions of `handleDUMPISendrecv`. -/
theorem handleDUMPISendrecv_eq (prm : dumpi_sendrecv) (wall : dumpi_time)
    (ctx : rank_mpi_context)
    (bs br : Nat) (hs : get_num_bytes prm.sendtype = some bs)
    (hr : get_num_bytes prm.recvtype = some br)
    (hsn : 0 ≤ prm.sendcount * (bs : Int)) (hrn : 0 ≤ prm.recvcount * (br : Int))
    (ht : time_to_ns_lf wall.start ≤ time_to_ns_lf wall.stop) :
    handleDUMPISendrecv prm wall ctx =
      match insert_all ctx.dumpi_mpi_array
        (delay_before wall ctx ++
         [stamped_op (sendrecv_isend prm ctx (prm.sendcount * (bs : Int))) wall ctx,
          stamped_op (sendrecv_recv prm (prm.recvcount * (br : Int))) wall ctx,
          stamped_op (sendrecv_wait ctx) wall ctx]) with
      | Except.error e => Except.error e
      | Except.ok a =>
        Except.ok { check_set_init_time wall ctx with
          dumpi_mpi_array := a,
          last_op_time :=
            double_sub (time_to_ns_lf wall.stop) (check_set_init_time wall ctx).init_time,
          num_reqs := uint_inc ctx.num_reqs } := by
  obtain ⟨ca, cn, cr, ci⟩ := check_set_init_time_array wall ctx
  unfold delay_before stamped_op
  generalize hc0 : check_set_init_time wall ctx = c0 at ca cn cr ci ⊢
  unfold handleDUMPISendrecv
  rw [count_num_bytes_of_some _ _ _ bs hs hsn]
  dsimp only
  rw [update_times_and_insert_check, hc0, update_times_and_insert_of_init _ wall c0 ci, ca]
  rw [insert_all_snoc3]
  have hisend : sendrecv_isend prm ctx (prm.sendcount * (bs : Int))
      = sendrecv_isend prm c0 (prm.sendcount * (bs : Int)) := by
    unfold sendrecv_isend; rw [cn, cr]
  rw [hisend]
  cases h1 : insert_all ctx.dumpi_mpi_array
      ((if double_sub (double_sub (time_to_ns_lf wall.start) c0.init_time) c0.last_op_time
            > 100 then
          [delay_op c0.last_op_time (double_sub (time_to_ns_lf wall.start) c0.init_time)]
        else []) ++
       [{ sendrecv_isend prm c0 (prm.sendcount * (bs : Int)) with
            start_time := double_sub (time_to_ns_lf wall.start) c0.init_time,
            end_time := double_sub (time_to_ns_lf wall.stop) c0.init_time }]) with
  | error e => rfl
  | ok a1 =>
    dsimp only
    rw [count_num_bytes_of_some _ _ _ br hr hrn]
    dsimp only
    rw [update_times_and_insert_no_delay _ wall
      { c0 with dumpi_mpi_array := a1,
                last_op_time := double_sub (time_to_ns_lf wall.stop) c0.init_time } ci
      (same_call_gap wall c0.init_time ht)]
    cases h2 : insert_all a1
        [{ sendrecv_recv prm (prm.recvcount * (br : Int)) with
            start_time := double_sub (time_to_ns_lf wall.start) c0.init_time,
            end_time := double_sub (time_to_ns_lf wall.stop) c0.init_time }] with
    | error e => rfl
    | ok a2 =>
      dsimp only
      rw [update_times_and_insert_no_delay _ wall
        { c0 with dumpi_mpi_array := a2,
                  last_op_time := double_sub (time_to_ns_lf wall.stop) c0.init_time } ci
        (same_call_gap wall c0.init_time ht)]
      have hwait : sendrecv_wait
          { c0 with dumpi_mpi_array := a2,
                    last_op_time := double_sub (time_to_ns_lf wall.stop) c0.init_time }
          = sendrecv_wait ctx := by
        unfold sendrecv_wait
        show ({ unset_op with op_type := CODES_WK_WAIT,
                              wait_req_id := to_int16 (c0.num_reqs : Int) }
          : codes_workload_op) = _
        rw [cn]
      rw [hwait]
      cases h3 : insert_all a2
          [{ sendrecv_wait ctx with
              start_time := double_sub (time_to_ns_lf wall.start) c0.init_time,
              end_time := double_sub (time_to_ns_lf wall.stop) c0.init_time }] with
      | error e => rfl
      | ok a3 =>
        dsimp only
        show Except.ok _ = Except.ok _
        rw [← cn]

/-- The queue and the counter after `handleDUMPISendrecv` of the record `sendrecv_call`, 40 ns
after the last call, on a rank that has made no insertion yet and whose counter is `n`. -/
theorem handleDUMPISendrecv_first (n : Nat) :
    (value_of (handleDUMPISendrecv sendrecv_call (call_at 2040 3000)
        { adapter_context with num_reqs := n })).map
      (fun c => (c.dumpi_mpi_array.next_ops_queue.map
          (fun o => (o.op_type, o.req_id, o.wait_req_id)), c.num_reqs))
      = some ([(CODES_WK_ISEND, to_int16 n, 0), (CODES_WK_RECV, -1, 0),
               (CODES_WK_WAIT, 0, to_int16 n), (CODES_WK_UNSET, 0, 0)], uint_inc n) := by
  have ht : time_to_ns_lf (call_at 2040 3000).start ≤ time_to_ns_lf (call_at 2040 3000).stop := by
    norm_num [time_to_ns_lf, double_add, double_mul, double_of_int, call_at,
      round_double_ofNat, round_double_zero]
  have hd : delay_before (call_at 2040 3000) { adapter_context with num_reqs := n } = [] := by
    norm_num [delay_before, check_set_init_time, adapter_context, load_context,
      time_to_ns_lf, double_add, double_mul, double_of_int, double_sub, call_at,
      round_double_ofNat, round_double_zero]
  rw [handleDUMPISendrecv_eq sendrecv_call (call_at 2040 3000) _ 4 4 rfl rfl (by decide)
    (by decide) ht, hd, List.nil_append]
  rw [value_of_map_insert _ _
    (fun a => (a.next_ops_queue.map (fun o => (o.op_type, o.req_id, o.wait_req_id)),
      uint_inc n)) _ (fun a => rfl)]
  have h3 := (insert_all_first (fun o => (o.op_type, o.req_id, o.wait_req_id))
    { adapter_context with num_reqs := n } rfl
    (stamped_op (sendrecv_isend sendrecv_call { adapter_context with num_reqs := n }
      (sendrecv_call.sendcount * ((4 : Nat) : Int))) (call_at 2040 3000)
      { adapter_context with num_reqs := n })
    (stamped_op (sendrecv_recv sendrecv_call (sendrecv_call.recvcount * ((4 : Nat) : Int)))
      (call_at 2040 3000) { adapter_context with num_reqs := n })
    (stamped_op (sendrecv_wait { adapter_context with num_reqs := n }) (call_at 2040 3000)
      { adapter_context with num_reqs := n })).2.2
  have hm : ∀ (r : Option dumpi_op_data_array),
      r.map (fun a => (a.next_ops_queue.map (fun o => (o.op_type, o.req_id, o.wait_req_id)),
        uint_inc n))
      = (r.map (fun t => t.next_ops_queue.map
          (fun o => (o.op_type, o.req_id, o.wait_req_id)))).map (fun q => (q, uint_inc n)) := by
    intro r
    cases r <;> rfl
  rw [hm, h3]
  simp [stamped_op, sendrecv_isend, sendrecv_recv, sendrecv_wait, unset_op]

/-- C23: on a rank whose counter `num_reqs` is 5, the record `sendrecv_call` puts three
operations into the queue, ISend, Recv and Wait in this order; the ISend carries request 5 and
the Wait waits for request 5, but the Recv carries request `-1`, and `num_reqs` becomes 6.
With `num_reqs` at 40000 the request stored is `-25536`, not 40000, and with `num_reqs` at
65541 it is 5 again: the request ids are 16-bit integers. -/
theorem sendrecv_recv_has_no_request :
    (value_of (handleDUMPISendrecv sendrecv_call (call_at 2040 3000)
        { adapter_context with num_reqs := 5 })).map
      (fun c => (c.dumpi_mpi_array.next_ops_queue.map
          (fun o => (o.op_type, o.req_id, o.wait_req_id)), c.num_reqs))
      = some ([(CODES_WK_ISEND, 5, 0), (CODES_WK_RECV, -1, 0), (CODES_WK_WAIT, 0, 5),
               (CODES_WK_UNSET, 0, 0)], 6) ∧
    (value_of (handleDUMPISendrecv sendrecv_call (call_at 2040 3000)
        { adapter_context with num_reqs := 40000 })).map
      (fun c => (c.dumpi_mpi_array.next_ops_queue.map
          (fun o => (o.op_type, o.req_id, o.wait_req_id)), c.num_reqs))
      = some ([(CODES_WK_ISEND, -25536, 0), (CODES_WK_RECV, -1, 0), (CODES_WK_WAIT, 0, -25536),
               (CODES_WK_UNSET, 0, 0)], 40001) ∧
    (value_of (handleDUMPISendrecv sendrecv_call (call_at 2040 3000)
        { adapter_context with num_reqs := 65541 })).map
      (fun c => (c.dumpi_mpi_array.next_ops_queue.map
          (fun o => (o.op_type, o.req_id, o.wait_req_id)), c.num_reqs))
      = some ([(CODES_WK_ISEND, 5, 0), (CODES_WK_RECV, -1, 0), (CODES_WK_WAIT, 0, 5),
               (CODES_WK_UNSET, 0, 0)], 65542) := by
  refine ⟨?_, ?_, ?_⟩
  · rw [handleDUMPISendrecv_first 5]
    rfl
  · rw [handleDUMPISendrecv_first 40000]
    rfl
  · rw [handleDUMPISendrecv_first 65541]
    rfl

/-- C23 (as amended): for a `MPI_Sendrecv` record with known datatypes, non-negative byte
counts and a wall-clock stop time not before its start time (on clocks of 32-bit members),
`handleDUMPISendrecv` inserts, after at most
one Delay, exactly the three operations ISend, Recv and Wait in this order, and with room for
four operations it returns. The ISend carries the request `to_int16 num_reqs`, the counter
`num_reqs` before the call converted to the 16-bit type of a request id, which is `num_reqs`
itself below `2 ^ 15`; the Wait waits for that request; the Recv carries the request `-1`.
`num_reqs` is then incremented (in `unsigned int`), and the requests of two calls fewer than
`2 ^ 16` calls apart are different. -/
theorem sendrecv_expansion (prm : dumpi_sendrecv) (wall : dumpi_time) (ctx : rank_mpi_context)
    (bs br : Nat) (hs : get_num_bytes prm.sendtype = some bs)
    (hr : get_num_bytes prm.recvtype = some br)
    (hsn : 0 ≤ prm.sendcount * (bs : Int)) (hrn : 0 ≤ prm.recvcount * (br : Int))
    (hstart : int32_clock wall.start) (hstop : int32_clock wall.stop)
    (hwall : wall_ns wall.start ≤ wall_ns wall.stop) :
    handleDUMPISendrecv prm wall ctx =
      (match insert_all ctx.dumpi_mpi_array
        (delay_before wall ctx ++
         [stamped_op (sendrecv_isend prm ctx (prm.sendcount * (bs : Int))) wall ctx,
          stamped_op (sendrecv_recv prm (prm.recvcount * (br : Int))) wall ctx,
          stamped_op (sendrecv_wait ctx) wall ctx]) with
      | Except.error e => Except.error e
      | Except.ok a =>
        Except.ok { check_set_init_time wall ctx with
          dumpi_mpi_array := a,
          last_op_time :=
            double_sub (time_to_ns_lf wall.stop) (check_set_init_time wall ctx).init_time,
          num_reqs := uint_inc ctx.num_reqs }) ∧
    (delay_before wall ctx).length ≤ 1 ∧
    (∀ o ∈ delay_before wall ctx, o.op_type = CODES_WK_DELAY) ∧
    (stamped_op (sendrecv_isend prm ctx (prm.sendcount * (bs : Int))) wall ctx).op_type
      = CODES_WK_ISEND ∧
    (stamped_op (sendrecv_isend prm ctx (prm.sendcount * (bs : Int))) wall ctx).req_id
      = to_int16 ctx.num_reqs ∧
    (stamped_op (sendrecv_recv prm (prm.recvcount * (br : Int))) wall ctx).op_type
      = CODES_WK_RECV ∧
    (stamped_op (sendrecv_recv prm (prm.recvcount * (br : Int))) wall ctx).req_id = -1 ∧
    (stamped_op (sendrecv_wait ctx) wall ctx).op_type = CODES_WK_WAIT ∧
    (stamped_op (sendrecv_wait ctx) wall ctx).wait_req_id = to_int16 ctx.num_reqs ∧
    (ctx.num_reqs < 2 ^ 15 → to_int16 ctx.num_reqs = ctx.num_reqs) ∧
    (∀ k, 0 < k → k < 2 ^ 16 →
      to_int16 ((uint_inc^[k] ctx.num_reqs : Nat) : Int) ≠ to_int16 ctx.num_reqs) ∧
    (buffer_wf ctx.dumpi_mpi_array →
      ctx.dumpi_mpi_array.next_ops_queue_count + 4 ≤ ctx.dumpi_mpi_array.next_ops_queue_size →
      ∃ ctx1, handleDUMPISendrecv prm wall ctx = Except.ok ctx1 ∧
        ctx1.num_reqs = uint_inc ctx.num_reqs ∧
        ctx1.dumpi_mpi_array.next_ops_queue_count
          = ctx.dumpi_mpi_array.next_ops_queue_count + (delay_before wall ctx).length + 3) := by
  have ht : time_to_ns_lf wall.start ≤ time_to_ns_lf wall.stop :=
    time_to_ns_lf_mono wall.start wall.stop hstart hstop hwall
  refine ⟨handleDUMPISendrecv_eq prm wall ctx bs br hs hr hsn hrn ht,
    delay_before_length wall ctx, delay_before_type wall ctx, rfl, rfl, rfl, rfl, rfl, rfl,
    ?_, ?_, ?_⟩
  · intro hlt
    exact to_int16_of_range _ (by omega) (by omega)
  · intro k hk0 hk
    exact to_int16_uint_inc_iterate k ctx.num_reqs hk0 hk
  · intro hwf hcap
    have hl := delay_before_length wall ctx
    obtain ⟨a, ha, _, hc⟩ := insert_all_of_capacity
      (delay_before wall ctx ++
         [stamped_op (sendrecv_isend prm ctx (prm.sendcount * (bs : Int))) wall ctx,
          stamped_op (sendrecv_recv prm (prm.recvcount * (br : Int))) wall ctx,
          stamped_op (sendrecv_wait ctx) wall ctx])
      ctx.dumpi_mpi_array hwf
      (by simp only [List.length_append, List.length_cons, List.length_nil]; omega)
    rw [handleDUMPISendrecv_eq prm wall ctx bs br hs hr hsn hrn ht, ha]
    refine ⟨_, rfl, rfl, ?_⟩
    rw [show ({ check_set_init_time wall ctx with
          dumpi_mpi_array := a,
          last_op_time :=
            double_sub (time_to_ns_lf wall.stop) (check_set_init_time wall ctx).init_time,
          num_reqs := uint_inc ctx.num_reqs } : rank_mpi_context).dumpi_mpi_array = a from rfl,
      hc]
    simp only [List.length_append, List.length_cons, List.length_nil]
    omega

/-- The record `sendrecv_call` on `adapter_context_5`, whose counter is 5. -/
theorem sendrecv_expansion_witness :
    get_num_bytes sendrecv_call.sendtype = some 4 ∧
    get_num_bytes sendrecv_call.recvtype = some 4 ∧
    0 ≤ sendrecv_call.sendcount * ((4 : Nat) : Int) ∧
    0 ≤ sendrecv_call.recvcount * ((4 : Nat) : Int) ∧
    int32_clock (call_at 2040 3000).start ∧ int32_clock (call_at 2040 3000).stop ∧
    wall_ns (call_at 2040 3000).start ≤ wall_ns (call_at 2040 3000).stop ∧
    (stamped_op (sendrecv_isend sendrecv_call adapter_context_5
        (sendrecv_call.sendcount * ((4 : Nat) : Int))) (call_at 2040 3000)
        adapter_context_5).req_id = to_int16 adapter_context_5.num_reqs ∧
    (stamped_op (sendrecv_recv sendrecv_call (sendrecv_call.recvcount * ((4 : Nat) : Int)))
        (call_at 2040 3000) adapter_context_5).req_id = -1 ∧
    (stamped_op (sendrecv_wait adapter_context_5) (call_at 2040 3000)
        adapter_context_5).wait_req_id = to_int16 adapter_context_5.num_reqs ∧
    to_int16 adapter_context_5.num_reqs = adapter_context_5.num_reqs ∧
    to_int16 ((uint_inc^[1] adapter_context_5.num_reqs : Nat) : Int)
      ≠ to_int16 adapter_context_5.num_reqs :=
  have hw := sendrecv_expansion sendrecv_call (call_at 2040 3000) adapter_context_5 4 4 rfl rfl
    (by decide) (by decide) (by decide) (by decide) (by decide)
  ⟨rfl, rfl, by decide, by decide, by decide, by decide, by decide,
    hw.2.2.2.2.1, hw.2.2.2.2.2.2.1, hw.2.2.2.2.2.2.2.2.1, hw.2.2.2.2.2.2.2.2.2.1 (by decide),
    hw.2.2.2.2.2.2.2.2.2.2.1 1 (by decide) (by decide)⟩

/-! ### Forward handlers followed by their reverse handlers -/

theorem ulong_dec_inc (n : Nat) (h : n < 2 ^ 64) : ulong_dec (ulong_inc n) = n := by
  unfold ulong_dec ulong_inc
  omega

theorem get_next_round_trip (cfg : net_config) (mpi_op : mpi_event_list) (s : nw_state)
    (m : nw_message) (lp : tw_lp) (hk : is_delay_col_or_send mpi_op.op_type)
    (hd : s.num_delays < 2 ^ 64) (hc : s.num_cols < 2 ^ 64) (hs : s.num_sends < 2 ^ 64)
    (hcfg : cfg.is_dragonfly = true → cfg.num_nw_lps ≠ 0) :
    (get_next_mpi_operation cfg mpi_op s m lp).bind
      (fun r => (get_next_mpi_operation_rc r.s r.m r.lp).map
        (fun p => (p.1, p.2.rng_count, r.lp.rng_count, r.s.arrival_queue,
          r.s.pending_recvs_queue, r.s.completed_reqs, r.s.pending_waits, r.m.msg_type)))
      = some (s, lp.rng_count,
          lp.rng_count + (if mpi_op.op_type = CODES_NW_SEND then 0 else 1),
          s.arrival_queue, s.pending_recvs_queue, s.completed_reqs, s.pending_waits,
          m.msg_type) := by
  obtain ⟨ty, st, sr, dr, nb, tg, rq, wr, rs, ns⟩ := mpi_op
  obtain ⟨a1, a2, a3, a4, a5, a6, a7, a8, a9, a10, a11, a12, a13, a14, a15, a16, a17, a18, a19,
    a20, a21⟩ := s
  simp only at hd hc hs
  have e1 := ulong_dec_inc a6 hd
  have e2 := ulong_dec_inc a5 hc
  have e3 := ulong_dec_inc a3 hs
  unfold is_delay_col_or_send at hk
  simp only at hk
  by_cases hdf : cfg.is_dragonfly = true
  · have hz := hcfg hdf
    rcases hk with h | h | h | h | h | h | h | h | h | h | h <;> subst h <;>
      simp [get_next_mpi_operation, get_next_mpi_operation_rc, codes_exec_comp_delay,
        codes_exec_mpi_col, codes_exec_mpi_send, codes_issue_next_event, tw_rand_reverse_unif,
        e1, e2, e3, hdf, hz]
  · rcases hk with h | h | h | h | h | h | h | h | h | h | h <;> subst h <;>
      simp [get_next_mpi_operation, get_next_mpi_operation_rc, codes_exec_comp_delay,
        codes_exec_mpi_col, codes_exec_mpi_send, codes_issue_next_event, tw_rand_reverse_unif,
        e1, e2, e3, hdf]

/-- C24: with `IRecv(source 0, tag 1, 10 bytes, request 5)` posted, a `MPI_SEND_ARRIVED` event
carrying `Send(source 0, tag 1, 10 bytes)` matches it at index 0: the forward handler records
`found_match = 0`, empties `pending_recvs` and puts request 5 into `completed_reqs`. The
reverse handler then puts the operation of the event, the Send, into `pending_recvs` at index
0 and leaves request 5 in `completed_reqs`: neither equals its value before the event. -/
theorem arrival_rollback_reinserts_send :
    matching_view state_irecv_posted = ([], [mk_recv true 0 1 10 5], [], none) ∧
    (forward_reverse cfg0 op0 state_irecv_posted
        (mk_msg MPI_NW_EVENTS.MPI_SEND_ARRIVED (mk_send false 0 1 10 (-1))) lp0).map
      (fun r => (r.1.m.found_match, matching_view r.1.s))
      = some (0, [], [], [5], none) ∧
    (forward_reverse cfg0 op0 state_irecv_posted
        (mk_msg MPI_NW_EVENTS.MPI_SEND_ARRIVED (mk_send false 0 1 10 (-1))) lp0).map
      (fun r => matching_view r.2.1)
      = some ([], [mk_send false 0 1 10 (-1)], [5], none) := by
  refine ⟨by decide, by decide, by decide⟩

/-- C25: with `Send(source 0, tag 1, 10 bytes)` queued in `arrival_queue`, a `MPI_OP_GET_NEXT`
event executes `IRecv(source 0, tag 1, 10 bytes, request 5)`, which matches the send at index
0. The forward handler does not write `found_match`. If the event held `found_match = 0`, the
reverse handler puts the operation of the event, the IRecv, into `arrival_queue`, where the
Send was. If the event held `found_match = -1`, the reverse handler takes the branch of an
unmatched receive and its assertion on the empty `pending_recvs` fails. When no queued send
matches, the forward handler followed by the reverse handler does restore `pending_recvs`,
`arrival_queue` and `completed_reqs`. -/
theorem recv_rollback_reinserts_recv :
    matching_view state_send_queued = ([mk_send false 0 1 10 (-1)], [], [], none) ∧
    (forward_reverse cfg0 (mk_recv true 0 1 10 5) state_send_queued
        (mk_msg MPI_NW_EVENTS.MPI_OP_GET_NEXT op0) lp0).map
      (fun r => (r.1.m.found_match, matching_view r.1.s))
      = some (0, [], [], [5], none) ∧
    (forward_reverse cfg0 (mk_recv true 0 1 10 5) state_send_queued
        (mk_msg MPI_NW_EVENTS.MPI_OP_GET_NEXT op0) lp0).map
      (fun r => matching_view r.2.1)
      = some ([mk_recv true 0 1 10 5], [], [], none) ∧
    (nw_test_event_handler cfg0 (mk_recv true 0 1 10 5) state_send_queued
        { mk_msg MPI_NW_EVENTS.MPI_OP_GET_NEXT op0 with found_match := -1 } lp0).map
      (fun r => (r.m.found_match, matching_view r.s))
      = some (-1, [], [], [5], none) ∧
    forward_reverse cfg0 (mk_recv true 0 1 10 5) state_send_queued
        { mk_msg MPI_NW_EVENTS.MPI_OP_GET_NEXT op0 with found_match := -1 } lp0 = none ∧
    (∀ (s : nw_state) (m : nw_message) (lp : tw_lp), is_recv_op m.op →
      (∀ e ∈ s.arrival_queue.queue, is_send_op e) →
      (∀ e ∈ s.arrival_queue.queue, ¬ matching_predicate m.op e) →
      (codes_exec_mpi_recv s m lp).bind
        (fun r => (codes_exec_mpi_recv_rc r.1 r.2.1 r.2.2).map
          (fun p => (p.1.pending_recvs_queue, p.1.arrival_queue, p.1.completed_reqs)))
        = some (s.pending_recvs_queue, s.arrival_queue, s.completed_reqs)) := by
  refine ⟨by decide, by decide, by decide, by decide, by decide, ?_⟩
  intro s m lp hop hty hno
  have hop1 : is_recv_op { m.op with sim_start_time := lp.now } := hop
  rcases remove_matching_recv_spec
      { s with num_bytes_recvd := s.num_bytes_recvd + m.op.num_bytes } lp s.arrival_queue
      { m.op with sim_start_time := lp.now } none 0 hop1 hty with
    ⟨_, rid1, hr⟩ | ⟨pre, e, post, hsplit, _, he, _⟩
  · have hne : ∀ (l : List mpi_event_list) (x : mpi_event_list) (n : Int),
        mpi_queue_remove_tail { num_elems := n + 1, queue := l ++ [x] }
          = some ({ num_elems := n, queue := l }, 1) := by
      intro l x n
      cases l with
      | nil => simp [mpi_queue_remove_tail]
      | cons a l =>
        simp only [mpi_queue_remove_tail, List.cons_append]
        rw [← List.cons_append, List.dropLast_concat]
        simp
    simp only [codes_exec_mpi_recv, hr]
    rw [if_pos (by decide)]
    by_cases hi : m.op.op_type = CODES_NW_IRECV
    · rw [if_pos hi]
      simp only [Option.some_bind, codes_exec_mpi_recv_rc, mpi_pending_queue_insert_op]
      rw [if_neg (by decide), hne]
      rfl
    · rw [if_neg hi]
      simp only [Option.some_bind, codes_exec_mpi_recv_rc, mpi_pending_queue_insert_op]
      rw [if_neg (by decide), hne]
      rfl
  · exact absurd he (hno e (by rw [hsplit]; simp))

theorem notify_waits_queues (s : nw_state) (lp : tw_lp) (c : Int) (p : nw_state × tw_lp)
    (h : notify_waits s lp c = some p) :
    p.1.pending_recvs_queue = s.pending_recvs_queue ∧ p.1.arrival_queue = s.arrival_queue := by
  cases hp : s.pending_waits with
  | none =>
    simp only [notify_waits, hp] at h
    cases h
    exact ⟨rfl, rfl⟩
  | some w =>
    by_cases h1 : w.mpi_op.op_type = CODES_NW_WAIT
    · by_cases h2 : w.mpi_op.wait_req_id = c
      · simp only [notify_waits, hp, h1, h2, if_true] at h
        cases h
        exact ⟨rfl, rfl⟩
      · simp only [notify_waits, hp, h1, h2, if_true, if_false] at h
        cases h
        exact ⟨rfl, rfl⟩
    · by_cases h2 : w.mpi_op.op_type = CODES_NW_WAITALL ∨ w.mpi_op.op_type = CODES_NW_WAITSOME
      · by_cases h3 : (w.mpi_op.op_type = CODES_NW_WAITALL ∧
            w.num_completed + count_req_id w.mpi_op.req_ids c = (w.mpi_op.req_ids.length : Int)) ∨
            (w.mpi_op.op_type = CODES_NW_WAITSOME ∧
              w.num_completed + count_req_id w.mpi_op.req_ids c > 0)
        · simp only [notify_waits, hp, h1, h2, h3, if_true, if_false] at h
          cases hq : remove_first_req_ids s.completed_reqs w.mpi_op.req_ids
              (w.num_completed + count_req_id w.mpi_op.req_ids c).toNat with
          | none => rw [hq] at h; cases h
          | some l =>
            rw [hq] at h
            cases h
            exact ⟨rfl, rfl⟩
        · simp only [notify_waits, hp, h1, h2, h3, if_true, if_false] at h
          cases h
          exact ⟨rfl, rfl⟩
      · simp only [notify_waits, hp, h1, h2, if_false] at h
        cases h
        exact ⟨rfl, rfl⟩

/-- C26: when `codes_exec_mpi_recv` matches a queued send (the arrival queue loses one node
and the receive's request is put into `completed_reqs`), the field `found_match` of the event
is what it was before the call, whatever the index of the removed send: with
`found_match = -1` on entry and a match at index 0 it is `-1` afterwards, and with
`found_match = 0` on entry and a match at index 1 it is `0` afterwards. In the other cases the
field is written: `update_arrival_queue` records the index of the receive it removed, and
both handlers record `-1` when nothing matches. -/
theorem recv_match_does_not_record_index :
    (∀ (s : nw_state) (m : nw_message) (lp : tw_lp), is_recv_op m.op →
      (∀ e ∈ s.arrival_queue.queue, is_send_op e) →
      (∃ e ∈ s.arrival_queue.queue, matching_predicate m.op e) →
      ∃ r, codes_exec_mpi_recv s m lp = some r ∧ r.2.1.found_match = m.found_match ∧
        r.1.arrival_queue.num_elems = s.arrival_queue.num_elems - 1 ∧
        r.1.completed_reqs = m.op.req_id :: s.completed_reqs) ∧
    (codes_exec_mpi_recv state_send_queued
        { mk_msg MPI_NW_EVENTS.MPI_OP_GET_NEXT (mk_recv true 0 1 10 5) with found_match := -1 }
        lp0).map
      (fun r => (r.2.1.found_match, r.1.arrival_queue.queue, r.1.completed_reqs))
      = some (-1, [], [5]) ∧
    (codes_exec_mpi_recv
        { state0 with arrival_queue :=
            { num_elems := 2, queue := [mk_send false 0 9 10 (-1), mk_send false 0 1 10 (-1)] } }
        (mk_msg MPI_NW_EVENTS.MPI_OP_GET_NEXT (mk_recv true 0 1 10 5)) lp0).map
      (fun r => (r.2.1.found_match, r.1.arrival_queue.queue, r.1.completed_reqs))
      = some (0, [mk_send false 0 9 10 (-1)], [5]) ∧
    (∀ (s : nw_state) (m : nw_message) (lp : tw_lp), is_recv_op m.op →
      (∀ e ∈ s.arrival_queue.queue, is_send_op e) →
      (∀ e ∈ s.arrival_queue.queue, ¬ matching_predicate m.op e) →
      ∃ r, codes_exec_mpi_recv s m lp = some r ∧ r.2.1.found_match = -1) ∧
    (∀ (s : nw_state) (m : nw_message) (lp : tw_lp), is_send_op m.op →
      (∀ e ∈ s.pending_recvs_queue.queue, is_recv_op e) →
      (∀ e ∈ s.pending_recvs_queue.queue, ¬ matching_predicate e m.op) →
      ∃ r, update_arrival_queue s m lp = some r ∧ r.2.1.found_match = -1) ∧
    (∀ (s : nw_state) (m : nw_message) (lp : tw_lp)
      (r : nw_state × nw_message × tw_lp), is_send_op m.op →
      (∀ e ∈ s.pending_recvs_queue.queue, is_recv_op e) →
      (∃ e ∈ s.pending_recvs_queue.queue, matching_predicate e m.op) →
      update_arrival_queue s m lp = some r →
      ∃ pre e post, s.pending_recvs_queue.queue = pre ++ e :: post ∧
        (∀ x ∈ pre, ¬ matching_predicate x m.op) ∧ matching_predicate e m.op ∧
        r.2.1.found_match = pre.length ∧ r.1.pending_recvs_queue.queue = pre ++ post) := by
  refine ⟨?_, by decide, by decide, ?_, ?_, ?_⟩
  · intro s m lp hop hty hex
    have hop1 : is_recv_op { m.op with sim_start_time := lp.now } := hop
    rcases remove_matching_recv_spec
        { s with num_bytes_recvd := s.num_bytes_recvd + m.op.num_bytes } lp s.arrival_queue
        { m.op with sim_start_time := lp.now } none 0 hop1 hty with
      ⟨hno, _, _⟩ | ⟨pre, e, post, hsplit, hpre, he, hr⟩
    · obtain ⟨e, hmem, hP⟩ := hex
      exact absurd hP (hno e hmem)
    · simp only [codes_exec_mpi_recv, hr]
      rw [if_neg (by omega)]
      exact ⟨_, rfl, rfl, rfl, by simp [matched_state, mpi_completed_queue_insert_op]⟩
  · intro s m lp hop hty hno
    have hop1 : is_recv_op { m.op with sim_start_time := lp.now } := hop
    rcases remove_matching_recv_spec
        { s with num_bytes_recvd := s.num_bytes_recvd + m.op.num_bytes } lp s.arrival_queue
        { m.op with sim_start_time := lp.now } none 0 hop1 hty with
      ⟨_, rid1, hr⟩ | ⟨pre, e, post, hsplit, _, he, _⟩
    · simp only [codes_exec_mpi_recv, hr]
      rw [if_pos (by decide)]
      by_cases hi : m.op.op_type = CODES_NW_IRECV
      · rw [if_pos hi]; exact ⟨_, rfl, rfl⟩
      · rw [if_neg hi]; exact ⟨_, rfl, rfl⟩
    · exact absurd he (hno e (by rw [hsplit]; simp))
  · intro s m lp hop hty hno
    rcases remove_matching_send_spec
        { s with send_time := s.send_time + (lp.now - m.op.sim_start_time) } lp
        s.pending_recvs_queue m.op 0 (-1) hop hty with
      ⟨_, rid1, hr⟩ | ⟨pre, e, post, hsplit, _, he, _⟩
    · simp only [update_arrival_queue, hr]
      rw [if_pos (by decide)]
      exact ⟨_, rfl, rfl⟩
    · exact absurd he (hno e (by rw [hsplit]; simp))
  · intro s m lp r hop hty hex hr0
    rcases remove_matching_send_spec
        { s with send_time := s.send_time + (lp.now - m.op.sim_start_time) } lp
        s.pending_recvs_queue m.op 0 (-1) hop hty with
      ⟨hno, _, _⟩ | ⟨pre, e, post, hsplit, hpre, he, hr⟩
    · obtain ⟨e, hmem, hP⟩ := hex
      exact absurd hP (hno e hmem)
    · refine ⟨pre, e, post, hsplit, hpre, he, ?_⟩
      simp only [update_arrival_queue, hr] at hr0
      rw [if_neg (by omega)] at hr0
      by_cases hb : (if (inspected_node pre e).op_type = CODES_NW_RECV then some (1 : Int)
          else some 0) ≠ some 0
      · rw [if_pos hb] at hr0
        cases hr0
        exact ⟨rfl, rfl⟩
      · rw [if_neg hb] at hr0
        cases hn : notify_waits
            { matched_state { s with send_time := s.send_time + (lp.now - m.op.sim_start_time) }
                lp e m.op with
              pending_recvs_queue :=
                { num_elems := s.pending_recvs_queue.num_elems - 1, queue := pre ++ post },
              search_overhead :=
                (matched_state
                  { s with send_time := s.send_time + (lp.now - m.op.sim_start_time) }
                  lp e m.op).search_overhead
                  + ((to_unsigned_long lp.now - to_unsigned_long lp.now : Nat) : tw_stime) }
            lp e.req_id with
        | none => rw [hn] at hr0; cases hr0
        | some p =>
          rw [hn] at hr0
          cases hr0
          exact ⟨rfl, by
            show p.1.pending_recvs_queue.queue = pre ++ post
            rw [(notify_waits_queues _ _ _ p hn).1]⟩

/-- C27: the reverse handlers do not undo a wait. (1) `Wait(4)` executed while request 4 is
in `completed_reqs` removes it and goes on; after the reverse handler `completed_reqs` is
still empty. (2) `Wait(4)` executed with nothing completed becomes the pending wait; after the
reverse handler it is still pending. (3) With `Waitall([1, 2])` pending, a `MPI_SEND_POSTED`
event for the ISend of request 1 raises `num_completed` to 1; the reverse handler takes
request 1 out of `completed_reqs` but leaves `num_completed` at 1. (4) With `IRecv(request 5)`
posted and `Wait(5)` pending, a matching `MPI_SEND_ARRIVED` event completes the wait; after
the reverse handler no wait is pending. -/
theorem wait_resumption_not_undone :
    (matching_view state_req_4_completed = ([], [], [4], none) ∧
      (forward_reverse cfg0 (mk_wait 4) state_req_4_completed
          (mk_msg MPI_NW_EVENTS.MPI_OP_GET_NEXT op0) lp0).map
        (fun r => matching_view r.1.s)
        = some ([], [], [], none) ∧
      (forward_reverse cfg0 (mk_wait 4) state_req_4_completed
          (mk_msg MPI_NW_EVENTS.MPI_OP_GET_NEXT op0) lp0).map
        (fun r => matching_view r.2.1)
        = some ([], [], [], none)) ∧
    (matching_view state0 = ([], [], [], none) ∧
      (forward_reverse cfg0 (mk_wait 4) state0
          (mk_msg MPI_NW_EVENTS.MPI_OP_GET_NEXT op0) lp0).map
        (fun r => matching_view r.1.s)
        = some ([], [], [],
            some { mpi_op := mk_wait 4, num_completed := 0, start_time := 0 }) ∧
      (forward_reverse cfg0 (mk_wait 4) state0
          (mk_msg MPI_NW_EVENTS.MPI_OP_GET_NEXT op0) lp0).map
        (fun r => matching_view r.2.1)
        = some ([], [], [],
            some { mpi_op := mk_wait 4, num_completed := 0, start_time := 0 })) ∧
    (matching_view state_waitall_pending = ([], [], [],
        some { mpi_op := mk_waits CODES_NW_WAITALL [1, 2], num_completed := 0,
               start_time := 0 }) ∧
      (forward_reverse cfg0 op0 state_waitall_pending
          (mk_msg MPI_NW_EVENTS.MPI_SEND_POSTED (mk_send true 0 1 10 1)) lp0).map
        (fun r => matching_view r.1.s)
        = some ([], [], [1],
            some { mpi_op := mk_waits CODES_NW_WAITALL [1, 2], num_completed := 1,
                   start_time := 0 }) ∧
      (forward_reverse cfg0 op0 state_waitall_pending
          (mk_msg MPI_NW_EVENTS.MPI_SEND_POSTED (mk_send true 0 1 10 1)) lp0).map
        (fun r => matching_view r.2.1)
        = some ([], [], [],
            some { mpi_op := mk_waits CODES_NW_WAITALL [1, 2], num_completed := 1,
                   start_time := 0 })) ∧
    (matching_view
        { state_irecv_posted with
          pending_waits := some { mpi_op := mk_wait 5, num_completed := 0, start_time := 0 } }
        = ([], [mk_recv true 0 1 10 5], [],
            some { mpi_op := mk_wait 5, num_completed := 0, start_time := 0 }) ∧
      (forward_reverse cfg0 op0
          { state_irecv_posted with
            pending_waits := some { mpi_op := mk_wait 5, num_completed := 0, start_time := 0 } }
          (mk_msg MPI_NW_EVENTS.MPI_SEND_ARRIVED (mk_send false 0 1 10 (-1))) lp0).map
        (fun r => matching_view r.1.s)
        = some ([], [], [], none) ∧
      (forward_reverse cfg0 op0
          { state_irecv_posted with
            pending_waits := some { mpi_op := mk_wait 5, num_completed := 0, start_time := 0 } }
          (mk_msg MPI_NW_EVENTS.MPI_SEND_ARRIVED (mk_send false 0 1 10 (-1))) lp0).map
        (fun r => matching_view r.2.1)
        = some ([], [mk_send false 0 1 10 (-1)], [], none)) := by
  refine ⟨⟨by decide, by decide, by decide⟩, ⟨by decide, by decide, by decide⟩,
    ⟨by decide, by decide, by decide⟩, ⟨by decide, by decide, by decide⟩⟩

/-- C28: with `Wait(4)` pending and request 9 in `completed_reqs`, a `MPI_SEND_POSTED` event
for the ISend of request 4 completes the wait: `update_send_completion_queue` clears the
pending wait and leaves `completed_reqs = [9]`. `update_send_completion_queue_rc` then unlinks
the head of `completed_reqs`, request 9, and does not restore the wait: `completed_reqs` is
empty and no wait is pending. When no wait is pending before the event, the two handlers in
sequence do restore the whole LP state and the number of draws. -/
theorem send_posted_rollback_with_pending_wait :
    matching_view state_wait_4_pending
      = ([], [], [9], some { mpi_op := mk_wait 4, num_completed := 0, start_time := 0 }) ∧
    (update_send_completion_queue state_wait_4_pending
        (mk_msg MPI_NW_EVENTS.MPI_SEND_POSTED (mk_send true 0 1 10 4)) lp0).map
      (fun r => matching_view r.1) = some ([], [], [9], none) ∧
    (update_send_completion_queue state_wait_4_pending
        (mk_msg MPI_NW_EVENTS.MPI_SEND_POSTED (mk_send true 0 1 10 4)) lp0).map
      (fun r => matching_view (update_send_completion_queue_rc r.1
        (mk_msg MPI_NW_EVENTS.MPI_SEND_POSTED (mk_send true 0 1 10 4)) r.2).1)
      = some ([], [], [], none) ∧
    (∀ (s : nw_state) (m : nw_message) (lp : tw_lp), s.pending_waits = none →
      (update_send_completion_queue s m lp).map
        (fun r => ((update_send_completion_queue_rc r.1 m r.2).1,
          (update_send_completion_queue_rc r.1 m r.2).2.rng_count))
        = some (s, lp.rng_count)) := by
  refine ⟨by decide, by decide, by decide, ?_⟩
  intro s m lp hp
  obtain ⟨a1, a2, a3, a4, a5, a6, a7, a8, a9, a10, a11, a12, a13, a14, a15, a16, a17, a18, a19,
    a20, a21⟩ := s
  simp only at hp
  subst hp
  by_cases h1 : m.op.op_type = CODES_NW_ISEND
  · have h2 : ¬ m.op.op_type = CODES_NW_SEND := by rw [h1]; decide
    simp [update_send_completion_queue, update_send_completion_queue_rc, notify_waits, h1,
      mpi_completed_queue_insert_op, mpi_completed_queue_remove_op]
  · by_cases h2 : m.op.op_type = CODES_NW_SEND
    · simp [update_send_completion_queue, update_send_completion_queue_rc, h1, h2,
        codes_issue_next_event, tw_rand_reverse_unif]
    · simp [update_send_completion_queue, update_send_completion_queue_rc, h1, h2]

/-- C29: for a `MPI_OP_GET_NEXT` event that executes a Delay, a collective, a Send or an
ISend (with the counters inside `unsigned long`, and a non-zero `num_nw_lps` on a dragonfly),
the forward handler returns and leaves `arrival_queue`, `pending_recvs`, `completed_reqs` and
the pending wait as they were; `get_next_mpi_operation_rc` then returns, and `num_delays`,
`num_cols`, `num_sends` and `num_bytes_sent` have their values of before the event, and the
two queues, `completed_reqs` and the pending wait are still unchanged. -/
theorem get_next_rc_restores_counters (cfg : net_config) (mpi_op : mpi_event_list)
    (s : nw_state) (m : nw_message) (lp : tw_lp) (hk : is_delay_col_or_send mpi_op.op_type)
    (hd : s.num_delays < 2 ^ 64) (hc : s.num_cols < 2 ^ 64) (hs : s.num_sends < 2 ^ 64)
    (hcfg : cfg.is_dragonfly = true → cfg.num_nw_lps ≠ 0) :
    ∃ r p, get_next_mpi_operation cfg mpi_op s m lp = some r ∧
      get_next_mpi_operation_rc r.s r.m r.lp = some p ∧
      r.s.arrival_queue = s.arrival_queue ∧
      r.s.pending_recvs_queue = s.pending_recvs_queue ∧
      r.s.completed_reqs = s.completed_reqs ∧ r.s.pending_waits = s.pending_waits ∧
      p.1.num_delays = s.num_delays ∧ p.1.num_cols = s.num_cols ∧
      p.1.num_sends = s.num_sends ∧ p.1.num_bytes_sent = s.num_bytes_sent ∧
      p.1.arrival_queue = s.arrival_queue ∧
      p.1.pending_recvs_queue = s.pending_recvs_queue ∧
      p.1.completed_reqs = s.completed_reqs ∧ p.1.pending_waits = s.pending_waits := by
  have h := get_next_round_trip cfg mpi_op s m lp hk hd hc hs hcfg
  cases hr : get_next_mpi_operation cfg mpi_op s m lp with
  | none => rw [hr] at h; simp at h
  | some r =>
    rw [hr] at h
    simp only [Option.some_bind] at h
    cases hp : get_next_mpi_operation_rc r.s r.m r.lp with
    | none => rw [hp] at h; simp at h
    | some p =>
      rw [hp] at h
      simp only [Option.map_some', Option.some.injEq, Prod.mk.injEq] at h
      obtain ⟨h1, _, _, h4, h5, h6, h7, _⟩ := h
      refine ⟨r, p, rfl, hp, h4, h5, h6, h7, ?_, ?_, ?_, ?_, ?_, ?_, ?_, ?_⟩ <;> rw [h1]

/-- An ISend of 10 bytes executed by the LP of `state0`. -/
theorem get_next_rc_restores_counters_witness :
    is_delay_col_or_send (mk_send true 0 1 10 3).op_type ∧
    state0.num_delays < 2 ^ 64 ∧ state0.num_cols < 2 ^ 64 ∧ state0.num_sends < 2 ^ 64 ∧
    (cfg0.is_dragonfly = true → cfg0.num_nw_lps ≠ 0) ∧
    ∃ r p, get_next_mpi_operation cfg0 (mk_send true 0 1 10 3) state0
        (mk_msg MPI_NW_EVENTS.MPI_OP_GET_NEXT op0) lp0 = some r ∧
      get_next_mpi_operation_rc r.s r.m r.lp = some p ∧
      r.s.arrival_queue = state0.arrival_queue ∧
      r.s.pending_recvs_queue = state0.pending_recvs_queue ∧
      r.s.completed_reqs = state0.completed_reqs ∧ r.s.pending_waits = state0.pending_waits ∧
      p.1.num_delays = state0.num_delays ∧ p.1.num_cols = state0.num_cols ∧
      p.1.num_sends = state0.num_sends ∧ p.1.num_bytes_sent = state0.num_bytes_sent ∧
      p.1.arrival_queue = state0.arrival_queue ∧
      p.1.pending_recvs_queue = state0.pending_recvs_queue ∧
      p.1.completed_reqs = state0.completed_reqs ∧ p.1.pending_waits = state0.pending_waits :=
  ⟨by decide, by decide, by decide, by decide, by decide,
    get_next_rc_restores_counters cfg0 (mk_send true 0 1 10 3) state0
      (mk_msg MPI_NW_EVENTS.MPI_OP_GET_NEXT op0) lp0 (by decide) (by decide) (by decide)
      (by decide) (by decide)⟩

/-- C30: the draws of a forward handler and the reverse-unrolls of its reverse handler do not
pair up for every event. From an LP that has drawn nothing: an unmatched `Recv` draws nothing
and its reverse unrolls one draw; an unmatched `IRecv` draws once and its reverse unrolls
twice; a `Wait` whose request has completed, and a `Waitany`, draw once and their reverse
unrolls nothing; a `MPI_SEND_ARRIVED` event that matches a blocking `Recv`, and a
`MPI_SEND_POSTED` event for an ISend that completes the pending wait, draw once and their
reverse unrolls nothing. The numbers do pair up for a Delay, a collective, a Send and an ISend
executed by `MPI_OP_GET_NEXT`, for a receive that matches a queued send, and for a
`MPI_SEND_POSTED` event when no wait is pending. -/
theorem rng_draws_not_paired :
    (forward_reverse cfg0 (mk_recv false 0 1 10 (-1)) state0
        (mk_msg MPI_NW_EVENTS.MPI_OP_GET_NEXT op0) lp0).map
      (fun r => (r.1.lp.rng_count, r.2.2.rng_count)) = some (0, -1) ∧
    (forward_reverse cfg0 (mk_recv true 0 1 10 5) state0
        (mk_msg MPI_NW_EVENTS.MPI_OP_GET_NEXT op0) lp0).map
      (fun r => (r.1.lp.rng_count, r.2.2.rng_count)) = some (1, -1) ∧
    (forward_reverse cfg0 (mk_wait 4) state_req_4_completed
        (mk_msg MPI_NW_EVENTS.MPI_OP_GET_NEXT op0) lp0).map
      (fun r => (r.1.lp.rng_count, r.2.2.rng_count)) = some (1, 1) ∧
    (forward_reverse cfg0 (mk_waits CODES_NW_WAITANY [1]) state0
        (mk_msg MPI_NW_EVENTS.MPI_OP_GET_NEXT op0) lp0).map
      (fun r => (r.1.lp.rng_count, r.2.2.rng_count)) = some (1, 1) ∧
    (forward_reverse cfg0 op0 state_recv_posted
        (mk_msg MPI_NW_EVENTS.MPI_SEND_ARRIVED (mk_send false 0 1 10 (-1))) lp0).map
      (fun r => (r.1.lp.rng_count, r.2.2.rng_count)) = some (1, 1) ∧
    (forward_reverse cfg0 op0 state_wait_4_pending
        (mk_msg MPI_NW_EVENTS.MPI_SEND_POSTED (mk_send true 0 1 10 4)) lp0).map
      (fun r => (r.1.lp.rng_count, r.2.2.rng_count)) = some (1, 1) ∧
    (forward_reverse cfg0 (mk_recv true 0 1 10 5) state_send_queued
        (mk_msg MPI_NW_EVENTS.MPI_OP_GET_NEXT op0) lp0).map
      (fun r => (r.1.lp.rng_count, r.2.2.rng_count)) = some (1, 0) ∧
    (∀ (cfg : net_config) (mpi_op : mpi_event_list) (s : nw_state) (m : nw_message)
      (lp : tw_lp), m.msg_type = MPI_NW_EVENTS.MPI_OP_GET_NEXT →
      is_delay_col_or_send mpi_op.op_type →
      s.num_delays < 2 ^ 64 → s.num_cols < 2 ^ 64 → s.num_sends < 2 ^ 64 →
      (cfg.is_dragonfly = true → cfg.num_nw_lps ≠ 0) →
      (forward_reverse cfg mpi_op s m lp).map
        (fun r => (r.1.lp.rng_count, r.2.2.rng_count))
        = some (lp.rng_count + (if mpi_op.op_type = CODES_NW_SEND then 0 else 1),
                lp.rng_count)) ∧
    (∀ (cfg : net_config) (s : nw_state) (m : nw_message) (lp : tw_lp),
      m.msg_type = MPI_NW_EVENTS.MPI_SEND_POSTED → s.pending_waits = none →
      (forward_reverse cfg op0 s m lp).map
        (fun r => (r.1.lp.rng_count, r.2.2.rng_count))
        = some (lp.rng_count + (if m.op.op_type = CODES_NW_SEND then 1 else 0),
                lp.rng_count)) := by
  refine ⟨by decide, by decide, by decide, by decide, by decide, by decide, by decide, ?_, ?_⟩
  · intro cfg mpi_op s m lp hm hk hd hc hs hcfg
    have h := get_next_round_trip cfg mpi_op s m lp hk hd hc hs hcfg
    unfold forward_reverse nw_test_event_handler nw_test_event_handler_rc
    rw [hm]
    dsimp only
    cases hr : get_next_mpi_operation cfg mpi_op s m lp with
    | none => rw [hr] at h; simp at h
    | some r =>
      rw [hr] at h
      simp only [Option.some_bind] at h
      have hmt : r.m.msg_type = MPI_NW_EVENTS.MPI_OP_GET_NEXT := by
        cases hp0 : get_next_mpi_operation_rc r.s r.m r.lp with
        | none => rw [hp0] at h; simp at h
        | some p0 =>
          rw [hp0] at h
          simp only [Option.map_some', Option.some.injEq, Prod.mk.injEq] at h
          rw [h.2.2.2.2.2.2.2, hm]
      dsimp only
      rw [hmt]
      dsimp only
      cases hp : get_next_mpi_operation_rc r.s r.m r.lp with
      | none => rw [hp] at h; simp at h
      | some p =>
        rw [hp] at h
        simp only [Option.map_some', Option.some.injEq, Prod.mk.injEq] at h
        obtain ⟨_, h2, h3, _⟩ := h
        simp only [Option.map_some', h2, h3]
  · intro cfg s m lp hm hp
    obtain ⟨a1, a2, a3, a4, a5, a6, a7, a8, a9, a10, a11, a12, a13, a14, a15, a16, a17, a18,
      a19, a20, a21⟩ := s
    simp only at hp
    subst hp
    unfold forward_reverse nw_test_event_handler nw_test_event_handler_rc
    rw [hm]
    by_cases h1 : m.op.op_type = CODES_NW_ISEND
    · have h2 : ¬ m.op.op_type = CODES_NW_SEND := by rw [h1]; decide
      simp [update_send_completion_queue, update_send_completion_queue_rc, notify_waits, h1, h2,
        hm]
    · by_cases h2 : m.op.op_type = CODES_NW_SEND
      · simp [update_send_completion_queue, update_send_completion_queue_rc, h1, h2, hm,
          codes_issue_next_event, tw_rand_reverse_unif]
      · simp [update_send_completion_queue, update_send_completion_queue_rc, h1, h2, hm]


/-! ### Request removal and the dragonfly mapping -/

theorem remove_req_id_of_not_mem (l : List Int) (req_id : Int) (h : req_id ∉ l) :
    remove_req_id l req_id = l := by
  rw [remove_req_id_eq_erase]
  exact List.erase_of_not_mem h

theorem remove_req_id_split (req_id : Int) :
    ∀ l : List Int, req_id ∈ l →
      ∃ pre post, l = pre ++ req_id :: post ∧ req_id ∉ pre ∧
        remove_req_id l req_id = pre ++ post := by
  intro l
  induction l with
  | nil => intro h; cases h
  | cons c rest ih =>
    intro h
    by_cases hc : c = req_id
    · subst hc
      exact ⟨[], rest, rfl, by simp, by simp [remove_req_id]⟩
    · have hmem : req_id ∈ rest := by
        rcases List.mem_cons.mp h with h1 | h1
        · exact absurd h1.symm hc
        · exact h1
      obtain ⟨pre, post, h1, h2, h3⟩ := ih hmem
      refine ⟨c :: pre, post, by rw [h1]; rfl, ?_, ?_⟩
      · intro hin
        rcases List.mem_cons.mp hin with h4 | h4
        · exact hc h4.symm
        · exact h2 h4
      · simp only [remove_req_id, if_neg hc, h3, List.cons_append]

/-- C35: `remove_req_id` is a total function (it returns on every list). For an id that is not
in `completed_reqs`, the empty list included, the list is left as it is. For an id that is in
the list, the first node holding it is unlinked: the nodes before it (none of which holds the
id) and the nodes after it are kept, in their order. -/
theorem remove_req_id_unknown_or_first (l : List Int) (req_id : Int) :
    remove_req_id [] req_id = [] ∧
    (req_id ∉ l → remove_req_id l req_id = l) ∧
    (req_id ∈ l →
      ∃ pre post, l = pre ++ req_id :: post ∧ req_id ∉ pre ∧
        remove_req_id l req_id = pre ++ post ∧
        (remove_req_id l req_id).length + 1 = l.length ∧
        ∀ x, x ≠ req_id → (remove_req_id l req_id).count x = l.count x) := by
  refine ⟨rfl, remove_req_id_of_not_mem l req_id, ?_⟩
  intro h
  obtain ⟨pre, post, h1, h2, h3⟩ := remove_req_id_split req_id l h
  refine ⟨pre, post, h1, h2, h3, ?_, ?_⟩
  · rw [h3, h1]
    simp only [List.length_append, List.length_cons]
    omega
  · intro x hx
    rw [h3, h1]
    simp only [List.count_append, List.count_cons]
    have : ¬ (req_id == x) = true := by
      intro hb
      exact hx (beq_iff_eq.mp hb).symm
    simp [this]

theorem dragonfly_id_div_mod (n R q r : Int) (hn : 0 < n) (hR : 0 ≤ R) (hr0 : 0 ≤ r)
    (hrn : r < n) :
    ((2 * n + R) * q + r) / (2 * n + R) = q ∧ ((2 * n + R) * q + r) % (2 * n + R) = r := by
  have hL : 0 < 2 * n + R := by omega
  have hrL : r < 2 * n + R := by omega
  constructor
  · rw [add_comm, Int.add_mul_ediv_left _ _ (ne_of_gt hL), Int.ediv_eq_zero_of_lt hr0 hrL]
    simp
  · rw [add_comm, Int.add_mul_emod_self_left, Int.emod_eq_of_lt hr0 hrL]

theorem codes_exec_mpi_send_dragonfly (cfg : net_config) (s : nw_state) (m : nw_message)
    (lp : tw_lp) (hdf : cfg.is_dragonfly = true) (hn : 0 < cfg.num_nw_lps)
    (hd : 0 ≤ m.op.dest_rank) :
    ∃ r c, codes_exec_mpi_send cfg s m lp = some r ∧ r.net = some c ∧
      c.dest_rank = (2 * cfg.num_nw_lps + cfg.num_routers) * (m.op.dest_rank / cfg.num_nw_lps)
        + m.op.dest_rank % cfg.num_nw_lps := by
  have hz : cfg.num_nw_lps ≠ 0 := by omega
  have e1 : Int.tdiv m.op.dest_rank cfg.num_nw_lps = m.op.dest_rank / cfg.num_nw_lps :=
    Int.tdiv_eq_ediv hd (le_of_lt hn)
  have e2 : Int.tmod m.op.dest_rank cfg.num_nw_lps = m.op.dest_rank % cfg.num_nw_lps :=
    Int.tmod_eq_emod hd (le_of_lt hn)
  simp only [codes_exec_mpi_send, hdf, if_true, if_neg hz, e1, e2]
  exact ⟨_, _, rfl, rfl, rfl⟩

/-- C40: on a dragonfly network with `num_nw_lps > 0` and `num_routers ≥ 0`,
`codes_exec_mpi_send` returns for every non-negative destination rank and hands
`model_net_event` the LP id `lps_per_rep * (rank / num_nw_lps) + rank % num_nw_lps` with
`lps_per_rep = 2 * num_nw_lps + num_routers` (exact integers). The offset of this id within
its repetition is `rank % num_nw_lps`, which is below `num_nw_lps`, its repetition is
`rank / num_nw_lps`, and two sends to different ranks get different LP ids. -/
theorem dragonfly_mapping_injective (cfg : net_config) (s1 s2 : nw_state) (m1 m2 : nw_message)
    (lp1 lp2 : tw_lp) (hdf : cfg.is_dragonfly = true) (hn : 0 < cfg.num_nw_lps)
    (hR : 0 ≤ cfg.num_routers) (h1 : 0 ≤ m1.op.dest_rank) (h2 : 0 ≤ m2.op.dest_rank) :
    ∃ r1 c1 r2 c2,
      codes_exec_mpi_send cfg s1 m1 lp1 = some r1 ∧ r1.net = some c1 ∧
      codes_exec_mpi_send cfg s2 m2 lp2 = some r2 ∧ r2.net = some c2 ∧
      c1.dest_rank = (2 * cfg.num_nw_lps + cfg.num_routers) *
          (m1.op.dest_rank / cfg.num_nw_lps) + m1.op.dest_rank % cfg.num_nw_lps ∧
      c1.dest_rank % (2 * cfg.num_nw_lps + cfg.num_routers)
        = m1.op.dest_rank % cfg.num_nw_lps ∧
      0 ≤ c1.dest_rank % (2 * cfg.num_nw_lps + cfg.num_routers) ∧
      c1.dest_rank % (2 * cfg.num_nw_lps + cfg.num_routers) < cfg.num_nw_lps ∧
      c1.dest_rank / (2 * cfg.num_nw_lps + cfg.num_routers)
        = m1.op.dest_rank / cfg.num_nw_lps ∧
      0 ≤ c1.dest_rank ∧
      (m1.op.dest_rank ≠ m2.op.dest_rank → c1.dest_rank ≠ c2.dest_rank) := by
  obtain ⟨r1, c1, e1, e2, e3⟩ := codes_exec_mpi_send_dragonfly cfg s1 m1 lp1 hdf hn h1
  obtain ⟨r2, c2, f1, f2, f3⟩ := codes_exec_mpi_send_dragonfly cfg s2 m2 lp2 hdf hn h2
  have a0 := Int.emod_nonneg m1.op.dest_rank (ne_of_gt hn)
  have a1 := Int.emod_lt_of_pos m1.op.dest_rank hn
  have b0 := Int.emod_nonneg m2.op.dest_rank (ne_of_gt hn)
  have b1 := Int.emod_lt_of_pos m2.op.dest_rank hn
  obtain ⟨d1, d2⟩ := dragonfly_id_div_mod cfg.num_nw_lps cfg.num_routers
    (m1.op.dest_rank / cfg.num_nw_lps) (m1.op.dest_rank % cfg.num_nw_lps) hn hR a0 a1
  obtain ⟨g1, g2⟩ := dragonfly_id_div_mod cfg.num_nw_lps cfg.num_routers
    (m2.op.dest_rank / cfg.num_nw_lps) (m2.op.dest_rank % cfg.num_nw_lps) hn hR b0 b1
  refine ⟨r1, c1, r2, c2, e1, e2, f1, f2, e3, ?_, ?_, ?_, ?_, ?_, ?_⟩
  · rw [e3]; exact d2
  · rw [e3, d2]; exact a0
  · rw [e3, d2]; exact a1
  · rw [e3]; exact d1
  · rw [e3]
    have hq : 0 ≤ m1.op.dest_rank / cfg.num_nw_lps := Int.ediv_nonneg h1 (le_of_lt hn)
    have hL : 0 ≤ 2 * cfg.num_nw_lps + cfg.num_routers := by omega
    have := mul_nonneg hL hq
    omega
  · intro hne heq
    rw [e3, f3] at heq
    have q : m1.op.dest_rank / cfg.num_nw_lps = m2.op.dest_rank / cfg.num_nw_lps := by
      rw [← d1, ← g1, heq]
    have r : m1.op.dest_rank % cfg.num_nw_lps = m2.op.dest_rank % cfg.num_nw_lps := by
      rw [← d2, ← g2, heq]
    apply hne
    rw [← Int.ediv_add_emod m1.op.dest_rank cfg.num_nw_lps,
      ← Int.ediv_add_emod m2.op.dest_rank cfg.num_nw_lps, q, r]

theorem dragonfly_mapping_injective_witness :
    dragonfly_cfg.is_dragonfly = true ∧ 0 < dragonfly_cfg.num_nw_lps ∧
    0 ≤ dragonfly_cfg.num_routers ∧
    0 ≤ (mk_msg MPI_NW_EVENTS.MPI_OP_GET_NEXT (send_to 5)).op.dest_rank ∧
    0 ≤ (mk_msg MPI_NW_EVENTS.MPI_OP_GET_NEXT (send_to 9)).op.dest_rank ∧
    ∃ r1 c1 r2 c2,
      codes_exec_mpi_send dragonfly_cfg state0 (mk_msg MPI_NW_EVENTS.MPI_OP_GET_NEXT (send_to 5))
        lp0 = some r1 ∧ r1.net = some c1 ∧
      codes_exec_mpi_send dragonfly_cfg state0 (mk_msg MPI_NW_EVENTS.MPI_OP_GET_NEXT (send_to 9))
        lp0 = some r2 ∧ r2.net = some c2 ∧
      c1.dest_rank = (2 * dragonfly_cfg.num_nw_lps + dragonfly_cfg.num_routers) *
          ((mk_msg MPI_NW_EVENTS.MPI_OP_GET_NEXT (send_to 5)).op.dest_rank /
            dragonfly_cfg.num_nw_lps) +
          (mk_msg MPI_NW_EVENTS.MPI_OP_GET_NEXT (send_to 5)).op.dest_rank %
            dragonfly_cfg.num_nw_lps ∧
      c1.dest_rank % (2 * dragonfly_cfg.num_nw_lps + dragonfly_cfg.num_routers)
        = (mk_msg MPI_NW_EVENTS.MPI_OP_GET_NEXT (send_to 5)).op.dest_rank %
            dragonfly_cfg.num_nw_lps ∧
      0 ≤ c1.dest_rank % (2 * dragonfly_cfg.num_nw_lps + dragonfly_cfg.num_routers) ∧
      c1.dest_rank % (2 * dragonfly_cfg.num_nw_lps + dragonfly_cfg.num_routers)
        < dragonfly_cfg.num_nw_lps ∧
      c1.dest_rank / (2 * dragonfly_cfg.num_nw_lps + dragonfly_cfg.num_routers)
        = (mk_msg MPI_NW_EVENTS.MPI_OP_GET_NEXT (send_to 5)).op.dest_rank /
            dragonfly_cfg.num_nw_lps ∧
      0 ≤ c1.dest_rank ∧
      ((mk_msg MPI_NW_EVENTS.MPI_OP_GET_NEXT (send_to 5)).op.dest_rank ≠
          (mk_msg MPI_NW_EVENTS.MPI_OP_GET_NEXT (send_to 9)).op.dest_rank →
        c1.dest_rank ≠ c2.dest_rank) :=
  ⟨rfl, by decide, by decide, by decide, by decide,
    dragonfly_mapping_injective dragonfly_cfg state0 state0
      (mk_msg MPI_NW_EVENTS.MPI_OP_GET_NEXT (send_to 5))
      (mk_msg MPI_NW_EVENTS.MPI_OP_GET_NEXT (send_to 9)) lp0 lp0 rfl (by decide) (by decide)
      (by decide) (by decide)⟩


/-! ### The element count of a queue -/

theorem numQueue_eq_length (q : mpi_queue_ptrs) : numQueue q = (q.queue.length : Int) := by
  unfold numQueue
  have key : ∀ (l : List mpi_event_list) (c : Int),
      l.foldl (fun count _ => count + 1) c = c + (l.length : Int) := by
    intro l
    induction l with
    | nil => intro c; simp
    | cons x xs ih =>
      intro c
      rw [List.foldl_cons, ih, List.length_cons]
      push_cast
      ring
  rw [key]
  simp

theorem remove_matching_loop_count (lp : tw_lp) (op : mpi_event_list) :
    ∀ (rest : List mpi_event_list) (s : nw_state) (n : Int) (tmp : mpi_event_list)
      (indx rcv : Int) (ib : Option Int) (rid : Int) (r : remove_matching_result),
      remove_matching_loop lp op s n tmp rest indx rcv ib rid = some r →
      r.mpi_queue.num_elems - (r.mpi_queue.queue.length : Int) = n - (rest.length : Int) := by
  intro rest
  induction rest with
  | nil =>
    intro s n tmp indx rcv ib rid r h
    simp only [remove_matching_loop, Option.some.injEq] at h
    subst h
    rfl
  | cons elem rest ih =>
    intro s n tmp indx rcv ib rid r h
    simp only [remove_matching_loop] at h
    split at h
    · cases h
    · rename_i s1 rcv1 rid1 hm
      split at h
      · simp only [Option.map_eq_some'] at h
        obtain ⟨b, _, hb⟩ := h
        subst hb
        simp only [List.length_cons]
        push_cast
        ring
      · simp only [Option.map_eq_some'] at h
        obtain ⟨r1, h1, hr⟩ := h
        have := ih _ _ _ _ _ _ _ _ h1
        subst hr
        simp only [List.length_cons]
        push_cast
        omega

theorem remove_matching_op_count (s : nw_state) (lp : tw_lp) (q : mpi_queue_ptrs)
    (op : mpi_event_list) (ib : Option Int) (rid : Int) (r : remove_matching_result)
    (h : mpi_queue_remove_matching_op s lp q op ib rid = some r) :
    r.mpi_queue.num_elems - (r.mpi_queue.queue.length : Int)
      = q.num_elems - (q.queue.length : Int) := by
  obtain ⟨n, l⟩ := q
  cases l with
  | nil =>
    simp only [mpi_queue_remove_matching_op, Option.some.injEq] at h
    subst h
    rfl
  | cons tmp rest =>
    simp only [mpi_queue_remove_matching_op] at h
    split at h
    · cases h
    · split at h
      · simp only [Option.map_eq_some'] at h
        obtain ⟨b, _, hb⟩ := h
        subst hb
        simp only [List.length_cons]
        push_cast
        ring
      · simp only [Option.map_eq_some'] at h
        obtain ⟨r1, h1, hr⟩ := h
        have := remove_matching_loop_count lp op _ _ _ _ _ _ _ _ _ h1
        subst hr
        simp only [List.length_cons]
        push_cast
        omega

theorem run_queue_call_count (q q1 : mpi_queue_ptrs) (c : queue_call)
    (h : run_queue_call q c = some q1) :
    q1.num_elems - (q1.queue.length : Int) = q.num_elems - (q.queue.length : Int) := by
  cases c with
  | insert_op mpi_op =>
    simp only [run_queue_call, mpi_pending_queue_insert_op, Option.some.injEq] at h
    subst h
    simp only [List.length_append, List.length_singleton]
    push_cast
    ring
  | remove_matching_op s lp mpi_op ib rid =>
    simp only [run_queue_call, Option.map_eq_some'] at h
    obtain ⟨r, h1, hr⟩ := h
    subst hr
    exact remove_matching_op_count s lp q mpi_op ib rid r h1
  | remove_tail =>
    simp only [run_queue_call, Option.map_eq_some'] at h
    obtain ⟨r, h1, hr⟩ := h
    subst hr
    unfold mpi_queue_remove_tail at h1
    cases hq : q.queue with
    | nil => rw [hq] at h1; cases h1
    | cons x xs =>
      rw [hq] at h1
      simp only [Option.some.injEq] at h1
      subst h1
      simp only [hq, List.length_dropLast, List.length_cons, Nat.add_sub_cancel]
      push_cast
      ring
  | update mpi_op pos =>
    simp only [run_queue_call, mpi_queue_update] at h
    split at h
    · simp only [Option.some.injEq] at h
      subst h
      simp only [List.length_cons]
      push_cast
      ring
    · split at h
      · rename_i hlt
        simp only [Option.some.injEq] at h
        subst h
        simp only [List.length_append, List.length_take, List.length_cons, List.length_drop]
        have : min ((pos - 1).toNat + 1) q.queue.length = (pos - 1).toNat + 1 := by omega
        rw [this]
        push_cast
        omega
      · cases h

theorem run_queue_calls_count :
    ∀ (calls : List queue_call) (q q1 : mpi_queue_ptrs), run_queue_calls calls q = some q1 →
      q1.num_elems - (q1.queue.length : Int) = q.num_elems - (q.queue.length : Int) := by
  intro calls
  induction calls with
  | nil =>
    intro q q1 h
    simp only [run_queue_calls, Option.some.injEq] at h
    subst h
    rfl
  | cons c rest ih =>
    intro q q1 h
    simp only [run_queue_calls] at h
    cases hc : run_queue_call q c with
    | none => rw [hc] at h; cases h
    | some q2 =>
      rw [hc] at h
      rw [ih q2 q1 h, run_queue_call_count q q2 c hc]

theorem run_queue_calls_snoc (c : queue_call) :
    ∀ (calls : List queue_call) (q0 q : mpi_queue_ptrs), run_queue_calls calls q0 = some q →
      run_queue_calls (calls ++ [c]) q0 = run_queue_call q c := by
  intro calls
  induction calls with
  | nil =>
    intro q0 q h
    simp only [run_queue_calls, Option.some.injEq] at h
    subst h
    simp only [List.nil_append, run_queue_calls]
    cases run_queue_call q0 c <;> rfl
  | cons c1 rest ih =>
    intro q0 q h
    simp only [run_queue_calls] at h
    simp only [List.cons_append, run_queue_calls]
    cases hc : run_queue_call q0 c1 with
    | none => rw [hc] at h; cases h
    | some q2 =>
      rw [hc] at h
      exact ih q2 q h

theorem run_queue_calls_num_elems (calls : List queue_call) (q : mpi_queue_ptrs)
    (h : run_queue_calls calls queue_init = some q) :
    q.num_elems = (q.queue.length : Int) := by
  have := run_queue_calls_count calls queue_init q h
  simp only [queue_init, List.length_nil] at this
  push_cast at this
  omega

/-- C38: in every queue reached from `queue_init` by a sequence of calls of
`mpi_pending_queue_insert_op`, `mpi_queue_remove_matching_op`, `mpi_queue_remove_tail` and
`mpi_queue_update` that all return, `num_elems` is the number of nodes of the list, which is
what `numQueue` computes. On such a queue `mpi_queue_remove_tail` returns when the queue is
not empty, `mpi_queue_update` returns for every `pos` from zero to the current length, and an
insertion always returns; the count follows the list each time. For an LP whose two queues
are reached this way, the two counts `nw_test_finalize` prints are the lengths of the
queues. -/
theorem num_elems_counts_nodes (calls : List queue_call) (q : mpi_queue_ptrs)
    (h : run_queue_calls calls queue_init = some q) :
    q.num_elems = numQueue q ∧ numQueue q = (q.queue.length : Int) ∧
    (q.queue ≠ [] →
      ∃ q1, run_queue_calls (calls ++ [queue_call.remove_tail]) queue_init = some q1 ∧
        q1.num_elems = numQueue q1 ∧ numQueue q1 = numQueue q - 1) ∧
    (∀ mpi_op pos, 0 ≤ pos → pos ≤ (q.queue.length : Int) →
      ∃ q1, run_queue_calls (calls ++ [queue_call.update mpi_op pos]) queue_init = some q1 ∧
        q1.num_elems = numQueue q1 ∧ numQueue q1 = numQueue q + 1) ∧
    (∀ mpi_op,
      ∃ q1, run_queue_calls (calls ++ [queue_call.insert_op mpi_op]) queue_init = some q1 ∧
        q1.num_elems = numQueue q1 ∧ numQueue q1 = numQueue q + 1) ∧
    (∀ (calls2 : List queue_call) (s : nw_state),
      s.pending_recvs_queue = q →
      run_queue_calls calls2 queue_init = some s.arrival_queue →
      nw_test_finalize_counts s =
        (numQueue s.pending_recvs_queue, numQueue s.arrival_queue) ∧
      nw_test_finalize_counts s =
        ((s.pending_recvs_queue.queue.length : Int), (s.arrival_queue.queue.length : Int))) := by
  have hn := run_queue_calls_num_elems calls q h
  have step : ∀ c q1, run_queue_call q c = some q1 →
      run_queue_calls (calls ++ [c]) queue_init = some q1 ∧ q1.num_elems = numQueue q1 := by
    intro c q1 hc
    have h1 : run_queue_calls (calls ++ [c]) queue_init = some q1 := by
      rw [run_queue_calls_snoc c calls queue_init q h, hc]
    exact ⟨h1, by rw [numQueue_eq_length]; exact run_queue_calls_num_elems _ q1 h1⟩
  refine ⟨by rw [numQueue_eq_length]; exact hn, numQueue_eq_length q, ?_, ?_, ?_, ?_⟩
  · intro hne
    cases hq : q.queue with
    | nil => exact absurd hq hne
    | cons x xs =>
      have hc : run_queue_call q queue_call.remove_tail
          = some { num_elems := q.num_elems - 1, queue := q.queue.dropLast } := by
        simp only [run_queue_call, mpi_queue_remove_tail, hq, Option.map_some']
      obtain ⟨h1, h2⟩ := step _ _ hc
      refine ⟨_, h1, h2, ?_⟩
      rw [numQueue_eq_length, numQueue_eq_length]
      simp only [hq, List.length_dropLast, List.length_cons, Nat.add_sub_cancel]
      push_cast
      ring
  · intro mpi_op pos h0 hle
    by_cases hp : pos = 0
    · have hc : run_queue_call q (queue_call.update mpi_op pos)
          = some { num_elems := q.num_elems + 1, queue := mpi_op :: q.queue } := by
        simp only [run_queue_call, mpi_queue_update, hp, if_true]
      obtain ⟨h1, h2⟩ := step _ _ hc
      refine ⟨_, h1, h2, ?_⟩
      rw [numQueue_eq_length, numQueue_eq_length]
      simp only [List.length_cons]
      push_cast
      ring
    · have hlt : (pos - 1).toNat < q.queue.length := by omega
      have hc : run_queue_call q (queue_call.update mpi_op pos)
          = some { num_elems := q.num_elems + 1,
                   queue := q.queue.take ((pos - 1).toNat + 1) ++ mpi_op ::
                     q.queue.drop ((pos - 1).toNat + 1) } := by
        simp only [run_queue_call, mpi_queue_update, if_neg hp, if_pos hlt]
      obtain ⟨h1, h2⟩ := step _ _ hc
      refine ⟨_, h1, h2, ?_⟩
      rw [numQueue_eq_length, numQueue_eq_length]
      simp only [List.length_append, List.length_take, List.length_cons, List.length_drop]
      have : min ((pos - 1).toNat + 1) q.queue.length = (pos - 1).toNat + 1 := by omega
      rw [this]
      push_cast
      omega
  · intro mpi_op
    have hc : run_queue_call q (queue_call.insert_op mpi_op)
        = some (mpi_pending_queue_insert_op q mpi_op) := rfl
    obtain ⟨h1, h2⟩ := step _ _ hc
    refine ⟨_, h1, h2, ?_⟩
    rw [numQueue_eq_length, numQueue_eq_length]
    simp only [mpi_pending_queue_insert_op, List.length_append, List.length_singleton]
    push_cast
    ring
  · intro calls2 s hs1 hs2
    have ha := run_queue_calls_num_elems calls2 s.arrival_queue hs2
    have hp : s.pending_recvs_queue.num_elems = (s.pending_recvs_queue.queue.length : Int) := by
      rw [hs1]; exact hn
    simp only [nw_test_finalize_counts, numQueue_eq_length, ha, hp, and_self]

theorem num_elems_counts_nodes_witness :
    run_queue_calls queue_calls_sample queue_init
      = some { num_elems := 2, queue := [mk_recv true 0 7 10 6, mk_recv true 0 1 10 5] } ∧
    ((2 : Int) = numQueue { num_elems := 2, queue := [mk_recv true 0 7 10 6, mk_recv true 0 1 10 5] })
      := by
  have h : run_queue_calls queue_calls_sample queue_init
      = some { num_elems := 2, queue := [mk_recv true 0 7 10 6, mk_recv true 0 1 10 5] } := by
    decide
  exact ⟨h, (num_elems_counts_nodes queue_calls_sample _ h).1⟩


/-! ### Byte counts and collective callbacks of the trace adapter -/

theorem handleDUMPIIgnore_eq (t : dumpi_time) (ctx : rank_mpi_context) :
    handleDUMPIIgnore t ctx =
      match insert_all ctx.dumpi_mpi_array (delay_before t ctx) with
      | Except.error e => Except.error e
      | Except.ok a =>
        Except.ok { check_set_init_time t ctx with
          dumpi_mpi_array := a,
          last_op_time :=
            double_sub (time_to_ns_lf t.stop) (check_set_init_time t ctx).init_time } := by
  unfold handleDUMPIIgnore update_compute_time delay_before
  rw [(check_set_init_time_array t ctx).1]
  by_cases hgap : double_sub
      (double_sub (time_to_ns_lf t.start) (check_set_init_time t ctx).init_time)
      (check_set_init_time t ctx).last_op_time > 100
  · simp only [DUMPI_IGNORE_DELAY, hgap, if_true, insert_all]
    cases dumpi_insert_next_op ctx.dumpi_mpi_array
      (delay_op (check_set_init_time t ctx).last_op_time
        (double_sub (time_to_ns_lf t.start) (check_set_init_time t ctx).init_time)) <;> rfl
  · simp only [DUMPI_IGNORE_DELAY, hgap, if_false, insert_all]

theorem get_num_bytes_none_iff (dt : dumpi_datatype) :
    get_num_bytes dt = none ↔
      (dt = DUMPI_DATATYPE_ERROR ∨ dt = DUMPI_DATATYPE_NULL ∨ dt = DUMPI_OTHER_DATATYPE) := by
  cases dt <;> simp [get_num_bytes]

theorem get_num_bytes_sizes (dt : dumpi_datatype) (b : Nat) (h : get_num_bytes dt = some b) :
    b = 1 ∨ b = 2 ∨ b = 4 ∨ b = 8 ∨ b = 10 := by
  cases dt <;> simp [get_num_bytes] at h <;> omega

theorem counted_insert_spec (count : Int) (dt : dumpi_datatype) (op : Int → codes_workload_op)
    (wall : dumpi_time) (ctx : rank_mpi_context) :
    (get_num_bytes dt = none →
      (match count_num_bytes ctx.dumpi_mpi_array count dt with
        | Except.error e => Except.error e
        | Except.ok nb => update_times_and_insert (op nb) wall ctx)
        = Except.error (dumpi_failure.fatal_error, ctx.dumpi_mpi_array)) ∧
    (∀ ctx1,
      (match count_num_bytes ctx.dumpi_mpi_array count dt with
        | Except.error e => Except.error e
        | Except.ok nb => update_times_and_insert (op nb) wall ctx) = Except.ok ctx1 →
      ∃ b : Nat, get_num_bytes dt = some b ∧
        insert_all ctx.dumpi_mpi_array
            (delay_before wall ctx ++ [stamped_op (op (count * (b : Int))) wall ctx])
          = Except.ok ctx1.dumpi_mpi_array) ∧
    (∀ b : Nat, get_num_bytes dt = some b → 0 ≤ count → buffer_wf ctx.dumpi_mpi_array →
      ctx.dumpi_mpi_array.next_ops_queue_count + 2 ≤ ctx.dumpi_mpi_array.next_ops_queue_size →
      ∃ ctx1,
        (match count_num_bytes ctx.dumpi_mpi_array count dt with
          | Except.error e => Except.error e
          | Except.ok nb => update_times_and_insert (op nb) wall ctx) = Except.ok ctx1) := by
  refine ⟨?_, ?_, ?_⟩
  · intro h
    simp only [count_num_bytes, h]
  · intro ctx1 h
    cases hb : get_num_bytes dt with
    | none => simp only [count_num_bytes, hb] at h; cases h
    | some b =>
      refine ⟨b, rfl, ?_⟩
      simp only [count_num_bytes, hb] at h
      by_cases hn : count * (b : Int) ≥ 0
      · simp only [hn, if_true] at h
        rw [update_times_and_insert_eq] at h
        cases hi : insert_all ctx.dumpi_mpi_array
            (delay_before wall ctx ++ [stamped_op (op (count * (b : Int))) wall ctx]) with
        | error e => rw [hi] at h; cases h
        | ok a => rw [hi] at h; cases h; rfl
      · simp only [hn, if_false] at h
        cases h
  · intro b hb hc hwf hroom
    have hn : count * (b : Int) ≥ 0 := mul_nonneg hc (Int.ofNat_nonneg b)
    simp only [count_num_bytes, hb, hn, if_true]
    rw [update_times_and_insert_eq]
    obtain ⟨a, ha, _⟩ := insert_all_of_capacity
      (delay_before wall ctx ++ [stamped_op (op (count * (b : Int))) wall ctx])
      ctx.dumpi_mpi_array hwf (by
        have := delay_before_length wall ctx
        simp only [List.length_append, List.length_singleton]
        omega)
    rw [ha]
    exact ⟨_, rfl⟩

/-- C36: `get_num_bytes` calls `tw_error` exactly for `DUMPI_DATATYPE_ERROR`,
`DUMPI_DATATYPE_NULL` and the datatypes outside its table, and returns 1, 2, 4, 8 or 10 for
every other datatype. Each of `handleDUMPISend`, `handleDUMPIISend`, `handleDUMPIRecv` and
`handleDUMPIIRecv` stops with that fatal error when the datatype has no size; when it returns,
the datatype has a size `b` and the operations inserted are, after at most one Delay, the
call's operation, whose `num_bytes` is `count * b`; and it returns whenever the datatype has
a size, the count is not negative and the buffer has room for two operations. The ISend and
the Recv of `handleDUMPISendrecv` are built with `sendcount * b` and `recvcount * b` in the
same way. (The product is exact.) -/
theorem byte_counts_of_adapter_ops :
    (∀ dt, get_num_bytes dt = none ↔
      (dt = DUMPI_DATATYPE_ERROR ∨ dt = DUMPI_DATATYPE_NULL ∨ dt = DUMPI_OTHER_DATATYPE)) ∧
    (∀ dt b, get_num_bytes dt = some b → 0 < b ∧ (b = 1 ∨ b = 2 ∨ b = 4 ∨ b = 8 ∨ b = 10)) ∧
    (∀ (prm : dumpi_send) (wall : dumpi_time) (ctx : rank_mpi_context),
      (get_num_bytes prm.datatype = none →
        handleDUMPISend prm wall ctx
          = Except.error (dumpi_failure.fatal_error, ctx.dumpi_mpi_array)) ∧
      (∀ ctx1, handleDUMPISend prm wall ctx = Except.ok ctx1 →
        ∃ b : Nat, get_num_bytes prm.datatype = some b ∧
          insert_all ctx.dumpi_mpi_array
              (delay_before wall ctx ++
                [stamped_op (send_wk_op prm ctx (prm.count * (b : Int))) wall ctx])
            = Except.ok ctx1.dumpi_mpi_array ∧
          (stamped_op (send_wk_op prm ctx (prm.count * (b : Int))) wall ctx).op_type
            = CODES_WK_SEND ∧
          (stamped_op (send_wk_op prm ctx (prm.count * (b : Int))) wall ctx).num_bytes
            = prm.count * (b : Int)) ∧
      (∀ b : Nat, get_num_bytes prm.datatype = some b → 0 ≤ prm.count →
        buffer_wf ctx.dumpi_mpi_array →
        ctx.dumpi_mpi_array.next_ops_queue_count + 2 ≤ ctx.dumpi_mpi_array.next_ops_queue_size →
        ∃ ctx1, handleDUMPISend prm wall ctx = Except.ok ctx1)) ∧
    (∀ (prm : dumpi_isend) (wall : dumpi_time) (ctx : rank_mpi_context),
      (get_num_bytes prm.datatype = none →
        handleDUMPIISend prm wall ctx
          = Except.error (dumpi_failure.fatal_error, ctx.dumpi_mpi_array)) ∧
      (∀ ctx1, handleDUMPIISend prm wall ctx = Except.ok ctx1 →
        ∃ b : Nat, get_num_bytes prm.datatype = some b ∧
          insert_all ctx.dumpi_mpi_array
              (delay_before wall ctx ++
                [stamped_op (isend_wk_op prm ctx (prm.count * (b : Int))) wall ctx])
            = Except.ok ctx1.dumpi_mpi_array ∧
          (stamped_op (isend_wk_op prm ctx (prm.count * (b : Int))) wall ctx).op_type
            = CODES_WK_ISEND ∧
          (stamped_op (isend_wk_op prm ctx (prm.count * (b : Int))) wall ctx).num_bytes
            = prm.count * (b : Int)) ∧
      (∀ b : Nat, get_num_bytes prm.datatype = some b → 0 ≤ prm.count →
        buffer_wf ctx.dumpi_mpi_array →
        ctx.dumpi_mpi_array.next_ops_queue_count + 2 ≤ ctx.dumpi_mpi_array.next_ops_queue_size →
        ∃ ctx1, handleDUMPIISend prm wall ctx = Except.ok ctx1)) ∧
    (∀ (prm : dumpi_recv) (wall : dumpi_time) (ctx : rank_mpi_context),
      (get_num_bytes prm.datatype = none →
        handleDUMPIRecv prm wall ctx
          = Except.error (dumpi_failure.fatal_error, ctx.dumpi_mpi_array)) ∧
      (∀ ctx1, handleDUMPIRecv prm wall ctx = Except.ok ctx1 →
        ∃ b : Nat, get_num_bytes prm.datatype = some b ∧
          insert_all ctx.dumpi_mpi_array
              (delay_before wall ctx ++
                [stamped_op (recv_wk_op prm (prm.count * (b : Int))) wall ctx])
            = Except.ok ctx1.dumpi_mpi_array ∧
          (stamped_op (recv_wk_op prm (prm.count * (b : Int))) wall ctx).op_type
            = CODES_WK_RECV ∧
          (stamped_op (recv_wk_op prm (prm.count * (b : Int))) wall ctx).num_bytes
            = prm.count * (b : Int)) ∧
      (∀ b : Nat, get_num_bytes prm.datatype = some b → 0 ≤ prm.count →
        buffer_wf ctx.dumpi_mpi_array →
        ctx.dumpi_mpi_array.next_ops_queue_count + 2 ≤ ctx.dumpi_mpi_array.next_ops_queue_size →
        ∃ ctx1, handleDUMPIRecv prm wall ctx = Except.ok ctx1)) ∧
    (∀ (prm : dumpi_irecv) (wall : dumpi_time) (ctx : rank_mpi_context),
      (get_num_bytes prm.datatype = none →
        handleDUMPIIRecv prm wall ctx
          = Except.error (dumpi_failure.fatal_error, ctx.dumpi_mpi_array)) ∧
      (∀ ctx1, handleDUMPIIRecv prm wall ctx = Except.ok ctx1 →
        ∃ b : Nat, get_num_bytes prm.datatype = some b ∧
          insert_all ctx.dumpi_mpi_array
              (delay_before wall ctx ++
                [stamped_op (irecv_wk_op prm (prm.count * (b : Int))) wall ctx])
            = Except.ok ctx1.dumpi_mpi_array ∧
          (stamped_op (irecv_wk_op prm (prm.count * (b : Int))) wall ctx).op_type
            = CODES_WK_IRECV ∧
          (stamped_op (irecv_wk_op prm (prm.count * (b : Int))) wall ctx).num_bytes
            = prm.count * (b : Int)) ∧
      (∀ b : Nat, get_num_bytes prm.datatype = some b → 0 ≤ prm.count →
        buffer_wf ctx.dumpi_mpi_array →
        ctx.dumpi_mpi_array.next_ops_queue_count + 2 ≤ ctx.dumpi_mpi_array.next_ops_queue_size →
        ∃ ctx1, handleDUMPIIRecv prm wall ctx = Except.ok ctx1)) ∧
    (∀ (prm : dumpi_sendrecv) (wall : dumpi_time) (ctx ctx3 : rank_mpi_context),
      handleDUMPISendrecv prm wall ctx = Except.ok ctx3 →
      ∃ (bs br : Nat) (ctx1 ctx2 : rank_mpi_context),
        get_num_bytes prm.sendtype = some bs ∧ get_num_bytes prm.recvtype = some br ∧
        update_times_and_insert (sendrecv_isend prm ctx (prm.sendcount * (bs : Int))) wall ctx
          = Except.ok ctx1 ∧
        update_times_and_insert (sendrecv_recv prm (prm.recvcount * (br : Int))) wall ctx1
          = Except.ok ctx2 ∧
        (sendrecv_isend prm ctx (prm.sendcount * (bs : Int))).num_bytes
          = prm.sendcount * (bs : Int) ∧
        (sendrecv_recv prm (prm.recvcount * (br : Int))).num_bytes
          = prm.recvcount * (br : Int)) ∧
    (value_of (handleDUMPISend send_call (call_at 2040 3000) adapter_context)).map
        (fun c => c.dumpi_mpi_array.next_ops_queue.map (fun o => (o.op_type, o.num_bytes)))
      = some [(CODES_WK_SEND, 40), (CODES_WK_UNSET, 0), (CODES_WK_UNSET, 0),
              (CODES_WK_UNSET, 0)] := by
  refine ⟨get_num_bytes_none_iff, ?_, ?_, ?_, ?_, ?_, ?_, ?_⟩
  · intro dt b h
    have := get_num_bytes_sizes dt b h
    exact ⟨by omega, this⟩
  · intro prm wall ctx
    obtain ⟨h1, h2, h3⟩ := counted_insert_spec prm.count prm.datatype
      (fun nb => send_wk_op prm ctx nb) wall ctx
    refine ⟨h1, ?_, h3⟩
    intro ctx1 h
    obtain ⟨b, hb, hi⟩ := h2 ctx1 h
    exact ⟨b, hb, hi, rfl, rfl⟩
  · intro prm wall ctx
    obtain ⟨h1, h2, h3⟩ := counted_insert_spec prm.count prm.datatype
      (fun nb => isend_wk_op prm ctx nb) wall ctx
    refine ⟨h1, ?_, h3⟩
    intro ctx1 h
    obtain ⟨b, hb, hi⟩ := h2 ctx1 h
    exact ⟨b, hb, hi, rfl, rfl⟩
  · intro prm wall ctx
    obtain ⟨h1, h2, h3⟩ := counted_insert_spec prm.count prm.datatype
      (fun nb => recv_wk_op prm nb) wall ctx
    refine ⟨h1, ?_, h3⟩
    intro ctx1 h
    obtain ⟨b, hb, hi⟩ := h2 ctx1 h
    exact ⟨b, hb, hi, rfl, rfl⟩
  · intro prm wall ctx
    obtain ⟨h1, h2, h3⟩ := counted_insert_spec prm.count prm.datatype
      (fun nb => irecv_wk_op prm nb) wall ctx
    refine ⟨h1, ?_, h3⟩
    intro ctx1 h
    obtain ⟨b, hb, hi⟩ := h2 ctx1 h
    exact ⟨b, hb, hi, rfl, rfl⟩
  · intro prm wall ctx ctx3 h
    unfold handleDUMPISendrecv at h
    cases hs : get_num_bytes prm.sendtype with
    | none => simp only [count_num_bytes, hs] at h; cases h
    | some bs =>
      by_cases hsn : prm.sendcount * (bs : Int) ≥ 0
      · simp only [count_num_bytes, hs, hsn, if_true] at h
        cases h1 : update_times_and_insert
            (sendrecv_isend prm ctx (prm.sendcount * (bs : Int))) wall ctx with
        | error e => rw [h1] at h; cases h
        | ok ctx1 =>
          rw [h1] at h
          simp only at h
          cases hr : get_num_bytes prm.recvtype with
          | none => simp only [hr] at h; cases h
          | some br =>
            by_cases hrn : prm.recvcount * (br : Int) ≥ 0
            · simp only [hr, hrn, if_true] at h
              cases h2 : update_times_and_insert
                  (sendrecv_recv prm (prm.recvcount * (br : Int))) wall ctx1 with
              | error e => rw [h2] at h; cases h
              | ok ctx2 => exact ⟨bs, br, ctx1, ctx2, rfl, rfl, h1, h2, rfl, rfl⟩
            · simp only [hr, hrn, if_false] at h
              cases h
      · simp only [count_num_bytes, hs, hsn, if_false] at h
        cases h
  · have hd : delay_before (call_at 2040 3000) adapter_context = [] := by
      norm_num [delay_before, check_set_init_time, adapter_context, load_context,
        time_to_ns_lf, double_add, double_mul, double_of_int, double_sub, call_at,
        round_double_ofNat, round_double_zero]
    rw [handleDUMPISend_send_call, update_times_and_insert_first _ _ _ _ rfl, hd]
    simp [stamped_op, send_wk_op, List.replicate, unset_op]

theorem counted_insert_pos_spec (count : Int) (dt : dumpi_datatype)
    (op : Int → codes_workload_op) (wall : dumpi_time) (ctx : rank_mpi_context) :
    (∀ ctx1,
      (match count_num_bytes_pos ctx.dumpi_mpi_array count dt with
        | Except.error e => Except.error e
        | Except.ok nb => update_times_and_insert (op nb) wall ctx) = Except.ok ctx1 →
      ∃ b : Nat, get_num_bytes dt = some b ∧
        insert_all ctx.dumpi_mpi_array
            (delay_before wall ctx ++ [stamped_op (op (count * (b : Int))) wall ctx])
          = Except.ok ctx1.dumpi_mpi_array) ∧
    (∀ b : Nat, get_num_bytes dt = some b → 0 < count → buffer_wf ctx.dumpi_mpi_array →
      ctx.dumpi_mpi_array.next_ops_queue_count + 2 ≤ ctx.dumpi_mpi_array.next_ops_queue_size →
      ∃ ctx1,
        (match count_num_bytes_pos ctx.dumpi_mpi_array count dt with
          | Except.error e => Except.error e
          | Except.ok nb => update_times_and_insert (op nb) wall ctx) = Except.ok ctx1) := by
  constructor
  · intro ctx1 h
    cases hb : get_num_bytes dt with
    | none => simp only [count_num_bytes_pos, hb] at h; cases h
    | some b =>
      refine ⟨b, rfl, ?_⟩
      simp only [count_num_bytes_pos, hb] at h
      by_cases hn : count * (b : Int) > 0
      · simp only [hn, if_true] at h
        rw [update_times_and_insert_eq] at h
        cases hi : insert_all ctx.dumpi_mpi_array
            (delay_before wall ctx ++ [stamped_op (op (count * (b : Int))) wall ctx]) with
        | error e => rw [hi] at h; cases h
        | ok a => rw [hi] at h; cases h; rfl
      · simp only [hn, if_false] at h
        cases h
  · intro b hb hc hwf hroom
    have hb0 : 0 < b := by
      have := get_num_bytes_sizes dt b hb
      omega
    have hn : count * (b : Int) > 0 := mul_pos hc (by exact_mod_cast hb0)
    simp only [count_num_bytes_pos, hb, hn, if_true]
    rw [update_times_and_insert_eq]
    obtain ⟨a, ha, _⟩ := insert_all_of_capacity
      (delay_before wall ctx ++ [stamped_op (op (count * (b : Int))) wall ctx])
      ctx.dumpi_mpi_array hwf (by
        have := delay_before_length wall ctx
        simp only [List.length_append, List.length_singleton]
        omega)
    rw [ha]
    exact ⟨_, rfl⟩

/-- The queue and its count after `handleDUMPIIgnore` on a rank that has made no insertion
yet; `f` is what is read from each element. -/
theorem handleDUMPIIgnore_first {α : Type} (f : codes_workload_op → α) (t : dumpi_time)
    (ctx : rank_mpi_context) (h : ctx.dumpi_mpi_array = dumpi_init_op_data) :
    (value_of (handleDUMPIIgnore t ctx)).map
        (fun c => (c.dumpi_mpi_array.next_ops_queue.map f,
          c.dumpi_mpi_array.next_ops_queue_count))
      = some ((delay_before t ctx).map f
          ++ List.replicate (4 - (delay_before t ctx).length) (f unset_op),
          (delay_before t ctx).length) := by
  rw [handleDUMPIIgnore_eq,
    value_of_map_insert _ _ (fun c => (c.next_ops_queue.map f, c.next_ops_queue_count)) _
      (fun a => rfl), h]
  unfold delay_before
  split <;>
    norm_num [insert_all, dumpi_insert_next_op, grow_next_ops_queue, store_op,
      dumpi_init_op_data, INITIAL_OP_QUEUE_SIZE, List.replicate, value_of]

/-- C37: `dumpi_trace_nw_workload_load` installs `handleDUMPIIgnore` as the callback of
`MPI_Allgather`. For an `MPI_Allgather` of ten `int` that starts 500 ns after the last call,
the installed callback leaves one operation in the queue, the Delay, and no Allgather
operation of 40 bytes; 40 ns after the last call it leaves the queue empty. The same holds
for an `MPI_Reduce` of ten `int`. -/
theorem allgather_callback_queues_no_collective :
    (value_of (dumpi_trace_nw_workload_load_callback (dumpi_collective.allgather 10 DUMPI_INT)
        (call_at 2500 2600) adapter_context)).map
        (fun c => (c.dumpi_mpi_array.next_ops_queue.map
            (fun o => (o.op_type, o.collective_num_bytes)),
          c.dumpi_mpi_array.next_ops_queue_count))
      = some ([(CODES_WK_DELAY, 0), (CODES_WK_UNSET, 0), (CODES_WK_UNSET, 0),
               (CODES_WK_UNSET, 0)], 1) ∧
    (value_of (dumpi_trace_nw_workload_load_callback (dumpi_collective.allgather 10 DUMPI_INT)
        (call_at 2040 2600) adapter_context)).map
        (fun c => (c.dumpi_mpi_array.next_ops_queue.map
            (fun o => (o.op_type, o.collective_num_bytes)),
          c.dumpi_mpi_array.next_ops_queue_count))
      = some ([(CODES_WK_UNSET, 0), (CODES_WK_UNSET, 0), (CODES_WK_UNSET, 0),
               (CODES_WK_UNSET, 0)], 0) ∧
    (value_of (dumpi_trace_nw_workload_load_callback (dumpi_collective.reduce 10 DUMPI_INT)
        (call_at 2500 2600) adapter_context)).map
        (fun c => (c.dumpi_mpi_array.next_ops_queue.map
            (fun o => (o.op_type, o.collective_num_bytes)),
          c.dumpi_mpi_array.next_ops_queue_count))
      = some ([(CODES_WK_DELAY, 0), (CODES_WK_UNSET, 0), (CODES_WK_UNSET, 0),
               (CODES_WK_UNSET, 0)], 1) := by
  have hg : double_sub
        (double_sub (time_to_ns_lf (call_at 2500 2600).start)
          (check_set_init_time (call_at 2500 2600) adapter_context).init_time)
        (check_set_init_time (call_at 2500 2600) adapter_context).last_op_time > 100 := by
    norm_num [check_set_init_time, adapter_context, load_context,
      time_to_ns_lf, double_add, double_mul, double_of_int, double_sub, call_at,
      round_double_ofNat, round_double_zero]
  have hd1 : delay_before (call_at 2500 2600) adapter_context =
      [delay_op (check_set_init_time (call_at 2500 2600) adapter_context).last_op_time
        (double_sub (time_to_ns_lf (call_at 2500 2600).start)
          (check_set_init_time (call_at 2500 2600) adapter_context).init_time)] := by
    unfold delay_before
    exact if_pos hg
  have hd2 : delay_before (call_at 2040 2600) adapter_context = [] := by
    norm_num [delay_before, check_set_init_time, adapter_context, load_context,
      time_to_ns_lf, double_add, double_mul, double_of_int, double_sub, call_at,
      round_double_ofNat, round_double_zero]
  have h1 : (value_of (handleDUMPIIgnore (call_at 2500 2600) adapter_context)).map
        (fun c => (c.dumpi_mpi_array.next_ops_queue.map
            (fun o => (o.op_type, o.collective_num_bytes)),
          c.dumpi_mpi_array.next_ops_queue_count))
      = some ([(CODES_WK_DELAY, 0), (CODES_WK_UNSET, 0), (CODES_WK_UNSET, 0),
               (CODES_WK_UNSET, 0)], 1) := by
    rw [handleDUMPIIgnore_first _ _ _ rfl, hd1]
    simp [delay_op, List.replicate, unset_op]
  refine ⟨h1, ?_, h1⟩
  show (value_of (handleDUMPIIgnore (call_at 2040 2600) adapter_context)).map _ = _
  rw [handleDUMPIIgnore_first _ _ _ rfl, hd2]
  simp [List.replicate, unset_op]

/-- C37 (as amended): `dumpi_trace_nw_workload_load` installs `handleDUMPIBcast` and
`handleDUMPIAllreduce` as the callbacks of `MPI_Bcast` and `MPI_Allreduce`: when one of them
returns, the datatype has a size `b` and the operations inserted are, after at most one
Delay, a Bcast or Allreduce operation whose byte count is the count times `b`; and it returns
whenever the datatype has a size, the count is not negative (Bcast) or positive (Allreduce)
and the buffer has room for two operations. For `MPI_Allgather`, `MPI_Allgatherv`,
`MPI_Alltoall`, `MPI_Alltoallv` and `MPI_Reduce` the callback installed is
`handleDUMPIIgnore`, which inserts the Delay before the call, if any, and nothing else, and
returns with room for one operation. -/
theorem collective_callbacks_installed :
    (∀ n dt wall ctx,
      dumpi_trace_nw_workload_load_callback (dumpi_collective.bcast n dt) wall ctx
        = handleDUMPIBcast n dt wall ctx ∧
      dumpi_trace_nw_workload_load_callback (dumpi_collective.allreduce n dt) wall ctx
        = handleDUMPIAllreduce n dt wall ctx) ∧
    (∀ n dt wall ctx ctx1,
      (dumpi_trace_nw_workload_load_callback (dumpi_collective.bcast n dt) wall ctx
          = Except.ok ctx1 →
        ∃ b : Nat, get_num_bytes dt = some b ∧
          insert_all ctx.dumpi_mpi_array
              (delay_before wall ctx ++
                [stamped_op (collective_wk_op CODES_WK_BCAST (n * (b : Int))) wall ctx])
            = Except.ok ctx1.dumpi_mpi_array) ∧
      (dumpi_trace_nw_workload_load_callback (dumpi_collective.allreduce n dt) wall ctx
          = Except.ok ctx1 →
        ∃ b : Nat, get_num_bytes dt = some b ∧
          insert_all ctx.dumpi_mpi_array
              (delay_before wall ctx ++
                [stamped_op (collective_wk_op CODES_WK_ALLREDUCE (n * (b : Int))) wall ctx])
            = Except.ok ctx1.dumpi_mpi_array)) ∧
    (∀ (n : Int) (b : Nat) wall ctx,
      (stamped_op (collective_wk_op CODES_WK_BCAST (n * (b : Int))) wall ctx).op_type
        = CODES_WK_BCAST ∧
      (stamped_op (collective_wk_op CODES_WK_BCAST (n * (b : Int))) wall ctx).collective_num_bytes
        = n * (b : Int) ∧
      (stamped_op (collective_wk_op CODES_WK_ALLREDUCE (n * (b : Int))) wall ctx).op_type
        = CODES_WK_ALLREDUCE ∧
      (stamped_op (collective_wk_op CODES_WK_ALLREDUCE (n * (b : Int))) wall
        ctx).collective_num_bytes = n * (b : Int)) ∧
    (∀ n dt (b : Nat) wall ctx, get_num_bytes dt = some b → buffer_wf ctx.dumpi_mpi_array →
      ctx.dumpi_mpi_array.next_ops_queue_count + 2 ≤ ctx.dumpi_mpi_array.next_ops_queue_size →
      (0 ≤ n → ∃ ctx1,
        dumpi_trace_nw_workload_load_callback (dumpi_collective.bcast n dt) wall ctx
          = Except.ok ctx1) ∧
      (0 < n → ∃ ctx1,
        dumpi_trace_nw_workload_load_callback (dumpi_collective.allreduce n dt) wall ctx
          = Except.ok ctx1)) ∧
    (∀ n dt wall ctx,
      dumpi_trace_nw_workload_load_callback (dumpi_collective.allgather n dt) wall ctx
        = handleDUMPIIgnore wall ctx ∧
      dumpi_trace_nw_workload_load_callback (dumpi_collective.allgatherv n dt) wall ctx
        = handleDUMPIIgnore wall ctx ∧
      dumpi_trace_nw_workload_load_callback (dumpi_collective.alltoall n dt) wall ctx
        = handleDUMPIIgnore wall ctx ∧
      dumpi_trace_nw_workload_load_callback (dumpi_collective.reduce n dt) wall ctx
        = handleDUMPIIgnore wall ctx) ∧
    (∀ ns dt wall ctx,
      dumpi_trace_nw_workload_load_callback (dumpi_collective.alltoallv ns dt) wall ctx
        = handleDUMPIIgnore wall ctx) ∧
    (∀ wall ctx, handleDUMPIIgnore wall ctx =
      match insert_all ctx.dumpi_mpi_array (delay_before wall ctx) with
      | Except.error e => Except.error e
      | Except.ok a =>
        Except.ok { check_set_init_time wall ctx with
          dumpi_mpi_array := a,
          last_op_time :=
            double_sub (time_to_ns_lf wall.stop) (check_set_init_time wall ctx).init_time }) ∧
    (∀ wall ctx, (delay_before wall ctx).length ≤ 1 ∧
      ∀ o ∈ delay_before wall ctx, o.op_type = CODES_WK_DELAY) ∧
    (∀ wall ctx, buffer_wf ctx.dumpi_mpi_array →
      ctx.dumpi_mpi_array.next_ops_queue_count + 1 ≤ ctx.dumpi_mpi_array.next_ops_queue_size →
      ∃ ctx1, handleDUMPIIgnore wall ctx = Except.ok ctx1 ∧
        ctx1.dumpi_mpi_array.next_ops_queue_count
          = ctx.dumpi_mpi_array.next_ops_queue_count + (delay_before wall ctx).length) := by
  refine ⟨fun _ _ _ _ => ⟨rfl, rfl⟩, ?_, fun _ _ _ _ => ⟨rfl, rfl, rfl, rfl⟩, ?_,
    fun _ _ _ _ => ⟨rfl, rfl, rfl, rfl⟩, fun _ _ _ _ => rfl, handleDUMPIIgnore_eq,
    fun wall ctx => ⟨delay_before_length wall ctx, delay_before_type wall ctx⟩, ?_⟩
  · intro n dt wall ctx ctx1
    constructor
    · intro h
      exact (counted_insert_spec n dt (fun nb => collective_wk_op CODES_WK_BCAST nb) wall
        ctx).2.1 ctx1 h
    · intro h
      exact (counted_insert_pos_spec n dt (fun nb => collective_wk_op CODES_WK_ALLREDUCE nb)
        wall ctx).1 ctx1 h
  · intro n dt b wall ctx hb hwf hroom
    constructor
    · intro hn
      exact (counted_insert_spec n dt (fun nb => collective_wk_op CODES_WK_BCAST nb) wall
        ctx).2.2 b hb hn hwf hroom
    · intro hn
      exact (counted_insert_pos_spec n dt (fun nb => collective_wk_op CODES_WK_ALLREDUCE nb)
        wall ctx).2 b hb hn hwf hroom
  · intro wall ctx hwf hroom
    obtain ⟨a, ha, _, hc⟩ := insert_all_of_capacity (delay_before wall ctx)
      ctx.dumpi_mpi_array hwf (by
        have := delay_before_length wall ctx
        omega)
    rw [handleDUMPIIgnore_eq, ha]
    exact ⟨_, rfl, hc⟩

/-! ### Invariants of forward runs -/

theorem notify_waits_effect (s : nw_state) (lp : tw_lp) (c : Int) (p : nw_state × tw_lp)
    (h : notify_waits s lp c = some p) :
    p.1.pending_recvs_queue = s.pending_recvs_queue ∧ p.1.arrival_queue = s.arrival_queue ∧
    p.1.num_sends = s.num_sends ∧ p.1.num_recvs = s.num_recvs ∧
    ((p.1.pending_waits.isSome = s.pending_waits.isSome ∧ p.2 = lp) ∨
      (s.pending_waits.isSome = true ∧ p.1.pending_waits = none ∧
        p.2 = codes_issue_next_event lp)) := by
  cases hp : s.pending_waits with
  | none =>
    simp only [notify_waits, hp] at h
    cases h
    exact ⟨rfl, rfl, rfl, rfl, Or.inl ⟨by rw [hp], rfl⟩⟩
  | some w =>
    by_cases h1 : w.mpi_op.op_type = CODES_NW_WAIT
    · by_cases h2 : w.mpi_op.wait_req_id = c
      · simp only [notify_waits, hp, h1, h2, if_true] at h
        cases h
        exact ⟨rfl, rfl, rfl, rfl, Or.inr ⟨rfl, rfl, rfl⟩⟩
      · simp only [notify_waits, hp, h1, h2, if_true, if_false] at h
        cases h
        exact ⟨rfl, rfl, rfl, rfl, Or.inl ⟨by rw [hp], rfl⟩⟩
    · by_cases h2 : w.mpi_op.op_type = CODES_NW_WAITALL ∨ w.mpi_op.op_type = CODES_NW_WAITSOME
      · by_cases h3 : (w.mpi_op.op_type = CODES_NW_WAITALL ∧
            w.num_completed + count_req_id w.mpi_op.req_ids c = (w.mpi_op.req_ids.length : Int)) ∨
            (w.mpi_op.op_type = CODES_NW_WAITSOME ∧
              w.num_completed + count_req_id w.mpi_op.req_ids c > 0)
        · simp only [notify_waits, hp, h1, h2, h3, if_true, if_false, Option.map_eq_some'] at h
          obtain ⟨cr, _, hcr⟩ := h
          subst hcr
          exact ⟨rfl, rfl, rfl, rfl, Or.inr ⟨rfl, rfl, rfl⟩⟩
        · simp only [notify_waits, hp, h1, h2, h3, if_true, if_false] at h
          cases h
          exact ⟨rfl, rfl, rfl, rfl, Or.inl ⟨rfl, rfl⟩⟩
      · simp only [notify_waits, hp, h1, h2, if_false] at h
        cases h
        exact ⟨rfl, rfl, rfl, rfl, Or.inl ⟨by rw [hp], rfl⟩⟩

theorem codes_exec_mpi_recv_effect (s : nw_state) (m : nw_message) (lp : tw_lp)
    (hop : is_recv_op m.op) (hty : ∀ e ∈ s.arrival_queue.queue, is_send_op e) :
    ∃ s1 m1 lp1, codes_exec_mpi_recv s m lp = some (s1, m1, lp1) ∧
      s1.pending_waits = s.pending_waits ∧ s1.num_sends = s.num_sends ∧
      s1.num_recvs = s.num_recvs ∧ m1.op = { m.op with sim_start_time := lp.now } ∧
      m1.msg_type = m.msg_type ∧
      (((∀ e ∈ s.arrival_queue.queue,
            ¬ matching_predicate { m.op with sim_start_time := lp.now } e) ∧
          s1.arrival_queue = s.arrival_queue ∧
          s1.pending_recvs_queue.queue =
            s.pending_recvs_queue.queue ++ [{ m.op with sim_start_time := lp.now }] ∧
          s1.completed_reqs = s.completed_reqs ∧
          lp1 = (if m.op.op_type = CODES_NW_IRECV then codes_issue_next_event lp else lp)) ∨
        (∃ pre e post, s.arrival_queue.queue = pre ++ e :: post ∧
          matching_predicate { m.op with sim_start_time := lp.now } e ∧
          s1.arrival_queue.queue = pre ++ post ∧
          s1.pending_recvs_queue = s.pending_recvs_queue ∧
          s1.completed_reqs = m.op.req_id :: s.completed_reqs ∧
          lp1 = codes_issue_next_event lp)) := by
  have hop1 : is_recv_op { m.op with sim_start_time := lp.now } := hop
  rcases remove_matching_recv_spec
      { s with num_bytes_recvd := s.num_bytes_recvd + m.op.num_bytes } lp s.arrival_queue
      { m.op with sim_start_time := lp.now } none 0 hop1 hty with
    ⟨hno, rid1, hr⟩ | ⟨pre, e, post, hsplit, _, hme, hr⟩
  · simp only [codes_exec_mpi_recv, hr]
    rw [if_pos (by decide)]
    by_cases hi : m.op.op_type = CODES_NW_IRECV
    · rw [if_pos hi]
      exact ⟨_, _, _, rfl, rfl, rfl, rfl, rfl, rfl,
        Or.inl ⟨hno, rfl, rfl, rfl, by rw [if_pos hi]⟩⟩
    · rw [if_neg hi]
      exact ⟨_, _, _, rfl, rfl, rfl, rfl, rfl, rfl,
        Or.inl ⟨hno, rfl, rfl, rfl, by rw [if_neg hi]⟩⟩
  · simp only [codes_exec_mpi_recv, hr]
    rw [if_neg (by omega)]
    exact ⟨_, _, _, rfl, rfl, rfl, rfl, rfl, rfl,
      Or.inr ⟨pre, e, post, hsplit, hme, rfl, rfl, rfl, rfl⟩⟩

theorem update_arrival_queue_effect (s : nw_state) (m : nw_message) (lp : tw_lp)
    (hop : is_send_op m.op) (hty : ∀ e ∈ s.pending_recvs_queue.queue, is_recv_op e)
    (r : nw_state × nw_message × tw_lp) (h : update_arrival_queue s m lp = some r) :
    r.1.num_sends = s.num_sends ∧ r.1.num_recvs = s.num_recvs ∧ r.2.1.op = m.op ∧
    r.2.1.msg_type = m.msg_type ∧
    (((∀ R ∈ s.pending_recvs_queue.queue, ¬ matching_predicate R m.op) ∧
        r.1.pending_recvs_queue = s.pending_recvs_queue ∧
        r.1.arrival_queue.queue = s.arrival_queue.queue ++ [m.op] ∧
        r.1.pending_waits = s.pending_waits ∧ r.1.completed_reqs = s.completed_reqs ∧
        r.2.2 = lp) ∨
      (∃ pre e post, s.pending_recvs_queue.queue = pre ++ e :: post ∧
        matching_predicate e m.op ∧ r.1.pending_recvs_queue.queue = pre ++ post ∧
        r.1.arrival_queue = s.arrival_queue ∧
        (((inspected_node pre e).op_type = CODES_NW_RECV ∧
            r.2.2 = codes_issue_next_event lp ∧ r.1.pending_waits = s.pending_waits ∧
            r.1.completed_reqs = e.req_id :: s.completed_reqs) ∨
          ((inspected_node pre e).op_type ≠ CODES_NW_RECV ∧
            ((r.1.pending_waits.isSome = s.pending_waits.isSome ∧ r.2.2 = lp) ∨
              (s.pending_waits.isSome = true ∧ r.1.pending_waits = none ∧
                r.2.2 = codes_issue_next_event lp)))))) := by
  rcases remove_matching_send_spec
      { s with send_time := s.send_time + (lp.now - m.op.sim_start_time) } lp
      s.pending_recvs_queue m.op 0 (-1) hop hty with
    ⟨hno, rid1, hr⟩ | ⟨pre, e, post, hsplit, _, hme, hr⟩
  · simp only [update_arrival_queue, hr] at h
    rw [if_pos (by decide)] at h
    cases h
    exact ⟨rfl, rfl, rfl, rfl, Or.inl ⟨hno, rfl, rfl, rfl, rfl, rfl⟩⟩
  · simp only [update_arrival_queue, hr] at h
    rw [if_neg (by omega)] at h
    by_cases hb : (inspected_node pre e).op_type = CODES_NW_RECV
    · simp only [hb, if_true] at h
      rw [if_pos (by decide)] at h
      cases h
      exact ⟨rfl, rfl, rfl, rfl,
        Or.inr ⟨pre, e, post, hsplit, hme, rfl, rfl, Or.inl ⟨hb, rfl, rfl, rfl⟩⟩⟩
    · simp only [hb, if_false] at h
      rw [if_neg (by simp)] at h
      simp only [Option.map_eq_some'] at h
      obtain ⟨p, hp, hpr⟩ := h
      subst hpr
      obtain ⟨q1, q2, n1, n2, hw⟩ := notify_waits_effect _ _ _ p hp
      refine ⟨n1, n2, rfl, rfl, Or.inr ⟨pre, e, post, hsplit, hme, ?_, ?_, Or.inr ⟨hb, hw⟩⟩⟩
      · show p.1.pending_recvs_queue.queue = pre ++ post
        rw [q1]
      · exact q2

theorem posted_by_none (s : nw_state) (m : nw_message) (lp : tw_lp) :
    posted_by { s := s, m := m, lp := lp, net := none } = [] := rfl

theorem codes_exec_mpi_send_effect (cfg : net_config) (s : nw_state) (m : nw_message)
    (lp : tw_lp) (r : handler_result) (h : codes_exec_mpi_send cfg s m lp = some r) :
    r.s.arrival_queue = s.arrival_queue ∧ r.s.pending_recvs_queue = s.pending_recvs_queue ∧
    r.s.pending_waits = s.pending_waits ∧ r.s.num_sends = s.num_sends ∧
    r.s.num_recvs = s.num_recvs ∧ r.s.completed_reqs = s.completed_reqs ∧
    r.m.msg_type = m.msg_type ∧ r.m.op.op_type = m.op.op_type ∧
    r.lp = (if m.op.op_type = CODES_NW_ISEND then codes_issue_next_event lp else lp) ∧
    posted_by r = [{ m.op with sim_start_time := lp.now }] := by
  by_cases hdf : cfg.is_dragonfly = true
  · by_cases hz : cfg.num_nw_lps = 0
    · simp [codes_exec_mpi_send, hdf, hz] at h
    · simp [codes_exec_mpi_send, hdf, hz] at h
      subst h
      exact ⟨rfl, rfl, rfl, rfl, rfl, rfl, rfl, rfl, rfl, rfl⟩
  · simp [codes_exec_mpi_send, hdf] at h
    subst h
    exact ⟨rfl, rfl, rfl, rfl, rfl, rfl, rfl, rfl, rfl, rfl⟩

theorem codes_exec_mpi_wait_effect (s : nw_state) (m : nw_message) (lp : tw_lp) :
    (codes_exec_mpi_wait s m lp).1.arrival_queue = s.arrival_queue ∧
    (codes_exec_mpi_wait s m lp).1.pending_recvs_queue = s.pending_recvs_queue ∧
    (codes_exec_mpi_wait s m lp).1.num_sends = s.num_sends ∧
    (codes_exec_mpi_wait s m lp).1.num_recvs = s.num_recvs ∧
    (((codes_exec_mpi_wait s m lp).1.pending_waits = s.pending_waits ∧
        (codes_exec_mpi_wait s m lp).2 = codes_issue_next_event lp) ∨
      ((codes_exec_mpi_wait s m lp).1.pending_waits.isSome = true ∧
        (codes_exec_mpi_wait s m lp).2 = lp)) := by
  unfold codes_exec_mpi_wait
  dsimp only
  split
  · exact ⟨rfl, rfl, rfl, rfl, Or.inl ⟨rfl, rfl⟩⟩
  · exact ⟨rfl, rfl, rfl, rfl, Or.inr ⟨rfl, rfl⟩⟩

theorem codes_exec_mpi_wait_all_some_effect (s : nw_state) (m : nw_message) (lp : tw_lp)
    (p : nw_state × tw_lp) (h : codes_exec_mpi_wait_all_some s m lp = some p) :
    p.1.arrival_queue = s.arrival_queue ∧ p.1.pending_recvs_queue = s.pending_recvs_queue ∧
    p.1.num_sends = s.num_sends ∧ p.1.num_recvs = s.num_recvs ∧
    ((p.1.pending_waits = s.pending_waits ∧ p.2 = codes_issue_next_event lp) ∨
      (p.1.pending_waits.isSome = true ∧ p.2 = lp)) := by
  unfold codes_exec_mpi_wait_all_some at h
  simp only at h
  split at h
  · simp only [Option.map_eq_some'] at h
    obtain ⟨c, _, hc⟩ := h
    subst hc
    exact ⟨rfl, rfl, rfl, rfl, Or.inl ⟨rfl, rfl⟩⟩
  · simp only [Option.some.injEq] at h
    subst h
    exact ⟨rfl, rfl, rfl, rfl, Or.inr ⟨rfl, rfl⟩⟩
theorem get_next_effect (cfg : net_config) (op : mpi_event_list) (s : nw_state)
    (m : nw_message) (lp : tw_lp) (r : handler_result)
    (h : get_next_mpi_operation cfg op s m lp = some r)
    (hty : ∀ e ∈ s.arrival_queue.queue, is_send_op e) :
    r.m.msg_type = m.msg_type ∧ r.m.op.op_type = op.op_type ∧
    r.s.num_sends = (if is_send_op op then ulong_inc s.num_sends else s.num_sends) ∧
    r.s.num_recvs = (if is_recv_op op then ulong_inc s.num_recvs else s.num_recvs) ∧
    ((is_recv_op op ∧ posted_by r = [] ∧ r.s.pending_waits = s.pending_waits ∧
        (((∀ e ∈ s.arrival_queue.queue,
              ¬ matching_predicate { op with sim_start_time := lp.now } e) ∧
            r.s.arrival_queue = s.arrival_queue ∧
            r.s.pending_recvs_queue.queue =
              s.pending_recvs_queue.queue ++ [{ op with sim_start_time := lp.now }] ∧
            r.s.completed_reqs = s.completed_reqs ∧
            r.lp = (if op.op_type = CODES_NW_IRECV then codes_issue_next_event lp else lp)) ∨
          (∃ pre e post, s.arrival_queue.queue = pre ++ e :: post ∧
            matching_predicate { op with sim_start_time := lp.now } e ∧
            r.s.arrival_queue.queue = pre ++ post ∧
            r.s.pending_recvs_queue = s.pending_recvs_queue ∧
            r.s.completed_reqs = op.req_id :: s.completed_reqs ∧
            r.lp = codes_issue_next_event lp))) ∨
      (¬ is_recv_op op ∧ r.s.arrival_queue = s.arrival_queue ∧
        r.s.pending_recvs_queue = s.pending_recvs_queue ∧
        ((r.s.pending_waits = s.pending_waits ∧ r.lp = lp ∧
            blocking_sends (posted_by r) ≤ 1) ∨
          (r.s.pending_waits = s.pending_waits ∧ r.lp = codes_issue_next_event lp ∧
            blocking_sends (posted_by r) = 0) ∨
          (r.s.pending_waits.isSome = true ∧ r.lp = lp ∧ posted_by r = [])))) := by
  by_cases hop : is_recv_op op
  · have heq : get_next_mpi_operation cfg op s m lp =
        (codes_exec_mpi_recv { s with num_recvs := ulong_inc s.num_recvs } { m with op := op }
          lp).map (fun r => ({ s := r.1, m := r.2.1, lp := r.2.2, net := none } : handler_result))
        := by
      rcases hop with h1 | h1 <;> simp only [get_next_mpi_operation, h1]
    rw [heq] at h
    obtain ⟨s1, m1, lp1, he, e1, e2, e3, e4, e5, e6⟩ := codes_exec_mpi_recv_effect
      { s with num_recvs := ulong_inc s.num_recvs } { m with op := op } lp hop hty
    rw [he] at h
    simp only [Option.map_some', Option.some.injEq] at h
    subst h
    refine ⟨e5, by rw [e4], ?_, ?_, Or.inl ⟨hop, rfl, e1, ?_⟩⟩
    · rw [if_neg (show ¬ is_send_op op from recv_not_send_op op hop)]; exact e2
    · rw [if_pos hop]; exact e3
    · rcases e6 with ⟨a1, a2, a3, a4, a5⟩ | ⟨pre, e, post, a1, a2, a3, a4, a5, a6⟩
      · exact Or.inl ⟨a1, a2, a3, a4, a5⟩
      · exact Or.inr ⟨pre, e, post, a1, a2, a3, a4, a5, a6⟩
  · by_cases hsd : is_send_op op
    · have heq : get_next_mpi_operation cfg op s m lp =
          codes_exec_mpi_send cfg { s with num_sends := ulong_inc s.num_sends }
            { m with op := op } lp := by
        rcases hsd with h1 | h1 <;> simp only [get_next_mpi_operation, h1]
      rw [heq] at h
      obtain ⟨a1, a2, a3, a4, a5, a6, a7, a8, a9, a10⟩ :=
        codes_exec_mpi_send_effect cfg _ _ lp r h
      refine ⟨a7, a8, ?_, ?_, Or.inr ⟨hop, a1, a2, ?_⟩⟩
      · rw [if_pos hsd]; exact a4
      · rw [if_neg hop]; exact a5
      · by_cases hi : op.op_type = CODES_NW_ISEND
        · refine Or.inr (Or.inl ⟨a3, by rw [a9]; exact if_pos hi, ?_⟩)
          rw [a10]
          simp [blocking_sends, hi]
        · refine Or.inl ⟨a3, by rw [a9]; exact if_neg hi, ?_⟩
          rw [a10]
          simp only [blocking_sends, List.countP_cons, List.countP_nil]
          split <;> omega
    · rw [if_neg hsd, if_neg hop]
      have hw1 := codes_exec_mpi_wait_effect { s with num_wait := ulong_inc s.num_wait }
        { m with op := op } lp
      have hw2 := codes_exec_mpi_wait_all_some_effect
        { s with num_waitall := ulong_inc s.num_waitall } { m with op := op } lp
      have hw3 := codes_exec_mpi_wait_all_some_effect
        { s with num_waitsome := ulong_inc s.num_waitsome } { m with op := op } lp
      cases hk : op.op_type with
      | CODES_NW_SEND => exact absurd (Or.inl hk) hsd
      | CODES_NW_ISEND => exact absurd (Or.inr hk) hsd
      | CODES_NW_RECV => exact absurd (Or.inl hk) hop
      | CODES_NW_IRECV => exact absurd (Or.inr hk) hop
      | CODES_NW_WAIT =>
        simp only [get_next_mpi_operation, hk, Option.some.injEq] at h
        subst h
        obtain ⟨b1, b2, b3, b4, b5⟩ := hw1
        refine ⟨rfl, hk, b3, b4, Or.inr ⟨hop, b1, b2, ?_⟩⟩
        rcases b5 with ⟨c1, c2⟩ | ⟨c1, c2⟩
        · exact Or.inr (Or.inl ⟨c1, c2, rfl⟩)
        · exact Or.inr (Or.inr ⟨c1, c2, rfl⟩)
      | CODES_NW_WAITALL =>
        simp only [get_next_mpi_operation, hk, Option.map_eq_some'] at h
        obtain ⟨p, hp, hpr⟩ := h
        subst hpr
        obtain ⟨b1, b2, b3, b4, b5⟩ := hw2 p hp
        refine ⟨rfl, hk, b3, b4, Or.inr ⟨hop, b1, b2, ?_⟩⟩
        rcases b5 with ⟨c1, c2⟩ | ⟨c1, c2⟩
        · exact Or.inr (Or.inl ⟨c1, c2, rfl⟩)
        · exact Or.inr (Or.inr ⟨c1, c2, rfl⟩)
      | CODES_NW_WAITSOME =>
        simp only [get_next_mpi_operation, hk, Option.map_eq_some'] at h
        obtain ⟨p, hp, hpr⟩ := h
        subst hpr
        obtain ⟨b1, b2, b3, b4, b5⟩ := hw3 p hp
        refine ⟨rfl, hk, b3, b4, Or.inr ⟨hop, b1, b2, ?_⟩⟩
        rcases b5 with ⟨c1, c2⟩ | ⟨c1, c2⟩
        · exact Or.inr (Or.inl ⟨c1, c2, rfl⟩)
        · exact Or.inr (Or.inr ⟨c1, c2, rfl⟩)
      | CODES_NW_END =>
        simp only [get_next_mpi_operation, hk, Option.some.injEq] at h
        subst h
        exact ⟨rfl, hk, rfl, rfl, Or.inr ⟨hop, rfl, rfl, Or.inl ⟨rfl, rfl, Nat.zero_le 1⟩⟩⟩
      | CODES_NW_INVALID =>
        simp only [get_next_mpi_operation, hk, Option.some.injEq] at h
        subst h
        exact ⟨rfl, hk, rfl, rfl, Or.inr ⟨hop, rfl, rfl, Or.inl ⟨rfl, rfl, Nat.zero_le 1⟩⟩⟩
      | _ =>
        simp only [get_next_mpi_operation, hk, Option.some.injEq] at h
        subst h
        exact ⟨rfl, hk, rfl, rfl, Or.inr ⟨hop, rfl, rfl, Or.inr (Or.inl ⟨rfl, rfl, rfl⟩)⟩⟩
theorem update_send_completion_queue_effect (s : nw_state) (m : nw_message) (lp : tw_lp)
    (p : nw_state × tw_lp) (h : update_send_completion_queue s m lp = some p) :
    p.1.arrival_queue = s.arrival_queue ∧ p.1.pending_recvs_queue = s.pending_recvs_queue ∧
    p.1.num_sends = s.num_sends ∧ p.1.num_recvs = s.num_recvs ∧
    ((m.op.op_type = CODES_NW_SEND ∧ p.1.pending_waits = s.pending_waits ∧
        p.2 = codes_issue_next_event lp) ∨
      (m.op.op_type ≠ CODES_NW_SEND ∧
        ((p.1.pending_waits.isSome = s.pending_waits.isSome ∧ p.2 = lp) ∨
          (s.pending_waits.isSome = true ∧ p.1.pending_waits = none ∧
            p.2 = codes_issue_next_event lp)))) := by
  by_cases hi : m.op.op_type = CODES_NW_ISEND
  · have hns : ¬ m.op.op_type = CODES_NW_SEND := by rw [hi]; decide
    simp only [update_send_completion_queue, hi, if_true, Option.map_eq_some'] at h
    obtain ⟨q, hq, hqp⟩ := h
    rw [if_neg (by decide)] at hqp
    subst hqp
    obtain ⟨a1, a2, a3, a4, a5⟩ := notify_waits_effect _ _ _ q hq
    exact ⟨a2, a1, a3, a4, Or.inr ⟨hns, a5⟩⟩
  · by_cases hs : m.op.op_type = CODES_NW_SEND
    · simp only [update_send_completion_queue, hs, if_true] at h
      rw [if_neg (by decide)] at h
      simp only [Option.map_some', Option.some.injEq] at h
      subst h
      exact ⟨rfl, rfl, rfl, rfl, Or.inl ⟨hs, rfl, rfl⟩⟩
    · simp only [update_send_completion_queue, hi, hs, if_false, Option.map_some',
        Option.some.injEq] at h
      subst h
      exact ⟨rfl, rfl, rfl, rfl, Or.inr ⟨hs, Or.inl ⟨rfl, rfl⟩⟩⟩

theorem mem_of_mem_split (pre post : List mpi_event_list) (e x : mpi_event_list)
    (h : x ∈ pre ++ post) : x ∈ pre ++ e :: post := by
  rcases List.mem_append.mp h with h1 | h1
  · exact List.mem_append_left _ h1
  · exact List.mem_append_right _ (List.mem_cons_of_mem _ h1)

theorem handle_event_queues (cfg : net_config) (p : nw_state × tw_lp) (now : tw_stime)
    (ev : lp_event) (r : handler_result) (h : handle_event cfg p now ev = some r)
    (hev : ∀ op, ev = lp_event.send_arrived op → is_send_op op) (hty : queues_typed p.1) :
    queues_typed r.s ∧ (no_cross_match p.1 → no_cross_match r.s) := by
  obtain ⟨hta, htp⟩ := hty
  cases ev with
  | get_next op =>
    simp only [handle_event, nw_test_event_handler, mk_msg] at h
    obtain ⟨_, _, _, _, hc⟩ := get_next_effect cfg op p.1 _ _ r h hta
    rcases hc with ⟨hop, _, _, hc⟩ | ⟨_, q1, q2, _⟩
    · rcases hc with ⟨hno, q1, q2, _, _⟩ | ⟨pre, e, post, hsplit, _, q1, q2, _, _⟩
      · refine ⟨⟨by rw [q1]; exact hta, ?_⟩, ?_⟩
        · intro x hx
          rw [q2] at hx
          rcases List.mem_append.mp hx with h1 | h1
          · exact htp x h1
          · rw [List.mem_singleton.mp h1]; exact hop
        · intro hnc S hS R hR
          rw [q1] at hS
          rw [q2] at hR
          rcases List.mem_append.mp hR with h1 | h1
          · exact hnc S hS R h1
          · rw [List.mem_singleton.mp h1]; exact hno S hS
      · have hsub : ∀ x ∈ r.s.arrival_queue.queue, x ∈ p.1.arrival_queue.queue := by
          intro x hx
          rw [q1] at hx
          rw [hsplit]
          exact mem_of_mem_split pre post e x hx
        refine ⟨⟨fun x hx => hta x (hsub x hx), by rw [q2]; exact htp⟩, ?_⟩
        intro hnc S hS R hR
        rw [q2] at hR
        exact hnc S (hsub S hS) R hR
    · refine ⟨⟨by rw [q1]; exact hta, by rw [q2]; exact htp⟩, ?_⟩
      intro hnc S hS R hR
      rw [q1] at hS
      rw [q2] at hR
      exact hnc S hS R hR
  | send_arrived op =>
    have hop : is_send_op op := hev op rfl
    simp only [handle_event, nw_test_event_handler, mk_msg, Option.map_eq_some'] at h
    obtain ⟨q, hq, hqr⟩ := h
    subst hqr
    obtain ⟨_, _, _, _, hc⟩ := update_arrival_queue_effect p.1 _ _ hop htp q hq
    rcases hc with ⟨hno, q1, q2, _, _, _⟩ | ⟨pre, e, post, hsplit, _, q1, q2, _⟩
    · refine ⟨⟨?_, by show ∀ e ∈ q.1.pending_recvs_queue.queue, is_recv_op e; rw [q1]; exact htp⟩,
        ?_⟩
      · intro x hx
        have hx1 : x ∈ q.1.arrival_queue.queue := hx
        rw [q2] at hx1
        rcases List.mem_append.mp hx1 with h1 | h1
        · exact hta x h1
        · rw [List.mem_singleton.mp h1]; exact hop
      · intro hnc S hS R hR
        have hS1 : S ∈ q.1.arrival_queue.queue := hS
        have hR1 : R ∈ q.1.pending_recvs_queue.queue := hR
        rw [q2] at hS1
        rw [q1] at hR1
        rcases List.mem_append.mp hS1 with h1 | h1
        · exact hnc S h1 R hR1
        · rw [List.mem_singleton.mp h1]; exact hno R hR1
    · have hsub : ∀ x ∈ q.1.pending_recvs_queue.queue, x ∈ p.1.pending_recvs_queue.queue := by
        intro x hx
        rw [q1] at hx
        rw [hsplit]
        exact mem_of_mem_split pre post e x hx
      refine ⟨⟨by show ∀ e ∈ q.1.arrival_queue.queue, is_send_op e; rw [q2]; exact hta,
        fun x hx => htp x (hsub x hx)⟩, ?_⟩
      intro hnc S hS R hR
      have hS1 : S ∈ q.1.arrival_queue.queue := hS
      rw [q2] at hS1
      exact hnc S hS1 R (hsub R hR)
  | send_posted op =>
    simp only [handle_event, nw_test_event_handler, mk_msg, Option.map_eq_some'] at h
    obtain ⟨q, hq, hqr⟩ := h
    subst hqr
    obtain ⟨q1, q2, _⟩ := update_send_completion_queue_effect p.1 _ _ q hq
    refine ⟨⟨by show ∀ e ∈ q.1.arrival_queue.queue, is_send_op e; rw [q1]; exact hta,
      by show ∀ e ∈ q.1.pending_recvs_queue.queue, is_recv_op e; rw [q2]; exact htp⟩, ?_⟩
    intro hnc S hS R hR
    have hS1 : S ∈ q.1.arrival_queue.queue := hS
    have hR1 : R ∈ q.1.pending_recvs_queue.queue := hR
    rw [q1] at hS1
    rw [q2] at hR1
    exact hnc S hS1 R hR1

theorem deliver_eq_handle_event (cfg : net_config) (p : nw_state × tw_lp) (now : tw_stime)
    (ev : lp_event) :
    deliver cfg p now ev = (handle_event cfg p now ev).map (fun x => (x.s, x.lp)) := by
  cases ev <;> rfl

theorem deliver_all_queues (cfg : net_config) :
    ∀ (script : List (tw_stime × lp_event)) (p p1 : nw_state × tw_lp),
      arrivals_carry_sends script → deliver_all cfg script p = some p1 →
      queues_typed p.1 → no_cross_match p.1 → queues_typed p1.1 ∧ no_cross_match p1.1 := by
  intro script
  induction script with
  | nil =>
    intro p p1 _ h hty hnc
    simp only [deliver_all, Option.some.injEq] at h
    subst h
    exact ⟨hty, hnc⟩
  | cons x rest ih =>
    intro p p1 hs h hty hnc
    obtain ⟨now, ev⟩ := x
    simp only [deliver_all] at h
    cases hd : deliver cfg p now ev with
    | none => rw [hd] at h; cases h
    | some p2 =>
      rw [hd] at h
      rw [deliver_eq_handle_event, Option.map_eq_some'] at hd
      obtain ⟨r, hr, hrp⟩ := hd
      subst hrp
      have hev : ∀ op, ev = lp_event.send_arrived op → is_send_op op := by
        intro op hop
        have := hs (now, ev) (List.mem_cons_self _ _)
        rw [hop] at this
        exact this
      obtain ⟨t1, t2⟩ := handle_event_queues cfg p now ev r hr hev hty
      exact ih (r.s, r.lp) p1 (fun y hy => hs y (List.mem_cons_of_mem _ hy)) h t1 (t2 hnc)


/-- C39: after any sequence of events delivered to an LP from `nw_test_init` in which every
`MPI_SEND_ARRIVED` carries a Send or an ISend, `arrival_queue` holds only Send and ISend
operations and `pending_recvs_queue` only Recv and IRecv operations. So every call of
`match_receive` a search of these queues makes (a queued receive against an arriving send, a
posted receive against a queued send) passes its two assertions; the search of
`arrival_queue` for a receive returns and leaves the null `is_blocking` as it is, and
`codes_exec_mpi_recv` returns; the search of `pending_recvs_queue` for a send returns. -/
theorem queues_hold_their_kinds (cfg : net_config) (s0 : nw_state) (nw_id : Nat) (lp : tw_lp)
    (script : List (tw_stime × lp_event)) (p : nw_state × tw_lp)
    (hs : arrivals_carry_sends script)
    (h : deliver_all cfg script (nw_test_init s0 nw_id lp) = some p) :
    (∀ e ∈ p.1.arrival_queue.queue, is_send_op e) ∧
    (∀ e ∈ p.1.pending_recvs_queue.queue, is_recv_op e) ∧
    (∀ (s : nw_state) (lp1 : tw_lp) (R S : mpi_event_list),
      R ∈ p.1.pending_recvs_queue.queue → is_send_op S →
      ∃ r, match_receive s lp1 R S = some r) ∧
    (∀ (s : nw_state) (lp1 : tw_lp) (R S : mpi_event_list),
      is_recv_op R → S ∈ p.1.arrival_queue.queue →
      ∃ r, match_receive s lp1 R S = some r) ∧
    (∀ (s : nw_state) (lp1 : tw_lp) (op : mpi_event_list) (rid : Int), is_recv_op op →
      ∃ r, mpi_queue_remove_matching_op s lp1 p.1.arrival_queue op none rid = some r ∧
        r.is_blocking = none) ∧
    (∀ (m : nw_message) (lp1 : tw_lp), is_recv_op m.op →
      ∃ r, codes_exec_mpi_recv p.1 m lp1 = some r) ∧
    (∀ (s : nw_state) (lp1 : tw_lp) (op : mpi_event_list) (b rid : Int), is_send_op op →
      ∃ r, mpi_queue_remove_matching_op s lp1 p.1.pending_recvs_queue op (some b) rid
        = some r) := by
  have h0t : queues_typed (nw_test_init s0 nw_id lp).1 := by
    constructor <;> intro e he <;> cases he
  have h0n : no_cross_match (nw_test_init s0 nw_id lp).1 := by
    intro S hS
    cases hS
  obtain ⟨⟨hta, htp⟩, _⟩ := deliver_all_queues cfg script _ p hs h h0t h0n
  refine ⟨hta, htp, ?_, ?_, ?_, ?_, ?_⟩
  · intro s lp1 R S hR hS
    rw [match_receive_eq s lp1 R S (htp R hR) hS]
    by_cases hm : matching_predicate R S
    · rw [if_pos hm]; exact ⟨_, rfl⟩
    · rw [if_neg hm]; exact ⟨_, rfl⟩
  · intro s lp1 R S hR hS
    rw [match_receive_eq s lp1 R S hR (hta S hS)]
    by_cases hm : matching_predicate R S
    · rw [if_pos hm]; exact ⟨_, rfl⟩
    · rw [if_neg hm]; exact ⟨_, rfl⟩
  · intro s lp1 op rid hop
    rcases remove_matching_recv_spec s lp1 p.1.arrival_queue op none rid hop hta with
      ⟨_, rid1, hr⟩ | ⟨pre, e, post, _, _, _, hr⟩
    · exact ⟨_, hr, rfl⟩
    · exact ⟨_, hr, rfl⟩
  · intro m lp1 hop
    obtain ⟨s1, m1, lp2, he, _⟩ := codes_exec_mpi_recv_effect p.1 m lp1 hop hta
    exact ⟨_, he⟩
  · intro s lp1 op b rid hop
    rcases remove_matching_send_spec s lp1 p.1.pending_recvs_queue op b rid hop htp with
      ⟨_, rid1, hr⟩ | ⟨pre, e, post, _, _, _, hr⟩
    · exact ⟨_, hr⟩
    · exact ⟨_, hr⟩

theorem queues_hold_their_kinds_witness :
    arrivals_carry_sends script_unmatched ∧
    ∃ p, deliver_all cfg0 script_unmatched (nw_test_init state0 0 lp0) = some p ∧
      p.1.arrival_queue.queue = [mk_send false 0 2 10 (-1)] ∧
      p.1.pending_recvs_queue.queue.map (fun e => (e.op_type, e.tag))
        = [(CODES_NW_IRECV, 1), (CODES_NW_RECV, 3)] ∧
      (∀ e ∈ p.1.arrival_queue.queue, is_send_op e) ∧
      (∀ e ∈ p.1.pending_recvs_queue.queue, is_recv_op e) := by
  have hs : arrivals_carry_sends script_unmatched := by decide
  have hp : ∃ p, deliver_all cfg0 script_unmatched (nw_test_init state0 0 lp0) = some p ∧
      p.1.arrival_queue.queue = [mk_send false 0 2 10 (-1)] ∧
      p.1.pending_recvs_queue.queue.map (fun e => (e.op_type, e.tag))
        = [(CODES_NW_IRECV, 1), (CODES_NW_RECV, 3)] := by
    cases hd : deliver_all cfg0 script_unmatched (nw_test_init state0 0 lp0) with
    | none => exact absurd hd (by decide)
    | some p =>
      refine ⟨p, rfl, ?_, ?_⟩
      · have : (deliver_all cfg0 script_unmatched (nw_test_init state0 0 lp0)).map
            (fun p => p.1.arrival_queue.queue) = some [mk_send false 0 2 10 (-1)] := by decide
        rw [hd] at this
        simpa using this
      · have : (deliver_all cfg0 script_unmatched (nw_test_init state0 0 lp0)).map
            (fun p => p.1.pending_recvs_queue.queue.map (fun e => (e.op_type, e.tag)))
            = some [(CODES_NW_IRECV, 1), (CODES_NW_RECV, 3)] := by decide
        rw [hd] at this
        simpa using this
  obtain ⟨p, h1, h2, h3⟩ := hp
  have hq := queues_hold_their_kinds cfg0 state0 0 lp0 script_unmatched p hs h1
  exact ⟨hs, p, h1, h2, h3, hq.1, hq.2.1⟩


/-- C33: after any sequence of events delivered to an LP from `nw_test_init` (both queues
empty) in which every `MPI_SEND_ARRIVED` carries a Send or an ISend, no send held in
`arrival_queue` matches a receive held in `pending_recvs_queue`. The next event keeps it so:
an arriving send is appended to `arrival_queue` only if no posted receive matches it (else
the queue is left as it is), and a receive is appended to `pending_recvs_queue` only if no
queued send matches it (else the queue is left as it is). -/
theorem queued_sends_match_no_posted_receive (cfg : net_config) (s0 : nw_state) (nw_id : Nat)
    (lp : tw_lp) (script : List (tw_stime × lp_event)) (p : nw_state × tw_lp)
    (hs : arrivals_carry_sends script)
    (h : deliver_all cfg script (nw_test_init s0 nw_id lp) = some p) :
    (∀ S ∈ p.1.arrival_queue.queue, ∀ R ∈ p.1.pending_recvs_queue.queue,
      ¬ matching_predicate R S) ∧
    (∀ (now : tw_stime) (op : mpi_event_list) (r : handler_result), is_send_op op →
      handle_event cfg p now (lp_event.send_arrived op) = some r →
      (r.s.arrival_queue.queue = p.1.arrival_queue.queue ++ [op] ∧
        r.s.pending_recvs_queue = p.1.pending_recvs_queue ∧
        ∀ R ∈ p.1.pending_recvs_queue.queue, ¬ matching_predicate R op) ∨
      (r.s.arrival_queue = p.1.arrival_queue ∧
        ∃ pre R post, p.1.pending_recvs_queue.queue = pre ++ R :: post ∧
          matching_predicate R op ∧ r.s.pending_recvs_queue.queue = pre ++ post)) ∧
    (∀ (now : tw_stime) (op : mpi_event_list) (r : handler_result), is_recv_op op →
      handle_event cfg p now (lp_event.get_next op) = some r →
      (r.s.pending_recvs_queue.queue =
          p.1.pending_recvs_queue.queue ++ [{ op with sim_start_time := now }] ∧
        r.s.arrival_queue = p.1.arrival_queue ∧
        ∀ S ∈ p.1.arrival_queue.queue, ¬ matching_predicate op S) ∨
      (r.s.pending_recvs_queue = p.1.pending_recvs_queue ∧
        ∃ pre S post, p.1.arrival_queue.queue = pre ++ S :: post ∧
          matching_predicate op S ∧ r.s.arrival_queue.queue = pre ++ post)) := by
  have h0t : queues_typed (nw_test_init s0 nw_id lp).1 := by
    constructor <;> intro e he <;> cases he
  have h0n : no_cross_match (nw_test_init s0 nw_id lp).1 := by
    intro S hS
    cases hS
  obtain ⟨⟨hta, htp⟩, hnc⟩ := deliver_all_queues cfg script _ p hs h h0t h0n
  refine ⟨hnc, ?_, ?_⟩
  · intro now op r hop hr
    simp only [handle_event, nw_test_event_handler, mk_msg, Option.map_eq_some'] at hr
    obtain ⟨q, hq, hqr⟩ := hr
    subst hqr
    obtain ⟨_, _, _, _, hc⟩ := update_arrival_queue_effect p.1 _ _ hop htp q hq
    rcases hc with ⟨hno, q1, q2, _, _, _⟩ | ⟨pre, e, post, hsplit, hme, q1, q2, _⟩
    · exact Or.inl ⟨q2, q1, hno⟩
    · exact Or.inr ⟨q2, pre, e, post, hsplit, hme, q1⟩
  · intro now op r hop hr
    simp only [handle_event, nw_test_event_handler, mk_msg] at hr
    obtain ⟨_, _, _, _, hc⟩ := get_next_effect cfg op p.1 _ _ r hr hta
    rcases hc with ⟨_, _, _, hc⟩ | ⟨hnr, _⟩
    · rcases hc with ⟨hno, q1, q2, _, _⟩ | ⟨pre, e, post, hsplit, hme, q1, q2, _, _⟩
      · exact Or.inl ⟨q2, q1, fun S hS => hno S hS⟩
      · exact Or.inr ⟨q2, pre, e, post, hsplit, hme, q1⟩
    · exact absurd hop hnr

theorem queued_sends_match_no_posted_receive_witness :
    arrivals_carry_sends script_unmatched ∧
    ∃ p, deliver_all cfg0 script_unmatched (nw_test_init state0 0 lp0) = some p ∧
      p.1.arrival_queue.queue ≠ [] ∧ p.1.pending_recvs_queue.queue ≠ [] ∧
      (∀ S ∈ p.1.arrival_queue.queue, ∀ R ∈ p.1.pending_recvs_queue.queue,
        ¬ matching_predicate R S) := by
  have hs : arrivals_carry_sends script_unmatched := by decide
  cases hd : deliver_all cfg0 script_unmatched (nw_test_init state0 0 lp0) with
  | none => exact absurd hd (by decide)
  | some p =>
    have h1 : (deliver_all cfg0 script_unmatched (nw_test_init state0 0 lp0)).map
        (fun p => (p.1.arrival_queue.queue.length, p.1.pending_recvs_queue.queue.length))
        = some (1, 2) := by decide
    rw [hd] at h1
    simp only [Option.map_some', Option.some.injEq, Prod.mk.injEq] at h1
    refine ⟨hs, p, rfl, ?_, ?_,
      (queued_sends_match_no_posted_receive cfg0 state0 0 lp0 script_unmatched p hs hd).1⟩
    · intro hc; rw [hc] at h1; simp at h1
    · intro hc; rw [hc] at h1; simp at h1


/-! ### The pending wait and the scheduled events -/

theorem blocking_sends_erase (op : mpi_event_list) :
    ∀ l : List mpi_event_list, op ∈ l →
      blocking_sends (l.erase op) + (if op.op_type = CODES_NW_SEND then 1 else 0)
        = blocking_sends l := by
  intro l
  induction l with
  | nil => intro h; cases h
  | cons x xs ih =>
    intro h
    by_cases hx : x = op
    · subst hx
      simp only [List.erase_cons_head, blocking_sends, List.countP_cons, decide_eq_true_eq]
    · have hmem : op ∈ xs := by
        rcases List.mem_cons.mp h with h1 | h1
        · exact absurd h1.symm hx
        · exact h1
      have hne : ¬ (x == op) = true := by simpa using hx
      have := ih hmem
      rw [List.erase_cons_tail hne]
      simp only [blocking_sends, List.countP_cons, decide_eq_true_eq] at this ⊢
      omega

theorem last_node_mem (x : mpi_event_list) :
    ∀ xs : List mpi_event_list, ∃ init, x :: xs = init ++ [last_node x xs] := by
  intro xs
  induction xs generalizing x with
  | nil => exact ⟨[], rfl⟩
  | cons y ys ih =>
    obtain ⟨init, hi⟩ := ih y
    exact ⟨x :: init, by simp only [last_node, List.cons_append, hi]⟩

theorem inspected_recv_is_removed (pre post : List mpi_event_list) (e : mpi_event_list)
    (hlast : ∀ x ∈ (pre ++ e :: post).dropLast, x.op_type ≠ CODES_NW_RECV)
    (hb : (inspected_node pre e).op_type = CODES_NW_RECV) : e.op_type = CODES_NW_RECV := by
  cases pre with
  | nil => exact hb
  | cons x xs =>
    exfalso
    obtain ⟨init, hi⟩ := last_node_mem x xs
    have hmem : last_node x xs ∈ ((x :: xs) ++ e :: post).dropLast := by
      rw [List.dropLast_append_of_ne_nil _ (by simp), hi]
      simp
    exact hlast _ hmem hb

theorem dropLast_remove_subset (pre post : List mpi_event_list) (e x : mpi_event_list)
    (h : x ∈ (pre ++ post).dropLast) : x ∈ (pre ++ e :: post).dropLast := by
  cases post with
  | nil =>
    rw [List.append_nil] at h
    rw [List.dropLast_concat]
    exact List.mem_of_mem_dropLast h
  | cons y ys =>
    rw [List.dropLast_append_of_ne_nil _ (by simp)] at h
    rw [List.dropLast_append_of_ne_nil _ (by simp)]
    rcases List.mem_append.mp h with h1 | h1
    · exact List.mem_append_left _ h1
    · apply List.mem_append_right
      rw [List.dropLast_cons_of_ne_nil (by simp)]
      exact List.mem_cons_of_mem _ h1

theorem blocking_recvs_remove (pre post : List mpi_event_list) (e : mpi_event_list) :
    blocking_recvs (pre ++ post) + (if e.op_type = CODES_NW_RECV then 1 else 0)
      = blocking_recvs (pre ++ e :: post) := by
  simp only [blocking_recvs, List.countP_append, List.countP_cons, decide_eq_true_eq]
  omega

theorem wait_count_congr (a b : nw_state)
    (h : a.pending_waits.isSome = b.pending_waits.isSome) : wait_count a = wait_count b := by
  unfold wait_count
  rw [h]

theorem wait_count_of_eq (a b : nw_state) (h : a.pending_waits = b.pending_waits) :
    wait_count a = wait_count b := by
  unfold wait_count
  rw [h]

theorem wait_count_of_none (a : nw_state) (h : a.pending_waits = none) : wait_count a = 0 := by
  unfold wait_count
  rw [h]
  rfl

theorem wait_count_of_isSome (a : nw_state) (h : a.pending_waits.isSome = true) :
    wait_count a = 1 := by
  unfold wait_count
  rw [if_pos h]

theorem wait_count_le_one (a : nw_state) : wait_count a ≤ 1 := by
  unfold wait_count
  split <;> omega

theorem blocking_recvs_zero (l : List mpi_event_list) (h : blocking_recvs l = 0) :
    ∀ x ∈ l, x.op_type ≠ CODES_NW_RECV := by
  intro x hx hc
  have := List.countP_eq_zero.mp h x hx
  simp only [decide_eq_true_eq] at this
  exact this hc

theorem kernel_get_next_invariant (cfg : net_config) (k : kernel_state) (op : mpi_event_list)
    (lp : tw_lp) (hlp : lp.get_next_events = k.lp.get_next_events) (r : handler_result)
    (h : get_next_mpi_operation cfg op k.s (mk_msg MPI_NW_EVENTS.MPI_OP_GET_NEXT op0) lp
      = some r)
    (hty : queues_typed k.s) (hpos : k.get_next_pending ≠ 0) (hres : resumptions k ≤ 1) :
    (∀ x ∈ r.s.pending_recvs_queue.queue.dropLast, x.op_type ≠ CODES_NW_RECV) ∧
    k.get_next_pending - 1 + (r.lp.get_next_events - k.lp.get_next_events)
      + blocking_sends (k.send_posted_pending ++ posted_by r)
      + blocking_recvs r.s.pending_recvs_queue.queue + wait_count r.s ≤ 1 ∧
    k.lp.get_next_events ≤ r.lp.get_next_events := by
  unfold resumptions at hres
  have hn : k.get_next_pending = 1 := by omega
  have hbs : blocking_sends k.send_posted_pending = 0 := by omega
  have hbr : blocking_recvs k.s.pending_recvs_queue.queue = 0 := by omega
  have hw : wait_count k.s = 0 := by omega
  have hnr := blocking_recvs_zero _ hbr
  have hsplit : ∀ l, blocking_sends (k.send_posted_pending ++ l) = blocking_sends l := by
    intro l
    unfold blocking_sends at hbs ⊢
    rw [List.countP_append, hbs, Nat.zero_add]
  rw [hsplit, hn]
  obtain ⟨_, _, _, _, hc⟩ := get_next_effect cfg op k.s _ lp r h hty.1
  rcases hc with ⟨hop, hpo, hwt, hc⟩ | ⟨hnop, _, q2, hc⟩
  · have hw1 : wait_count r.s = 0 := by rw [wait_count_of_eq r.s k.s hwt]; exact hw
    rw [hpo, hw1]
    rcases hc with ⟨_, _, q2, _, q4⟩ | ⟨pre, e, post, _, _, _, q2, _, q4⟩
    · rw [q2, List.dropLast_concat]
      refine ⟨hnr, ?_, ?_⟩
      · simp only [blocking_recvs, List.countP_append, List.countP_cons, List.countP_nil,
          decide_eq_true_eq, blocking_sends] at hbr ⊢
        rw [hbr, q4]
        by_cases hi : op.op_type = CODES_NW_IRECV
        · have hnr1 : ¬ op.op_type = CODES_NW_RECV := by rw [hi]; decide
          simp only [hi, if_true, if_false, codes_issue_next_event, reduceCtorEq]
          omega
        · have hr : op.op_type = CODES_NW_RECV := by
            rcases hop with h1 | h1
            · exact h1
            · exact absurd h1 hi
          simp only [hr, if_false, if_true, reduceCtorEq]
          omega
      · rw [q4]
        split
        · simp only [codes_issue_next_event, hlp]; omega
        · omega
    · rw [q2, q4]
      refine ⟨fun x hx => hnr x (List.mem_of_mem_dropLast hx), ?_, ?_⟩
      · simp only [hbr, codes_issue_next_event, hlp, blocking_sends, List.countP_nil]
        omega
      · simp only [codes_issue_next_event, hlp]; omega
  · rw [q2, hbr]
    refine ⟨fun x hx => hnr x (List.mem_of_mem_dropLast hx), ?_, ?_⟩
    · rcases hc with ⟨c1, c2, c3⟩ | ⟨c1, c2, c3⟩ | ⟨c1, c2, c3⟩
      · rw [wait_count_of_eq r.s k.s c1, hw, c2, hlp]
        omega
      · rw [wait_count_of_eq r.s k.s c1, hw, c2, c3]
        simp only [codes_issue_next_event, hlp]
        omega
      · rw [wait_count_of_isSome r.s c1, c2, c3, hlp]
        simp only [blocking_sends, List.countP_nil]
        omega
    · rcases hc with ⟨_, c2, _⟩ | ⟨_, c2, _⟩ | ⟨_, c2, _⟩
      · rw [c2, hlp]
      · rw [c2]; simp only [codes_issue_next_event, hlp]; omega
      · rw [c2, hlp]
theorem kernel_send_posted_invariant (k : kernel_state) (op : mpi_event_list) (lp : tw_lp)
    (hlp : lp.get_next_events = k.lp.get_next_events) (p : nw_state × tw_lp)
    (h : update_send_completion_queue k.s (mk_msg MPI_NW_EVENTS.MPI_SEND_POSTED op) lp = some p)
    (hmem : op ∈ k.send_posted_pending) (hres : resumptions k ≤ 1) :
    p.1.pending_recvs_queue = k.s.pending_recvs_queue ∧
    k.get_next_pending + (p.2.get_next_events - k.lp.get_next_events)
      + blocking_sends (k.send_posted_pending.erase op)
      + blocking_recvs p.1.pending_recvs_queue.queue + wait_count p.1 ≤ 1 ∧
    k.lp.get_next_events ≤ p.2.get_next_events := by
  unfold resumptions at hres
  have he := blocking_sends_erase op k.send_posted_pending hmem
  have hle := wait_count_le_one k.s
  obtain ⟨_, q2, _, _, hc⟩ := update_send_completion_queue_effect k.s _ lp p h
  refine ⟨q2, ?_, ?_⟩
  · rw [q2]
    rcases hc with ⟨c1, c2, c3⟩ | ⟨c1, c2⟩
    · have c1' : op.op_type = CODES_NW_SEND := c1
      rw [if_pos c1'] at he
      rw [wait_count_of_eq p.1 k.s c2, c3]
      simp only [codes_issue_next_event, hlp]
      omega
    · have c1' : ¬ op.op_type = CODES_NW_SEND := c1
      rw [if_neg c1'] at he
      rcases c2 with ⟨d1, d2⟩ | ⟨d1, d2, d3⟩
      · rw [wait_count_congr p.1 k.s d1, d2, hlp]
        omega
      · have hw := wait_count_of_isSome k.s d1
        rw [wait_count_of_none p.1 d2, d3]
        simp only [codes_issue_next_event, hlp]
        omega
  · rcases hc with ⟨_, _, c3⟩ | ⟨_, ⟨_, d2⟩ | ⟨_, _, d3⟩⟩
    · rw [c3]; simp only [codes_issue_next_event, hlp]; omega
    · rw [d2, hlp]
    · rw [d3]; simp only [codes_issue_next_event, hlp]; omega

theorem kernel_send_arrived_invariant (k : kernel_state) (op : mpi_event_list) (lp : tw_lp)
    (hlp : lp.get_next_events = k.lp.get_next_events) (q : nw_state × nw_message × tw_lp)
    (h : update_arrival_queue k.s (mk_msg MPI_NW_EVENTS.MPI_SEND_ARRIVED op) lp = some q)
    (hop : is_send_op op) (hty : queues_typed k.s)
    (hlast : ∀ x ∈ k.s.pending_recvs_queue.queue.dropLast, x.op_type ≠ CODES_NW_RECV)
    (hres : resumptions k ≤ 1) :
    (∀ x ∈ q.1.pending_recvs_queue.queue.dropLast, x.op_type ≠ CODES_NW_RECV) ∧
    k.get_next_pending + (q.2.2.get_next_events - k.lp.get_next_events)
      + blocking_sends k.send_posted_pending
      + blocking_recvs q.1.pending_recvs_queue.queue + wait_count q.1 ≤ 1 ∧
    k.lp.get_next_events ≤ q.2.2.get_next_events := by
  unfold resumptions at hres
  have hle := wait_count_le_one k.s
  obtain ⟨_, _, _, _, hc⟩ := update_arrival_queue_effect k.s _ lp hop hty.2 q h
  rcases hc with ⟨_, q1, _, q3, _, q5⟩ | ⟨pre, e, post, hsplit, _, q1, _, hc⟩
  · rw [q1, q5, wait_count_of_eq q.1 k.s q3, hlp]
    exact ⟨hlast, by omega, le_refl _⟩
  · rw [hsplit] at hlast hres
    have hrem := blocking_recvs_remove pre post e
    rw [q1]
    refine ⟨fun x hx => hlast x (dropLast_remove_subset pre post e x hx), ?_, ?_⟩
    · rcases hc with ⟨hb, c2, c3, _⟩ | ⟨_, ⟨d1, d2⟩ | ⟨d1, d2, d3⟩⟩
      · have he := inspected_recv_is_removed pre post e hlast hb
        rw [if_pos he] at hrem
        rw [c2, wait_count_of_eq q.1 k.s c3]
        simp only [codes_issue_next_event, hlp]
        omega
      · rw [wait_count_congr q.1 k.s d1, d2, hlp]
        have : blocking_recvs (pre ++ post) ≤ blocking_recvs (pre ++ e :: post) := by omega
        omega
      · have hw := wait_count_of_isSome k.s d1
        rw [wait_count_of_none q.1 d2, d3]
        simp only [codes_issue_next_event, hlp]
        omega
    · rcases hc with ⟨_, c2, _⟩ | ⟨_, ⟨_, d2⟩ | ⟨_, _, d3⟩⟩
      · rw [c2]; simp only [codes_issue_next_event, hlp]; omega
      · rw [d2, hlp]
      · rw [d3]; simp only [codes_issue_next_event, hlp]; omega

theorem handle_event_get_next (cfg : net_config) (p : nw_state × tw_lp) (now : tw_stime)
    (op : mpi_event_list) :
    handle_event cfg p now (lp_event.get_next op) =
      get_next_mpi_operation cfg op p.1 (mk_msg MPI_NW_EVENTS.MPI_OP_GET_NEXT op0)
        { p.2 with now := now } := rfl

theorem handle_event_send_posted (cfg : net_config) (p : nw_state × tw_lp) (now : tw_stime)
    (op : mpi_event_list) :
    handle_event cfg p now (lp_event.send_posted op) =
      (update_send_completion_queue p.1 (mk_msg MPI_NW_EVENTS.MPI_SEND_POSTED op)
        { p.2 with now := now }).map
        (fun r => { s := r.1, m := mk_msg MPI_NW_EVENTS.MPI_SEND_POSTED op, lp := r.2,
                    net := none }) := rfl

theorem handle_event_send_arrived (cfg : net_config) (p : nw_state × tw_lp) (now : tw_stime)
    (op : mpi_event_list) :
    handle_event cfg p now (lp_event.send_arrived op) =
      (update_arrival_queue p.1 (mk_msg MPI_NW_EVENTS.MPI_SEND_ARRIVED op)
        { p.2 with now := now }).map
        (fun r => { s := r.1, m := r.2.1, lp := r.2.2, net := none }) := rfl

/-- What a step of the kernel keeps true: the queues hold their kinds, a blocking Recv is
posted only at the tail of `pending_recvs_queue`, and at most one thing keeps the LP going or
will resume it. -/
theorem kernel_step_invariant (cfg : net_config) (k k1 : kernel_state) (now : tw_stime)
    (ev : lp_event) (h : kernel_step cfg k now ev = some k1)
    (hty : queues_typed k.s)
    (hlast : ∀ x ∈ k.s.pending_recvs_queue.queue.dropLast, x.op_type ≠ CODES_NW_RECV)
    (hres : resumptions k ≤ 1) :
    queues_typed k1.s ∧
    (∀ x ∈ k1.s.pending_recvs_queue.queue.dropLast, x.op_type ≠ CODES_NW_RECV) ∧
    resumptions k1 ≤ 1 ∧ k.lp.get_next_events ≤ k1.lp.get_next_events ∧
    k1.lp.get_next_events - k.lp.get_next_events ≤ k1.get_next_pending := by
  cases ev with
  | get_next op =>
    simp only [kernel_step] at h
    by_cases hz : k.get_next_pending = 0
    · rw [if_pos hz] at h; cases h
    · rw [if_neg hz, Option.map_eq_some'] at h
      obtain ⟨r, hr, hrk⟩ := h
      subst hrk
      have hq := (handle_event_queues cfg (k.s, k.lp) now (lp_event.get_next op) r hr
        (fun op1 hop1 => by cases hop1) hty).1
      rw [handle_event_get_next] at hr
      obtain ⟨a1, a2, a3⟩ := kernel_get_next_invariant cfg k op { k.lp with now := now } rfl r
        hr hty hz hres
      exact ⟨hq, a1, a2, a3, by simp only; omega⟩
  | send_posted op =>
    simp only [kernel_step] at h
    by_cases hm : op ∈ k.send_posted_pending
    · rw [if_pos hm, Option.map_eq_some'] at h
      obtain ⟨r, hr, hrk⟩ := h
      subst hrk
      have hq := (handle_event_queues cfg (k.s, k.lp) now (lp_event.send_posted op) r hr
        (fun op1 hop1 => by cases hop1) hty).1
      rw [handle_event_send_posted, Option.map_eq_some'] at hr
      obtain ⟨p, hp, hpr⟩ := hr
      subst hpr
      obtain ⟨a1, a2, a3⟩ := kernel_send_posted_invariant k op { k.lp with now := now } rfl p
        hp hm hres
      refine ⟨hq, ?_, a2, a3, by simp only; omega⟩
      show ∀ x ∈ p.1.pending_recvs_queue.queue.dropLast, x.op_type ≠ CODES_NW_RECV
      rw [a1]
      exact hlast
    · rw [if_neg hm] at h; cases h
  | send_arrived op =>
    simp only [kernel_step] at h
    by_cases hop : is_send_op op
    · rw [if_pos hop, Option.map_eq_some'] at h
      obtain ⟨r, hr, hrk⟩ := h
      subst hrk
      have hq := (handle_event_queues cfg (k.s, k.lp) now (lp_event.send_arrived op) r hr
        (fun op1 hop1 => by cases hop1; exact hop) hty).1
      rw [handle_event_send_arrived, Option.map_eq_some'] at hr
      obtain ⟨q, hq1, hqr⟩ := hr
      subst hqr
      obtain ⟨a1, a2, a3⟩ := kernel_send_arrived_invariant k op { k.lp with now := now } rfl q
        hq1 hop hty hlast hres
      exact ⟨hq, a1, a2, a3, by simp only; omega⟩
    · rw [if_neg hop] at h; cases h
theorem kernel_init_invariant (s0 : nw_state) (nw_id : Nat) (lp : tw_lp) :
    queues_typed (kernel_init s0 nw_id lp).s ∧
    (∀ x ∈ (kernel_init s0 nw_id lp).s.pending_recvs_queue.queue.dropLast,
      x.op_type ≠ CODES_NW_RECV) ∧
    resumptions (kernel_init s0 nw_id lp) ≤ 1 := by
  refine ⟨?_, ?_, ?_⟩
  · constructor <;> intro e he <;> cases he
  · intro x hx
    cases hx
  · simp [resumptions, kernel_init, nw_test_init, codes_issue_next_event, blocking_sends,
      blocking_recvs, wait_count, queue_init]

theorem kernel_run_invariant (cfg : net_config) :
    ∀ (script : List (tw_stime × lp_event)) (k k1 : kernel_state),
      kernel_run cfg script k = some k1 → queues_typed k.s →
      (∀ x ∈ k.s.pending_recvs_queue.queue.dropLast, x.op_type ≠ CODES_NW_RECV) →
      resumptions k ≤ 1 →
      queues_typed k1.s ∧
      (∀ x ∈ k1.s.pending_recvs_queue.queue.dropLast, x.op_type ≠ CODES_NW_RECV) ∧
      resumptions k1 ≤ 1 := by
  intro script
  induction script with
  | nil =>
    intro k k1 h h1 h2 h3
    simp only [kernel_run, Option.some.injEq] at h
    subst h
    exact ⟨h1, h2, h3⟩
  | cons x rest ih =>
    intro k k1 h h1 h2 h3
    obtain ⟨now, ev⟩ := x
    simp only [kernel_run] at h
    cases hs : kernel_step cfg k now ev with
    | none => rw [hs] at h; cases h
    | some k2 =>
      rw [hs] at h
      obtain ⟨a1, a2, a3, _⟩ := kernel_step_invariant cfg k k2 now ev hs h1 h2 h3
      exact ih k2 k1 h a1 a2 a3

/-- C31: in every state a run of the kernel reaches from `nw_test_init`, each scheduled event
being delivered once, at most one `MPI_OP_GET_NEXT` is pending, and none while
`pending_waits` is set. No handler schedules a `MPI_OP_GET_NEXT` and leaves `pending_waits`
set: if a wait is pending after an event, the handler of that event has scheduled nothing.
The LP holds one pending wait at most: `pending_waits` is a single descriptor, and a
`MPI_OP_GET_NEXT` (the only event that stores one) is delivered only when none is set. -/
theorem pending_wait_suspends (cfg : net_config) (s0 : nw_state) (nw_id : Nat) (lp : tw_lp)
    (script : List (tw_stime × lp_event)) (k : kernel_state)
    (h : kernel_run cfg script (kernel_init s0 nw_id lp) = some k) :
    (k.s.pending_waits ≠ none → k.get_next_pending = 0) ∧
    k.get_next_pending ≤ 1 ∧
    (∀ (now : tw_stime) (ev : lp_event) (k1 : kernel_state),
      kernel_step cfg k now ev = some k1 → k1.s.pending_waits ≠ none →
      k1.lp.get_next_events = k.lp.get_next_events ∧ k1.get_next_pending = 0) ∧
    (∀ (now : tw_stime) (op : mpi_event_list) (k1 : kernel_state),
      kernel_step cfg k now (lp_event.get_next op) = some k1 → k.s.pending_waits = none) := by
  obtain ⟨i1, i2, i3⟩ := kernel_init_invariant s0 nw_id lp
  obtain ⟨h1, h2, h3⟩ := kernel_run_invariant cfg script _ k h i1 i2 i3
  have hw : ∀ k2 : kernel_state, k2.s.pending_waits ≠ none → wait_count k2.s = 1 := by
    intro k2 hne
    apply wait_count_of_isSome
    cases hp : k2.s.pending_waits with
    | none => exact absurd hp hne
    | some w => rfl
  refine ⟨?_, ?_, ?_, ?_⟩
  · intro hne
    have := hw k hne
    unfold resumptions at h3
    omega
  · unfold resumptions at h3
    omega
  · intro now ev k1 hs hne
    obtain ⟨_, _, a3, a4, a5⟩ := kernel_step_invariant cfg k k1 now ev hs h1 h2 h3
    have := hw k1 hne
    unfold resumptions at a3
    constructor <;> omega
  · intro now op k1 hs
    simp only [kernel_step] at hs
    by_cases hz : k.get_next_pending = 0
    · rw [if_pos hz] at hs; cases hs
    · cases hp : k.s.pending_waits with
      | none => rfl
      | some w =>
        have := hw k (by rw [hp]; simp)
        unfold resumptions at h3
        omega

theorem pending_wait_suspends_witness :
    ∃ k, kernel_run cfg0 script_wait_for_isend (kernel_init state0 0 lp0) = some k ∧
      k.s.pending_waits ≠ none ∧ k.send_posted_pending.length = 1 ∧
      (k.s.pending_waits ≠ none → k.get_next_pending = 0) := by
  have h1 : (kernel_run cfg0 script_wait_for_isend (kernel_init state0 0 lp0)).map
      (fun k => (k.s.pending_waits.isSome, k.send_posted_pending.length)) = some (true, 1) := by
    decide
  cases hk : kernel_run cfg0 script_wait_for_isend (kernel_init state0 0 lp0) with
  | none => rw [hk] at h1; cases h1
  | some k =>
    rw [hk] at h1
    simp only [Option.map_some', Option.some.injEq, Prod.mk.injEq] at h1
    refine ⟨k, rfl, ?_, h1.2,
      (pending_wait_suspends cfg0 state0 0 lp0 script_wait_for_isend k hk).1⟩
    intro hc
    rw [hc] at h1
    exact absurd h1.1 (by decide)


/-! ### Conservation of the send and receive counters -/

theorem match_receive_counters (s : nw_state) (lp : tw_lp) (op1 op2 : mpi_event_list)
    (r : nw_state × Int) (h : match_receive s lp op1 op2 = some r) :
    r.1.num_sends = s.num_sends ∧ r.1.num_recvs = s.num_recvs := by
  unfold match_receive at h
  split at h
  · cases h
  · split at h
    · cases h
    · split at h
      · simp only [Option.some.injEq] at h
        subst h
        exact ⟨rfl, rfl⟩
      · simp only [Option.some.injEq] at h
        subst h
        exact ⟨rfl, rfl⟩

theorem matched_counters (s : nw_state) (lp : tw_lp) (op a b : mpi_event_list)
    (rcv rid rid2 rid3 : Int) (x : nw_state × Int × Int)
    (h : (if op.op_type = CODES_NW_SEND ∨ op.op_type = CODES_NW_ISEND then
            (match_receive s lp a op).map (fun r => (r.1, r.2, rid))
          else if op.op_type = CODES_NW_RECV ∨ op.op_type = CODES_NW_IRECV then
            (match_receive s lp op b).map (fun r => (r.1, r.2, rid2))
          else some (s, rcv, rid3)) = some x) :
    x.1.num_sends = s.num_sends ∧ x.1.num_recvs = s.num_recvs := by
  split at h
  · simp only [Option.map_eq_some'] at h
    obtain ⟨r, hr, hx⟩ := h
    subst hx
    exact match_receive_counters s lp a op r hr
  · split at h
    · simp only [Option.map_eq_some'] at h
      obtain ⟨r, hr, hx⟩ := h
      subst hx
      exact match_receive_counters s lp op b r hr
    · simp only [Option.some.injEq] at h
      subst h
      exact ⟨rfl, rfl⟩

theorem remove_matching_loop_counters (lp : tw_lp) (op : mpi_event_list) :
    ∀ (rest : List mpi_event_list) (s : nw_state) (n : Int) (tmp : mpi_event_list)
      (indx rcv : Int) (ib : Option Int) (rid : Int) (r : remove_matching_result),
      remove_matching_loop lp op s n tmp rest indx rcv ib rid = some r →
      r.s.num_sends = s.num_sends ∧ r.s.num_recvs = s.num_recvs := by
  intro rest
  induction rest with
  | nil =>
    intro s n tmp indx rcv ib rid r h
    simp only [remove_matching_loop, Option.some.injEq] at h
    subst h
    exact ⟨rfl, rfl⟩
  | cons elem rest ih =>
    intro s n tmp indx rcv ib rid r h
    simp only [remove_matching_loop] at h
    split at h
    · cases h
    · rename_i s1 rcv1 rid1 hm
      have hc := matched_counters s lp op elem elem rcv elem.req_id rid rid (s1, rcv1, rid1) hm
      split at h
      · simp only [Option.map_eq_some'] at h
        obtain ⟨b, _, hb⟩ := h
        subst hb
        exact hc
      · simp only [Option.map_eq_some'] at h
        obtain ⟨r1, h1, hr⟩ := h
        obtain ⟨e1, e2⟩ := ih _ _ _ _ _ _ _ _ h1
        subst hr
        exact ⟨e1.trans hc.1, e2.trans hc.2⟩

theorem remove_matching_op_counters (s : nw_state) (lp : tw_lp) (q : mpi_queue_ptrs)
    (op : mpi_event_list) (ib : Option Int) (rid : Int) (r : remove_matching_result)
    (h : mpi_queue_remove_matching_op s lp q op ib rid = some r) :
    r.s.num_sends = s.num_sends ∧ r.s.num_recvs = s.num_recvs := by
  obtain ⟨n, l⟩ := q
  cases l with
  | nil =>
    simp only [mpi_queue_remove_matching_op, Option.some.injEq] at h
    subst h
    exact ⟨rfl, rfl⟩
  | cons tmp rest =>
    simp only [mpi_queue_remove_matching_op] at h
    split at h
    · cases h
    · rename_i s1 rcv1 rid1 hm
      have hc := matched_counters s lp op tmp tmp 0 tmp.req_id op.req_id rid (s1, rcv1, rid1) hm
      split at h
      · simp only [Option.map_eq_some'] at h
        obtain ⟨b, _, hb⟩ := h
        subst hb
        exact hc
      · simp only [Option.map_eq_some'] at h
        obtain ⟨r1, h1, hr⟩ := h
        obtain ⟨e1, e2⟩ := remove_matching_loop_counters lp op _ _ _ _ _ _ _ _ _ h1
        subst hr
        exact ⟨e1.trans hc.1, e2.trans hc.2⟩
theorem codes_exec_mpi_recv_counters (s : nw_state) (m : nw_message) (lp : tw_lp)
    (r : nw_state × nw_message × tw_lp) (h : codes_exec_mpi_recv s m lp = some r) :
    r.1.num_sends = s.num_sends ∧ r.1.num_recvs = s.num_recvs ∧
    r.2.1.msg_type = m.msg_type ∧ r.2.1.op.op_type = m.op.op_type := by
  unfold codes_exec_mpi_recv at h
  dsimp only at h
  split at h
  · cases h
  · rename_i r1 hr1
    obtain ⟨e1, e2⟩ := remove_matching_op_counters _ _ _ _ _ _ r1 hr1
    split at h
    · split at h <;>
      · simp only [Option.some.injEq] at h
        subst h
        exact ⟨e1, e2, rfl, rfl⟩
    · simp only [Option.some.injEq] at h
      subst h
      exact ⟨e1, e2, rfl, rfl⟩

theorem update_arrival_queue_counters (s : nw_state) (m : nw_message) (lp : tw_lp)
    (r : nw_state × nw_message × tw_lp) (h : update_arrival_queue s m lp = some r) :
    r.1.num_sends = s.num_sends ∧ r.1.num_recvs = s.num_recvs ∧
    r.2.1.msg_type = m.msg_type ∧ r.2.1.op = m.op := by
  unfold update_arrival_queue at h
  dsimp only at h
  split at h
  · cases h
  · rename_i r1 hr1
    obtain ⟨e1, e2⟩ := remove_matching_op_counters _ _ _ _ _ _ r1 hr1
    split at h
    · simp only [Option.some.injEq] at h
      subst h
      exact ⟨e1, e2, rfl, rfl⟩
    · split at h
      · simp only [Option.some.injEq] at h
        subst h
        exact ⟨e1, e2, rfl, rfl⟩
      · simp only [Option.map_eq_some'] at h
        obtain ⟨p, hp, hpr⟩ := h
        subst hpr
        obtain ⟨_, _, n1, n2, _⟩ := notify_waits_effect _ _ _ p hp
        exact ⟨n1.trans e1, n2.trans e2, rfl, rfl⟩

theorem get_next_counters (cfg : net_config) (op : mpi_event_list) (s : nw_state)
    (m : nw_message) (lp : tw_lp) (r : handler_result)
    (h : get_next_mpi_operation cfg op s m lp = some r) :
    r.m.msg_type = m.msg_type ∧ r.m.op.op_type = op.op_type ∧
    r.s.num_sends = (if is_send_op op then ulong_inc s.num_sends else s.num_sends) ∧
    r.s.num_recvs = (if is_recv_op op then ulong_inc s.num_recvs else s.num_recvs) := by
  by_cases hop : is_recv_op op
  · have heq : get_next_mpi_operation cfg op s m lp =
        (codes_exec_mpi_recv { s with num_recvs := ulong_inc s.num_recvs } { m with op := op }
          lp).map (fun r => ({ s := r.1, m := r.2.1, lp := r.2.2, net := none } : handler_result))
        := by
      rcases hop with h1 | h1 <;> simp only [get_next_mpi_operation, h1]
    rw [heq, Option.map_eq_some'] at h
    obtain ⟨q, hq, hqr⟩ := h
    subst hqr
    obtain ⟨e1, e2, e3, e4⟩ := codes_exec_mpi_recv_counters _ _ lp q hq
    rw [if_neg (show ¬ is_send_op op from recv_not_send_op op hop), if_pos hop]
    exact ⟨e3, e4, e1, e2⟩
  · by_cases hsd : is_send_op op
    · have heq : get_next_mpi_operation cfg op s m lp =
          codes_exec_mpi_send cfg { s with num_sends := ulong_inc s.num_sends }
            { m with op := op } lp := by
        rcases hsd with h1 | h1 <;> simp only [get_next_mpi_operation, h1]
      rw [heq] at h
      obtain ⟨_, _, _, a4, a5, _, a7, a8, _⟩ := codes_exec_mpi_send_effect cfg _ _ lp r h
      rw [if_pos hsd, if_neg hop]
      exact ⟨a7, a8, a4, a5⟩
    · rw [if_neg hsd, if_neg hop]
      have hw1 := codes_exec_mpi_wait_effect { s with num_wait := ulong_inc s.num_wait }
        { m with op := op } lp
      have hw2 := codes_exec_mpi_wait_all_some_effect
        { s with num_waitall := ulong_inc s.num_waitall } { m with op := op } lp
      have hw3 := codes_exec_mpi_wait_all_some_effect
        { s with num_waitsome := ulong_inc s.num_waitsome } { m with op := op } lp
      cases hk : op.op_type with
      | CODES_NW_SEND => exact absurd (Or.inl hk) hsd
      | CODES_NW_ISEND => exact absurd (Or.inr hk) hsd
      | CODES_NW_RECV => exact absurd (Or.inl hk) hop
      | CODES_NW_IRECV => exact absurd (Or.inr hk) hop
      | CODES_NW_WAIT =>
        simp only [get_next_mpi_operation, hk, Option.some.injEq] at h
        subst h
        exact ⟨rfl, hk, hw1.2.2.1, hw1.2.2.2.1⟩
      | CODES_NW_WAITALL =>
        simp only [get_next_mpi_operation, hk, Option.map_eq_some'] at h
        obtain ⟨p, hp, hpr⟩ := h
        subst hpr
        exact ⟨rfl, hk, (hw2 p hp).2.2.1, (hw2 p hp).2.2.2.1⟩
      | CODES_NW_WAITSOME =>
        simp only [get_next_mpi_operation, hk, Option.map_eq_some'] at h
        obtain ⟨p, hp, hpr⟩ := h
        subst hpr
        exact ⟨rfl, hk, (hw3 p hp).2.2.1, (hw3 p hp).2.2.2.1⟩
      | _ =>
        simp only [get_next_mpi_operation, hk, Option.some.injEq] at h
        subst h
        exact ⟨rfl, hk, rfl, rfl⟩

theorem codes_exec_mpi_recv_rc_counters (s : nw_state) (m : nw_message) (lp : tw_lp)
    (p : nw_state × tw_lp) (h : codes_exec_mpi_recv_rc s m lp = some p) :
    p.1.num_sends = s.num_sends ∧ p.1.num_recvs = s.num_recvs := by
  unfold codes_exec_mpi_recv_rc at h
  dsimp only at h
  split at h
  · split at h
    · cases h
    · simp only [Option.some.injEq] at h
      subst h
      exact ⟨rfl, rfl⟩
  · split at h
    · cases h
    · simp only [Option.some.injEq] at h
      subst h
      exact ⟨rfl, rfl⟩

theorem nw_state_sends_fields (s : nw_state) (a : Nat) (b : Int) :
    ({ s with num_sends := a, num_bytes_sent := b } : nw_state).num_sends = a ∧
    ({ s with num_sends := a, num_bytes_sent := b } : nw_state).num_recvs = s.num_recvs :=
  ⟨rfl, rfl⟩

theorem nw_state_delays_fields (s : nw_state) (a : Nat) (b : tw_stime) :
    ({ s with num_delays := a, compute_time := b } : nw_state).num_sends = s.num_sends ∧
    ({ s with num_delays := a, compute_time := b } : nw_state).num_recvs = s.num_recvs :=
  ⟨rfl, rfl⟩

theorem nw_state_cols_fields (s : nw_state) (a : Nat) :
    ({ s with num_cols := a } : nw_state).num_sends = s.num_sends ∧
    ({ s with num_cols := a } : nw_state).num_recvs = s.num_recvs :=
  ⟨rfl, rfl⟩

theorem nw_state_recvs_fields (s : nw_state) (a : Nat) :
    ({ s with num_recvs := a } : nw_state).num_sends = s.num_sends ∧
    ({ s with num_recvs := a } : nw_state).num_recvs = a :=
  ⟨rfl, rfl⟩

theorem get_next_rc_counters (s : nw_state) (m : nw_message) (lp : tw_lp)
    (p : nw_state × tw_lp) (h : get_next_mpi_operation_rc s m lp = some p) :
    p.1.num_sends = (if is_send_op m.op then ulong_dec s.num_sends else s.num_sends) ∧
    p.1.num_recvs = (if is_recv_op m.op then ulong_dec s.num_recvs else s.num_recvs) := by
  by_cases hr : is_recv_op m.op
  · have hs : ¬ is_send_op m.op := recv_not_send_op m.op hr
    have heq : get_next_mpi_operation_rc s m lp =
        (codes_exec_mpi_recv_rc s m lp).map
          (fun r => ({ r.1 with num_recvs := ulong_dec r.1.num_recvs }, r.2)) := by
      obtain ⟨mt, fm, op⟩ := m
      obtain ⟨ty, st, sr, dr, nb, tg, rq, wr, rs, ns⟩ := op
      rcases hr with h1 | h1 <;> simp only at h1 <;> subst h1 <;>
        simp only [get_next_mpi_operation_rc]
    rw [heq, Option.map_eq_some'] at h
    obtain ⟨q, hq, hqp⟩ := h
    obtain ⟨e1, e2⟩ := codes_exec_mpi_recv_rc_counters s m lp q hq
    rw [if_pos hr, if_neg hs, ← hqp]
    have hf := nw_state_recvs_fields q.1 (ulong_dec q.1.num_recvs)
    exact ⟨hf.1.trans e1, hf.2.trans (congrArg ulong_dec e2)⟩
  · by_cases hsd : is_send_op m.op
    · rw [if_neg hr, if_pos hsd]
      obtain ⟨mt, fm, op⟩ := m
      obtain ⟨ty, st, sr, dr, nb, tg, rq, wr, rs, ns⟩ := op
      obtain ⟨ps, pl⟩ := p
      rcases hsd with h1 | h1 <;> simp only at h1 <;> subst h1 <;>
        simp only [get_next_mpi_operation_rc, Option.some.injEq, Prod.mk.injEq] at h <;>
        rw [← h.1] <;> exact nw_state_sends_fields s _ _
    · rw [if_neg hr, if_neg hsd]
      obtain ⟨mt, fm, op⟩ := m
      obtain ⟨ty, st, sr, dr, nb, tg, rq, wr, rs, ns⟩ := op
      obtain ⟨ps, pl⟩ := p
      cases ty with
      | CODES_NW_RECV => exact absurd (Or.inl rfl) hr
      | CODES_NW_IRECV => exact absurd (Or.inr rfl) hr
      | CODES_NW_SEND => exact absurd (Or.inl rfl) hsd
      | CODES_NW_ISEND => exact absurd (Or.inr rfl) hsd
      | CODES_NW_DELAY =>
        simp only [get_next_mpi_operation_rc, Option.some.injEq, Prod.mk.injEq] at h
        rw [← h.1]
        exact nw_state_delays_fields s _ _
      | CODES_NW_END | CODES_NW_WAIT | CODES_NW_WAITALL | CODES_NW_WAITSOME | CODES_NW_WAITANY
      | CODES_NW_INVALID =>
        simp only [get_next_mpi_operation_rc, Option.some.injEq, Prod.mk.injEq] at h
        rw [← h.1]
        exact ⟨rfl, rfl⟩
      | _ =>
        simp only [get_next_mpi_operation_rc, Option.some.injEq, Prod.mk.injEq] at h
        rw [← h.1]
        exact nw_state_cols_fields s _
theorem update_arrival_queue_rc_counters (s : nw_state) (m : nw_message) (lp : tw_lp)
    (p : nw_state × tw_lp) (h : update_arrival_queue_rc s m lp = some p) :
    p.1.num_sends = s.num_sends ∧ p.1.num_recvs = s.num_recvs := by
  unfold update_arrival_queue_rc at h
  split at h
  · simp only [Option.map_eq_some'] at h
    obtain ⟨q, _, hq⟩ := h
    subst hq
    exact ⟨rfl, rfl⟩
  · simp only [Option.map_eq_some'] at h
    obtain ⟨q, _, hq⟩ := h
    subst hq
    exact ⟨rfl, rfl⟩

theorem update_send_completion_queue_rc_counters (s : nw_state) (m : nw_message) (lp : tw_lp) :
    (update_send_completion_queue_rc s m lp).1.num_sends = s.num_sends ∧
    (update_send_completion_queue_rc s m lp).1.num_recvs = s.num_recvs := by
  unfold update_send_completion_queue_rc
  dsimp only
  split <;> exact ⟨rfl, rfl⟩


theorem sends_pulled_cons (m : nw_message) (pr : List nw_message) :
    sends_pulled (m :: pr) = sends_pulled pr +
      (if m.msg_type = MPI_NW_EVENTS.MPI_OP_GET_NEXT ∧ is_send_op m.op then 1 else 0) := by
  unfold sends_pulled
  rw [List.countP_cons]
  simp only [decide_eq_true_eq]

theorem recvs_pulled_cons (m : nw_message) (pr : List nw_message) :
    recvs_pulled (m :: pr) = recvs_pulled pr +
      (if m.msg_type = MPI_NW_EVENTS.MPI_OP_GET_NEXT ∧ is_recv_op m.op then 1 else 0) := by
  unfold recvs_pulled
  rw [List.countP_cons]
  simp only [decide_eq_true_eq]

theorem pulled_le_length (pr : List nw_message) :
    sends_pulled pr ≤ pr.length ∧ recvs_pulled pr ≤ pr.length :=
  ⟨List.countP_le_length _, List.countP_le_length _⟩

/-- What the forward handler does to the two counters, in terms of the message it leaves. -/
theorem handle_event_counters (cfg : net_config) (p : nw_state × tw_lp) (now : tw_stime)
    (ev : lp_event) (r : handler_result) (h : handle_event cfg p now ev = some r) :
    r.s.num_sends =
      (if r.m.msg_type = MPI_NW_EVENTS.MPI_OP_GET_NEXT ∧ is_send_op r.m.op
        then ulong_inc p.1.num_sends else p.1.num_sends) ∧
    r.s.num_recvs =
      (if r.m.msg_type = MPI_NW_EVENTS.MPI_OP_GET_NEXT ∧ is_recv_op r.m.op
        then ulong_inc p.1.num_recvs else p.1.num_recvs) := by
  cases ev with
  | get_next op =>
    rw [handle_event_get_next] at h
    obtain ⟨e1, e2, e3, e4⟩ := get_next_counters cfg op p.1 _ _ r h
    have hm : r.m.msg_type = MPI_NW_EVENTS.MPI_OP_GET_NEXT := e1
    have hs : is_send_op r.m.op ↔ is_send_op op := by unfold is_send_op; rw [e2]
    have hr : is_recv_op r.m.op ↔ is_recv_op op := by unfold is_recv_op; rw [e2]
    rw [e3, e4]
    constructor
    · by_cases hc : is_send_op op
      · rw [if_pos hc, if_pos ⟨hm, hs.mpr hc⟩]
      · rw [if_neg hc, if_neg (fun hx => hc (hs.mp hx.2))]
    · by_cases hc : is_recv_op op
      · rw [if_pos hc, if_pos ⟨hm, hr.mpr hc⟩]
      · rw [if_neg hc, if_neg (fun hx => hc (hr.mp hx.2))]
  | send_posted op =>
    rw [handle_event_send_posted, Option.map_eq_some'] at h
    obtain ⟨q, hq, hqr⟩ := h
    obtain ⟨_, _, e3, e4, _⟩ := update_send_completion_queue_effect _ _ _ q hq
    have hm : r.m.msg_type ≠ MPI_NW_EVENTS.MPI_OP_GET_NEXT := by
      rw [← hqr]; intro hc; cases hc
    rw [if_neg (fun hx => hm hx.1), if_neg (fun hx => hm hx.1), ← hqr]
    exact ⟨e3, e4⟩
  | send_arrived op =>
    rw [handle_event_send_arrived, Option.map_eq_some'] at h
    obtain ⟨q, hq, hqr⟩ := h
    obtain ⟨e1, e2, e3, _⟩ := update_arrival_queue_counters _ _ _ q hq
    have hm : r.m.msg_type ≠ MPI_NW_EVENTS.MPI_OP_GET_NEXT := by
      rw [← hqr]
      show q.2.1.msg_type ≠ _
      rw [e3]; intro hc; cases hc
    rw [if_neg (fun hx => hm hx.1), if_neg (fun hx => hm hx.1), ← hqr]
    exact ⟨e1, e2⟩

/-- What the reverse handler does to the two counters, in terms of the message it is given. -/
theorem handler_rc_counters (s : nw_state) (m : nw_message) (lp : tw_lp)
    (p : nw_state × tw_lp) (h : nw_test_event_handler_rc s m lp = some p) :
    p.1.num_sends =
      (if m.msg_type = MPI_NW_EVENTS.MPI_OP_GET_NEXT ∧ is_send_op m.op
        then ulong_dec s.num_sends else s.num_sends) ∧
    p.1.num_recvs =
      (if m.msg_type = MPI_NW_EVENTS.MPI_OP_GET_NEXT ∧ is_recv_op m.op
        then ulong_dec s.num_recvs else s.num_recvs) := by
  cases hm : m.msg_type with
  | MPI_OP_GET_NEXT =>
    have heq : nw_test_event_handler_rc s m lp = get_next_mpi_operation_rc s m lp := by
      simp only [nw_test_event_handler_rc, hm]
    rw [heq] at h
    obtain ⟨e1, e2⟩ := get_next_rc_counters s m lp p h
    rw [e1, e2]
    constructor
    · by_cases hc : is_send_op m.op
      · rw [if_pos hc, if_pos ⟨rfl, hc⟩]
      · rw [if_neg hc, if_neg (fun hx => hc hx.2)]
    · by_cases hc : is_recv_op m.op
      · rw [if_pos hc, if_pos ⟨rfl, hc⟩]
      · rw [if_neg hc, if_neg (fun hx => hc hx.2)]
  | MPI_SEND_POSTED =>
    have heq : nw_test_event_handler_rc s m lp =
        some (update_send_completion_queue_rc s m lp) := by
      simp only [nw_test_event_handler_rc, hm]
    rw [heq, Option.some.injEq] at h
    rw [if_neg (fun hx => by cases hx.1), if_neg (fun hx => by cases hx.1), ← h]
    exact update_send_completion_queue_rc_counters s m lp
  | MPI_SEND_ARRIVED =>
    have heq : nw_test_event_handler_rc s m lp = update_arrival_queue_rc s m lp := by
      simp only [nw_test_event_handler_rc, hm]
    rw [heq] at h
    rw [if_neg (fun hx => by cases hx.1), if_neg (fun hx => by cases hx.1)]
    exact update_arrival_queue_rc_counters s m lp p h
theorem ulong_inc_mod (a : Nat) : ulong_inc (a % 2 ^ 64) = (a + 1) % 2 ^ 64 := by
  unfold ulong_inc
  omega

theorem ulong_dec_mod (a : Nat) : ulong_dec ((a + 1) % 2 ^ 64) = a % 2 ^ 64 := by
  unfold ulong_dec
  omega

/-- One step of an optimistic run keeps the counters equal to the net numbers pulled. -/
theorem replay_one_counters (cfg : net_config) (k k1 : replay_state) (step : replay_step)
    (h : replay_one cfg k step = some k1)
    (hi : k.s.num_sends = sends_pulled k.processed % 2 ^ 64 ∧
      k.s.num_recvs = recvs_pulled k.processed % 2 ^ 64) :
    (k1.s.num_sends = sends_pulled k1.processed % 2 ^ 64 ∧
      k1.s.num_recvs = recvs_pulled k1.processed % 2 ^ 64) ∧
    k1.processed.length ≤ k.processed.length + 1 := by
  cases step with
  | forward now ev =>
    simp only [replay_one, Option.map_eq_some'] at h
    obtain ⟨r, hr, hk⟩ := h
    obtain ⟨e1, e2⟩ := handle_event_counters cfg (k.s, k.lp) now ev r hr
    subst hk
    refine ⟨⟨?_, ?_⟩, Nat.le_refl _⟩
    · show r.s.num_sends = sends_pulled (r.m :: k.processed) % 2 ^ 64
      rw [e1, sends_pulled_cons]
      show (if _ then ulong_inc k.s.num_sends else k.s.num_sends) = _
      rw [hi.1]
      split
      · exact ulong_inc_mod _
      · rfl
    · show r.s.num_recvs = recvs_pulled (r.m :: k.processed) % 2 ^ 64
      rw [e2, recvs_pulled_cons]
      show (if _ then ulong_inc k.s.num_recvs else k.s.num_recvs) = _
      rw [hi.2]
      split
      · exact ulong_inc_mod _
      · rfl
  | rollback =>
    cases hp : k.processed with
    | nil => simp only [replay_one, hp] at h; cases h
    | cons m rest =>
      simp only [replay_one, hp, Option.map_eq_some'] at h
      obtain ⟨q, hq, hk⟩ := h
      obtain ⟨e1, e2⟩ := handler_rc_counters k.s m k.lp q hq
      subst hk
      rw [hp, sends_pulled_cons] at hi
      rw [recvs_pulled_cons] at hi
      refine ⟨⟨?_, ?_⟩, ?_⟩
      · show q.1.num_sends = sends_pulled rest % 2 ^ 64
        rw [e1, hi.1]
        split
        · exact ulong_dec_mod _
        · rfl
      · show q.1.num_recvs = recvs_pulled rest % 2 ^ 64
        rw [e2, hi.2]
        split
        · exact ulong_dec_mod _
        · rfl
      · show rest.length ≤ (m :: rest).length + 1
        simp only [List.length_cons]
        omega

/-- An optimistic run keeps the counters equal to the net numbers pulled. -/
theorem replay_run_counters (cfg : net_config) (steps : List replay_step) :
    ∀ (k k1 : replay_state), replay_run cfg steps k = some k1 →
      (k.s.num_sends = sends_pulled k.processed % 2 ^ 64 ∧
        k.s.num_recvs = recvs_pulled k.processed % 2 ^ 64) →
      (k1.s.num_sends = sends_pulled k1.processed % 2 ^ 64 ∧
        k1.s.num_recvs = recvs_pulled k1.processed % 2 ^ 64) ∧
      k1.processed.length ≤ k.processed.length + steps.length := by
  induction steps with
  | nil =>
    intro k k1 h hi
    simp only [replay_run, Option.some.injEq] at h
    subst h
    exact ⟨hi, Nat.le_refl _⟩
  | cons step rest ih =>
    intro k k1 h hi
    cases h1 : replay_one cfg k step with
    | none => simp only [replay_run, h1] at h; cases h
    | some k2 =>
      simp only [replay_run, h1] at h
      obtain ⟨hi2, hl2⟩ := replay_one_counters cfg k k2 step h1 hi
      obtain ⟨hi3, hl3⟩ := ih k2 k1 h hi2
      refine ⟨hi3, ?_⟩
      simp only [List.length_cons]
      omega

/-- C34: conservation of the send and receive counters. After any run of forward events and
rollbacks from `nw_test_init`, each rollback undoing the event processed last and not yet
rolled back, `num_sends` is the net number of Send and ISend operations pulled from the trace
by `MPI_OP_GET_NEXT` events and `num_recvs` the net number of Recv and IRecv operations
pulled, both as `unsigned long` (modulo `2 ^ 64`), and exactly so when the run has fewer than
`2 ^ 64` steps. The forward and the reverse handlers of `MPI_SEND_POSTED` and
`MPI_SEND_ARRIVED` events change neither counter. -/
theorem counters_conserved (cfg : net_config) (s0 : nw_state) (nw_id : Nat) (lp : tw_lp)
    (steps : List replay_step) (k : replay_state)
    (h : replay_run cfg steps (replay_init s0 nw_id lp) = some k) :
    (k.s.num_sends = sends_pulled k.processed % 2 ^ 64 ∧
      k.s.num_recvs = recvs_pulled k.processed % 2 ^ 64) ∧
    (steps.length < 2 ^ 64 →
      k.s.num_sends = sends_pulled k.processed ∧ k.s.num_recvs = recvs_pulled k.processed) ∧
    (∀ (p : nw_state × tw_lp) (now : tw_stime) (op : mpi_event_list) (r : handler_result),
      (handle_event cfg p now (lp_event.send_posted op) = some r ∨
        handle_event cfg p now (lp_event.send_arrived op) = some r) →
      r.s.num_sends = p.1.num_sends ∧ r.s.num_recvs = p.1.num_recvs) ∧
    (∀ (s : nw_state) (m : nw_message) (l : tw_lp) (q : nw_state × tw_lp),
      m.msg_type ≠ MPI_NW_EVENTS.MPI_OP_GET_NEXT →
      nw_test_event_handler_rc s m l = some q →
      q.1.num_sends = s.num_sends ∧ q.1.num_recvs = s.num_recvs) := by
  have hinit : (replay_init s0 nw_id lp).s.num_sends =
        sends_pulled (replay_init s0 nw_id lp).processed % 2 ^ 64 ∧
      (replay_init s0 nw_id lp).s.num_recvs =
        recvs_pulled (replay_init s0 nw_id lp).processed % 2 ^ 64 := ⟨rfl, rfl⟩
  obtain ⟨hi, hl⟩ := replay_run_counters cfg steps _ k h hinit
  have hl2 : k.processed.length ≤ steps.length := by
    have : (replay_init s0 nw_id lp).processed.length = 0 := rfl
    omega
  refine ⟨hi, ?_, ?_, ?_⟩
  · intro hlt
    obtain ⟨b1, b2⟩ := pulled_le_length k.processed
    rw [hi.1, hi.2]
    exact ⟨Nat.mod_eq_of_lt (by omega), Nat.mod_eq_of_lt (by omega)⟩
  · intro p now op r hr
    rcases hr with hr | hr
    · rw [handle_event_send_posted, Option.map_eq_some'] at hr
      obtain ⟨q, hq, hqr⟩ := hr
      obtain ⟨_, _, e3, e4, _⟩ := update_send_completion_queue_effect _ _ _ q hq
      rw [← hqr]
      exact ⟨e3, e4⟩
    · rw [handle_event_send_arrived, Option.map_eq_some'] at hr
      obtain ⟨q, hq, hqr⟩ := hr
      obtain ⟨e1, e2, _⟩ := update_arrival_queue_counters _ _ _ q hq
      rw [← hqr]
      exact ⟨e1, e2⟩
  · intro s m l q hm hq
    obtain ⟨e1, e2⟩ := handler_rc_counters s m l q hq
    rw [if_neg (fun hx => hm hx.1)] at e1 e2
    exact ⟨e1, e2⟩

theorem counters_conserved_witness :
    (replay_run cfg0 replay_steps_sample (replay_init state0 0 lp0)).map
        (fun k => (k.s.num_sends, k.s.num_recvs, sends_pulled k.processed,
          recvs_pulled k.processed, k.processed.length)) = some (1, 1, 1, 1, 4) ∧
      ∃ k, replay_run cfg0 replay_steps_sample (replay_init state0 0 lp0) = some k ∧
        k.s.num_sends = sends_pulled k.processed ∧ k.s.num_recvs = recvs_pulled k.processed := by
  refine ⟨by decide, ?_⟩
  cases hd : replay_run cfg0 replay_steps_sample (replay_init state0 0 lp0) with
  | none =>
    exact absurd hd (by decide)
  | some k =>
    exact ⟨k, rfl,
      (counters_conserved cfg0 state0 0 lp0 replay_steps_sample k hd).2.1 (by decide)⟩

/-! ### Posted receives and completed requests -/

theorem request_count_snoc_recv (recvs sends : List mpi_event_list) (C : List Int) (id : Int)
    (R : mpi_event_list) :
    request_count (recvs ++ [R]) sends C id =
      request_count recvs sends C id +
        (if R.op_type = CODES_NW_IRECV ∧ R.req_id = id then 1 else 0) := by
  unfold request_count
  rw [List.countP_append, List.countP_singleton]
  simp only [decide_eq_true_eq]
  omega

theorem request_count_split_recv (pre post sends : List mpi_event_list) (C : List Int)
    (id : Int) (e : mpi_event_list) :
    request_count (pre ++ e :: post) sends C id =
      request_count (pre ++ post) sends C id +
        (if e.op_type = CODES_NW_IRECV ∧ e.req_id = id then 1 else 0) := by
  unfold request_count
  rw [List.countP_append, List.countP_append, List.countP_cons]
  simp only [decide_eq_true_eq]
  omega

theorem request_count_snoc_send (recvs sends : List mpi_event_list) (C : List Int) (id : Int)
    (S : mpi_event_list) :
    request_count recvs (sends ++ [S]) C id =
      request_count recvs sends C id +
        (if S.op_type = CODES_NW_ISEND ∧ S.req_id = id then 1 else 0) := by
  unfold request_count
  rw [List.countP_append, List.countP_singleton]
  simp only [decide_eq_true_eq]
  omega

theorem request_count_erase_send (recvs sends : List mpi_event_list) (C : List Int) (id : Int)
    (S : mpi_event_list) (h : S ∈ sends) :
    request_count recvs sends C id =
      request_count recvs (sends.erase S) C id +
        (if S.op_type = CODES_NW_ISEND ∧ S.req_id = id then 1 else 0) := by
  unfold request_count
  rw [(List.perm_cons_erase h).countP_eq, List.countP_cons]
  simp only [decide_eq_true_eq]
  omega

theorem request_count_cons_completed (recvs sends : List mpi_event_list) (C : List Int)
    (id c : Int) :
    request_count recvs sends (c :: C) id =
      request_count recvs sends C id + (if c = id then 1 else 0) := by
  unfold request_count
  rw [List.count_cons]
  simp only [beq_iff_eq]
  omega

theorem request_count_completed_le (recvs sends : List mpi_event_list) (C C1 : List Int)
    (id : Int) (h : C1.count id ≤ C.count id) :
    request_count recvs sends C1 id ≤ request_count recvs sends C id := by
  unfold request_count
  omega

theorem count_le_request_count (recvs sends : List mpi_event_list) (C : List Int) (id : Int) :
    C.count id ≤ request_count recvs sends C id := by
  unfold request_count
  omega

theorem remove_first_req_ids_count_le (c reqs : List Int) (id : Int) :
    ∀ (n : Nat) (c1 : List Int), remove_first_req_ids c reqs n = some c1 →
      c1.count id ≤ c.count id := by
  intro n
  induction n with
  | zero =>
    intro c1 h
    simp only [remove_first_req_ids, Option.some.injEq] at h
    subst h
    exact Nat.le_refl _
  | succ n ih =>
    intro c1 h
    simp only [remove_first_req_ids] at h
    cases h1 : remove_first_req_ids c reqs n with
    | none => rw [h1] at h; cases h
    | some c2 =>
      rw [h1] at h
      cases h2 : reqs.get? n with
      | none => rw [h2] at h; cases h
      | some r =>
        rw [h2] at h
        simp only [Option.some.injEq] at h
        subst h
        rw [remove_req_id_eq_erase]
        exact Nat.le_trans ((List.erase_sublist r c2).count_le id) (ih c2 h1)

theorem count_completed_nil (C : List Int) : count_completed C [] = 0 := by
  induction C with
  | nil => rfl
  | cons c C ih => simp [count_completed, count_req_id, ih]

theorem count_completed_cons_ids (C : List Int) (i : Int) (ids : List Int) :
    count_completed C (i :: ids) = (C.count i : Int) + count_completed C ids := by
  induction C with
  | nil => simp [count_completed]
  | cons c C ih =>
    simp only [count_completed, count_req_id, ih, List.count_cons, beq_iff_eq]
    by_cases h : i = c
    · subst h
      simp
      omega
    · have h1 : ¬ c = i := fun hc => h hc.symm
      simp [h, h1]
      omega

/-- When no id of the list is held twice in `completed_reqs`, the count the Waitall makes is
at most the length of its list, and it is the length only if every id of the list is in
`completed_reqs`. -/
theorem count_completed_all (C : List Int) :
    ∀ ids : List Int, (∀ i ∈ ids, C.count i ≤ 1) →
      count_completed C ids ≤ (ids.length : Int) ∧
      (count_completed C ids = (ids.length : Int) → ∀ i ∈ ids, i ∈ C) := by
  intro ids
  induction ids with
  | nil =>
    intro _
    rw [count_completed_nil]
    exact ⟨by simp, fun _ i hi => by cases hi⟩
  | cons a ids ih =>
    intro h
    obtain ⟨h1, h2⟩ := ih (fun i hi => h i (List.mem_cons_of_mem _ hi))
    have ha := h a (List.mem_cons_self _ _)
    rw [count_completed_cons_ids]
    simp only [List.length_cons, Nat.cast_add, Nat.cast_one]
    constructor
    · omega
    · intro heq i hi
      have hc : C.count a = 1 := by omega
      rcases List.mem_cons.mp hi with hia | hia
      · rw [hia]
        exact List.count_pos_iff.mp (by omega)
      · exact h2 (by omega) i hia

theorem request_waited_none (id : Int) : ¬ request_waited none id := by
  rintro ⟨x, hx, _⟩
  cases hx

theorem count_diff_ids (ids : List Int) (id : Int) :
    ∀ l : List Int, (l.diff ids).count id = l.count id - ids.count id := by
  induction ids with
  | nil =>
    intro l
    simp
  | cons a ids ih =>
    intro l
    rw [List.diff_cons, ih, List.count_cons]
    by_cases h : a = id
    · subst h
      rw [List.count_erase_self]
      simp
      omega
    · rw [List.count_erase_of_ne (fun hc => h hc.symm)]
      simp [h]

/-- What `notify_waits` keeps true of the requests, called for the id `c` that has just been
put into `completed_reqs`. -/
theorem notify_waits_requests (s : nw_state) (lp : tw_lp) (c : Int) (C0 : List Int)
    (recvs sends : List mpi_event_list) (U : List Int) (p : nw_state × tw_lp)
    (h : notify_waits s lp c = some p) (hC : s.completed_reqs = c :: C0)
    (h1 : ∀ id : Int, id ≠ -1 → request_count recvs sends (c :: C0) id ≤ 1)
    (h2 : ∀ id : Int, id ≠ -1 → 0 < request_count recvs sends (c :: C0) id →
      id ∈ U ∨ request_waited s.pending_waits id)
    (h3 : ∀ w, s.pending_waits = some w → w.mpi_op.op_type = CODES_NW_WAITALL →
      (-1 : Int) ∉ w.mpi_op.req_ids ∧
      w.num_completed = count_completed C0 w.mpi_op.req_ids) :
    (∀ id : Int, id ≠ -1 → request_count recvs sends p.1.completed_reqs id ≤ 1) ∧
    (∀ id : Int, id ≠ -1 → 0 < request_count recvs sends p.1.completed_reqs id →
      id ∈ U ∨ request_waited p.1.pending_waits id) ∧
    (∀ w, p.1.pending_waits = some w → w.mpi_op.op_type = CODES_NW_WAITALL →
      (-1 : Int) ∉ w.mpi_op.req_ids ∧
      w.num_completed = count_completed p.1.completed_reqs w.mpi_op.req_ids) := by
  have hsame : p = (s, lp) →
      (∀ w, s.pending_waits = some w → w.mpi_op.op_type ≠ CODES_NW_WAITALL) →
      (∀ id : Int, id ≠ -1 → request_count recvs sends p.1.completed_reqs id ≤ 1) ∧
      (∀ id : Int, id ≠ -1 → 0 < request_count recvs sends p.1.completed_reqs id →
        id ∈ U ∨ request_waited p.1.pending_waits id) ∧
      (∀ w, p.1.pending_waits = some w → w.mpi_op.op_type = CODES_NW_WAITALL →
        (-1 : Int) ∉ w.mpi_op.req_ids ∧
        w.num_completed = count_completed p.1.completed_reqs w.mpi_op.req_ids) := by
    intro hp hw
    subst hp
    refine ⟨?_, ?_, ?_⟩
    · intro id hid
      show request_count recvs sends s.completed_reqs id ≤ 1
      rw [hC]
      exact h1 id hid
    · intro id hid hpos
      change 0 < request_count recvs sends s.completed_reqs id at hpos
      rw [hC] at hpos
      exact h2 id hid hpos
    · intro w hpw hwa
      exact absurd hwa (hw w hpw)
  have hshrink : ∀ (C1 : List Int), (∀ id : Int, C1.count id ≤ (c :: C0).count id) →
      (∀ id : Int, id ≠ -1 → request_waited s.pending_waits id →
        request_count recvs sends C1 id = 0) →
      (∀ id : Int, id ≠ -1 → request_count recvs sends C1 id ≤ 1) ∧
      (∀ id : Int, id ≠ -1 → 0 < request_count recvs sends C1 id →
        id ∈ U ∨ request_waited none id) := by
    intro C1 hle hz
    refine ⟨?_, ?_⟩
    · intro id hid
      exact Nat.le_trans (request_count_completed_le recvs sends _ _ id (hle id)) (h1 id hid)
    · intro id hid hpos
      rcases h2 id hid (Nat.lt_of_lt_of_le hpos
          (request_count_completed_le recvs sends _ _ id (hle id))) with hu | hw
      · exact Or.inl hu
      · have := hz id hid hw
        omega
  cases hp : s.pending_waits with
  | none =>
    simp only [notify_waits, hp] at h
    cases h
    exact hsame rfl (fun w hw => by rw [hp] at hw; cases hw)
  | some w =>
    by_cases hw1 : w.mpi_op.op_type = CODES_NW_WAIT
    · have hnotall : ∀ w1, s.pending_waits = some w1 → w1.mpi_op.op_type ≠ CODES_NW_WAITALL := by
        intro w1 hw
        rw [hp] at hw
        cases hw
        rw [hw1]
        decide
      by_cases hw2 : w.mpi_op.wait_req_id = c
      · simp only [notify_waits, hp, hw1, hw2, if_true] at h
        cases h
        have hrem : remove_req_id s.completed_reqs c = C0 := by
          rw [hC]
          simp [remove_req_id]
        obtain ⟨a1, a2⟩ := hshrink C0 (fun id => by rw [List.count_cons]; omega) (by
          intro id hid hwt
          obtain ⟨x, hx, hx1 | hx1⟩ := hwt
          · rw [hp] at hx
            cases hx
            have hidc : id = c := by rw [← hx1.2, hw2]
            have := h1 id hid
            rw [request_count_cons_completed, if_pos hidc.symm] at this
            omega
          · rw [hp] at hx
            cases hx
            rw [hw1] at hx1
            exact absurd hx1.1 (by decide))
        refine ⟨?_, ?_, ?_⟩
        · show ∀ id : Int, id ≠ -1 →
            request_count recvs sends (remove_req_id s.completed_reqs c) id ≤ 1
          rw [hrem]
          exact a1
        · show ∀ id : Int, id ≠ -1 →
            0 < request_count recvs sends (remove_req_id s.completed_reqs c) id →
            id ∈ U ∨ request_waited none id
          rw [hrem]
          exact a2
        · intro w1 hw
          cases hw
      · simp only [notify_waits, hp, hw1, hw2, if_true, if_false] at h
        cases h
        exact hsame rfl hnotall
    · by_cases hw2 : w.mpi_op.op_type = CODES_NW_WAITALL ∨ w.mpi_op.op_type = CODES_NW_WAITSOME
      · by_cases hw3 : (w.mpi_op.op_type = CODES_NW_WAITALL ∧
            w.num_completed + count_req_id w.mpi_op.req_ids c = (w.mpi_op.req_ids.length : Int)) ∨
            (w.mpi_op.op_type = CODES_NW_WAITSOME ∧
              w.num_completed + count_req_id w.mpi_op.req_ids c > 0)
        · simp only [notify_waits, hp, hw1, hw2, hw3, if_true, if_false,
            Option.map_eq_some'] at h
          obtain ⟨cr, hcr, hcp⟩ := h
          subst hcp
          rw [hC] at hcr
          have hle : ∀ id : Int, cr.count id ≤ (c :: C0).count id :=
            fun id => remove_first_req_ids_count_le _ _ id _ cr hcr
          obtain ⟨a1, a2⟩ := hshrink cr hle (by
            intro id hid hwt
            obtain ⟨x, hx, hx1 | hx1⟩ := hwt
            · rw [hp] at hx
              cases hx
              exact absurd hx1.1 hw1
            · rw [hp] at hx
              cases hx
              obtain ⟨hx2, hx3⟩ := hx1
              have hall : w.num_completed + count_req_id w.mpi_op.req_ids c
                  = (w.mpi_op.req_ids.length : Int) := by
                rcases hw3 with hh | hh
                · exact hh.2
                · rw [hx2] at hh
                  exact absurd hh.1 (by decide)
              obtain ⟨b1, b2⟩ := h3 w hp hx2
              have hcount : count_completed (c :: C0) w.mpi_op.req_ids
                  = (w.mpi_op.req_ids.length : Int) := by
                rw [← hall, b2]
                simp only [count_completed]
                omega
              have hbound : ∀ i ∈ w.mpi_op.req_ids, (c :: C0).count i ≤ 1 := by
                intro i hi
                have hne : i ≠ -1 := fun hc => b1 (hc ▸ hi)
                exact Nat.le_trans (count_le_request_count recvs sends _ i) (h1 i hne)
              have hin := (count_completed_all (c :: C0) _ hbound).2 hcount
              have hcr2 : cr = (c :: C0).diff w.mpi_op.req_ids := by
                have hn : (w.num_completed + count_req_id w.mpi_op.req_ids c).toNat
                    = w.mpi_op.req_ids.length := by
                  rw [hall]
                  simp
                rw [hn, remove_first_req_ids_all] at hcr
                exact (Option.some.inj hcr).symm
              have hc1 : 0 < (c :: C0).count id := List.count_pos_iff.mpr (hin id hx3)
              have hc2 : 0 < w.mpi_op.req_ids.count id := List.count_pos_iff.mpr hx3
              have hc3 := h1 id hid
              have hc4 : cr.count id = 0 := by
                rw [hcr2, count_diff_ids]
                have := count_le_request_count recvs sends (c :: C0) id
                omega
              unfold request_count at hc3 ⊢
              omega)
          exact ⟨a1, a2, fun w1 hw => by cases hw⟩
        · simp only [notify_waits, hp, hw1, hw2, hw3, if_true, if_false] at h
          cases h
          refine ⟨?_, ?_, ?_⟩
          · intro id hid
            show request_count recvs sends s.completed_reqs id ≤ 1
            rw [hC]
            exact h1 id hid
          · intro id hid hpos
            change 0 < request_count recvs sends s.completed_reqs id at hpos
            rw [hC] at hpos
            rcases h2 id hid hpos with hu | ⟨x, hx, hx1⟩
            · exact Or.inl hu
            · rw [hp] at hx
              cases hx
              exact Or.inr ⟨_, rfl, hx1⟩
          · intro w1 hw hwa
            change some { w with num_completed :=
              w.num_completed + count_req_id w.mpi_op.req_ids c } = some w1 at hw
            cases hw
            obtain ⟨b1, b2⟩ := h3 w hp hwa
            refine ⟨b1, ?_⟩
            show w.num_completed + count_req_id w.mpi_op.req_ids c
              = count_completed s.completed_reqs w.mpi_op.req_ids
            rw [hC, b2]
            simp only [count_completed]
            omega
      · simp only [notify_waits, hp, hw1, hw2, if_false] at h
        cases h
        exact hsame rfl (fun w1 hw => by
          rw [hp] at hw
          cases hw
          exact fun hc => hw2 (Or.inl hc))

theorem requests_after_other (U : List Int) (op : mpi_event_list)
    (h1 : op.op_type ≠ CODES_NW_IRECV) (h2 : op.op_type ≠ CODES_NW_ISEND)
    (h3 : op.op_type ≠ CODES_NW_WAIT) (h4 : op.op_type ≠ CODES_NW_WAITALL) :
    requests_after U op = U := by
  unfold requests_after
  rw [if_neg (by rintro (h | h); exact h1 h; exact h2 h), if_neg h3, if_neg h4]

theorem requests_after_nonblocking (U : List Int) (op : mpi_event_list)
    (h : op.op_type = CODES_NW_IRECV ∨ op.op_type = CODES_NW_ISEND) :
    requests_after U op = op.req_id :: U := by
  unfold requests_after
  rw [if_pos h]

theorem requests_after_wait (U : List Int) (op : mpi_event_list)
    (h : op.op_type = CODES_NW_WAIT) :
    requests_after U op = U.filter (fun r => decide (r ≠ op.wait_req_id)) := by
  unfold requests_after
  rw [if_neg (by rw [h]; decide), if_pos h]

theorem requests_after_waitall (U : List Int) (op : mpi_event_list)
    (h : op.op_type = CODES_NW_WAITALL) :
    requests_after U op = U.filter (fun r => decide (r ∉ op.req_ids)) := by
  unfold requests_after
  rw [if_neg (by rw [h]; decide), if_neg (by rw [h]; decide), if_pos h]

/-- With no wait pending, an id that is not in use is held nowhere. -/
theorem request_count_of_not_in_use (recvs sends : List mpi_event_list) (C U : List Int)
    (hI : requests_invariant recvs sends C none U) (id : Int) (hid : id ≠ -1) (hU : id ∉ U) :
    request_count recvs sends C id = 0 := by
  by_contra hc
  rcases hI.2.1 id hid (Nat.pos_of_ne_zero hc) with h | h
  · exact hU h
  · exact request_waited_none id h

/-- The invariant after an operation that takes the id `c` into use, the id being held once
more than before. -/
theorem requests_invariant_take (recvs sends recvs1 sends1 : List mpi_event_list)
    (C C1 U : List Int) (c : Int)
    (hI : requests_invariant recvs sends C none U) (hc : c = -1 ∨ c ∉ U)
    (hcount : ∀ id : Int, request_count recvs1 sends1 C1 id =
      request_count recvs sends C id + (if c = id then 1 else 0))
    (h4 : ∀ R ∈ recvs1, (R.op_type = CODES_NW_RECV → R.req_id = -1) ∧
      (R.op_type = CODES_NW_IRECV → R.req_id ≠ -1)) :
    requests_invariant recvs1 sends1 C1 none (c :: U) := by
  unfold requests_invariant
  refine ⟨?_, ?_, (fun x hx => by cases hx), h4⟩
  · intro id hid
    rw [hcount]
    by_cases hci : c = id
    · rw [if_pos hci]
      have hU : id ∉ U := by
        rcases hc with h | h
        · exact absurd (hci ▸ h) hid
        · exact hci ▸ h
      rw [request_count_of_not_in_use recvs sends C U hI id hid hU]
    · rw [if_neg hci]
      exact hI.1 id hid
  · intro id hid hpos
    rw [hcount] at hpos
    by_cases hci : c = id
    · exact Or.inl (hci ▸ List.mem_cons_self _ _)
    · rw [if_neg hci] at hpos
      rcases hI.2.1 id hid hpos with h | h
      · exact Or.inl (List.mem_cons_of_mem _ h)
      · exact absurd h (request_waited_none id)

/-- The invariant after an operation that changes the number of requests held for no id
other than `-1`. -/
theorem requests_invariant_same (recvs sends recvs1 sends1 : List mpi_event_list)
    (C C1 U : List Int) (w : Option pending_waits)
    (hI : requests_invariant recvs sends C w U)
    (hcount : ∀ id : Int, id ≠ -1 →
      request_count recvs1 sends1 C1 id = request_count recvs sends C id)
    (h3 : ∀ x, w = some x → x.mpi_op.op_type = CODES_NW_WAITALL →
      count_completed C1 x.mpi_op.req_ids = count_completed C x.mpi_op.req_ids)
    (h4 : ∀ R ∈ recvs1, (R.op_type = CODES_NW_RECV → R.req_id = -1) ∧
      (R.op_type = CODES_NW_IRECV → R.req_id ≠ -1)) :
    requests_invariant recvs1 sends1 C1 w U := by
  refine ⟨?_, ?_, ?_, h4⟩
  · intro id hid
    rw [hcount id hid]
    exact hI.1 id hid
  · intro id hid hpos
    rw [hcount id hid] at hpos
    exact hI.2.1 id hid hpos
  · intro x hx hxa
    obtain ⟨a1, a2⟩ := hI.2.2.1 x hx hxa
    exact ⟨a1, by rw [h3 x hx hxa]; exact a2⟩

/-- The invariant after a wait that has removed ids from `completed_reqs` and is not pending:
the ids it releases are held no more. -/
theorem requests_invariant_release (recvs sends : List mpi_event_list)
    (C C1 U U1 : List Int)
    (hI : requests_invariant recvs sends C none U)
    (hle : ∀ id : Int, C1.count id ≤ C.count id)
    (hU : ∀ id : Int, id ≠ -1 → id ∈ U → id ∉ U1 → request_count recvs sends C1 id = 0) :
    requests_invariant recvs sends C1 none U1 := by
  unfold requests_invariant
  refine ⟨?_, ?_, (fun x hx => by cases hx), hI.2.2.2⟩
  · intro id hid
    exact Nat.le_trans (request_count_completed_le recvs sends _ _ id (hle id)) (hI.1 id hid)
  · intro id hid hpos
    rcases hI.2.1 id hid (Nat.lt_of_lt_of_le hpos
        (request_count_completed_le recvs sends _ _ id (hle id))) with h | h
    · by_cases h1 : id ∈ U1
      · exact Or.inl h1
      · have := hU id hid h h1
        omega
    · exact absurd h (request_waited_none id)

/-- The invariant after a wait that is left pending. -/
theorem requests_invariant_pend (recvs sends : List mpi_event_list)
    (C U U1 : List Int) (x : pending_waits)
    (hI : requests_invariant recvs sends C none U)
    (hU : ∀ id : Int, id ∈ U → id ∈ U1 ∨ request_waited (some x) id)
    (h3 : x.mpi_op.op_type = CODES_NW_WAITALL →
      (-1 : Int) ∉ x.mpi_op.req_ids ∧
      x.num_completed = count_completed C x.mpi_op.req_ids) :
    requests_invariant recvs sends C (some x) U1 := by
  refine ⟨hI.1, ?_, ?_, hI.2.2.2⟩
  · intro id hid hpos
    rcases hI.2.1 id hid hpos with h | h
    · exact hU id h
    · exact absurd h (request_waited_none id)
  · intro y hy hya
    cases hy
    exact h3 hya

theorem posted_ids_typed_snoc (recvs : List mpi_event_list) (R : mpi_event_list)
    (h : ∀ R ∈ recvs, (R.op_type = CODES_NW_RECV → R.req_id = -1) ∧
      (R.op_type = CODES_NW_IRECV → R.req_id ≠ -1))
    (hR : (R.op_type = CODES_NW_RECV → R.req_id = -1) ∧
      (R.op_type = CODES_NW_IRECV → R.req_id ≠ -1)) :
    ∀ x ∈ recvs ++ [R], (x.op_type = CODES_NW_RECV → x.req_id = -1) ∧
      (x.op_type = CODES_NW_IRECV → x.req_id ≠ -1) := by
  intro x hx
  rcases List.mem_append.mp hx with h1 | h1
  · exact h x h1
  · rw [List.mem_singleton.mp h1]
    exact hR

/-- What the wait operations of `get_next_mpi_operation` keep true of the requests. -/
theorem codes_exec_mpi_wait_requests (s : nw_state) (m : nw_message) (lp : tw_lp)
    (sends : List mpi_event_list) (U : List Int)
    (hk : m.op.op_type = CODES_NW_WAIT) (hpn : s.pending_waits = none)
    (hI : requests_invariant s.pending_recvs_queue.queue sends s.completed_reqs none U) :
    requests_invariant (codes_exec_mpi_wait s m lp).1.pending_recvs_queue.queue sends
      (codes_exec_mpi_wait s m lp).1.completed_reqs (codes_exec_mpi_wait s m lp).1.pending_waits
      (requests_after U m.op) := by
  rw [requests_after_wait U m.op hk]
  unfold codes_exec_mpi_wait
  dsimp only
  split
  · rename_i hfound
    have hin : m.op.wait_req_id ∈ s.completed_reqs :=
      (search_completed_reqs_iff _ _).mp hfound
    show requests_invariant s.pending_recvs_queue.queue sends
      (remove_req_id s.completed_reqs m.op.wait_req_id) s.pending_waits _
    rw [hpn, remove_req_id_eq_erase]
    apply requests_invariant_release _ _ _ _ U _ hI
    · intro id
      exact (List.erase_sublist _ _).count_le id
    · intro id hid hU hU1
      have hidw : id = m.op.wait_req_id := by
        by_contra hne
        exact hU1 (List.mem_filter.mpr ⟨hU, by simpa using hne⟩)
      have h1 := hI.1 id hid
      have h2 : 0 < s.completed_reqs.count id := List.count_pos_iff.mpr (hidw ▸ hin)
      have h3 : (s.completed_reqs.erase m.op.wait_req_id).count id
          = s.completed_reqs.count id - 1 := by
        rw [← hidw, List.count_erase_self]
      unfold request_count at h1 ⊢
      omega
  · show requests_invariant s.pending_recvs_queue.queue sends s.completed_reqs
      (some { mpi_op := m.op, num_completed := 0,
              start_time := ((to_unsigned_long lp.now : Nat) : tw_stime) }) _
    apply requests_invariant_pend _ _ _ U _ _ hI
    · intro id hU
      by_cases hne : id = m.op.wait_req_id
      · exact Or.inr ⟨_, rfl, Or.inl ⟨hk, hne.symm⟩⟩
      · exact Or.inl (List.mem_filter.mpr ⟨hU, by simpa using hne⟩)
    · intro hc
      rw [hk] at hc
      exact absurd hc (by decide)

theorem codes_exec_mpi_wait_all_some_requests (s : nw_state) (m : nw_message) (lp : tw_lp)
    (sends : List mpi_event_list) (U : List Int) (p : nw_state × tw_lp)
    (h : codes_exec_mpi_wait_all_some s m lp = some p)
    (hk : m.op.op_type = CODES_NW_WAITALL ∨ m.op.op_type = CODES_NW_WAITSOME)
    (hpn : s.pending_waits = none)
    (hI : requests_invariant s.pending_recvs_queue.queue sends s.completed_reqs none U)
    (hu : m.op.op_type = CODES_NW_WAITALL → (-1 : Int) ∉ m.op.req_ids) :
    requests_invariant p.1.pending_recvs_queue.queue sends p.1.completed_reqs p.1.pending_waits
      (requests_after U m.op) := by
  unfold codes_exec_mpi_wait_all_some at h
  simp only at h
  split at h
  · rename_i hdone
    simp only [Option.map_eq_some'] at h
    obtain ⟨c, hc, hcp⟩ := h
    subst hcp
    show requests_invariant s.pending_recvs_queue.queue sends c s.pending_waits _
    rw [hpn]
    have hle : ∀ id : Int, c.count id ≤ s.completed_reqs.count id :=
      fun id => remove_first_req_ids_count_le _ _ id _ c hc
    apply requests_invariant_release _ _ _ _ U _ hI hle
    intro id hid hU hU1
    rcases hk with hall | hsome
    · rw [requests_after_waitall U m.op hall] at hU1
      have hin : id ∈ m.op.req_ids := by
        by_contra hne
        exact hU1 (List.mem_filter.mpr ⟨hU, by simpa using hne⟩)
      have hcount : count_completed s.completed_reqs m.op.req_ids
          = (m.op.req_ids.length : Int) := by
        rcases hdone with hh | hh
        · exact hh.2.symm
        · rw [hall] at hh
          exact absurd hh.1 (by decide)
      have hbound : ∀ i ∈ m.op.req_ids, s.completed_reqs.count i ≤ 1 := by
        intro i hi
        have hne : i ≠ -1 := fun hc => hu hall (hc ▸ hi)
        exact Nat.le_trans (count_le_request_count _ sends _ i) (hI.1 i hne)
      have hmem := (count_completed_all s.completed_reqs _ hbound).2 hcount
      have hc2 : c = s.completed_reqs.diff m.op.req_ids := by
        have hn : (count_completed s.completed_reqs m.op.req_ids).toNat
            = m.op.req_ids.length := by
          rw [hcount]
          simp
        change remove_first_req_ids s.completed_reqs m.op.req_ids
          (count_completed s.completed_reqs m.op.req_ids).toNat = some c at hc
        rw [hn, remove_first_req_ids_all] at hc
        exact (Option.some.inj hc).symm
      have h1 := hI.1 id hid
      have h2 : 0 < s.completed_reqs.count id := List.count_pos_iff.mpr (hmem id hin)
      have h3 : 0 < m.op.req_ids.count id := List.count_pos_iff.mpr hin
      have h4 : c.count id = 0 := by
        rw [hc2, count_diff_ids]
        have := count_le_request_count s.pending_recvs_queue.queue sends s.completed_reqs id
        omega
      unfold request_count at h1 ⊢
      omega
    · rw [requests_after_other U m.op (by rw [hsome]; decide) (by rw [hsome]; decide)
        (by rw [hsome]; decide) (by rw [hsome]; decide)] at hU1
      exact absurd hU hU1
  · simp only [Option.some.injEq] at h
    subst h
    show requests_invariant s.pending_recvs_queue.queue sends s.completed_reqs
      (some { mpi_op := m.op,
              num_completed := count_completed s.completed_reqs m.op.req_ids,
              start_time := ((to_unsigned_long lp.now : Nat) : tw_stime) }) _
    apply requests_invariant_pend _ _ _ U _ _ hI
    · intro id hU
      rcases hk with hall | hsome
      · rw [requests_after_waitall U m.op hall]
        by_cases hin : id ∈ m.op.req_ids
        · exact Or.inr ⟨_, rfl, Or.inr ⟨hall, hin⟩⟩
        · exact Or.inl (List.mem_filter.mpr ⟨hU, by simpa using hin⟩)
      · rw [requests_after_other U m.op (by rw [hsome]; decide) (by rw [hsome]; decide)
          (by rw [hsome]; decide) (by rw [hsome]; decide)]
        exact Or.inl hU
    · intro hc
      exact ⟨hu hc, rfl⟩

/-- What `get_next_mpi_operation` keeps true of the requests, when no wait is pending and the
operation makes the use of ids `request_use` asks for. -/
theorem get_next_requests (cfg : net_config) (op : mpi_event_list) (s : nw_state)
    (m : nw_message) (lp : tw_lp) (r : handler_result) (sends : List mpi_event_list)
    (U : List Int)
    (h : get_next_mpi_operation cfg op s m lp = some r)
    (hta : ∀ e ∈ s.arrival_queue.queue, is_send_op e)
    (hpn : s.pending_waits = none)
    (hI : requests_invariant s.pending_recvs_queue.queue sends s.completed_reqs none U)
    (hu : request_use U op) :
    requests_invariant r.s.pending_recvs_queue.queue (sends ++ posted_by r) r.s.completed_reqs
      r.s.pending_waits (requests_after U op) := by
  obtain ⟨u1, u2, u3, u4⟩ := hu
  by_cases hop : is_recv_op op
  · obtain ⟨_, _, _, _, hc⟩ := get_next_effect cfg op s m lp r h hta
    rcases hc with ⟨_, hpb, hpw, hc⟩ | ⟨hnr, _⟩
    · rw [hpb, List.append_nil, hpw, hpn]
      have hnew : ({ op with sim_start_time := lp.now } : mpi_event_list).op_type = op.op_type ∧
          ({ op with sim_start_time := lp.now } : mpi_event_list).req_id = op.req_id :=
        ⟨rfl, rfl⟩
      rcases hc with ⟨_, _, q2, q3, _⟩ | ⟨pre, e, post, _, _, _, q2, q3, _⟩
      · rw [q2, q3]
        have h4 := posted_ids_typed_snoc s.pending_recvs_queue.queue
          { op with sim_start_time := lp.now } hI.2.2.2 ⟨u1, fun hi => (u2 hi).1⟩
        rcases hop with hb | hi
        · rw [requests_after_other U op (by rw [hb]; decide) (by rw [hb]; decide)
            (by rw [hb]; decide) (by rw [hb]; decide)]
          apply requests_invariant_same _ _ _ _ _ _ _ _ hI _ (fun x hx => by cases hx) h4
          intro id _
          rw [request_count_snoc_recv, if_neg (by rw [hnew.1, hb]; simp)]
          rfl
        · rw [requests_after_nonblocking U op (Or.inl hi)]
          apply requests_invariant_take _ _ _ _ _ _ _ _ hI (Or.inr (u2 hi).2) _ h4
          intro id
          rw [request_count_snoc_recv]
          simp only [hnew.1, hnew.2, hi, true_and]
      · rw [q2, q3]
        rcases hop with hb | hi
        · rw [requests_after_other U op (by rw [hb]; decide) (by rw [hb]; decide)
            (by rw [hb]; decide) (by rw [hb]; decide)]
          apply requests_invariant_same _ _ _ _ _ _ _ _ hI _ (fun x hx => by cases hx)
            hI.2.2.2
          intro id hid
          rw [request_count_cons_completed, if_neg (by rw [u1 hb]; exact fun hc => hid hc.symm)]
          rfl
        · rw [requests_after_nonblocking U op (Or.inl hi)]
          exact requests_invariant_take _ _ _ _ _ _ _ _ hI (Or.inr (u2 hi).2)
            (fun id => request_count_cons_completed _ _ _ _ _) hI.2.2.2
    · exact absurd hop hnr
  · by_cases hsd : is_send_op op
    · have heq : get_next_mpi_operation cfg op s m lp =
          codes_exec_mpi_send cfg { s with num_sends := ulong_inc s.num_sends }
            { m with op := op } lp := by
        rcases hsd with h1 | h1 <;> simp only [get_next_mpi_operation, h1]
      rw [heq] at h
      obtain ⟨_, a2, a3, _, _, a6, _, _, _, a10⟩ := codes_exec_mpi_send_effect cfg _ _ lp r h
      rw [a2, a3, a6, a10]
      show requests_invariant s.pending_recvs_queue.queue
        (sends ++ [{ op with sim_start_time := lp.now }]) s.completed_reqs s.pending_waits _
      rw [hpn]
      have hnew : ({ op with sim_start_time := lp.now } : mpi_event_list).op_type = op.op_type ∧
          ({ op with sim_start_time := lp.now } : mpi_event_list).req_id = op.req_id :=
        ⟨rfl, rfl⟩
      rcases hsd with hb | hi
      · rw [requests_after_other U op (by rw [hb]; decide) (by rw [hb]; decide)
          (by rw [hb]; decide) (by rw [hb]; decide)]
        apply requests_invariant_same _ _ _ _ _ _ _ _ hI _ (fun x hx => by cases hx) hI.2.2.2
        intro id _
        rw [request_count_snoc_send, if_neg (by rw [hnew.1, hb]; simp)]
        rfl
      · rw [requests_after_nonblocking U op (Or.inr hi)]
        apply requests_invariant_take _ _ _ _ _ _ _ _ hI (Or.inr (u3 hi)) _ hI.2.2.2
        intro id
        rw [request_count_snoc_send]
        simp only [hnew.1, hnew.2, hi, true_and]
    · have hother : ∀ s1 : nw_state, s1.pending_recvs_queue = s.pending_recvs_queue →
          s1.completed_reqs = s.completed_reqs → s1.pending_waits = s.pending_waits →
          op.op_type ≠ CODES_NW_WAIT → op.op_type ≠ CODES_NW_WAITALL →
          requests_invariant s1.pending_recvs_queue.queue (sends ++ []) s1.completed_reqs
            s1.pending_waits (requests_after U op) := by
        intro s1 e1 e2 e3 n1 n2
        rw [e1, e2, e3, hpn, List.append_nil,
          requests_after_other U op (fun hc => hop (Or.inr hc)) (fun hc => hsd (Or.inr hc))
            n1 n2]
        exact hI
      cases hk : op.op_type with
      | CODES_NW_SEND => exact absurd (Or.inl hk) hsd
      | CODES_NW_ISEND => exact absurd (Or.inr hk) hsd
      | CODES_NW_RECV => exact absurd (Or.inl hk) hop
      | CODES_NW_IRECV => exact absurd (Or.inr hk) hop
      | CODES_NW_WAIT =>
        simp only [get_next_mpi_operation, hk, Option.some.injEq] at h
        subst h
        simp only [posted_by, List.append_nil]
        exact codes_exec_mpi_wait_requests { s with num_wait := ulong_inc s.num_wait }
          { m with op := op } lp sends U hk hpn hI
      | CODES_NW_WAITALL =>
        simp only [get_next_mpi_operation, hk, Option.map_eq_some'] at h
        obtain ⟨p, hp, hpr⟩ := h
        subst hpr
        simp only [posted_by, List.append_nil]
        exact codes_exec_mpi_wait_all_some_requests
          { s with num_waitall := ulong_inc s.num_waitall } { m with op := op } lp sends U p hp
          (Or.inl hk) hpn hI u4
      | CODES_NW_WAITSOME =>
        simp only [get_next_mpi_operation, hk, Option.map_eq_some'] at h
        obtain ⟨p, hp, hpr⟩ := h
        subst hpr
        simp only [posted_by, List.append_nil]
        exact codes_exec_mpi_wait_all_some_requests
          { s with num_waitsome := ulong_inc s.num_waitsome } { m with op := op } lp sends U p hp
          (Or.inr hk) hpn hI u4
      | _ =>
        simp only [get_next_mpi_operation, hk, Option.some.injEq] at h
        subst h
        exact hother _ rfl rfl rfl (by rw [hk]; decide) (by rw [hk]; decide)

/-- What `update_send_completion_queue` keeps true of the requests: the send of the event is
no longer pending, and the id of an ISend is in `completed_reqs` unless a wait has taken it. -/
theorem update_send_completion_queue_requests (s : nw_state) (m : nw_message) (lp : tw_lp)
    (p : nw_state × tw_lp) (sends : List mpi_event_list) (U : List Int)
    (h : update_send_completion_queue s m lp = some p) (hm : m.op ∈ sends)
    (hI : requests_invariant s.pending_recvs_queue.queue sends s.completed_reqs
      s.pending_waits U) :
    requests_invariant p.1.pending_recvs_queue.queue (sends.erase m.op) p.1.completed_reqs
      p.1.pending_waits U := by
  obtain ⟨_, q2, _⟩ := update_send_completion_queue_effect s m lp p h
  by_cases hi : m.op.op_type = CODES_NW_ISEND
  · simp only [update_send_completion_queue, hi, if_true, Option.map_eq_some'] at h
    obtain ⟨q, hq, hqp⟩ := h
    rw [if_neg (by decide)] at hqp
    subst hqp
    have hcount : ∀ id : Int,
        request_count s.pending_recvs_queue.queue (sends.erase m.op)
          (m.op.req_id :: s.completed_reqs) id
        = request_count s.pending_recvs_queue.queue sends s.completed_reqs id := by
      intro id
      rw [request_count_cons_completed,
        request_count_erase_send s.pending_recvs_queue.queue sends s.completed_reqs id m.op hm]
      simp only [hi, true_and]
    obtain ⟨a1, a2, a3⟩ := notify_waits_requests _ lp m.op.req_id s.completed_reqs
      s.pending_recvs_queue.queue (sends.erase m.op) U q hq rfl
      (fun id hid => by rw [hcount]; exact hI.1 id hid)
      (fun id hid hpos => by rw [hcount] at hpos; exact hI.2.1 id hid hpos)
      hI.2.2.1
    rw [q2]
    exact ⟨a1, a2, a3, hI.2.2.2⟩
  · have hcount : ∀ id : Int,
        request_count s.pending_recvs_queue.queue (sends.erase m.op) s.completed_reqs id
        = request_count s.pending_recvs_queue.queue sends s.completed_reqs id := by
      intro id
      rw [request_count_erase_send s.pending_recvs_queue.queue sends s.completed_reqs id m.op hm,
        if_neg (fun hc => hi hc.1)]
      rfl
    have hp : p.1.completed_reqs = s.completed_reqs ∧ p.1.pending_waits = s.pending_waits := by
      by_cases hs : m.op.op_type = CODES_NW_SEND
      · simp only [update_send_completion_queue, hs, if_true] at h
        rw [if_neg (by decide)] at h
        simp only [Option.map_some', Option.some.injEq] at h
        subst h
        exact ⟨rfl, rfl⟩
      · simp only [update_send_completion_queue, hi, hs, if_false, Option.map_some',
          Option.some.injEq] at h
        subst h
        exact ⟨rfl, rfl⟩
    rw [q2, hp.1, hp.2]
    exact requests_invariant_same _ _ _ _ _ _ _ _ hI (fun id _ => hcount id)
      (fun _ _ _ => rfl) hI.2.2.2

/-- What `update_arrival_queue` keeps true of the requests: the id of a matched receive
goes from the posted receives into `completed_reqs`, unless a wait takes it. -/
theorem update_arrival_queue_requests (s : nw_state) (m : nw_message) (lp : tw_lp)
    (r : nw_state × nw_message × tw_lp) (sends : List mpi_event_list) (U : List Int)
    (h : update_arrival_queue s m lp = some r) (hop : is_send_op m.op)
    (hty : ∀ e ∈ s.pending_recvs_queue.queue, is_recv_op e)
    (hlast : ∀ x ∈ s.pending_recvs_queue.queue.dropLast, x.op_type ≠ CODES_NW_RECV)
    (hI : requests_invariant s.pending_recvs_queue.queue sends s.completed_reqs
      s.pending_waits U) :
    requests_invariant r.1.pending_recvs_queue.queue sends r.1.completed_reqs
      r.1.pending_waits U := by
  rcases remove_matching_send_spec
      { s with send_time := s.send_time + (lp.now - m.op.sim_start_time) } lp
      s.pending_recvs_queue m.op 0 (-1) hop hty with
    ⟨hno, rid1, hr⟩ | ⟨pre, e, post, hsplit, _, hme, hr⟩
  · simp only [update_arrival_queue, hr] at h
    rw [if_pos (by decide)] at h
    cases h
    exact hI
  · simp only [update_arrival_queue, hr] at h
    rw [if_neg (by omega)] at h
    have h4 : ∀ R ∈ pre ++ post, (R.op_type = CODES_NW_RECV → R.req_id = -1) ∧
        (R.op_type = CODES_NW_IRECV → R.req_id ≠ -1) := by
      intro R hR
      exact hI.2.2.2 R (by rw [hsplit]; exact mem_of_mem_split pre post e R hR)
    have he4 := hI.2.2.2 e (by rw [hsplit]; simp)
    have hcount : ∀ id : Int, id ≠ -1 →
        request_count (pre ++ post) sends (e.req_id :: s.completed_reqs) id
        = request_count s.pending_recvs_queue.queue sends s.completed_reqs id := by
      intro id hid
      rw [request_count_cons_completed, hsplit, request_count_split_recv]
      rcases hty e (by rw [hsplit]; simp) with hb | hi
      · have h1 : ¬ (e.op_type = CODES_NW_IRECV ∧ e.req_id = id) := by
          rw [hb]
          simp
        have h2 : ¬ e.req_id = id := by
          rw [he4.1 hb]
          exact fun hc => hid hc.symm
        rw [if_neg h1, if_neg h2]
      · simp only [hi, true_and]
    by_cases hb : (inspected_node pre e).op_type = CODES_NW_RECV
    · simp only [hb, if_true] at h
      rw [if_pos (by decide)] at h
      cases h
      have heb : e.op_type = CODES_NW_RECV :=
        inspected_recv_is_removed pre post e (by rw [← hsplit]; exact hlast) hb
      show requests_invariant (pre ++ post) sends (e.req_id :: s.completed_reqs)
        s.pending_waits U
      apply requests_invariant_same _ _ _ _ _ _ _ _ hI hcount _ h4
      intro x hx hxa
      obtain ⟨b1, _⟩ := hI.2.2.1 x hx hxa
      simp only [count_completed]
      rw [he4.1 heb, count_req_id_of_not_mem _ _ b1]
      omega
    · simp only [hb, if_false] at h
      rw [if_neg (by simp)] at h
      simp only [Option.map_eq_some'] at h
      obtain ⟨p, hp, hpr⟩ := h
      subst hpr
      obtain ⟨q1, _⟩ := notify_waits_effect _ _ _ p hp
      obtain ⟨a1, a2, a3⟩ := notify_waits_requests _ lp e.req_id s.completed_reqs
        (pre ++ post) sends U p hp rfl
        (fun id hid => by rw [hcount id hid]; exact hI.1 id hid)
        (fun id hid hpos => by rw [hcount id hid] at hpos; exact hI.2.1 id hid hpos)
        hI.2.2.1
      show requests_invariant p.1.pending_recvs_queue.queue sends p.1.completed_reqs
        p.1.pending_waits U
      rw [q1]
      exact ⟨a1, a2, a3, h4⟩

/-- One step of the kernel keeps the invariant of the requests, the ids in use changing as
the trace says. -/
theorem kernel_step_requests (cfg : net_config) (k k1 : kernel_state) (now : tw_stime)
    (ev : lp_event) (U : List Int) (h : kernel_step cfg k now ev = some k1)
    (hty : queues_typed k.s)
    (hlast : ∀ x ∈ k.s.pending_recvs_queue.queue.dropLast, x.op_type ≠ CODES_NW_RECV)
    (hres : resumptions k ≤ 1)
    (hI : requests_invariant k.s.pending_recvs_queue.queue k.send_posted_pending
      k.s.completed_reqs k.s.pending_waits U) :
    (∀ op, ev = lp_event.get_next op → request_use U op →
      requests_invariant k1.s.pending_recvs_queue.queue k1.send_posted_pending
        k1.s.completed_reqs k1.s.pending_waits (requests_after U op)) ∧
    ((∀ op, ev ≠ lp_event.get_next op) →
      requests_invariant k1.s.pending_recvs_queue.queue k1.send_posted_pending
        k1.s.completed_reqs k1.s.pending_waits U) := by
  cases ev with
  | get_next op =>
    refine ⟨?_, fun hne => absurd rfl (hne op)⟩
    intro op1 hop1 hu
    cases hop1
    simp only [kernel_step] at h
    by_cases hz : k.get_next_pending = 0
    · rw [if_pos hz] at h; cases h
    · rw [if_neg hz, Option.map_eq_some'] at h
      obtain ⟨r, hr, hrk⟩ := h
      subst hrk
      rw [handle_event_get_next] at hr
      have hpn : k.s.pending_waits = none := by
        cases hp : k.s.pending_waits with
        | none => rfl
        | some w =>
          have := wait_count_of_isSome k.s (by rw [hp]; rfl)
          unfold resumptions at hres
          omega
      rw [hpn] at hI
      exact get_next_requests cfg op k.s _ _ r k.send_posted_pending U hr hty.1 hpn hI hu
  | send_posted op =>
    refine ⟨(fun op1 hop1 => by cases hop1), fun _ => ?_⟩
    simp only [kernel_step] at h
    by_cases hm : op ∈ k.send_posted_pending
    · rw [if_pos hm, Option.map_eq_some'] at h
      obtain ⟨r, hr, hrk⟩ := h
      subst hrk
      rw [handle_event_send_posted, Option.map_eq_some'] at hr
      obtain ⟨q, hq, hqr⟩ := hr
      subst hqr
      exact update_send_completion_queue_requests k.s _ _ q k.send_posted_pending U hq hm hI
    · rw [if_neg hm] at h; cases h
  | send_arrived op =>
    refine ⟨(fun op1 hop1 => by cases hop1), fun _ => ?_⟩
    simp only [kernel_step] at h
    by_cases hop : is_send_op op
    · rw [if_pos hop, Option.map_eq_some'] at h
      obtain ⟨r, hr, hrk⟩ := h
      subst hrk
      rw [handle_event_send_arrived, Option.map_eq_some'] at hr
      obtain ⟨q, hq, hqr⟩ := hr
      subst hqr
      exact update_arrival_queue_requests k.s _ _ q k.send_posted_pending U hq hop hty.2
        hlast hI
    · rw [if_neg hop] at h; cases h

/-- A run of the kernel whose trace takes an id into use again only after a wait for it keeps
the invariant of the requests. -/
theorem kernel_run_requests (cfg : net_config) :
    ∀ (script : List (tw_stime × lp_event)) (k k1 : kernel_state) (U : List Int),
      kernel_run cfg script k = some k1 → requests_waited_before_reuse U script →
      queues_typed k.s →
      (∀ x ∈ k.s.pending_recvs_queue.queue.dropLast, x.op_type ≠ CODES_NW_RECV) →
      resumptions k ≤ 1 →
      requests_invariant k.s.pending_recvs_queue.queue k.send_posted_pending
        k.s.completed_reqs k.s.pending_waits U →
      ∃ U1, requests_invariant k1.s.pending_recvs_queue.queue k1.send_posted_pending
        k1.s.completed_reqs k1.s.pending_waits U1 := by
  intro script
  induction script with
  | nil =>
    intro k k1 U h _ _ _ _ hI
    simp only [kernel_run, Option.some.injEq] at h
    subst h
    exact ⟨U, hI⟩
  | cons x rest ih =>
    intro k k1 U h hd hty hlast hres hI
    obtain ⟨now, ev⟩ := x
    simp only [kernel_run] at h
    cases hs : kernel_step cfg k now ev with
    | none => rw [hs] at h; cases h
    | some k2 =>
      rw [hs] at h
      obtain ⟨a1, a2, a3, _⟩ := kernel_step_invariant cfg k k2 now ev hs hty hlast hres
      obtain ⟨b1, b2⟩ := kernel_step_requests cfg k k2 now ev U hs hty hlast hres hI
      cases ev with
      | get_next op =>
        simp only [requests_waited_before_reuse] at hd
        exact ih k2 k1 _ h hd.2 a1 a2 a3 (b1 op rfl hd.1)
      | send_posted op =>
        simp only [requests_waited_before_reuse] at hd
        exact ih k2 k1 U h hd a1 a2 a3 (b2 (fun op1 hc => by cases hc))
      | send_arrived op =>
        simp only [requests_waited_before_reuse] at hd
        exact ih k2 k1 U h hd a1 a2 a3 (b2 (fun op1 hc => by cases hc))

/-- C32: the sentence of the specification on `pending_recvs` fails on runs from
`nw_test_init`; in the state each of them reaches, a posted receive carries an id that is in
`completed_reqs`.
A blocking `Recv` that matches a queued send puts its id `-1` into `completed_reqs`, and a
second blocking `Recv` is posted carrying `-1` (`script_two_recvs`). The trace uses request 5
for an `IRecv` again before it has waited for the first one (`script_request_reused`), after
a `Waitany` on it, which removes nothing from `completed_reqs`
(`script_reused_after_waitany`), or uses request 6 again after the `Waitsome` it has ended,
which has removed request 5 instead (`script_reused_after_waitsome`). An `ISend` completes
with the request of a posted `IRecv` (`script_isend_shares_request`). A `Waitall` naming `-1`
counts the ids of matched blocking receives and does not wait for request 5
(`script_waitall_names_blocking`). An `IRecv` carries `-1`, the id a matched blocking `Recv`
puts into `completed_reqs` (`script_irecv_carries_blocking_id`). A blocking `Recv` carries
request 5 and is matched before an `IRecv` with request 5 is posted
(`script_recv_carries_request`). -/
theorem posted_recv_id_in_completed_reqs :
    ((kernel_run cfg0 script_two_recvs (kernel_init state0 0 lp0)).map
      (fun k => (k.s.pending_recvs_queue.queue.map (fun R => (R.op_type, R.req_id)),
        k.s.completed_reqs, k.get_next_pending)))
      = some ([(CODES_NW_RECV, -1)], [-1], 0) ∧
    ((kernel_run cfg0 script_request_reused (kernel_init state0 0 lp0)).map
      (fun k => (k.s.pending_recvs_queue.queue.map (fun R => (R.op_type, R.req_id)),
        k.s.completed_reqs, k.get_next_pending)))
      = some ([(CODES_NW_IRECV, 5)], [5], 1) ∧
    ((kernel_run cfg0 script_reused_after_waitany (kernel_init state0 0 lp0)).map
      (fun k => (k.s.pending_recvs_queue.queue.map (fun R => (R.op_type, R.req_id)),
        k.s.completed_reqs, k.get_next_pending)))
      = some ([(CODES_NW_IRECV, 5)], [5], 1) ∧
    ((kernel_run cfg0 script_reused_after_waitsome (kernel_init state0 0 lp0)).map
      (fun k => (k.s.pending_recvs_queue.queue.map (fun R => (R.op_type, R.req_id)),
        k.s.completed_reqs, k.get_next_pending)))
      = some ([(CODES_NW_IRECV, 5), (CODES_NW_IRECV, 6)], [6], 1) ∧
    ((kernel_run cfg0 script_isend_shares_request (kernel_init state0 0 lp0)).map
      (fun k => (k.s.pending_recvs_queue.queue.map (fun R => (R.op_type, R.req_id)),
        k.s.completed_reqs, k.get_next_pending)))
      = some ([(CODES_NW_IRECV, 5)], [5], 1) ∧
    ((kernel_run cfg0 script_waitall_names_blocking (kernel_init state0 0 lp0)).map
      (fun k => (k.s.pending_recvs_queue.queue.map (fun R => (R.op_type, R.req_id)),
        k.s.completed_reqs, k.get_next_pending)))
      = some ([(CODES_NW_IRECV, 5)], [5, -1], 1) ∧
    ((kernel_run cfg0 script_irecv_carries_blocking_id (kernel_init state0 0 lp0)).map
      (fun k => (k.s.pending_recvs_queue.queue.map (fun R => (R.op_type, R.req_id)),
        k.s.completed_reqs, k.get_next_pending)))
      = some ([(CODES_NW_IRECV, -1)], [-1], 1) ∧
    ((kernel_run cfg0 script_recv_carries_request (kernel_init state0 0 lp0)).map
      (fun k => (k.s.pending_recvs_queue.queue.map (fun R => (R.op_type, R.req_id)),
        k.s.completed_reqs, k.get_next_pending)))
      = some ([(CODES_NW_IRECV, 5)], [5], 1) ∧
    ¬ (∀ (script : List (tw_stime × lp_event)) (k : kernel_state),
        kernel_run cfg0 script (kernel_init state0 0 lp0) = some k →
        ∀ R ∈ k.s.pending_recvs_queue.queue, R.req_id ∉ k.s.completed_reqs) := by
  have h1 : ((kernel_run cfg0 script_two_recvs (kernel_init state0 0 lp0)).map
      (fun k => (k.s.pending_recvs_queue.queue.map (fun R => (R.op_type, R.req_id)),
        k.s.completed_reqs, k.get_next_pending)))
      = some ([(CODES_NW_RECV, -1)], [-1], 0) := by decide
  refine ⟨h1, by decide, by decide, by decide, by decide, by decide, by decide, by decide, ?_⟩
  intro hall
  cases hk : kernel_run cfg0 script_two_recvs (kernel_init state0 0 lp0) with
  | none => rw [hk] at h1; cases h1
  | some k =>
    rw [hk] at h1
    simp only [Option.map_some', Option.some.injEq, Prod.mk.injEq] at h1
    obtain ⟨e1, e2, _⟩ := h1
    cases hq : k.s.pending_recvs_queue.queue with
    | nil => rw [hq] at e1; cases e1
    | cons R rest =>
      rw [hq] at e1
      have hR : R.req_id = -1 := by
        simp only [List.map_cons, List.cons.injEq, Prod.mk.injEq] at e1
        exact e1.1.2
      have := hall script_two_recvs k hk R (by rw [hq]; exact List.mem_cons_self _ _)
      rw [hR, e2] at this
      exact this (List.mem_singleton.mpr rfl)

theorem kernel_init_requests (s0 : nw_state) (nw_id : Nat) (lp : tw_lp) :
    requests_invariant (kernel_init s0 nw_id lp).s.pending_recvs_queue.queue
      (kernel_init s0 nw_id lp).send_posted_pending (kernel_init s0 nw_id lp).s.completed_reqs
      (kernel_init s0 nw_id lp).s.pending_waits [] := by
  refine ⟨?_, ?_, ?_, ?_⟩
  · intro id _
    exact Nat.zero_le 1
  · intro id _ hpos
    exact absurd hpos (Nat.lt_irrefl 0)
  · intro x hx
    cases hx
  · intro R hR
    cases hR

/-- Posted IRecvs of which no id is held twice carry different ids. -/
theorem posted_irecvs_pairwise (sends : List mpi_event_list) (C : List Int) :
    ∀ recvs : List mpi_event_list,
      (∀ id : Int, id ≠ -1 → request_count recvs sends C id ≤ 1) →
      (∀ R ∈ recvs, R.op_type = CODES_NW_IRECV → R.req_id ≠ -1) →
      recvs.Pairwise (fun a b => a.op_type = CODES_NW_IRECV → b.op_type = CODES_NW_IRECV →
        a.req_id ≠ b.req_id) := by
  intro recvs
  induction recvs with
  | nil => intro _ _; exact List.Pairwise.nil
  | cons a l ih =>
    intro h1 h4
    apply List.pairwise_cons.mpr
    constructor
    · intro b hb hai hbi heq
      have hne := h4 a (List.mem_cons_self _ _) hai
      have hc := h1 a.req_id hne
      have hpos : 0 < l.countP
          (fun R => decide (R.op_type = CODES_NW_IRECV ∧ R.req_id = a.req_id)) :=
        List.countP_pos_iff.mpr ⟨b, hb, by simp [hbi, heq]⟩
      unfold request_count at hc
      rw [List.countP_cons] at hc
      simp only [hai, true_and, decide_True, if_true] at hc
      omega
    · apply ih
      · intro id hid
        have hc := h1 id hid
        unfold request_count at hc ⊢
        rw [List.countP_cons] at hc
        omega
      · intro R hR
        exact h4 R (List.mem_cons_of_mem _ hR)

/-- C32 (as amended): in every state a run of the kernel reaches from `nw_test_init`, each
scheduled event being delivered once, no IRecv held in `pending_recvs_queue` has a request id
that is in `completed_reqs`, provided the trace uses the request ids as follows: every
blocking Recv carries `-1`, every IRecv carries an id other than `-1`, an IRecv or an ISend
carries an id only if every earlier IRecv or ISend with that id has been followed by a Wait
on it or a Waitall naming it (Waitany and Waitsome release no id), and no Waitall names `-1`.
Then the posted IRecvs carry different ids, none of them `-1`, and every posted blocking Recv
carries `-1`. -/
theorem posted_irecv_id_not_completed (cfg : net_config) (s0 : nw_state) (nw_id : Nat)
    (lp : tw_lp) (script : List (tw_stime × lp_event)) (k : kernel_state)
    (hd : requests_waited_before_reuse [] script)
    (h : kernel_run cfg script (kernel_init s0 nw_id lp) = some k) :
    (∀ R ∈ k.s.pending_recvs_queue.queue, R.op_type = CODES_NW_IRECV →
      R.req_id ∉ k.s.completed_reqs ∧ R.req_id ≠ -1) ∧
    (∀ R ∈ k.s.pending_recvs_queue.queue, R.op_type = CODES_NW_RECV → R.req_id = -1) ∧
    k.s.pending_recvs_queue.queue.Pairwise
      (fun a b => a.op_type = CODES_NW_IRECV → b.op_type = CODES_NW_IRECV →
        a.req_id ≠ b.req_id) := by
  obtain ⟨i1, i2, i3⟩ := kernel_init_invariant s0 nw_id lp
  obtain ⟨U1, hI1, _, _, hI4⟩ := kernel_run_requests cfg script _ k [] h hd i1 i2 i3
    (kernel_init_requests s0 nw_id lp)
  refine ⟨?_, fun R hR => (hI4 R hR).1, ?_⟩
  · intro R hR hRi
    have hne := (hI4 R hR).2 hRi
    refine ⟨?_, hne⟩
    intro hin
    have hc := hI1 R.req_id hne
    have hpos : 0 < k.s.pending_recvs_queue.queue.countP
        (fun R1 => decide (R1.op_type = CODES_NW_IRECV ∧ R1.req_id = R.req_id)) :=
      List.countP_pos_iff.mpr ⟨R, hR, by simp [hRi]⟩
    have hpos2 : 0 < k.s.completed_reqs.count R.req_id := List.count_pos_iff.mpr hin
    unfold request_count at hc
    omega
  · exact posted_irecvs_pairwise k.send_posted_pending k.s.completed_reqs _ hI1
      (fun R hR => (hI4 R hR).2)

/-- The run `script_requests_reused_after_wait`, in which request 5 is used by three IRecvs,
the second after a Waitall naming it and the third after a Wait on it: the third is posted
and `completed_reqs` is empty. -/
theorem posted_irecv_id_not_completed_witness :
    requests_waited_before_reuse [] script_requests_reused_after_wait ∧
    ∃ k, kernel_run cfg0 script_requests_reused_after_wait (kernel_init state0 0 lp0) = some k ∧
      k.s.pending_recvs_queue.queue.map (fun R => (R.op_type, R.req_id))
        = [(CODES_NW_IRECV, 5)] ∧
      k.s.completed_reqs = [] ∧
      (∀ R ∈ k.s.pending_recvs_queue.queue, R.op_type = CODES_NW_IRECV →
        R.req_id ∉ k.s.completed_reqs ∧ R.req_id ≠ -1) := by
  have hd : requests_waited_before_reuse [] script_requests_reused_after_wait := by decide
  have h1 : (kernel_run cfg0 script_requests_reused_after_wait (kernel_init state0 0 lp0)).map
      (fun k => (k.s.pending_recvs_queue.queue.map (fun R => (R.op_type, R.req_id)),
        k.s.completed_reqs)) = some ([(CODES_NW_IRECV, 5)], []) := by decide
  cases hp : kernel_run cfg0 script_requests_reused_after_wait (kernel_init state0 0 lp0) with
  | none => rw [hp] at h1; cases h1
  | some k =>
    rw [hp] at h1
    simp only [Option.map_some', Option.some.injEq, Prod.mk.injEq] at h1
    exact ⟨hd, k, rfl, h1.1, h1.2,
      (posted_irecv_id_not_completed cfg0 state0 0 lp0 script_requests_reused_after_wait k hd
        hp).1⟩

end MpiReplay
